import Mathlib

set_option maxRecDepth 100000

/-!
# The canvas rendering core of `launcher/DocumentWindow.cpp`

A shallow embedding of the section scheduler of `PyCanvas`
(`setBinarySectionCommands`, `continuePaintingSection`, `removeSection`), of the
repaint manager, and of the binary drawing-command interpreter
`PaintBinaryCommands`, followed by the properties proved about them. The
definitions come first, the theorems after them.

Conventions of the embedding.

* Objects that the C++ code reaches through pointers (`CanvasSection`,
  `PyCanvasRenderTask`) are identified by their address, a natural number; a null
  pointer is `none`.
* Code that runs with `m_sections_mutex` held is one atomic transition.
* `float` and `double` values that the scheduler only stores and copies are
  rationals; the arithmetic of the interpreter is that of a linearly ordered field.
* A read of `commands[index]` outside of the buffer, undefined in C++, is the error
  `outOfBounds index`.
-/

namespace DocumentWindow

/-! ## QMap with integer keys -/

namespace QMap

/-- The lookup `m.value(k)` / `m[k]` of an existing key; `none` when the key is absent. -/
def value? {V : Type} : List (Int × V) → Int → Option V
  | [], _ => none
  | (k', v) :: rest, k => if k' = k then some v else value? rest k

/-- The test `m.contains(k)`. -/
def contains {V : Type} (m : List (Int × V)) (k : Int) : Bool :=
  (value? m k).isSome

/-- The assignment `m[k] = v`: entries are kept in key order, an existing entry is replaced. -/
def insert {V : Type} : List (Int × V) → Int → V → List (Int × V)
  | [], k, v => [(k, v)]
  | (k', v') :: rest, k, v =>
    if k < k' then (k, v) :: (k', v') :: rest
    else if k = k' then (k, v) :: rest
    else (k', v') :: insert rest k v

/-- The call `m.remove(k)`. -/
def remove {V : Type} (m : List (Int × V)) (k : Int) : List (Int × V) :=
  m.filter (fun e => decide (e.1 ≠ k))

end QMap

/-! ## Data carried by the scheduler -/

/-- A `QRect`: position and size. -/
structure QRect where
  x : Int
  y : Int
  width : Int
  height : Int
deriving DecidableEq, Repr

/-- A `QImage`, reduced to its size and pixel words. -/
structure QImage where
  width : Int
  height : Int
  data : List Nat
deriving DecidableEq, Repr

/-- A `QTransform`: the six coefficients of an affine map. -/
structure QTransform where
  m11 : Rat
  m12 : Rat
  m21 : Rat
  m22 : Rat
  dx : Rat
  dy : Rat
deriving DecidableEq, Repr

/-- The record `RenderedTimeStamp(transform, timestamp_ns, section_id, elapsed_ns, text)`. -/
structure RenderedTimeStamp where
  transform : QTransform
  timestamp_ns : Int
  section_id : Int
  elapsed_ns : Int
  text : List Nat
deriving DecidableEq, Repr

/-- The object behind a `DrawingCommandsSharedPtr`: the command words (a shared pointer
that may be null), the clip rectangle and the image map. -/
structure DrawingCommands where
  commands : Option (List Nat)
  rect : QRect
  imageMap : List (Int × Nat)
deriving DecidableEq, Repr

/-- A `DrawingCommandsSharedPtr`: `none` is the null pointer. -/
abbrev DrawingCommandsSharedPtr := Option DrawingCommands

/-- The members of `CanvasSection` that `DocumentWindow.cpp` uses. `m_render_task` is the
address of the section's `PyCanvasRenderTask`, or `none` for `nullptr`. -/
structure CanvasSection where
  m_section_id : Int
  m_device_pixel_ratio : Rat
  record_latency : Bool
  m_render_task : Option Nat
  closing : Bool
  m_pending_drawing_commands : DrawingCommandsSharedPtr
  m_rendered_timestamps : List RenderedTimeStamp
  image : Option QImage
  image_rect : QRect
  latencies_ns : List Int
  timestamps_ns : List Int
deriving DecidableEq, Repr

/-- The constructor `CanvasSection::CanvasSection(section_id, device_pixel_ratio)`; the
members it does not name are default constructed. -/
def CanvasSection.new (section_id : Int) (device_pixel_ratio : Rat) : CanvasSection :=
  { m_section_id := section_id
    m_device_pixel_ratio := device_pixel_ratio
    record_latency := false
    m_render_task := none
    closing := false
    m_pending_drawing_commands := none
    m_rendered_timestamps := []
    image := none
    image_rect := { x := 0, y := 0, width := 0, height := 0 }
    latencies_ns := []
    timestamps_ns := [] }

/-- A `PyCanvasRenderTask` as its constructor builds it; `addr` is the address of the
object, `m_section` the address of its section. -/
structure PyCanvasRenderTask where
  addr : Nat
  m_section : Nat
  m_drawing_commands : DrawingCommandsSharedPtr
  m_device_pixel_ratio : Rat
  m_rendered_timestamps : List RenderedTimeStamp
deriving DecidableEq, Repr

/-- The `RenderResult` a task hands to `continuePaintingSection`; `section_` is the address
of the task's section (the member `section`). -/
structure RenderResult where
  section_ : Nat
  image : Option QImage
  image_rect : QRect
  rendered_timestamps : List RenderedTimeStamp
  record_latency : Bool
deriving DecidableEq, Repr

/-! ## RepaintManager -/

/-- The class `RepaintManager`: the list `requests` of canvases (by address). -/
structure RepaintManager where
  requests : List Nat
deriving DecidableEq, Repr

/-- The method `RepaintManager::requestRepaint`. -/
def RepaintManager.requestRepaint (rm : RepaintManager) (canvas : Nat) : RepaintManager :=
  if rm.requests.any (fun r => r == canvas) then rm
  else { requests := rm.requests ++ [canvas] }

/-- The method `RepaintManager::cancelRepaintRequest`. -/
def RepaintManager.cancelRepaintRequest (rm : RepaintManager) (canvas : Nat) : RepaintManager :=
  { requests := rm.requests.filter (fun r => r != canvas) }

/-- The method `RepaintManager::update`: the canvases on which `update()` is called, in
order, and the manager afterwards. -/
def RepaintManager.update (rm : RepaintManager) : List Nat × RepaintManager :=
  (rm.requests, { requests := [] })

/-! ## PyCanvas: the section scheduler -/

/-- The scheduler state of a `PyCanvas`. `this` is the address of the canvas,
`m_sections` maps a section id to the address of its `CanvasSection`, `heap` holds the
`CanvasSection` objects by address and `heap_next` is the address the next
`new CanvasSection` returns. -/
structure PyCanvas where
  this : Nat
  m_closing : Bool
  m_sections : List (Int × Nat)
  heap : Nat → CanvasSection
  heap_next : Nat

/-- The constructor `PyCanvas::PyCanvas()`. -/
def PyCanvas.new (this : Nat) : PyCanvas :=
  { this := this
    m_closing := false
    m_sections := []
    heap := fun _ => CanvasSection.new 0 1
    heap_next := 0 }

/-- The assignment through a section pointer: `section->... = ...`. -/
def PyCanvas.store (c : PyCanvas) (section_ : Nat) (s : CanvasSection) : PyCanvas :=
  { c with heap := Function.update c.heap section_ s }

/-- The method `PyCanvas::setBinarySectionCommands`. `screen` is the device pixel ratio
of `this->screen()` when there is one, `task_addr` the address that
`new PyCanvasRenderTask` returns. The result is the canvas when the lock is released and
the task that is then started on the thread pool, if any. -/
def PyCanvas.setBinarySectionCommands (c : PyCanvas) (screen : Option Rat) (task_addr : Nat)
    (section_id : Int) (drawing_commands : DrawingCommandsSharedPtr) :
    PyCanvas × Option PyCanvasRenderTask :=
  if !c.m_closing then
    let found : PyCanvas × Nat :=
      match QMap.value? c.m_sections section_id with
      | some p => (c, p)
      | none =>
        let device_pixel_ratio : Rat := match screen with
          | some r => r
          | none => 1
        ({ c with
            heap := Function.update c.heap c.heap_next
              (CanvasSection.new section_id device_pixel_ratio)
            heap_next := c.heap_next + 1
            m_sections := QMap.insert c.m_sections section_id c.heap_next },
          c.heap_next)
    let c1 := found.1
    let section_ := found.2
    let s := c1.heap section_
    if s.m_render_task.isNone && !s.closing then
      let task : PyCanvasRenderTask :=
        { addr := task_addr
          m_section := section_
          m_drawing_commands := drawing_commands
          m_device_pixel_ratio := s.m_device_pixel_ratio
          m_rendered_timestamps := s.m_rendered_timestamps }
      (c1.store section_ { s with m_render_task := some task_addr }, some task)
    else
      (c1.store section_ { s with m_pending_drawing_commands := drawing_commands }, none)
  else
    (c, none)

/-- The method `PyCanvas::continuePaintingSection`, called by a task at the end of its
`run`. `task_addr` is the address that `new PyCanvasRenderTask` returns. The result is the
canvas when the lock is released, the repaint manager, and the task that is then started
on the thread pool, if any. -/
def PyCanvas.continuePaintingSection (c : PyCanvas) (rm : RepaintManager) (task_addr : Nat)
    (render_result : RenderResult) : PyCanvas × RepaintManager × Option PyCanvasRenderTask :=
  let section_ := render_result.section_
  let s := c.heap section_
  let s1 : CanvasSection :=
    { s with
      m_render_task := none
      m_rendered_timestamps := render_result.rendered_timestamps
      image := render_result.image
      image_rect := render_result.image_rect
      record_latency := render_result.record_latency }
  let pending_commands := s1.m_pending_drawing_commands
  let s2 : CanvasSection := { s1 with m_pending_drawing_commands := none }
  let launch : CanvasSection × Option PyCanvasRenderTask :=
    if !c.m_closing && !s2.closing && pending_commands.isSome then
      let task : PyCanvasRenderTask :=
        { addr := task_addr
          m_section := section_
          m_drawing_commands := pending_commands
          m_device_pixel_ratio := s2.m_device_pixel_ratio
          m_rendered_timestamps := s2.m_rendered_timestamps }
      ({ s2 with m_render_task := some task_addr }, some task)
    else
      (s2, none)
  let rm1 := if !c.m_closing && !s2.closing then rm.requestRepaint c.this else rm
  (c.store section_ launch.1, rm1, launch.2)

/-- The entry of `PyCanvas::removeSection`, with the lock taken: the section is looked up
and marked closing. The result is the canvas and the address of the section. For an id
that is not in `m_sections` the lookup yields a null pointer, which the code dereferences:
there is no result. -/
def PyCanvas.removeSection_enter (c : PyCanvas) (section_id : Int) : Option (PyCanvas × Nat) :=
  match QMap.value? c.m_sections section_id with
  | none => none
  | some p => some (c.store p { c.heap p with closing := true }, p)

/-- One pass of the wait loop of `PyCanvas::removeSection`, with the lock held: when the
section has no render task the loop is left, the entry is removed and the call returns
(`true`); otherwise the lock is released for a millisecond (`false`). -/
def PyCanvas.removeSection_poll (c : PyCanvas) (section_id : Int) (section_ : Nat) :
    PyCanvas × Bool :=
  if (c.heap section_).m_render_task.isNone then
    ({ c with m_sections := QMap.remove c.m_sections section_id }, true)
  else
    (c, false)

/-! ## The threads around a canvas

The submitting threads, the render tasks of the thread pool and the callers of
`removeSection` take `m_sections_mutex` in turn. A `World` is the state between two
critical sections, an `Action` is one critical section. -/

/-- The canvas together with its surroundings: the global `repaintManager`, the tasks
started on the thread pool whose `run` has not yet reached the end of
`continuePaintingSection` (`pool`), the address of the next `new PyCanvasRenderTask`,
the calls of `removeSection` that are waiting in their loop, each with its section id and
the address of the section it looked up at its entry (several calls may wait for one id),
and the record of every task started so far (`launched`). -/
structure World where
  canvas : PyCanvas
  repaintManager : RepaintManager
  pool : List PyCanvasRenderTask
  next_task : Nat
  removers : List (Int × Nat)
  launched : List PyCanvasRenderTask

/-- A freshly constructed canvas: nothing submitted, nothing running. -/
def World.init : World :=
  { canvas := PyCanvas.new 0
    repaintManager := { requests := [] }
    pool := []
    next_task := 0
    removers := []
    launched := [] }

/-- One critical section of one thread. -/
inductive Action where
  /-- A call of `setBinarySectionCommands(section_id, drawing_commands)`. -/
  | submit (section_id : Int) (drawing_commands : DrawingCommandsSharedPtr)
      (screen : Option Rat)
  /-- The task at address `task` finishes rendering and calls `continuePaintingSection`
  with its result. -/
  | complete (task : Nat) (image : Option QImage) (image_rect : QRect)
      (rendered_timestamps : List RenderedTimeStamp) (record_latency : Bool)
  /-- A call of `removeSection(section_id)` up to the first release of the lock, or up to
  its return when the section is not rendering. -/
  | remove (section_id : Int)
  /-- A waiting call of `removeSection(section_id)`, the one that holds the section at
  address `section_`, takes the lock again and tests the render task of that section. -/
  | poll (section_id : Int) (section_ : Nat)
deriving DecidableEq, Repr

/-- Started tasks are added to the pool and to the record. -/
def World.start (w : World) (task : Option PyCanvasRenderTask) : World :=
  match task with
  | none => w
  | some t => { w with pool := w.pool ++ [t], launched := w.launched ++ [t],
                       next_task := w.next_task + 1 }

/-- The effect of one action. An action that cannot take place leaves the world as it is:
the completion of a task that is not running, a poll by a call that is not waiting, and a
`removeSection` of an id that has no section (the code dereferences a null pointer). A
call of `removeSection` may be entered while other calls for the same id are waiting: the
code has no test for that. -/
def World.step (w : World) : Action → World
  | .submit section_id drawing_commands screen =>
    let r := w.canvas.setBinarySectionCommands screen w.next_task section_id drawing_commands
    World.start { w with canvas := r.1 } r.2
  | .complete task image image_rect rendered_timestamps record_latency =>
    match w.pool.find? (fun t => t.addr == task) with
    | none => w
    | some t =>
      let r := w.canvas.continuePaintingSection w.repaintManager w.next_task
        { section_ := t.m_section, image := image, image_rect := image_rect,
          rendered_timestamps := rendered_timestamps, record_latency := record_latency }
      World.start
        { w with canvas := r.1, repaintManager := r.2.1,
                 pool := w.pool.filter (fun t => t.addr != task) } r.2.2
  | .remove section_id =>
    match w.canvas.removeSection_enter section_id with
    | none => w
    | some (c, section_) =>
      let r := c.removeSection_poll section_id section_
      if r.2 then { w with canvas := r.1 }
      else { w with canvas := r.1, removers := w.removers ++ [(section_id, section_)] }
  | .poll section_id section_ =>
    if (section_id, section_) ∈ w.removers then
      let r := w.canvas.removeSection_poll section_id section_
      if r.2 then { w with canvas := r.1, removers := w.removers.erase (section_id, section_) }
      else w
    else w

/-- The world after a sequence of actions. -/
def World.exec (w : World) (actions : List Action) : World :=
  actions.foldl World.step w

/-- The world reached from a freshly constructed canvas by a sequence of actions. -/
def World.reached (actions : List Action) : World :=
  World.init.exec actions

/-- The three states of a section in the scheduler's state machine. -/
inductive SectionState where
  | Idle
  | Rendering
  | RenderingWithPending
deriving DecidableEq, Repr

/-- The state of a section: `Idle` without task and without pending commands,
`Rendering` with a task and without pending commands, `RenderingWithPending` with both.
Pending commands without a task are none of the three. -/
def CanvasSection.state? (s : CanvasSection) : Option SectionState :=
  match s.m_render_task, s.m_pending_drawing_commands with
  | none, none => some .Idle
  | some _, none => some .Rendering
  | some _, some _ => some .RenderingWithPending
  | none, some _ => none

/-- A burst of submissions for one section followed by two task completions: the buffers
`b1`, then those of `bs`, then `bN` are submitted in this order, then the task at address
`t1` completes, then the task at address `t1 + 1`. -/
def coalescingRun (section_id : Int) (screen : Option Rat) (b1 : DrawingCommands)
    (bs : List DrawingCommands) (bN : DrawingCommands) (t1 : Nat)
    (result1 result2 : Option QImage × QRect × List RenderedTimeStamp × Bool) : List Action :=
  (b1 :: (bs ++ [bN])).map (fun b => Action.submit section_id (some b) screen) ++
    [.complete t1 result1.1 result1.2.1 result1.2.2.1 result1.2.2.2,
     .complete (t1 + 1) result2.1 result2.2.1 result2.2.2.1 result2.2.2.2]

/-- A one-word command buffer, used in examples. -/
def exampleCommands (n : Nat) : DrawingCommands :=
  { commands := some [n], rect := { x := 0, y := 0, width := 1, height := 1 }, imageMap := [] }

/-- A render result without image, used in examples. -/
def exampleResult : Option QImage × QRect × List RenderedTimeStamp × Bool :=
  (none, { x := 0, y := 0, width := 1, height := 1 }, [], false)

/-- One submit for section 1 and the completion of its task: the section is then
registered at address 0 and idle. -/
def exampleIdleActions : List Action :=
  [.submit 1 (some (exampleCommands 0)) none,
   .complete 0 none { x := 0, y := 0, width := 1, height := 1 } [] false]

/-- The section object registered for `section_id`, if any. -/
def World.section? (w : World) (section_id : Int) : Option CanvasSection :=
  (QMap.value? w.canvas.m_sections section_id).map w.canvas.heap

/-- The running tasks of the section at address `section_`. -/
def World.running (w : World) (section_ : Nat) : List PyCanvasRenderTask :=
  w.pool.filter (fun t => t.m_section == section_)

/-- The invariant of the worlds reachable from a fresh canvas: the canvas is not closing;
every running task is the `m_render_task` of its section (`handle`) and every
`m_render_task` is a running task of that section (`owner`); task addresses are fresh and
sections allocated; running tasks differ in section and in address (`apart`); a section
that is not closing holds pending commands only while it has a task (`pending`); the
section that a waiting `removeSection` holds is allocated and marked closing
(`waiting`). -/
structure World.Inv (w : World) : Prop where
  open_ : w.canvas.m_closing = false
  handle : ∀ t ∈ w.pool, (w.canvas.heap t.m_section).m_render_task = some t.addr
  owner : ∀ p a, (w.canvas.heap p).m_render_task = some a →
    ∃ t ∈ w.pool, t.addr = a ∧ t.m_section = p
  fresh : ∀ t ∈ w.pool, t.addr < w.next_task
  alloc : ∀ t ∈ w.pool, t.m_section < w.canvas.heap_next
  table : ∀ id p, QMap.value? w.canvas.m_sections id = some p → p < w.canvas.heap_next
  apart : w.pool.Pairwise (fun t u => t.m_section ≠ u.m_section ∧ t.addr ≠ u.addr)
  pending : ∀ p, (w.canvas.heap p).closing = false →
    (w.canvas.heap p).m_pending_drawing_commands ≠ none →
    (w.canvas.heap p).m_render_task ≠ none
  waiting : ∀ id p, (id, p) ∈ w.removers →
    p < w.canvas.heap_next ∧ (w.canvas.heap p).closing = true

/-- Two overlapping calls of `removeSection(1)`: section 1 is submitted and renders, a
first call of `removeSection(1)` waits for the task, the task completes, a second call
finds the section idle and deletes the entry, and a submit creates section 1 anew, at
address 1, with a render task. The first call has not yet polled. -/
def overlappingRemoves : List Action :=
  [.submit 1 (some (exampleCommands 1)) none,
   .remove 1,
   .complete 0 none { x := 0, y := 0, width := 1, height := 1 } [] false,
   .remove 1,
   .submit 1 (some (exampleCommands 2)) none]

/-! ## The binary drawing commands: data

The interpreter `PaintBinaryCommands` works on a buffer of 32-bit words. Its `float` and
`double` numbers are the elements of a linearly ordered field `F`, and the functions that
are not field operations (reinterpreting a word as a `float`, `sqrt`, `tan`, `acos`, the
constant `M_PI`, conversions to integers, the rounding of a value stored in a `float` or
in a `double`) are the parameter `FloatFn F`. The roundings are applied in the angle
computations of `addArcToPath` and in the choice of the direction of the case `arct`; the
other operations are taken without rounding. What the code obtains from Qt and from
Python is the parameter `Backend F`. The calls made on the `QPainter` are recorded in
order. -/

/-- A byte string: the bytes handed to `QString::fromUtf8`. -/
abbrev QString := List Nat

/-- The bytes of an ASCII literal. -/
def ascii (s : String) : QString :=
  s.toList.map Char.toNat

/-- A `QColor` as red, green, blue, alpha. -/
structure QColor where
  r : Nat
  g : Nat
  b : Nat
  a : Nat
deriving DecidableEq, Repr

/-- The colour `Qt::transparent`. -/
def QColor.transparent : QColor := { r := 0, g := 0, b := 0, a := 0 }

/-- The colour `Qt::black`. -/
def QColor.black : QColor := { r := 0, g := 0, b := 0, a := 255 }

/-- The enumeration `Qt::PenCapStyle`. -/
inductive PenCapStyle where
  | FlatCap
  | SquareCap
  | RoundCap
deriving DecidableEq, Repr

/-- The enumeration `Qt::PenJoinStyle`. -/
inductive PenJoinStyle where
  | MiterJoin
  | BevelJoin
  | RoundJoin
deriving DecidableEq, Repr

/-- A `QFont`, identified by the string it was parsed from and the display scaling used;
`none` is the default constructed font. -/
structure QFont (F : Type) where
  parsed : Option (QString × F)
deriving DecidableEq, Repr

/-- A `QGradient`: the line of a `QLinearGradient`, if it is one, and the colour stops. -/
structure QGradient (F : Type) where
  line : Option (F × F × F × F)
  stops : List (F × QColor)
deriving DecidableEq, Repr

/-- The call `QGradient::setColorAt(pos, color)`, as Qt implements it: a position outside
of `[0, 1]` is ignored, a stop at the same position is replaced, otherwise the stop is
inserted in position order. -/
def QGradient.setColorAt {F : Type} [LinearOrderedField F] (g : QGradient F) (pos : F)
    (color : QColor) : QGradient F :=
  if pos > 1 ∨ pos < 0 then g
  else
    let before := g.stops.takeWhile (fun s => decide (s.1 < pos))
    let after := g.stops.dropWhile (fun s => decide (s.1 < pos))
    match after with
    | (q, c) :: rest =>
      if q = pos then { g with stops := before ++ (pos, color) :: rest }
      else { g with stops := before ++ (pos, color) :: (q, c) :: rest }
    | [] => { g with stops := before ++ [(pos, color)] }

/-- The calls that build a `QPainterPath`. -/
inductive PathElement (F : Type) where
  | moveTo (x y : F)
  | lineTo (x y : F)
  | addRect (x y w h : F)
  | arcTo (x y w h startAngle sweepLength : F)
  | cubicTo (c1x c1y c2x c2y endx endy : F)
  | quadTo (cx cy endx endy : F)
  | closeSubpath
  | addText (x y : F) (font : QFont F) (text : QString)
deriving DecidableEq, Repr

/-- A `QPainterPath`: the calls that built it, in order. -/
abbrev QPainterPath (F : Type) := List (PathElement F)

/-- A `QBrush`: a colour or a gradient. -/
inductive QBrush (F : Type) where
  | color (c : QColor)
  | gradient (g : QGradient F)
deriving DecidableEq, Repr

/-- A `QPen`. -/
structure QPen (F : Type) where
  brush : QBrush F
  width : F
  join : PenJoinStyle
  cap : PenCapStyle
  dashPattern : List F
deriving DecidableEq, Repr

/-- The default style of a `QPen` built from a colour or brush: width 1, bevel join,
square cap, solid line. -/
def QPen.ofBrush {F : Type} [LinearOrderedField F] (brush : QBrush F) : QPen F :=
  { brush := brush, width := 1, join := .BevelJoin, cap := .SquareCap, dashPattern := [] }

/-- The calls made on the `QPainter`. -/
inductive PainterCall (F : Type) where
  | fillRectViewport (brush : QBrush F)
  | save
  | restore
  | setClipRect (x y w h : F)
  | translate (dx dy : F)
  | scale (sx sy : F)
  | rotate (a : F)
  | strokePath (path : QPainterPath F) (pen : QPen F)
  | fillPath (path : QPainterPath F) (brush : QBrush F)
  | drawImage (x y w h : F) (image : QImage)
  | setFont (font : QFont F)
  | setPen (pen : QPen F)
  | drawText (x y : F) (text : QString)
deriving DecidableEq, Repr

/-- Diagnostic effects: they touch the process-wide timers and the debug output only. -/
inductive Diagnostic (F : Type) where
  | statistics (label : QString)
  | missingImage (image_id : Int)
  | sleep (microseconds : Int)
  | latency (arg0 : F)
  | message (text : QString)
deriving DecidableEq, Repr

/-- The struct `DrawingContextState`: the fourteen values that `save` pushes and `restore`
pops. -/
structure DrawingContextState (F : Type) where
  fill_color : QColor
  fill_gradient : Int
  line_color : QColor
  line_width : F
  line_dash : F
  line_cap : PenCapStyle
  line_join : PenJoinStyle
  text_font : QFont F
  text_baseline : Int
  text_align : Int
  gradients : List (Int × QGradient F)
  path : QPainterPath F
  context_scaling_x : F
  context_scaling_y : F
deriving DecidableEq, Repr

/-- The functions on `float` and `double` that are not field operations. -/
structure FloatFn (F : Type) where
  /-- The `float` stored in a 32-bit word: `*(float *)(&word)`. -/
  ofBits : Nat → F
  /-- The `double` stored in two consecutive words: `*(double *)(&word)`. -/
  ofBits64 : Nat → Nat → F
  sqrt : F → F
  tan : F → F
  acos : F → F
  /-- The constant `M_PI`. -/
  pi : F
  /-- The conversion of a floating point value to an integer type. -/
  toInt : F → Int
  /-- The rounding of `QSizeF::toSize` and of `QSize * qreal`. -/
  round : F → Int
  /-- The value that a `float` holds after the result of an operation is stored in it: the
  rounding to single precision. -/
  toFloat : F → F
  /-- The value that a `double` holds after the result of an operation is stored in it: the
  rounding to double precision. -/
  toDouble : F → F

/-- What `PaintBinaryCommands` obtains from Qt, from the application and from Python. -/
structure Backend (F : Type) where
  GetDisplayScaling : F
  ParseColorString : QString → QColor
  /-- The constructor `QColor(const QString &)`. -/
  colorOfString : QString → QColor
  /-- The method `QString::simplified`. -/
  simplified : QString → QString
  /-- The method `QString::length` of the decoded string. -/
  length : QString → Nat
  /-- The method `QString::toULongLong`, converted to `int64_t`. -/
  toULongLong : QString → Int
  /-- The method `QPainterPath::currentPosition`. -/
  currentPosition : QPainterPath F → F × F
  /-- The `QFontMetrics` of a font: `horizontalAdvance`, `ascent`, `height`, `xHeight`. -/
  horizontalAdvance : QFont F → QString → Int
  ascent : QFont F → Int
  height : QFont F → Int
  xHeight : QFont F → Int
  /-- The method `QPainter::transform` after the recorded calls. -/
  transform : List (PainterCall F) → QTransform
  /-- The image that `PythonSupport::imageFromRGBA` makes of the object stored in the image
  map; `none` when the object or the image is null. -/
  imageFromRGBA : Nat → Option QImage
  /-- The image that `PythonSupport::scaledImageFromArray` makes of the object stored in
  the image map, with width, height, context scaling, low, high and the colour map. -/
  scaledImageFromArray : Nat → Int → Int → F → F → F → Option Nat → Option QImage
  /-- The method `QImage::scaled(size, Qt::KeepAspectRatio, Qt::SmoothTransformation)`. -/
  scaled : QImage → Int → Int → QImage

deriving instance DecidableEq for Except

/-- What can go wrong in `PaintBinaryCommands`: a read of `commands[index]` with `index`
not below the size of the buffer, and `takeLast` on an empty stack, both undefined in C++;
and the loop count of the embedding running out. -/
inductive PaintError where
  | outOfBounds (index : Nat)
  | takeLastOfEmpty
  | outOfFuel
deriving DecidableEq, Repr

/-! ## The binary drawing commands: reading the buffer -/

/-- The function `read_uint32`: the word at `command_index`, and the index after it. The
functions `read_int32`, `read_float` and `read_bool` read the word in the same way and
differ in how they interpret it (`toInt32`, `FloatFn.ofBits`, `toBool`). -/
def read_uint32 (commands : List Nat) (command_index : Nat) : Except PaintError (Nat × Nat) :=
  if command_index < commands.length then
    .ok (commands.getD command_index 0, command_index + 1)
  else .error (.outOfBounds command_index)

/-- The value of a 32-bit word read as `qint32` or converted to `int`. -/
def toInt32 (w : Nat) : Int :=
  if w % 4294967296 < 2147483648 then (w % 4294967296 : Nat) else (w % 4294967296 : Nat) - 4294967296

/-- The value of a 32-bit word read by `read_bool`. -/
def toBool (w : Nat) : Bool :=
  decide (w % 4294967296 ≠ 0)

/-- The function `read_double`, up to the reinterpretation of the bits: it returns the two
words at `command_index` and, the increment standing after the `return`, leaves
`command_index` as it is. -/
def read_double (commands : List Nat) (command_index : Nat) :
    Except PaintError ((Nat × Nat) × Nat) :=
  if command_index + 1 < commands.length then
    .ok ((commands.getD command_index 0, commands.getD (command_index + 1) 0), command_index)
  else if command_index < commands.length then .error (.outOfBounds (command_index + 1))
  else .error (.outOfBounds command_index)

/-- The four bytes of a word in memory order (the host is little-endian). -/
def wordBytes (w : Nat) : List Nat :=
  [w % 256, w / 256 % 256, w / 65536 % 256, w / 16777216 % 256]

/-- The index increment of `read_string` for the length `str_len`:
`((str_len + 3) & 0xFFFFFFFC) / 4` in 32-bit unsigned arithmetic. -/
def stringWords (str_len : Nat) : Nat :=
  (((str_len + 3) % 4294967296) &&& 0xFFFFFFFC) / 4

/-- The function `read_string`: the length word, then `str_len` bytes starting at the
following word, then the index moves on by `stringWords str_len`. The bytes lie in the
words `command_index + 1`, ..., `command_index + ⌈str_len / 4⌉`; when they are not all in
the buffer, the word at index `commands.length` is read. The index is an `unsigned int`
below the size of the buffer, and does not wrap. -/
def read_string (commands : List Nat) (command_index : Nat) :
    Except PaintError (QString × Nat) :=
  if command_index < commands.length then
    let str_len := commands.getD command_index 0 % 4294967296
    if command_index + 1 + (str_len + 3) / 4 ≤ commands.length then
      .ok (((((commands.drop (command_index + 1)).take ((str_len + 3) / 4)).flatMap
              wordBytes).take str_len),
           command_index + 1 + stringWords str_len)
    else .error (.outOfBounds commands.length)
  else .error (.outOfBounds command_index)

/-- The tag that the `switch` of `PaintBinaryCommands` dispatches on: the bytes of the
word that was read, in reverse order. -/
def opcodeOfWord (cmd_hex : Nat) : Nat :=
  ((cmd_hex &&& 0x000000FF) <<< 24) ||| ((cmd_hex &&& 0x0000FF00) <<< 8) |||
    ((cmd_hex &&& 0x00FF0000) >>> 8) ||| ((cmd_hex &&& 0xFF000000) >>> 24)

/-- The case labels of the `switch` in `PaintBinaryCommands`. -/
def handledOpcodes : List Nat :=
  [0x73617665, 0x72657374, 0x62707468, 0x63707468, 0x636c6970, 0x7472616e, 0x7363616c,
   0x726f7461, 0x6d6f7665, 0x6c696e65, 0x72656374, 0x61726320, 0x61726374, 0x63756263,
   0x71756164, 0x73746174, 0x696d6167, 0x64617461, 0x7374726b, 0x66696c6c, 0x666c7374,
   0x666c7367, 0x74657874, 0x73747874, 0x666f6e74, 0x616c676e, 0x74626173, 0x73747374,
   0x6c647368, 0x6c696e77, 0x6c636170, 0x6c6e6a6e, 0x67726164, 0x67726373, 0x736c6570,
   0x6c61746e, 0x6d657367, 0x74696d65]

/-- One record of the buffer as the `switch` reads it: the case, with the argument words
and strings in the order of the `read_...` calls. The words are kept as they are read;
`execute` interprets them as `read_float`, `read_int32`, `read_bool` and `read_double` do.
`unknown` is a tag without a case. -/
inductive Command where
  | save
  | rest
  | bpth
  | cpth
  | clip (a0 a1 a2 a3 : Nat)
  | tran (a0 a1 : Nat)
  | scal (a0 a1 : Nat)
  | rota (a0 : Nat)
  | move (a0 a1 : Nat)
  | line (a0 a1 : Nat)
  | rect (a0 a1 a2 a3 : Nat)
  | arc (x y radius start_angle end_angle clockwise : Nat)
  | arct (a0 a1 a2 a3 radius : Nat)
  | cubc (a0 a1 a2 a3 a4 a5 : Nat)
  | quad (a0 a1 a2 a3 : Nat)
  | stat (label : QString)
  | imag (width height image_id arg4 arg5 arg6 arg7 : Nat)
  | data (width height image_id arg4 arg5 arg6 arg7 low high color_map_image_id : Nat)
  | strk
  | fill
  | flst (color_arg : QString)
  | flsg (fill_gradient : Nat)
  | text (text : QString) (arg1 arg2 max_width : Nat)
  | stxt (text : QString) (arg1 arg2 max_width : Nat)
  | font (font_str : QString)
  | algn (arg0 : QString)
  | tbas (arg0 : QString)
  | stst (arg0 : QString)
  | ldsh (a0 : Nat)
  | linw (a0 : Nat)
  | lcap (arg0 : QString)
  | lnjn (arg0 : QString)
  | grad (arg0 a1 a2 arg3 arg4 arg5 arg6 : Nat)
  | grcs (arg0 arg1 : Nat) (arg2 : QString)
  | slep (a0 : Nat)
  | latn (w0 w1 : Nat)
  | mesg (text : QString)
  | time (text : QString)
  | unknown (cmd : Nat)
deriving DecidableEq, Repr

/-- The argument reads of the `switch` of `PaintBinaryCommands`, case by case, in the
order in which the code makes them, starting at index `i` after the tag `cmd`. The result
is the record and the value of `command_index` after it. -/
def fetchArguments (commands : List Nat) (cmd : Nat) (i : Nat) :
    Except PaintError (Command × Nat) :=
  match cmd with
  | 0x73617665 => pure (.save, i)
  | 0x72657374 => pure (.rest, i)
  | 0x62707468 => pure (.bpth, i)
  | 0x63707468 => pure (.cpth, i)
  | 0x636c6970 => do
    let (a0, i) ← read_uint32 commands i
    let (a1, i) ← read_uint32 commands i
    let (a2, i) ← read_uint32 commands i
    let (a3, i) ← read_uint32 commands i
    pure (.clip a0 a1 a2 a3, i)
  | 0x7472616e => do
    let (a0, i) ← read_uint32 commands i
    let (a1, i) ← read_uint32 commands i
    pure (.tran a0 a1, i)
  | 0x7363616c => do
    let (a0, i) ← read_uint32 commands i
    let (a1, i) ← read_uint32 commands i
    pure (.scal a0 a1, i)
  | 0x726f7461 => do
    let (a0, i) ← read_uint32 commands i
    pure (.rota a0, i)
  | 0x6d6f7665 => do
    let (a0, i) ← read_uint32 commands i
    let (a1, i) ← read_uint32 commands i
    pure (.move a0 a1, i)
  | 0x6c696e65 => do
    let (a0, i) ← read_uint32 commands i
    let (a1, i) ← read_uint32 commands i
    pure (.line a0 a1, i)
  | 0x72656374 => do
    let (a0, i) ← read_uint32 commands i
    let (a1, i) ← read_uint32 commands i
    let (a2, i) ← read_uint32 commands i
    let (a3, i) ← read_uint32 commands i
    pure (.rect a0 a1 a2 a3, i)
  | 0x61726320 => do
    let (x, i) ← read_uint32 commands i
    let (y, i) ← read_uint32 commands i
    let (radius, i) ← read_uint32 commands i
    let (start_angle, i) ← read_uint32 commands i
    let (end_angle, i) ← read_uint32 commands i
    let (clockwise, i) ← read_uint32 commands i
    pure (.arc x y radius start_angle end_angle clockwise, i)
  | 0x61726374 => do
    let (a0, i) ← read_uint32 commands i
    let (a1, i) ← read_uint32 commands i
    let (a2, i) ← read_uint32 commands i
    let (a3, i) ← read_uint32 commands i
    let (radius, i) ← read_uint32 commands i
    pure (.arct a0 a1 a2 a3 radius, i)
  | 0x63756263 => do
    let (a0, i) ← read_uint32 commands i
    let (a1, i) ← read_uint32 commands i
    let (a2, i) ← read_uint32 commands i
    let (a3, i) ← read_uint32 commands i
    let (a4, i) ← read_uint32 commands i
    let (a5, i) ← read_uint32 commands i
    pure (.cubc a0 a1 a2 a3 a4 a5, i)
  | 0x71756164 => do
    let (a0, i) ← read_uint32 commands i
    let (a1, i) ← read_uint32 commands i
    let (a2, i) ← read_uint32 commands i
    let (a3, i) ← read_uint32 commands i
    pure (.quad a0 a1 a2 a3, i)
  | 0x73746174 => do
    let (label, i) ← read_string commands i
    pure (.stat label, i)
  | 0x696d6167 => do
    let (width, i) ← read_uint32 commands i
    let (height, i) ← read_uint32 commands i
    let (image_id, i) ← read_uint32 commands i
    let (arg4, i) ← read_uint32 commands i
    let (arg5, i) ← read_uint32 commands i
    let (arg6, i) ← read_uint32 commands i
    let (arg7, i) ← read_uint32 commands i
    pure (.imag width height image_id arg4 arg5 arg6 arg7, i)
  | 0x64617461 => do
    let (width, i) ← read_uint32 commands i
    let (height, i) ← read_uint32 commands i
    let (image_id, i) ← read_uint32 commands i
    let (arg4, i) ← read_uint32 commands i
    let (arg5, i) ← read_uint32 commands i
    let (arg6, i) ← read_uint32 commands i
    let (arg7, i) ← read_uint32 commands i
    let (low, i) ← read_uint32 commands i
    let (high, i) ← read_uint32 commands i
    let (color_map_image_id, i) ← read_uint32 commands i
    pure (.data width height image_id arg4 arg5 arg6 arg7 low high color_map_image_id, i)
  | 0x7374726b => pure (.strk, i)
  | 0x66696c6c => pure (.fill, i)
  | 0x666c7374 => do
    let (color_arg, i) ← read_string commands i
    pure (.flst color_arg, i)
  | 0x666c7367 => do
    let (fill_gradient, i) ← read_uint32 commands i
    pure (.flsg fill_gradient, i)
  | 0x74657874 => do
    let (text, i) ← read_string commands i
    let (arg1, i) ← read_uint32 commands i
    let (arg2, i) ← read_uint32 commands i
    let (max_width, i) ← read_uint32 commands i
    pure (.text text arg1 arg2 max_width, i)
  | 0x73747874 => do
    let (text, i) ← read_string commands i
    let (arg1, i) ← read_uint32 commands i
    let (arg2, i) ← read_uint32 commands i
    let (max_width, i) ← read_uint32 commands i
    pure (.stxt text arg1 arg2 max_width, i)
  | 0x666f6e74 => do
    let (font_str, i) ← read_string commands i
    pure (.font font_str, i)
  | 0x616c676e => do
    let (arg0, i) ← read_string commands i
    pure (.algn arg0, i)
  | 0x74626173 => do
    let (arg0, i) ← read_string commands i
    pure (.tbas arg0, i)
  | 0x73747374 => do
    let (arg0, i) ← read_string commands i
    pure (.stst arg0, i)
  | 0x6c647368 => do
    let (a0, i) ← read_uint32 commands i
    pure (.ldsh a0, i)
  | 0x6c696e77 => do
    let (a0, i) ← read_uint32 commands i
    pure (.linw a0, i)
  | 0x6c636170 => do
    let (arg0, i) ← read_string commands i
    pure (.lcap arg0, i)
  | 0x6c6e6a6e => do
    let (arg0, i) ← read_string commands i
    pure (.lnjn arg0, i)
  | 0x67726164 => do
    let (arg0, i) ← read_uint32 commands i
    let (a1, i) ← read_uint32 commands i
    let (a2, i) ← read_uint32 commands i
    let (arg3, i) ← read_uint32 commands i
    let (arg4, i) ← read_uint32 commands i
    let (arg5, i) ← read_uint32 commands i
    let (arg6, i) ← read_uint32 commands i
    pure (.grad arg0 a1 a2 arg3 arg4 arg5 arg6, i)
  | 0x67726373 => do
    let (arg0, i) ← read_uint32 commands i
    let (arg1, i) ← read_uint32 commands i
    let (arg2, i) ← read_string commands i
    pure (.grcs arg0 arg1 arg2, i)
  | 0x736c6570 => do
    let (a0, i) ← read_uint32 commands i
    pure (.slep a0, i)
  | 0x6c61746e => do
    let (arg0, i) ← read_double commands i
    pure (.latn arg0.1 arg0.2, i)
  | 0x6d657367 => do
    let (text, i) ← read_string commands i
    pure (.mesg text, i)
  | 0x74696d65 => do
    let (text, i) ← read_string commands i
    pure (.time text, i)
  | _ => pure (.unknown cmd, i)

/-- The reads of one pass of the loop of `PaintBinaryCommands`: the tag word, whose bytes
are reversed to give the value of the `switch`, then the arguments of the case. -/
def fetch (commands : List Nat) (command_index : Nat) : Except PaintError (Command × Nat) := do
  let (cmd_hex, i) ← read_uint32 commands command_index
  fetchArguments commands (opcodeOfWord cmd_hex) i

/-! ## The binary drawing commands: the interpreter -/

/-- The function `triangleArea`. -/
def triangleArea {F : Type} [LinearOrderedField F] (p1 p2 p3 : F × F) : F :=
  |1 / 2 * (p1.1 * (p2.2 - p3.2) + p2.1 * (p3.2 - p1.2) + p3.1 * (p1.2 - p2.2))|

/-- The start angle and the sweep, in degrees, that `addArcToPath` passes to
`QPainterPath::arcTo`, computed as the code computes them: the differences of the two
`float` angles are `float` values, an angle moved by `2 * M_PI` is computed in `double`
and stored back in its `float` parameter, the product `-180 * angle` is a `float`, and
the quotient by `M_PI`, the differences of the degrees and the sums with 360 are `double`
values (`2 * M_PI` is the exact double of a double). -/
def arcAngles {F : Type} [LinearOrderedField F] (fn : FloatFn F)
    (start_angle_radians end_angle_radians : F) (counter_clockwise : Bool) : F × F :=
  let clockwise := !counter_clockwise
  let angles : F × F :=
    if clockwise ∧ fn.toFloat (end_angle_radians - start_angle_radians) ≥ 2 * fn.pi then
      (start_angle_radians, fn.toFloat (fn.toDouble (start_angle_radians + 2 * fn.pi)))
    else if ¬ clockwise ∧
        fn.toFloat (start_angle_radians - end_angle_radians) ≥ 2 * fn.pi then
      (fn.toFloat (fn.toDouble (end_angle_radians - 2 * fn.pi)), end_angle_radians)
    else (start_angle_radians, end_angle_radians)
  let start_angle_degrees := fn.toDouble (fn.toFloat (-180 * angles.1) / fn.pi)
  let end_angle_degrees := fn.toDouble (fn.toFloat (-180 * angles.2) / fn.pi)
  let sweep_angle_degrees :=
    if clockwise then
      if start_angle_degrees < end_angle_degrees then
        fn.toDouble (fn.toDouble (end_angle_degrees - start_angle_degrees) - 360)
      else fn.toDouble (end_angle_degrees - start_angle_degrees)
    else
      if end_angle_degrees < start_angle_degrees then
        fn.toDouble (fn.toDouble (end_angle_degrees - start_angle_degrees) + 360)
      else fn.toDouble (end_angle_degrees - start_angle_degrees)
  (start_angle_degrees, sweep_angle_degrees)

/-- The function `addArcToPath`. -/
def addArcToPath {F : Type} [LinearOrderedField F] (fn : FloatFn F) (path : QPainterPath F)
    (x y radius start_angle_radians end_angle_radians : F) (counter_clockwise : Bool) :
    QPainterPath F :=
  let x_start := fn.toFloat (x - radius)
  let y_start := fn.toFloat (y - radius)
  let width := radius * 2
  let height := radius * 2
  let angles := arcAngles fn start_angle_radians end_angle_radians counter_clockwise
  if radius = 0 then path ++ [.lineTo x y]
  else path ++ [.arcTo x_start y_start width height angles.1 angles.2]

/-- The direction that the case `arct` chooses for its arc from the `float` angles `sa`
and `ea`: `anticlockwise` is set when `sa > ea` and the `float` difference `sa - ea` is
below `M_PI`, and when `sa < ea` and the `float` difference `ea - sa` is above `M_PI`. -/
def arcToAnticlockwise {F : Type} [LinearOrderedField F] (fn : FloatFn F) (sa ea : F) : Bool :=
  decide ((sa > ea ∧ fn.toFloat (sa - ea) < fn.pi) ∨ (sa < ea ∧ fn.toFloat (ea - sa) > fn.pi))

/-- The case `arct` of `PaintBinaryCommands`, from the current position `p0`, the control
points `p1`, `p2` and the radius, all in device units: the path afterwards. None of the
special cases returns (each `return` is commented out), so the general construction
always follows. -/
def arcTo {F : Type} [LinearOrderedField F] (fn : FloatFn F) (path : QPainterPath F)
    (p0 p1 p2 : F × F) (radius : F) : QPainterPath F :=
  let path1 :=
    if p1 = p0 ∨ p1 = p2 ∨ radius = 0 ∨ triangleArea p0 p1 p2 = 0 then
      path ++ [.lineTo p1.1 p1.2]
    else path
  let p1p0 : F × F := (p0.1 - p1.1, p0.2 - p1.2)
  let p1p2 : F × F := (p2.1 - p1.1, p2.2 - p1.2)
  let p1p0_length := fn.sqrt (p1p0.1 * p1p0.1 + p1p0.2 * p1p0.2)
  let p1p2_length := fn.sqrt (p1p2.1 * p1p2.1 + p1p2.2 * p1p2.2)
  let cos_phi := (p1p0.1 * p1p2.1 + p1p0.2 * p1p2.2) / (p1p0_length * p1p2_length)
  let path2 := if cos_phi = -1 then path1 ++ [.lineTo p1.1 p1.2] else path1
  let path3 :=
    if cos_phi = 1 then
      let max_length : F := 65535
      let factor_max := max_length / p1p0_length
      let ep : F × F := (p0.1 + factor_max * p1p0.1, p0.2 + factor_max * p1p0.2)
      path2 ++ [.lineTo ep.1 ep.2]
    else path2
  let tangent := radius / fn.tan (fn.acos cos_phi / 2)
  let factor_p1p0 := tangent / p1p0_length
  let t_p1p0 : F × F := (p1.1 + factor_p1p0 * p1p0.1, p1.2 + factor_p1p0 * p1p0.2)
  let orth_p1p0 : F × F := (p1p0.2, -p1p0.1)
  let orth_p1p0_length := fn.sqrt (orth_p1p0.1 * orth_p1p0.1 + orth_p1p0.2 * orth_p1p0.2)
  let factor_ra := radius / orth_p1p0_length
  let cos_alpha :=
    (orth_p1p0.1 * p1p2.1 + orth_p1p0.2 * p1p2.2) / (orth_p1p0_length * p1p2_length)
  let orth_p1p0 : F × F := if cos_alpha < 0 then (-orth_p1p0.1, -orth_p1p0.2) else orth_p1p0
  let p : F × F := (t_p1p0.1 + factor_ra * orth_p1p0.1, t_p1p0.2 + factor_ra * orth_p1p0.2)
  let orth_p1p0 : F × F := (-orth_p1p0.1, -orth_p1p0.2)
  let sa0 := fn.acos (orth_p1p0.1 / orth_p1p0_length)
  let sa := if orth_p1p0.2 < 0 then 2 * fn.pi - sa0 else sa0
  let factor_p1p2 := tangent / p1p2_length
  let t_p1p2 : F × F := (p1.1 + factor_p1p2 * p1p2.1, p1.2 + factor_p1p2 * p1p2.2)
  let orth_p1p2 : F × F := (t_p1p2.1 - p.1, t_p1p2.2 - p.2)
  let orth_p1p2_length := fn.sqrt (orth_p1p2.1 * orth_p1p2.1 + orth_p1p2.2 * orth_p1p2.2)
  let ea0 := fn.acos (orth_p1p2.1 / orth_p1p2_length)
  let ea := if orth_p1p2.2 < 0 then 2 * fn.pi - ea0 else ea0
  let anticlockwise : Bool := arcToAnticlockwise fn sa ea
  let path4 := path3 ++ [.lineTo t_p1p0.1 t_p1p0.2]
  addArcToPath fn path4 p.1 p.2 radius sa ea anticlockwise

/-- The x coordinate at which `text` and `stxt` draw, from the position read, the text
width and `text_align`. -/
def textPosX {F : Type} [LinearOrderedField F] (x : F) (text_width : Int) (text_align : Int) :
    F :=
  if text_align = 2 ∨ text_align = 5 then x - (text_width : F)
  else if text_align = 4 then x - (text_width : F) * (1 / 2)
  else x

/-- The y coordinate at which `text` and `stxt` draw, from the position read, the font
metrics and `text_baseline`. The chain of tests is the one of the code: the value 5 is
tested twice and the value 6 not at all. -/
def textPosY {F : Type} [LinearOrderedField F] (y : F) (ascent height xHeight : Int)
    (text_baseline : Int) : F :=
  if text_baseline = 1 then y + (ascent : F)
  else if text_baseline = 2 then y + ((2 * ascent : Int) : F) - (height : F)
  else if text_baseline = 3 then y + (xHeight : F) * (1 / 2)
  else if text_baseline = 4 ∨ text_baseline = 5 then y
  else if text_baseline = 5 then y + (ascent : F) - (height : F)
  else y

/-- The state of `PaintBinaryCommands` between two passes of its loop: the local
variables (`current` holds the fourteen that `save` copies), the stack, the calls made on
the painter so far, the time stamps collected, and the diagnostic effects. -/
structure PaintState (F : Type) where
  command_index : Nat
  current : DrawingContextState F
  stack : List (DrawingContextState F)
  painter : List (PainterCall F)
  rendered_timestamps : List RenderedTimeStamp
  diagnostics : List (Diagnostic F)
deriving DecidableEq, Repr

/-- The parameters of `PaintBinaryCommands` other than the painter and the commands, with
`display_scaling` already replaced by `GetDisplayScaling()` when it was zero. -/
structure PaintParams (F : Type) where
  imageMap : List (Int × Nat)
  lastRenderedTimestamps : List RenderedTimeStamp
  display_scaling : F
  section_id : Int
  devicePixelRatio : F

/-- The expression `gradients[key]` on the non-const map: an absent key is inserted with a
default constructed gradient. The result is the gradient and the map afterwards. -/
def gradientAt {F : Type} (gradients : List (Int × QGradient F)) (key : Int) :
    QGradient F × List (Int × QGradient F) :=
  match QMap.value? gradients key with
  | some g => (g, gradients)
  | none => ({ line := none, stops := [] },
      QMap.insert gradients key { line := none, stops := [] })

/-- The brush of `fill` and of `text`: the gradient `gradients[fill_gradient]` when
`fill_gradient >= 0`, the fill colour otherwise; with the gradient map afterwards. -/
def fillBrush {F : Type} (s : DrawingContextState F) :
    QBrush F × List (Int × QGradient F) :=
  if s.fill_gradient ≥ 0 then
    ((QBrush.gradient (gradientAt s.gradients s.fill_gradient).1),
      (gradientAt s.gradients s.fill_gradient).2)
  else (QBrush.color s.fill_color, s.gradients)

/-- The pen of `strk`. -/
def strokePen {F : Type} [LinearOrderedField F] (s : DrawingContextState F)
    (display_scaling : F) : QPen F :=
  { brush := .color s.line_color
    width := s.line_width * display_scaling
    join := s.line_join
    cap := s.line_cap
    dashPattern :=
      if s.line_dash > 0 then [s.line_dash * display_scaling, s.line_dash * display_scaling]
      else [] }

/-- The image drawn by `imag`, if any: the image of the object in the image map, scaled
down when the destination is smaller than three quarters of the natural size. -/
def imagImage {F : Type} [LinearOrderedField F] (backend : Backend F) (fn : FloatFn F)
    (params : PaintParams F) (s : DrawingContextState F) (width height image_id : Int)
    (arg6 arg7 : F) : Option QImage :=
  let context_scaling := min s.context_scaling_x s.context_scaling_y
  let destination_size : Int × Int :=
    (fn.round (arg6 * context_scaling), fn.round (arg7 * context_scaling))
  let device_destination_size : Int × Int :=
    (fn.round ((destination_size.1 : F) * params.devicePixelRatio),
     fn.round ((destination_size.2 : F) * params.devicePixelRatio))
  match QMap.value? params.imageMap image_id with
  | none => none
  | some ndarray =>
    match backend.imageFromRGBA ndarray with
    | none => none
    | some image =>
      if (device_destination_size.1 : F) < (width : F) * (3 / 4) ∨
          (device_destination_size.2 : F) < (height : F) * (3 / 4) then
        some (backend.scaled image device_destination_size.1 device_destination_size.2)
      else some image

/-- The image drawn by `data`, if any. -/
def dataImage {F : Type} [LinearOrderedField F] (backend : Backend F) (fn : FloatFn F)
    (params : PaintParams F) (s : DrawingContextState F) (image_id : Int)
    (arg6 arg7 low high : F) (color_map_image_id : Int) : Option QImage :=
  let context_scaling := min s.context_scaling_x s.context_scaling_y
  let destination_size : Int × Int :=
    (fn.round (arg6 * context_scaling), fn.round (arg7 * context_scaling))
  let device_destination_size : Int × Int :=
    (fn.round ((destination_size.1 : F) * params.devicePixelRatio),
     fn.round ((destination_size.2 : F) * params.devicePixelRatio))
  match QMap.value? params.imageMap image_id with
  | none => none
  | some ndarray =>
    let colormap : Option Nat :=
      if color_map_image_id ≠ 0 then QMap.value? params.imageMap color_map_image_id else none
    backend.scaledImageFromArray ndarray device_destination_size.1 device_destination_size.2
      context_scaling low high colormap

/-- The time stamp appended by `time`. -/
def timeStamp {F : Type} (backend : Backend F) (params : PaintParams F)
    (painter : List (PainterCall F)) (text : QString) : RenderedTimeStamp :=
  if backend.length text > 4 then
    { transform := backend.transform painter, timestamp_ns := backend.toULongLong text,
      section_id := params.section_id, elapsed_ns := 0, text := text }
  else
    let found := params.lastRenderedTimestamps.foldl
      (fun (acc : Int × Int × QString) r =>
        if r.section_id = params.section_id then (r.timestamp_ns, r.elapsed_ns, r.text)
        else acc)
      (0, 0, text)
    { transform := backend.transform painter, timestamp_ns := found.1,
      section_id := params.section_id, elapsed_ns := found.2.1, text := found.2.2 }

/-- The body of one case of the `switch` of `PaintBinaryCommands`, after its reads. -/
def execute {F : Type} [LinearOrderedField F] (backend : Backend F) (fn : FloatFn F)
    (params : PaintParams F) (st : PaintState F) :
    Command → Except PaintError (PaintState F)
  | .save =>
    .ok { st with stack := st.stack ++ [st.current], painter := st.painter ++ [.save] }
  | .rest =>
    match st.stack.getLast? with
    | none => .error .takeLastOfEmpty
    | some values =>
      .ok { st with current := values, stack := st.stack.dropLast,
                    painter := st.painter ++ [.restore] }
  | .bpth => .ok { st with current := { st.current with path := [] } }
  | .cpth =>
    .ok { st with current := { st.current with path := st.current.path ++ [.closeSubpath] } }
  | .clip a0 a1 a2 a3 =>
    .ok { st with painter := st.painter ++
      [.setClipRect (fn.ofBits a0 * params.display_scaling)
        (fn.ofBits a1 * params.display_scaling) (fn.ofBits a2 * params.display_scaling)
        (fn.ofBits a3 * params.display_scaling)] }
  | .tran a0 a1 =>
    .ok { st with painter := st.painter ++
      [.translate (fn.ofBits a0 * params.display_scaling)
        (fn.ofBits a1 * params.display_scaling)] }
  | .scal a0 a1 =>
    .ok { st with
      painter := st.painter ++
        [.scale (fn.ofBits a0 * params.display_scaling)
          (fn.ofBits a1 * params.display_scaling)]
      current := { st.current with
        context_scaling_x :=
          st.current.context_scaling_x * (fn.ofBits a0 * params.display_scaling)
        context_scaling_y :=
          st.current.context_scaling_y * (fn.ofBits a1 * params.display_scaling) } }
  | .rota a0 => .ok { st with painter := st.painter ++ [.rotate (fn.ofBits a0)] }
  | .move a0 a1 =>
    .ok { st with current := { st.current with path := st.current.path ++
      [.moveTo (fn.ofBits a0 * params.display_scaling)
        (fn.ofBits a1 * params.display_scaling)] } }
  | .line a0 a1 =>
    .ok { st with current := { st.current with path := st.current.path ++
      [.lineTo (fn.ofBits a0 * params.display_scaling)
        (fn.ofBits a1 * params.display_scaling)] } }
  | .rect a0 a1 a2 a3 =>
    .ok { st with current := { st.current with path := st.current.path ++
      [.addRect (fn.ofBits a0 * params.display_scaling)
        (fn.ofBits a1 * params.display_scaling) (fn.ofBits a2 * params.display_scaling)
        (fn.ofBits a3 * params.display_scaling)] } }
  | .arc x y radius start_angle end_angle clockwise =>
    -- `clockwise = !read_bool(...)`, and `!clockwise` is passed as `counter_clockwise`
    let path := addArcToPath fn st.current.path (fn.ofBits x * params.display_scaling)
      (fn.ofBits y * params.display_scaling) (fn.ofBits radius * params.display_scaling)
      (fn.ofBits start_angle) (fn.ofBits end_angle) (!(!(toBool clockwise)))
    .ok { st with current := { st.current with path := path } }
  | .arct a0 a1 a2 a3 radius =>
    let path := arcTo fn st.current.path (backend.currentPosition st.current.path)
      (fn.ofBits a0 * params.display_scaling, fn.ofBits a1 * params.display_scaling)
      (fn.ofBits a2 * params.display_scaling, fn.ofBits a3 * params.display_scaling)
      (fn.ofBits radius * params.display_scaling)
    .ok { st with current := { st.current with path := path } }
  | .cubc a0 a1 a2 a3 a4 a5 =>
    .ok { st with current := { st.current with path := st.current.path ++
      [.cubicTo (fn.ofBits a0 * params.display_scaling)
        (fn.ofBits a1 * params.display_scaling) (fn.ofBits a2 * params.display_scaling)
        (fn.ofBits a3 * params.display_scaling) (fn.ofBits a4 * params.display_scaling)
        (fn.ofBits a5 * params.display_scaling)] } }
  | .quad a0 a1 a2 a3 =>
    .ok { st with current := { st.current with path := st.current.path ++
      [.quadTo (fn.ofBits a0 * params.display_scaling)
        (fn.ofBits a1 * params.display_scaling) (fn.ofBits a2 * params.display_scaling)
        (fn.ofBits a3 * params.display_scaling)] } }
  | .stat label =>
    .ok { st with diagnostics := st.diagnostics ++ [.statistics (backend.simplified label)] }
  | .imag width height image_id arg4 arg5 arg6 arg7 =>
    let missing : List (Diagnostic F) :=
      if (QMap.value? params.imageMap (toInt32 image_id)).isSome then []
      else [.missingImage (toInt32 image_id)]
    match imagImage backend fn params st.current (toInt32 width) (toInt32 height)
        (toInt32 image_id) (fn.ofBits arg6 * params.display_scaling)
        (fn.ofBits arg7 * params.display_scaling) with
    | none => .ok { st with diagnostics := st.diagnostics ++ missing }
    | some image =>
      .ok { st with
        diagnostics := st.diagnostics ++ missing
        painter := st.painter ++
          [.drawImage (fn.ofBits arg4 * params.display_scaling)
            (fn.ofBits arg5 * params.display_scaling)
            (fn.ofBits arg6 * params.display_scaling)
            (fn.ofBits arg7 * params.display_scaling) image] }
  | .data _ _ image_id arg4 arg5 arg6 arg7 low high color_map_image_id =>
    let missing : List (Diagnostic F) :=
      if (QMap.value? params.imageMap (toInt32 image_id)).isSome then []
      else [.missingImage (toInt32 image_id)]
    match dataImage backend fn params st.current (toInt32 image_id)
        (fn.ofBits arg6 * params.display_scaling) (fn.ofBits arg7 * params.display_scaling)
        (fn.ofBits low) (fn.ofBits high) (toInt32 color_map_image_id) with
    | none => .ok { st with diagnostics := st.diagnostics ++ missing }
    | some image =>
      .ok { st with
        diagnostics := st.diagnostics ++ missing
        painter := st.painter ++
          [.drawImage (fn.ofBits arg4 * params.display_scaling)
            (fn.ofBits arg5 * params.display_scaling)
            (fn.ofBits arg6 * params.display_scaling)
            (fn.ofBits arg7 * params.display_scaling) image] }
  | .strk =>
    .ok { st with painter := st.painter ++
      [.strokePath st.current.path (strokePen st.current params.display_scaling)] }
  | .fill =>
    .ok { st with
      painter := st.painter ++ [.fillPath st.current.path (fillBrush st.current).1]
      current := { st.current with gradients := (fillBrush st.current).2 } }
  | .flst color_arg =>
    .ok { st with current := { st.current with
      fill_color := backend.ParseColorString (backend.simplified color_arg)
      fill_gradient := -1 } }
  | .flsg fill_gradient =>
    .ok { st with current := { st.current with fill_gradient := toInt32 fill_gradient } }
  | .text text arg1 arg2 _ =>
    let text_width := backend.horizontalAdvance st.current.text_font text
    let x : F := textPosX (fn.ofBits arg1 * params.display_scaling) text_width
      st.current.text_align
    let y : F := textPosY (fn.ofBits arg2 * params.display_scaling)
      (backend.ascent st.current.text_font) (backend.height st.current.text_font)
      (backend.xHeight st.current.text_font) st.current.text_baseline
    .ok { st with
      painter := st.painter ++
        [.save, .setFont st.current.text_font,
         .setPen { QPen.ofBrush (fillBrush st.current).1 with
                   width := 1 * params.display_scaling },
         .drawText x y text, .restore]
      current := { st.current with gradients := (fillBrush st.current).2 } }
  | .stxt text arg1 arg2 _ =>
    let text_width := backend.horizontalAdvance st.current.text_font text
    let x : F := textPosX (fn.ofBits arg1 * params.display_scaling) text_width
      st.current.text_align
    let y : F := textPosY (fn.ofBits arg2 * params.display_scaling)
      (backend.ascent st.current.text_font) (backend.height st.current.text_font)
      (backend.xHeight st.current.text_font) st.current.text_baseline
    .ok { st with painter := st.painter ++
      [.strokePath [.addText x y st.current.text_font text]
        { brush := .color st.current.line_color
          width := ((fn.toInt (st.current.line_width * params.display_scaling) : Int) : F)
          join := st.current.line_join
          cap := st.current.line_cap
          dashPattern := [] }] }
  | .font font_str =>
    .ok { st with current := { st.current with
      text_font := { parsed := some (font_str, params.display_scaling) } } }
  | .algn arg0 =>
    let a1 := if arg0 = ascii "start" then 1 else st.current.text_align
    let a2 := if arg0 = ascii "end" then 2 else a1
    let a3 := if arg0 = ascii "left" then 3 else a2
    let a4 := if arg0 = ascii "center" then 4 else a3
    let a5 := if arg0 = ascii "right" then 5 else a4
    .ok { st with current := { st.current with text_align := a5 } }
  | .tbas arg0 =>
    let b1 := if arg0 = ascii "top" then 1 else st.current.text_baseline
    let b2 := if arg0 = ascii "hanging" then 2 else b1
    let b3 := if arg0 = ascii "middle" then 3 else b2
    let b4 := if arg0 = ascii "alphabetic" then 4 else b3
    let b5 := if arg0 = ascii "ideographic" then 5 else b4
    let b6 := if arg0 = ascii "bottom" then 6 else b5
    .ok { st with current := { st.current with text_baseline := b6 } }
  | .stst arg0 =>
    .ok { st with current := { st.current with
      line_color := backend.ParseColorString (backend.simplified arg0) } }
  | .ldsh a0 => .ok { st with current := { st.current with line_dash := fn.ofBits a0 } }
  | .linw a0 => .ok { st with current := { st.current with line_width := fn.ofBits a0 } }
  | .lcap arg0 =>
    let c1 := if arg0 = ascii "square" then PenCapStyle.SquareCap else st.current.line_cap
    let c2 := if arg0 = ascii "round" then PenCapStyle.RoundCap else c1
    let c3 := if arg0 = ascii "butt" then PenCapStyle.FlatCap else c2
    .ok { st with current := { st.current with line_cap := c3 } }
  | .lnjn arg0 =>
    let j1 := if arg0 = ascii "round" then PenJoinStyle.RoundJoin else st.current.line_join
    let j2 := if arg0 = ascii "miter" then PenJoinStyle.MiterJoin else j1
    let j3 := if arg0 = ascii "bevel" then PenJoinStyle.BevelJoin else j2
    .ok { st with current := { st.current with line_join := j3 } }
  | .grad arg0 _ _ arg3 arg4 arg5 arg6 =>
    let x := fn.ofBits arg3 * params.display_scaling
    let y := fn.ofBits arg4 * params.display_scaling
    let w := fn.ofBits arg5 * params.display_scaling
    let h := fn.ofBits arg6 * params.display_scaling
    .ok { st with current := { st.current with
      gradients := QMap.insert st.current.gradients (toInt32 arg0)
        { line := some (x, y, x + w, y + h), stops := [] } } }
  | .grcs arg0 arg1 arg2 =>
    let found := gradientAt st.current.gradients (toInt32 arg0)
    .ok { st with current := { st.current with
      gradients := QMap.insert found.2 (toInt32 arg0)
        (found.1.setColorAt (fn.ofBits arg1) (backend.colorOfString arg2)) } }
  | .slep a0 =>
    .ok { st with diagnostics := st.diagnostics ++
      [.sleep (fn.toInt (fn.ofBits a0 * 1000000))] }
  | .latn w0 w1 =>
    .ok { st with diagnostics := st.diagnostics ++ [.latency (fn.ofBits64 w0 w1)] }
  | .mesg text => .ok { st with diagnostics := st.diagnostics ++ [.message text] }
  | .time text =>
    .ok { st with rendered_timestamps := st.rendered_timestamps ++
      [timeStamp backend params st.painter text] }
  | .unknown _ => .ok st

/-- One pass of the `while` loop of `PaintBinaryCommands`: the reads, then the case. -/
def PaintBinaryCommands.pass {F : Type} [LinearOrderedField F] (backend : Backend F)
    (fn : FloatFn F) (params : PaintParams F) (commands : List Nat) (st : PaintState F) :
    Except PaintError (PaintState F) :=
  match fetch commands st.command_index with
  | .error e => .error e
  | .ok (command, i) => execute backend fn params { st with command_index := i } command

/-- The `while (command_index < commands_v->size())` loop, for at most `fuel` passes. -/
def PaintBinaryCommands.loop {F : Type} [LinearOrderedField F] (backend : Backend F)
    (fn : FloatFn F) (params : PaintParams F) (commands : List Nat) :
    Nat → PaintState F → Except PaintError (PaintState F)
  | 0, st => if st.command_index < commands.length then .error .outOfFuel else .ok st
  | fuel + 1, st =>
    if st.command_index < commands.length then
      match PaintBinaryCommands.pass backend fn params commands st with
      | .error e => .error e
      | .ok st1 => PaintBinaryCommands.loop backend fn params commands fuel st1
    else .ok st

/-- The state of `PaintBinaryCommands` when it enters its loop. -/
def PaintBinaryCommands.start {F : Type} [LinearOrderedField F] : PaintState F :=
  { command_index := 0
    current :=
      { fill_color := QColor.transparent
        fill_gradient := -1
        line_color := QColor.black
        line_width := 1
        line_dash := 0
        line_cap := .SquareCap
        line_join := .BevelJoin
        text_font := { parsed := none }
        text_baseline := 4
        text_align := 1
        gradients := []
        path := []
        context_scaling_x := 1
        context_scaling_y := 1 }
    stack := []
    painter := [.fillRectViewport (.color QColor.transparent)]
    rendered_timestamps := []
    diagnostics := [] }

/-- The function `PaintBinaryCommands`: the state when the loop is left. Every pass moves
`command_index` at least past the tag, so `commands.length` passes are enough. The
returned time stamps are the field `rendered_timestamps`. -/
def PaintBinaryCommands {F : Type} [LinearOrderedField F] (backend : Backend F)
    (fn : FloatFn F) (commands : List Nat) (imageMap : List (Int × Nat))
    (lastRenderedTimestamps : List RenderedTimeStamp) (display_scaling : F) (section_id : Int)
    (devicePixelRatio : F) : Except PaintError (PaintState F) :=
  PaintBinaryCommands.loop backend fn
    { imageMap := imageMap
      lastRenderedTimestamps := lastRenderedTimestamps
      display_scaling := if display_scaling = 0 then backend.GetDisplayScaling
        else display_scaling
      section_id := section_id
      devicePixelRatio := devicePixelRatio }
    commands commands.length PaintBinaryCommands.start

/-! ## A rational instance of the parameters, for concrete runs -/

/-- The value of a finite IEEE 754 single precision number given by its bits. -/
def ieee754 (w : Nat) : ℚ :=
  let sign := w / 2147483648 % 2
  let exponent := w / 8388608 % 256
  let mantissa := w % 8388608
  let magnitude : ℚ :=
    if exponent = 0 then (mantissa : ℚ) / 2 ^ 149
    else if exponent < 150 then ((8388608 + mantissa : Nat) : ℚ) / 2 ^ (150 - exponent)
    else ((8388608 + mantissa : Nat) : ℚ) * 2 ^ (exponent - 150)
  if sign = 1 then -magnitude else magnitude

/-- The integer nearest to `x`, the even one of the two when `x` lies half way. -/
def roundHalfEven (x : ℚ) : ℤ :=
  if x - ⌊x⌋ < 1 / 2 then ⌊x⌋
  else if 1 / 2 < x - ⌊x⌋ then ⌊x⌋ + 1
  else if ⌊x⌋ % 2 = 0 then ⌊x⌋
  else ⌊x⌋ + 1

/-- The rounding of `x` to the nearest binary floating point number with `p` bits of
significand, ties to even (the IEEE 754 default): with `2 ^ e ≤ |x| < 2 ^ (e + 1)` the
result is the nearest multiple of `2 ^ (e - (p - 1))`. The exponent is not bounded:
overflow and subnormal numbers are left out. -/
def roundTo (p : ℕ) (x : ℚ) : ℚ :=
  if x = 0 then 0
  else (roundHalfEven (x / (2 : ℚ) ^ (Int.log 2 |x| - ((p : ℤ) - 1))) : ℚ) *
    (2 : ℚ) ^ (Int.log 2 |x| - ((p : ℤ) - 1))

/-- Rational floating point functions for concrete runs: words are decoded as IEEE 754
singles, conversions to integers take the floor, `M_PI` is the double that the constant
denotes, `0x400921FB54442D18`, which is 884279719003555 / 2^48, a value stored in a
`float` is rounded to 24 bits and a value stored in a `double` to 53 bits; `sqrt`, `tan`
and `acos`, which have no rational values, are rough stand-ins. -/
def rationalFloatFn : FloatFn ℚ :=
  { ofBits := ieee754
    ofBits64 := fun w0 _ => ieee754 w0
    sqrt := fun x => (Nat.sqrt (Int.toNat ⌊x⌋) : ℚ)
    tan := fun x => x
    acos := fun x => 1 - x
    pi := 884279719003555 / 281474976710656
    toInt := fun x => ⌊x⌋
    round := fun x => ⌊x + 1 / 2⌋
    toFloat := roundTo 24
    toDouble := roundTo 53 }

/-- A backend for concrete runs: display scaling 1, every colour string is black, text
is ten units wide per byte, there are no images. -/
def exampleBackend : Backend ℚ :=
  { GetDisplayScaling := 1
    ParseColorString := fun _ => QColor.black
    colorOfString := fun _ => QColor.black
    simplified := fun s => s
    length := fun s => s.length
    toULongLong := fun _ => 0
    currentPosition := fun path =>
      match path.getLast? with
      | some (.moveTo x y) => (x, y)
      | some (.lineTo x y) => (x, y)
      | _ => (0, 0)
    horizontalAdvance := fun _ s => 10 * s.length
    ascent := fun _ => 12
    height := fun _ => 16
    xHeight := fun _ => 6
    transform := fun _ => { m11 := 1, m12 := 0, m21 := 0, m22 := 1, dx := 0, dy := 0 }
    imageFromRGBA := fun _ => none
    scaledImageFromArray := fun _ _ _ _ _ _ _ => none
    scaled := fun image _ _ => image }

/-- The concrete run of `PaintBinaryCommands` on a buffer of words, with the rational
instance, no images, no earlier time stamps, display scaling 1, section 0 and device
pixel ratio 1. -/
def runExample (commands : List Nat) : Except PaintError (PaintState ℚ) :=
  PaintBinaryCommands exampleBackend rationalFloatFn commands [] [] 1 0 1

/-! ## Complete buffers -/

/-- The kinds of argument of a record: a word (read by `read_uint32`, `read_int32`,
`read_float` or `read_bool`), a length-prefixed string, a double. -/
inductive ArgKind where
  | word
  | string
  | double
deriving DecidableEq, Repr

/-- The arguments of each opcode, in the order in which they stand in the buffer. -/
def opcodeTable : List (Nat × List ArgKind) :=
  [(0x73617665, []),
   (0x72657374, []),
   (0x62707468, []),
   (0x63707468, []),
   (0x636c6970, [.word, .word, .word, .word]),
   (0x7472616e, [.word, .word]),
   (0x7363616c, [.word, .word]),
   (0x726f7461, [.word]),
   (0x6d6f7665, [.word, .word]),
   (0x6c696e65, [.word, .word]),
   (0x72656374, [.word, .word, .word, .word]),
   (0x61726320, [.word, .word, .word, .word, .word, .word]),
   (0x61726374, [.word, .word, .word, .word, .word]),
   (0x63756263, [.word, .word, .word, .word, .word, .word]),
   (0x71756164, [.word, .word, .word, .word]),
   (0x73746174, [.string]),
   (0x696d6167, [.word, .word, .word, .word, .word, .word, .word]),
   (0x64617461, [.word, .word, .word, .word, .word, .word, .word, .word, .word, .word]),
   (0x7374726b, []),
   (0x66696c6c, []),
   (0x666c7374, [.string]),
   (0x666c7367, [.word]),
   (0x74657874, [.string, .word, .word, .word]),
   (0x73747874, [.string, .word, .word, .word]),
   (0x666f6e74, [.string]),
   (0x616c676e, [.string]),
   (0x74626173, [.string]),
   (0x73747374, [.string]),
   (0x6c647368, [.word]),
   (0x6c696e77, [.word]),
   (0x6c636170, [.string]),
   (0x6c6e6a6e, [.string]),
   (0x67726164, [.word, .word, .word, .word, .word, .word, .word]),
   (0x67726373, [.word, .word, .string]),
   (0x736c6570, [.word]),
   (0x6c61746e, [.double]),
   (0x6d657367, [.string]),
   (0x74696d65, [.string])]

/-- The arguments of the opcode `cmd`; a tag that is not in the table has none. -/
def argumentKinds (cmd : Nat) : List ArgKind :=
  match opcodeTable.lookup cmd with
  | some kinds => kinds
  | none => []

/-- Whether the arguments of the given kinds, standing at index `i`, lie in the buffer,
and if so the index at which the interpreter goes on: a word takes one word; a string
takes its length word and the words that hold its bytes, and the interpreter goes on
`stringWords` words after the length word; a double takes two words, and the interpreter
goes on at the first of them. -/
def argumentsEnd (commands : List Nat) : List ArgKind → Nat → Option Nat
  | [], i => some i
  | .word :: kinds, i =>
    if i < commands.length then argumentsEnd commands kinds (i + 1) else none
  | .string :: kinds, i =>
    if i + 1 + (commands.getD i 0 % 4294967296 + 3) / 4 ≤ commands.length then
      argumentsEnd commands kinds (i + 1 + stringWords (commands.getD i 0 % 4294967296))
    else none
  | .double :: kinds, i =>
    if i + 1 < commands.length then argumentsEnd commands kinds i else none

/-- Whether the record whose tag stands at index `i` lies in the buffer, and if so the
index at which the interpreter goes on. -/
def recordEnd (commands : List Nat) (i : Nat) : Option Nat :=
  if i < commands.length then
    argumentsEnd commands (argumentKinds (opcodeOfWord (commands.getD i 0))) (i + 1)
  else none

/-- Whether every record that the interpreter comes to, starting at index `i`, lies in
the buffer (for at most `fuel` records). -/
def completeFrom (commands : List Nat) : Nat → Nat → Bool
  | 0, i => decide (commands.length ≤ i)
  | fuel + 1, i =>
    if i < commands.length then
      match recordEnd commands i with
      | none => false
      | some j => completeFrom commands fuel j
    else true

/-- A buffer is complete when no record that the interpreter comes to is cut off by the
end of the buffer: the arguments that the record's opcode and string lengths call for are
all there. -/
def complete (commands : List Nat) : Bool :=
  completeFrom commands commands.length 0

/-! ## Sequences of records -/

/-- The cases of the loop of `PaintBinaryCommands` applied to a sequence of records in
order: the state after the last one, or the first error. -/
def executeAll {F : Type} [LinearOrderedField F] (backend : Backend F) (fn : FloatFn F)
    (params : PaintParams F) : PaintState F → List Command → Except PaintError (PaintState F)
  | st, [] => .ok st
  | st, command :: rest =>
    match execute backend fn params st command with
    | .error e => .error e
    | .ok st1 => executeAll backend fn params st1 rest

/-- The number of states that a sequence of records leaves on the stack on top of the
`depth` it starts with: `save` adds one and `rest` takes one away. The result is `none`
when some `rest` of the sequence would take a state that was there before the sequence. -/
def saveDepth : Nat → List Command → Option Nat
  | depth, [] => some depth
  | depth, .save :: rest => saveDepth (depth + 1) rest
  | 0, .rest :: _ => none
  | depth + 1, .rest :: rest => saveDepth depth rest
  | depth, _ :: rest => saveDepth depth rest

/-- A sequence of records in which every `rest` answers a `save` of the sequence and every
`save` is answered. -/
def balanced (commands : List Command) : Prop :=
  saveDepth 0 commands = some 0

instance (commands : List Command) : Decidable (balanced commands) :=
  inferInstanceAs (Decidable (saveDepth 0 commands = some 0))

/-- The records that the loop of `PaintBinaryCommands` reads from index `i` on, in order,
for at most `fuel` passes. -/
def decodeFrom (commands : List Nat) : Nat → Nat → Except PaintError (List Command)
  | 0, i => if i < commands.length then .error .outOfFuel else .ok []
  | fuel + 1, i =>
    if i < commands.length then
      match fetch commands i with
      | .error e => .error e
      | .ok (command, j) =>
        match decodeFrom commands fuel j with
        | .error e => .error e
        | .ok rest => .ok (command :: rest)
    else .ok []

/-- The records that the loop of `PaintBinaryCommands` reads from a buffer. Every pass
moves the index at least past the tag, so `commands.length` passes are enough. -/
def decode (commands : List Nat) : Except PaintError (List Command) :=
  decodeFrom commands commands.length 0

/-- Modelled from the spec: the words that hold the bytes of a string, four bytes to a
word in memory order, the last word filled up with zero bytes (the sources hold no
encoder; the format is the one that `read_string` reads). -/
def packWords : List Nat → List Nat
  | b0 :: b1 :: b2 :: b3 :: rest =>
    (b0 + 256 * b1 + 65536 * b2 + 16777216 * b3) :: packWords rest
  | [b0, b1, b2] => [b0 + 256 * b1 + 65536 * b2]
  | [b0, b1] => [b0 + 256 * b1]
  | [b0] => [b0]
  | [] => []

/-- Modelled from the spec: a string of the command stream, as its length in bytes and
then its bytes, padded to a whole number of words (the sources hold no encoder). -/
def encodeString (s : QString) : List Nat :=
  s.length :: packWords s

/-- Modelled from the spec: the encoder of one record of the command stream, which the
sources do not hold (they hold the decoder only). A record is the word whose bytes in
memory are the four characters of the opcode, first character first, followed by the
arguments of the opcode in order, each number as its word or words and each string as
`encodeString` gives it. An unknown opcode has no arguments. -/
def Command.encode : Command → List Nat
  | .save => [opcodeOfWord 0x73617665]
  | .rest => [opcodeOfWord 0x72657374]
  | .bpth => [opcodeOfWord 0x62707468]
  | .cpth => [opcodeOfWord 0x63707468]
  | .clip a0 a1 a2 a3 => [opcodeOfWord 0x636c6970, a0, a1, a2, a3]
  | .tran a0 a1 => [opcodeOfWord 0x7472616e, a0, a1]
  | .scal a0 a1 => [opcodeOfWord 0x7363616c, a0, a1]
  | .rota a0 => [opcodeOfWord 0x726f7461, a0]
  | .move a0 a1 => [opcodeOfWord 0x6d6f7665, a0, a1]
  | .line a0 a1 => [opcodeOfWord 0x6c696e65, a0, a1]
  | .rect a0 a1 a2 a3 => [opcodeOfWord 0x72656374, a0, a1, a2, a3]
  | .arc x y radius start_angle end_angle clockwise =>
    [opcodeOfWord 0x61726320, x, y, radius, start_angle, end_angle, clockwise]
  | .arct a0 a1 a2 a3 radius => [opcodeOfWord 0x61726374, a0, a1, a2, a3, radius]
  | .cubc a0 a1 a2 a3 a4 a5 => [opcodeOfWord 0x63756263, a0, a1, a2, a3, a4, a5]
  | .quad a0 a1 a2 a3 => [opcodeOfWord 0x71756164, a0, a1, a2, a3]
  | .stat str => opcodeOfWord 0x73746174 :: encodeString str
  | .imag width height image_id arg4 arg5 arg6 arg7 =>
    [opcodeOfWord 0x696d6167, width, height, image_id, arg4, arg5, arg6, arg7]
  | .data width height image_id arg4 arg5 arg6 arg7 low high color_map_image_id =>
    [opcodeOfWord 0x64617461, width, height, image_id, arg4, arg5, arg6, arg7, low, high,
      color_map_image_id]
  | .strk => [opcodeOfWord 0x7374726b]
  | .fill => [opcodeOfWord 0x66696c6c]
  | .flst color_arg => opcodeOfWord 0x666c7374 :: encodeString color_arg
  | .flsg fill_gradient => [opcodeOfWord 0x666c7367, fill_gradient]
  | .text str arg1 arg2 max_width =>
    opcodeOfWord 0x74657874 :: (encodeString str ++ [arg1, arg2, max_width])
  | .stxt str arg1 arg2 max_width =>
    opcodeOfWord 0x73747874 :: (encodeString str ++ [arg1, arg2, max_width])
  | .font font_str => opcodeOfWord 0x666f6e74 :: encodeString font_str
  | .algn arg0 => opcodeOfWord 0x616c676e :: encodeString arg0
  | .tbas arg0 => opcodeOfWord 0x74626173 :: encodeString arg0
  | .stst arg0 => opcodeOfWord 0x73747374 :: encodeString arg0
  | .ldsh a0 => [opcodeOfWord 0x6c647368, a0]
  | .linw a0 => [opcodeOfWord 0x6c696e77, a0]
  | .lcap arg0 => opcodeOfWord 0x6c636170 :: encodeString arg0
  | .lnjn arg0 => opcodeOfWord 0x6c6e6a6e :: encodeString arg0
  | .grad arg0 a1 a2 arg3 arg4 arg5 arg6 =>
    [opcodeOfWord 0x67726164, arg0, a1, a2, arg3, arg4, arg5, arg6]
  | .grcs arg0 arg1 arg2 => opcodeOfWord 0x67726373 :: arg0 :: arg1 :: encodeString arg2
  | .slep a0 => [opcodeOfWord 0x736c6570, a0]
  | .latn w0 w1 => [opcodeOfWord 0x6c61746e, w0, w1]
  | .mesg str => opcodeOfWord 0x6d657367 :: encodeString str
  | .time str => opcodeOfWord 0x74696d65 :: encodeString str
  | .unknown cmd => [opcodeOfWord cmd]

/-- Modelled from the spec: the encoder of a sequence of records, one record after the
other with nothing between them (the sources hold no encoder). -/
def encode (commands : List Command) : List Nat :=
  commands.flatMap Command.encode

/-- The strings among the arguments of a record. -/
def Command.strings : Command → List QString
  | .stat s => [s]
  | .flst s => [s]
  | .text s _ _ _ => [s]
  | .stxt s _ _ _ => [s]
  | .font s => [s]
  | .algn s => [s]
  | .tbas s => [s]
  | .stst s => [s]
  | .lcap s => [s]
  | .lnjn s => [s]
  | .grcs _ _ s => [s]
  | .mesg s => [s]
  | .time s => [s]
  | _ => []

/-- Whether a record is a latency record. -/
def Command.isLatency : Command → Bool
  | .latn _ _ => true
  | _ => false

/-- Modelled from the spec: a record that the encoder can write so that it can be read
back (the sources hold no encoder). Its words are 32-bit words, its strings are made of
bytes and their lengths leave room for the padding in 32 bits, and an opcode that stands
for an unknown one is a 32-bit value that is none of the case labels. -/
def Command.wellFormed (c : Command) : Bool :=
  c.encode.all (fun w => decide (w < 4294967296)) &&
  c.strings.all
    (fun s => decide (s.length ≤ 0xFFFFFFFC) && s.all (fun b => decide (b < 256))) &&
  (match c with
   | .unknown cmd => decide (cmd < 4294967296) && !handledOpcodes.contains cmd
   | _ => true)

/-! ## RepaintManager: sequences of calls -/

/-- A call of one of the three methods of `RepaintManager`. -/
inductive RepaintCall where
  | requestRepaint (canvas : Nat)
  | cancelRepaintRequest (canvas : Nat)
  | update
deriving DecidableEq, Repr

/-- The manager after a call. -/
def RepaintManager.call (rm : RepaintManager) : RepaintCall → RepaintManager
  | .requestRepaint canvas => rm.requestRepaint canvas
  | .cancelRepaintRequest canvas => rm.cancelRepaintRequest canvas
  | .update => rm.update.2

/-- The manager as it is constructed: no request is pending. -/
def RepaintManager.empty : RepaintManager :=
  { requests := [] }

/-- The manager after a sequence of calls on the manager as constructed. -/
def RepaintManager.after (calls : List RepaintCall) : RepaintManager :=
  calls.foldl RepaintManager.call RepaintManager.empty

/-! ## Reads that move forward -/

/-- A read, or a chain of reads, that either fails on an index outside the buffer or
leaves the index at `i` or after it. -/
def ReadsFrom {α : Type} (i : Nat) (r : Except PaintError (α × Nat)) : Prop :=
  (∃ a j, r = .ok (a, j) ∧ i ≤ j) ∨ ∃ k, r = .error (.outOfBounds k)

/-! ## PyCanvas::paintEvent: the latency samples -/

/-- The loop `while (queue.size() > limit) queue.dequeue();`. -/
def dequeueOver (limit : Nat) : List Int → List Int
  | [] => []
  | x :: rest => if (x :: rest).length > limit then dequeueOver limit rest else x :: rest

/-- The inner loop of the first loop of `paintEvent` on one section: every rendered time
stamp whose `elapsed_ns` is zero gets the time elapsed since its `timestamp_ns`. -/
def CanvasSection.stampElapsed (s : CanvasSection) (current_time_ns : Int) : CanvasSection :=
  { s with m_rendered_timestamps := s.m_rendered_timestamps.map (fun r =>
      if r.elapsed_ns = 0 then { r with elapsed_ns := current_time_ns - r.timestamp_ns }
      else r) }

/-- One pass of the first loop of `paintEvent`, for the entry of `m_sections` with the
section at address `entry.2`: the time stamps of the section are completed and appended
to the local list `rendered_timestamps`. (The pass also collects the image of the section
for drawing, which writes nothing.) -/
def PyCanvas.paintEvent_collect (current_time_ns : Int)
    (acc : PyCanvas × List RenderedTimeStamp) (entry : Int × Nat) :
    PyCanvas × List RenderedTimeStamp :=
  let s := (acc.1.heap entry.2).stampElapsed current_time_ns
  (acc.1.store entry.2 s, acc.2 ++ s.m_rendered_timestamps)

/-- One pass of the second loop of `paintEvent`, for a rendered time stamp: when its
section id is positive the section is looked up with `m_sections[section_id]`; for an id
that is not in the map this yields a null pointer, which the code dereferences: there is
no result. When the section has `record_latency` set, the elapsed time and the time stamp
are enqueued, both queues are cut to 40 entries, and `record_latency` is cleared. (The
pass then builds the frame rate and latency texts from the queues, which writes
nothing.) -/
def PyCanvas.paintEvent_record (c : PyCanvas) (r : RenderedTimeStamp) : Option PyCanvas :=
  if r.section_id > 0 then
    match QMap.value? c.m_sections r.section_id with
    | none => none
    | some p =>
      if (c.heap p).record_latency then
        some (c.store p
          { c.heap p with
            latencies_ns := dequeueOver 40 ((c.heap p).latencies_ns ++ [r.elapsed_ns])
            timestamps_ns := dequeueOver 40 ((c.heap p).timestamps_ns ++ [r.timestamp_ns])
            record_latency := false })
      else some c
  else some c

/-- The second loop of `paintEvent` over the collected time stamps. -/
def PyCanvas.paintEvent_recordAll : PyCanvas → List RenderedTimeStamp → Option PyCanvas
  | c, [] => some c
  | c, r :: rest =>
    match c.paintEvent_record r with
    | none => none
    | some c1 => c1.paintEvent_recordAll rest

/-- The time stamps that the first loop of `paintEvent` collects. -/
def PyCanvas.paintEvent_timestamps (c : PyCanvas) (current_time_ns : Int) :
    List RenderedTimeStamp :=
  (c.m_sections.foldl (PyCanvas.paintEvent_collect current_time_ns) (c, [])).2

/-- The part of `PyCanvas::paintEvent` that runs with `m_sections_mutex` held, as far as
it writes the canvas: the two loops over the sections and over their rendered time
stamps. `current_time_ns` is what `GetCurrentTime()` returns. What is drawn afterwards
(the images and the texts) reads the sections and writes the painter only. -/
def PyCanvas.paintEvent (c : PyCanvas) (current_time_ns : Int) : Option PyCanvas :=
  let collected := c.m_sections.foldl (PyCanvas.paintEvent_collect current_time_ns) (c, [])
  collected.1.paintEvent_recordAll collected.2

/-- A critical section of the threads around a canvas, or a paint event on the main
thread. -/
inductive PaintAction where
  | action (a : Action)
  | paintEvent (current_time_ns : Int)
deriving DecidableEq, Repr

/-- The effect of an action or of a paint event. A paint event that looks up a section id
that is not in `m_sections` has no defined effect and leaves the world as it is. -/
def World.stepPaint (w : World) : PaintAction → World
  | .action a => w.step a
  | .paintEvent current_time_ns =>
    match w.canvas.paintEvent current_time_ns with
    | none => w
    | some c => { w with canvas := c }

/-- The world reached from a freshly constructed canvas by actions and paint events. -/
def World.reachedPainting (actions : List PaintAction) : World :=
  actions.foldl World.stepPaint World.init

/-- The bound that `paintEvent` keeps on the two queues of a section. -/
def CanvasSection.queuesBounded (s : CanvasSection) : Prop :=
  s.latencies_ns.length ≤ 40 ∧ s.latencies_ns.length = s.timestamps_ns.length

/-- The samples of a section are as they were: both queues and `record_latency`. -/
def SameSamples (s s1 : CanvasSection) : Prop :=
  s1.latencies_ns = s.latencies_ns ∧ s1.timestamps_ns = s.timestamps_ns ∧
    s1.record_latency = s.record_latency

/-- The section at address `p`, which is `s1` afterwards, has recorded the sample of the
rendered time stamp `r` of the canvas `c`: the section id of `r` is positive and is the
key of `p` in `m_sections`, the section had `record_latency` set, each of its queues is
the old queue with the sample at the end, cut to its last 40 entries, and
`record_latency` is cleared. -/
def RecordedSample (c : PyCanvas) (r : RenderedTimeStamp) (p : Nat) (s1 : CanvasSection) :
    Prop :=
  r.section_id > 0 ∧ QMap.value? c.m_sections r.section_id = some p ∧
  (c.heap p).record_latency = true ∧
  s1.latencies_ns = ((c.heap p).latencies_ns ++ [r.elapsed_ns]).drop
    (((c.heap p).latencies_ns ++ [r.elapsed_ns]).length - 40) ∧
  s1.timestamps_ns = ((c.heap p).timestamps_ns ++ [r.timestamp_ns]).drop
    (((c.heap p).timestamps_ns ++ [r.timestamp_ns]).length - 40) ∧
  s1.record_latency = false

/-- A canvas with one section, registered under the id 1, that holds 40 samples, has
`record_latency` set and has one rendered time stamp, taken at 100 ns. -/
def examplePaintCanvas : PyCanvas :=
  { this := 0
    m_closing := false
    m_sections := [(1, 0)]
    heap := fun _ =>
      { CanvasSection.new 1 1 with
        record_latency := true
        latencies_ns := 3 :: List.replicate 39 7
        timestamps_ns := 4 :: List.replicate 39 8
        m_rendered_timestamps :=
          [{ transform := { m11 := 1, m12 := 0, m21 := 0, m22 := 1, dx := 0, dy := 0 }
             timestamp_ns := 100
             section_id := 1
             elapsed_ns := 0
             text := [] }] }
    heap_next := 1 }

/-! ## Measurements -/

/-- One pass of the body of `while (discard > 0)` in the constructor of `Measurements`:
the front is popped when something is left to discard and the list is not empty, then the
back likewise. -/
def Measurements.trimPass {α : Type} (discard : Int) (values : List α) : Int × List α :=
  let front : Int × List α :=
    if discard > 0 ∧ values.length ≠ 0 then (discard - 1, values.tail) else (discard, values)
  if front.1 > 0 ∧ front.2.length ≠ 0 then (front.1 - 1, front.2.dropLast) else front

/-- The loop `while (discard > 0)` for at most `fuel` passes; `none` when the passes run
out. -/
def Measurements.trimLoop {α : Type} : Nat → Int → List α → Option (List α)
  | 0, discard, values => if discard > 0 then none else some values
  | fuel + 1, discard, values =>
    if discard > 0 then
      Measurements.trimLoop fuel (Measurements.trimPass discard values).1
        (Measurements.trimPass discard values).2
    else some values

/-- The values that `Measurements` keeps: the values sorted, with `values.size() / 10` of
them discarded by the loop. As many passes are allowed as there are values. -/
def Measurements.kept {F : Type} [LinearOrderedField F] (values_in : List F) :
    Option (List F) :=
  Measurements.trimLoop values_in.length ((values_in.length : Int) / 10)
    (values_in.insertionSort (fun a b => a ≤ b))

/-- The results of `Measurements<T>`. -/
structure Measurements (F : Type) where
  minimum : F
  maximum : F
  average : F
  std_dev : F
  value_string_list : List Int

/-- The constructor `Measurements(values_in)`. `T_max` and `T_min` are
`std::numeric_limits<T>::max()` and `std::numeric_limits<T>::min()`. The result is `none`
when the discarding loop runs out of passes. For an empty list the code divides 0.0 by 0,
which gives a NaN, where the division of the field gives 0. -/
def Measurements.new {F : Type} [LinearOrderedField F] (fn : FloatFn F) (T_max T_min : F)
    (values_in : List F) : Option (Measurements F) :=
  match Measurements.kept values_in with
  | none => none
  | some values =>
    let average : F := values.foldl (fun acc value => acc + value) 0
    let minimum : F := values.foldl (fun m value => if value < m then value else m) T_max
    let maximum : F := values.foldl (fun m value => if value > m then value else m) T_min
    let average := average / (values.length : F)
    let sum_squares : F :=
      values.foldl (fun acc value => acc + (value - average) * (value - average)) 0
    some
      { minimum := minimum
        maximum := maximum
        average := average
        std_dev := fn.sqrt (sum_squares / (values.length : F))
        value_string_list := values.map (fun value => fn.round (value / 1000000)) }

/-! ## The construction of arcTo -/

/-- The values that the case `arct` computes after its special case: the two vectors from
`p1`, their lengths, the cosine of the angle at `p1`, the length of the tangent, the two
tangent points, the centre `p` of the arc, the angles at which the arc starts and ends,
and the direction. The names are those of the code; `orth_p1p0` is the vector that the
code first sets to `(p1p0.y, -p1p0.x)`, then turns towards `p1p2`, and `orth_p1p2` is
`t_p1p2 - p`. -/
structure ArcToGeometry (F : Type) where
  p1p0 : F × F
  p1p2 : F × F
  p1p0_length : F
  p1p2_length : F
  cos_phi : F
  tangent : F
  t_p1p0 : F × F
  orth_p1p0_length : F
  cos_alpha : F
  orth_p1p0 : F × F
  p : F × F
  sa : F
  t_p1p2 : F × F
  orth_p1p2 : F × F
  orth_p1p2_length : F
  ea : F
  anticlockwise : Bool

/-- The general construction of the case `arct`, statement by statement. -/
def arcToGeometry {F : Type} [LinearOrderedField F] (fn : FloatFn F) (p0 p1 p2 : F × F)
    (radius : F) : ArcToGeometry F :=
  let p1p0 : F × F := (p0.1 - p1.1, p0.2 - p1.2)
  let p1p2 : F × F := (p2.1 - p1.1, p2.2 - p1.2)
  let p1p0_length := fn.sqrt (p1p0.1 * p1p0.1 + p1p0.2 * p1p0.2)
  let p1p2_length := fn.sqrt (p1p2.1 * p1p2.1 + p1p2.2 * p1p2.2)
  let cos_phi := (p1p0.1 * p1p2.1 + p1p0.2 * p1p2.2) / (p1p0_length * p1p2_length)
  let tangent := radius / fn.tan (fn.acos cos_phi / 2)
  let factor_p1p0 := tangent / p1p0_length
  let t_p1p0 : F × F := (p1.1 + factor_p1p0 * p1p0.1, p1.2 + factor_p1p0 * p1p0.2)
  let orth_p1p0 : F × F := (p1p0.2, -p1p0.1)
  let orth_p1p0_length := fn.sqrt (orth_p1p0.1 * orth_p1p0.1 + orth_p1p0.2 * orth_p1p0.2)
  let factor_ra := radius / orth_p1p0_length
  let cos_alpha :=
    (orth_p1p0.1 * p1p2.1 + orth_p1p0.2 * p1p2.2) / (orth_p1p0_length * p1p2_length)
  let orth_p1p0 : F × F := if cos_alpha < 0 then (-orth_p1p0.1, -orth_p1p0.2) else orth_p1p0
  let p : F × F := (t_p1p0.1 + factor_ra * orth_p1p0.1, t_p1p0.2 + factor_ra * orth_p1p0.2)
  let orth_back : F × F := (-orth_p1p0.1, -orth_p1p0.2)
  let sa0 := fn.acos (orth_back.1 / orth_p1p0_length)
  let sa := if orth_back.2 < 0 then 2 * fn.pi - sa0 else sa0
  let factor_p1p2 := tangent / p1p2_length
  let t_p1p2 : F × F := (p1.1 + factor_p1p2 * p1p2.1, p1.2 + factor_p1p2 * p1p2.2)
  let orth_p1p2 : F × F := (t_p1p2.1 - p.1, t_p1p2.2 - p.2)
  let orth_p1p2_length := fn.sqrt (orth_p1p2.1 * orth_p1p2.1 + orth_p1p2.2 * orth_p1p2.2)
  let ea0 := fn.acos (orth_p1p2.1 / orth_p1p2_length)
  let ea := if orth_p1p2.2 < 0 then 2 * fn.pi - ea0 else ea0
  let anticlockwise : Bool := arcToAnticlockwise fn sa ea
  { p1p0 := p1p0
    p1p2 := p1p2
    p1p0_length := p1p0_length
    p1p2_length := p1p2_length
    cos_phi := cos_phi
    tangent := tangent
    t_p1p0 := t_p1p0
    orth_p1p0_length := orth_p1p0_length
    cos_alpha := cos_alpha
    orth_p1p0 := orth_p1p0
    p := p
    sa := sa
    t_p1p2 := t_p1p2
    orth_p1p2 := orth_p1p2
    orth_p1p2_length := orth_p1p2_length
    ea := ea
    anticlockwise := anticlockwise }

/-- The floating point functions in exact real arithmetic: the square root, tangent, arc
cosine and π of the reals, the floor for the conversions to integers, no rounding when a
value is stored in a `float` or a `double`, and the words decoded as by
`rationalFloatFn`. -/
noncomputable def realFloatFn : FloatFn ℝ :=
  { ofBits := fun w => ((rationalFloatFn.ofBits w : ℚ) : ℝ)
    ofBits64 := fun w0 w1 => ((rationalFloatFn.ofBits64 w0 w1 : ℚ) : ℝ)
    sqrt := Real.sqrt
    tan := Real.tan
    acos := Real.arccos
    pi := Real.pi
    toInt := fun x => ⌊x⌋
    round := fun x => ⌊x + 1 / 2⌋
    toFloat := fun x => x
    toDouble := fun x => x }

/-! ## The string drawing commands

The interpreter `PaintCommands` works on a list of `CanvasDrawingCommand`: the name of the
command and its arguments as `QVariant` values. It keeps the same local variables as
`PaintBinaryCommands`, and leaves its `Q_FOREACH` loop at a `break` or a `return`. -/

/-- A `QVariant` argument: what its conversions return, and the Python object that
`QVariantToPyObject` makes of it (`none` when the pointer is null). -/
structure QVariant (F : Type) where
  toFloat : F
  toDouble : F
  toInt : Int
  toBool : Bool
  toString : QString
  pyObject : Option Nat

/-- The struct `CanvasDrawingCommand`. -/
structure CanvasDrawingCommand (F : Type) where
  command : QString
  arguments : List (QVariant F)

/-- What `PaintCommands` obtains from Python with `float` sizes:
`PythonSupport::scaledImageFromArray` with the array, the width and height of the
destination, the context scaling, low, high and the colour map. -/
structure VariantSupport (F : Type) where
  scaledImageFromArray : Nat → F → F → F → F → F → Option Nat → Option QImage

/-- The local variables of `PaintCommands` between two commands (`current` holds the
fourteen that `save` copies), the stack, the calls made on the painter so far, and the
diagnostic effects. -/
structure PaintCommandsState (F : Type) where
  current : DrawingContextState F
  stack : List (DrawingContextState F)
  painter : List (PainterCall F)
  diagnostics : List (Diagnostic F)

/-- How the body of the `Q_FOREACH` loop of `PaintCommands` is left: at its end, at a
`break`, or at a `return`. -/
inductive Flow where
  | next
  | breakLoop
  | returnNow
deriving DecidableEq, Repr

/-- The expression `args[i]`: undefined when the list has no such element. -/
def argAt {F : Type} (args : List (QVariant F)) (i : Nat) : Except PaintError (QVariant F) :=
  match args.get? i with
  | some v => .ok v
  | none => .error (.outOfBounds i)

/-- The branch `arcTo` of `PaintCommands`: the path afterwards, and whether the branch
was left at one of its three `return` statements. -/
def PaintCommands.arcTo {F : Type} [LinearOrderedField F] (fn : FloatFn F)
    (path : QPainterPath F) (p0 p1 p2 : F × F) (radius : F) : QPainterPath F × Bool :=
  if p1 = p0 ∨ p1 = p2 ∨ radius = 0 ∨ triangleArea p0 p1 p2 = 0 then
    (path ++ [.lineTo p1.1 p1.2], true)
  else
    let g := arcToGeometry fn p0 p1 p2 radius
    if g.cos_phi = -1 then (path ++ [.lineTo p1.1 p1.2], true)
    else if g.cos_phi = 1 then
      let max_length : F := 65535
      let factor_max := max_length / g.p1p0_length
      let ep : F × F := (p0.1 + factor_max * g.p1p0.1, p0.2 + factor_max * g.p1p0.2)
      (path ++ [.lineTo ep.1 ep.2], true)
    else
      (addArcToPath fn (path ++ [.lineTo g.t_p1p0.1 g.t_p1p0.2]) g.p.1 g.p.2 radius g.sa g.ea
        g.anticlockwise, false)

/-- The image drawn by the branch `image` of `PaintCommands`, if any: the image of the
object `args[2]`, scaled down when the destination is smaller than three quarters of
`width` and `height`. -/
def PaintCommands.image {F : Type} [LinearOrderedField F] (backend : Backend F)
    (fn : FloatFn F) (s : DrawingContextState F) (width height : Int)
    (ndarray_py : Option Nat) (arg6 arg7 : F) : Option QImage :=
  let context_scaling := min s.context_scaling_x s.context_scaling_y
  let destination_size : Int × Int :=
    (fn.round (arg6 * context_scaling), fn.round (arg7 * context_scaling))
  match ndarray_py with
  | none => none
  | some ndarray =>
    match backend.imageFromRGBA ndarray with
    | none => none
    | some image =>
      if (destination_size.1 : F) < (width : F) * (3 / 4) ∨
          (destination_size.2 : F) < (height : F) * (3 / 4) then
        some (backend.scaled image destination_size.1 destination_size.2)
      else some image

/-- The image drawn by the branch `data` of `PaintCommands`, if any. -/
def PaintCommands.data {F : Type} [LinearOrderedField F] (support : VariantSupport F)
    (s : DrawingContextState F) (ndarray_py : Option Nat) (arg6 arg7 low high : F)
    (arg10 : QVariant F) : Option QImage :=
  let context_scaling := min s.context_scaling_x s.context_scaling_y
  match ndarray_py with
  | none => none
  | some ndarray =>
    let colormap : Option Nat := if arg10.toInt ≠ 0 then arg10.pyObject else none
    support.scaledImageFromArray ndarray arg6 arg7 context_scaling low high colormap

/-- The path and the paint call of the branch for `fillText` and `strokeText`. -/
def PaintCommands.text {F : Type} [LinearOrderedField F] (backend : Backend F)
    (fn : FloatFn F) (display_scaling : F) (s : DrawingContextState F) (fillText : Bool)
    (text : QString) (arg1 arg2 : F) : PainterCall F :=
  let text_width := backend.horizontalAdvance s.text_font text
  let x : F := textPosX (arg1 * display_scaling) text_width s.text_align
  let y : F := textPosY (arg2 * display_scaling) (backend.ascent s.text_font)
    (backend.height s.text_font) (backend.xHeight s.text_font) s.text_baseline
  if fillText then .fillPath [.addText x y s.text_font text] (fillBrush s).1
  else
    .strokePath [.addText x y s.text_font text]
      { brush := .color s.line_color
        width := ((fn.toInt (s.line_width * display_scaling) : Int) : F)
        join := s.line_join
        cap := s.line_cap
        dashPattern := [] }

/-- The second half of the chain of tests of `PaintCommands`, from `image` on. -/
def PaintCommands.bodyRest {F : Type} [LinearOrderedField F] (backend : Backend F)
    (support : VariantSupport F) (fn : FloatFn F) (display_scaling : F)
    (st : PaintCommandsState F) (command : CanvasDrawingCommand F) :
    Except PaintError (PaintCommandsState F × Flow) :=
  let args := command.arguments
  let cmd := command.command
  if cmd = ascii "image" then do
    let a1 ← argAt args 1
    let a2 ← argAt args 2
    let a4 ← argAt args 4
    let a5 ← argAt args 5
    let a6 ← argAt args 6
    let a7 ← argAt args 7
    match PaintCommands.image backend fn st.current a1.toInt a2.toInt a2.pyObject
        (a6.toFloat * display_scaling) (a7.toFloat * display_scaling) with
    | none => .ok (st, .next)
    | some image =>
      .ok ({ st with painter := st.painter ++
        [.drawImage (a4.toFloat * display_scaling) (a5.toFloat * display_scaling)
          (a6.toFloat * display_scaling) (a7.toFloat * display_scaling) image] }, .next)
  else if cmd = ascii "data" then do
    let a4 ← argAt args 4
    let a5 ← argAt args 5
    let a6 ← argAt args 6
    let a7 ← argAt args 7
    let a2 ← argAt args 2
    match a2.pyObject with
    | none => .ok (st, .next)
    | some _ =>
      let a10 ← argAt args 10
      let a8 ← argAt args 8
      let a9 ← argAt args 9
      match PaintCommands.data support st.current a2.pyObject (a6.toFloat * display_scaling)
          (a7.toFloat * display_scaling) a8.toFloat a9.toFloat a10 with
      | none => .ok (st, .next)
      | some image =>
        .ok ({ st with painter := st.painter ++
          [.drawImage (a4.toFloat * display_scaling) (a5.toFloat * display_scaling)
            (a6.toFloat * display_scaling) (a7.toFloat * display_scaling) image] }, .next)
  else if cmd = ascii "stroke" then
    .ok ({ st with painter := st.painter ++
      [.strokePath st.current.path (strokePen st.current display_scaling)] }, .next)
  else if cmd = ascii "fill" then
    .ok ({ st with
      painter := st.painter ++ [.fillPath st.current.path (fillBrush st.current).1]
      current := { st.current with gradients := (fillBrush st.current).2 } }, .next)
  else if cmd = ascii "fillStyle" then do
    let a0 ← argAt args 0
    .ok ({ st with current := { st.current with
      fill_color := backend.ParseColorString (backend.simplified a0.toString)
      fill_gradient := -1 } }, .next)
  else if cmd = ascii "fillStyleGradient" then do
    let a0 ← argAt args 0
    .ok ({ st with current := { st.current with fill_gradient := a0.toInt } }, .next)
  else if cmd = ascii "fillText" ∨ cmd = ascii "strokeText" then do
    let a0 ← argAt args 0
    let a1 ← argAt args 1
    let a2 ← argAt args 2
    .ok ({ st with
      painter := st.painter ++
        [PaintCommands.text backend fn display_scaling st.current
          (decide (cmd = ascii "fillText")) a0.toString a1.toFloat a2.toFloat]
      current := { st.current with
        gradients :=
          if cmd = ascii "fillText" then (fillBrush st.current).2
          else st.current.gradients } }, .next)
  else if cmd = ascii "font" then do
    let a0 ← argAt args 0
    .ok ({ st with current := { st.current with
      text_font := { parsed := some (a0.toString, display_scaling) } } }, .next)
  else if cmd = ascii "textAlign" then do
    let a0 ← argAt args 0
    let t1 := if a0.toString = ascii "start" then 1 else st.current.text_align
    let t2 := if a0.toString = ascii "end" then 2 else t1
    let t3 := if a0.toString = ascii "left" then 3 else t2
    let t4 := if a0.toString = ascii "center" then 4 else t3
    let t5 := if a0.toString = ascii "right" then 5 else t4
    .ok ({ st with current := { st.current with text_align := t5 } }, .next)
  else if cmd = ascii "textBaseline" then do
    let a0 ← argAt args 0
    let b1 := if a0.toString = ascii "top" then 1 else st.current.text_baseline
    let b2 := if a0.toString = ascii "hanging" then 2 else b1
    let b3 := if a0.toString = ascii "middle" then 3 else b2
    let b4 := if a0.toString = ascii "alphabetic" then 4 else b3
    let b5 := if a0.toString = ascii "ideographic" then 5 else b4
    let b6 := if a0.toString = ascii "bottom" then 6 else b5
    .ok ({ st with current := { st.current with text_baseline := b6 } }, .next)
  else if cmd = ascii "strokeStyle" then do
    let a0 ← argAt args 0
    .ok ({ st with current := { st.current with
      line_color := backend.ParseColorString (backend.simplified a0.toString) } }, .next)
  else if cmd = ascii "lineDash" then do
    let a0 ← argAt args 0
    .ok ({ st with current := { st.current with line_dash := a0.toFloat } }, .next)
  else if cmd = ascii "lineWidth" then do
    let a0 ← argAt args 0
    .ok ({ st with current := { st.current with line_width := a0.toFloat } }, .next)
  else if cmd = ascii "lineCap" then do
    let a0 ← argAt args 0
    let c1 := if a0.toString = ascii "square" then PenCapStyle.SquareCap
      else st.current.line_cap
    let c2 := if a0.toString = ascii "round" then PenCapStyle.RoundCap else c1
    let c3 := if a0.toString = ascii "butt" then PenCapStyle.FlatCap else c2
    .ok ({ st with current := { st.current with line_cap := c3 } }, .next)
  else if cmd = ascii "lineJoin" then do
    let a0 ← argAt args 0
    let j1 := if a0.toString = ascii "round" then PenJoinStyle.RoundJoin
      else st.current.line_join
    let j2 := if a0.toString = ascii "miter" then PenJoinStyle.MiterJoin else j1
    let j3 := if a0.toString = ascii "bevel" then PenJoinStyle.BevelJoin else j2
    .ok ({ st with current := { st.current with line_join := j3 } }, .next)
  else if cmd = ascii "gradient" then do
    let a0 ← argAt args 0
    let a3 ← argAt args 3
    let a4 ← argAt args 4
    let a5 ← argAt args 5
    let a6 ← argAt args 6
    .ok ({ st with current := { st.current with
      gradients := QMap.insert st.current.gradients a0.toInt
        { line := some (a3.toFloat * display_scaling, a4.toFloat * display_scaling,
            a3.toFloat * display_scaling + a5.toFloat * display_scaling,
            a4.toFloat * display_scaling + a6.toFloat * display_scaling),
          stops := [] } } }, .next)
  else if cmd = ascii "colorStop" then do
    let a0 ← argAt args 0
    let a1 ← argAt args 1
    let a2 ← argAt args 2
    let found := gradientAt st.current.gradients a0.toInt
    .ok ({ st with current := { st.current with
      gradients := QMap.insert found.2 a0.toInt
        (found.1.setColorAt a1.toFloat (backend.colorOfString a2.toString)) } }, .next)
  else if cmd = ascii "sleep" then do
    let a0 ← argAt args 0
    .ok ({ st with diagnostics := st.diagnostics ++
      [.sleep (fn.toInt (a0.toFloat * 1000000))] }, .next)
  else if cmd = ascii "latency" then do
    let a0 ← argAt args 0
    .ok ({ st with diagnostics := st.diagnostics ++ [.latency a0.toDouble] }, .next)
  else if cmd = ascii "message" then do
    let a0 ← argAt args 0
    .ok ({ st with diagnostics := st.diagnostics ++ [.message a0.toString] }, .next)
  else .ok (st, .next)

/-- The body of the `Q_FOREACH` loop of `PaintCommands` for one command: the chain of
`if (cmd == ...)` tests in the order of the code. The result is the state afterwards and
how the body is left. A command that no test matches does nothing. -/
def PaintCommands.body {F : Type} [LinearOrderedField F] (backend : Backend F)
    (support : VariantSupport F) (fn : FloatFn F) (display_scaling : F)
    (st : PaintCommandsState F) (command : CanvasDrawingCommand F) :
    Except PaintError (PaintCommandsState F × Flow) :=
  let args := command.arguments
  let cmd := command.command
  if cmd = ascii "save" then
    .ok ({ st with stack := st.stack ++ [st.current], painter := st.painter ++ [.save] },
      .breakLoop)
  else if cmd = ascii "restore" then
    match st.stack.getLast? with
    | none => .error .takeLastOfEmpty
    | some values =>
      .ok ({ st with current := values, stack := st.stack.dropLast,
                     painter := st.painter ++ [.restore] }, .breakLoop)
  else if cmd = ascii "beginPath" then
    .ok ({ st with current := { st.current with path := [] } }, .next)
  else if cmd = ascii "closePath" then
    .ok ({ st with current := { st.current with
      path := st.current.path ++ [.closeSubpath] } }, .next)
  else if cmd = ascii "clip" then do
    let a0 ← argAt args 0
    let a1 ← argAt args 1
    let a2 ← argAt args 2
    let a3 ← argAt args 3
    .ok ({ st with painter := st.painter ++
      [.setClipRect (a0.toFloat * display_scaling) (a1.toFloat * display_scaling)
        (a2.toFloat * display_scaling) (a3.toFloat * display_scaling)] }, .next)
  else if cmd = ascii "translate" then do
    let a0 ← argAt args 0
    let a1 ← argAt args 1
    .ok ({ st with painter := st.painter ++
      [.translate (a0.toFloat * display_scaling) (a1.toFloat * display_scaling)] }, .next)
  else if cmd = ascii "scale" then do
    let a0 ← argAt args 0
    let a1 ← argAt args 1
    .ok ({ st with
      painter := st.painter ++
        [.scale (a0.toFloat * display_scaling) (a1.toFloat * display_scaling)]
      current := { st.current with
        context_scaling_x := st.current.context_scaling_x * a0.toFloat
        context_scaling_y := st.current.context_scaling_y * a1.toFloat } }, .next)
  else if cmd = ascii "rotate" then do
    let a0 ← argAt args 0
    .ok ({ st with painter := st.painter ++ [.rotate a0.toFloat] }, .next)
  else if cmd = ascii "moveTo" then do
    let a0 ← argAt args 0
    let a1 ← argAt args 1
    .ok ({ st with current := { st.current with path := st.current.path ++
      [.moveTo (a0.toFloat * display_scaling) (a1.toFloat * display_scaling)] } }, .next)
  else if cmd = ascii "lineTo" then do
    let a0 ← argAt args 0
    let a1 ← argAt args 1
    .ok ({ st with current := { st.current with path := st.current.path ++
      [.lineTo (a0.toFloat * display_scaling) (a1.toFloat * display_scaling)] } }, .next)
  else if cmd = ascii "rect" then do
    let a0 ← argAt args 0
    let a1 ← argAt args 1
    let a2 ← argAt args 2
    let a3 ← argAt args 3
    .ok ({ st with current := { st.current with path := st.current.path ++
      [.addRect (a0.toFloat * display_scaling) (a1.toFloat * display_scaling)
        (a2.toFloat * display_scaling) (a3.toFloat * display_scaling)] } }, .next)
  else if cmd = ascii "arc" then do
    let a0 ← argAt args 0
    let a1 ← argAt args 1
    let a2 ← argAt args 2
    let a3 ← argAt args 3
    let a4 ← argAt args 4
    let a5 ← argAt args 5
    -- `clockwise = !args[5].toBool()`, and `!clockwise` is passed as `counter_clockwise`
    let path := addArcToPath fn st.current.path (a0.toFloat * display_scaling)
      (a1.toFloat * display_scaling) (a2.toFloat * display_scaling) a3.toFloat a4.toFloat
      (!(!a5.toBool))
    .ok ({ st with current := { st.current with path := path } }, .next)
  else if cmd = ascii "arcTo" then do
    let a0 ← argAt args 0
    let a1 ← argAt args 1
    let a2 ← argAt args 2
    let a3 ← argAt args 3
    let a4 ← argAt args 4
    let result := PaintCommands.arcTo fn st.current.path
      (backend.currentPosition st.current.path)
      (a0.toFloat * display_scaling, a1.toFloat * display_scaling)
      (a2.toFloat * display_scaling, a3.toFloat * display_scaling)
      (a4.toFloat * display_scaling)
    .ok ({ st with current := { st.current with path := result.1 } },
      if result.2 then .returnNow else .next)
  else if cmd = ascii "cubicTo" then do
    let a0 ← argAt args 0
    let a1 ← argAt args 1
    let a2 ← argAt args 2
    let a3 ← argAt args 3
    let a4 ← argAt args 4
    let a5 ← argAt args 5
    .ok ({ st with current := { st.current with path := st.current.path ++
      [.cubicTo (a0.toFloat * display_scaling) (a1.toFloat * display_scaling)
        (a2.toFloat * display_scaling) (a3.toFloat * display_scaling)
        (a4.toFloat * display_scaling) (a5.toFloat * display_scaling)] } }, .next)
  else if cmd = ascii "quadraticTo" then do
    let a0 ← argAt args 0
    let a1 ← argAt args 1
    let a2 ← argAt args 2
    let a3 ← argAt args 3
    .ok ({ st with current := { st.current with path := st.current.path ++
      [.quadTo (a0.toFloat * display_scaling) (a1.toFloat * display_scaling)
        (a2.toFloat * display_scaling) (a3.toFloat * display_scaling)] } }, .next)
  else if cmd = ascii "statistics" then do
    let a0 ← argAt args 0
    .ok ({ st with diagnostics := st.diagnostics ++
      [.statistics (backend.simplified a0.toString)] }, .next)
  else PaintCommands.bodyRest backend support fn display_scaling st command

/-- The `Q_FOREACH` loop of `PaintCommands`: the bodies in the order of the list, until
the list ends or a body is left at a `break` or a `return`. Nothing follows the loop. -/
def PaintCommands.loop {F : Type} [LinearOrderedField F] (backend : Backend F)
    (support : VariantSupport F) (fn : FloatFn F) (display_scaling : F) :
    List (CanvasDrawingCommand F) → PaintCommandsState F →
      Except PaintError (PaintCommandsState F)
  | [], st => .ok st
  | command :: rest, st =>
    match PaintCommands.body backend support fn display_scaling st command with
    | .error e => .error e
    | .ok (st1, .next) => PaintCommands.loop backend support fn display_scaling rest st1
    | .ok (st1, .breakLoop) => .ok st1
    | .ok (st1, .returnNow) => .ok st1

/-- The state of `PaintCommands` when it enters its loop: the one of
`PaintBinaryCommands`. -/
def PaintCommands.start {F : Type} [LinearOrderedField F] : PaintCommandsState F :=
  { current := (PaintBinaryCommands.start : PaintState F).current
    stack := []
    painter := [.fillRectViewport (.color QColor.transparent)]
    diagnostics := [] }

/-- The function `PaintCommands`: the state when the loop is left. -/
def PaintCommands {F : Type} [LinearOrderedField F] (backend : Backend F)
    (support : VariantSupport F) (fn : FloatFn F) (commands : List (CanvasDrawingCommand F))
    (display_scaling : F) : Except PaintError (PaintCommandsState F) :=
  PaintCommands.loop backend support fn
    (if display_scaling = 0 then backend.GetDisplayScaling else display_scaling)
    commands PaintCommands.start

/-- A `QVariant` that holds a number. -/
def QVariant.ofNumber {F : Type} [LinearOrderedField F] (fn : FloatFn F) (x : F) :
    QVariant F :=
  { toFloat := x, toDouble := x, toInt := fn.toInt x, toBool := decide (x ≠ 0),
    toString := [], pyObject := none }

/-- Support for concrete runs: there are no images. -/
def exampleSupport : VariantSupport ℚ :=
  { scaledImageFromArray := fun _ _ _ _ _ _ _ => none }

/-- The concrete run of `PaintCommands` with the rational instance and display scaling 1. -/
def runCommandsExample (commands : List (CanvasDrawingCommand ℚ)) :
    Except PaintError (PaintCommandsState ℚ) :=
  PaintCommands exampleBackend exampleSupport rationalFloatFn commands 1

/-! # Theorems

## Properties of the section scheduler -/

theorem QMap.value?_insert_self {V : Type} (m : List (Int × V)) (k : Int) (v : V) :
    QMap.value? (QMap.insert m k v) k = some v := by
  induction m with
  | nil => simp [QMap.insert, QMap.value?]
  | cons e rest ih =>
    obtain ⟨k', v'⟩ := e
    by_cases h1 : k < k'
    · simp [QMap.insert, QMap.value?, h1]
    · by_cases h2 : k = k'
      · simp [QMap.insert, QMap.value?, h2]
      · have h3 : ¬ k' = k := fun h => h2 h.symm
        simp [QMap.insert, QMap.value?, h1, h2, h3, ih]

/-- The assignment `m[k] = v` leaves the other keys alone. -/
theorem QMap.value?_insert_of_ne {V : Type} (m : List (Int × V)) (k j : Int) (v : V)
    (h : j ≠ k) : QMap.value? (QMap.insert m k v) j = QMap.value? m j := by
  have hk : ¬ k = j := fun e => h e.symm
  induction m with
  | nil => simp [QMap.insert, QMap.value?, hk]
  | cons e rest ih =>
    obtain ⟨k', v'⟩ := e
    by_cases h1 : k < k'
    · simp [QMap.insert, QMap.value?, h1, hk]
    · by_cases h2 : k = k'
      · subst h2
        simp [QMap.insert, QMap.value?, hk]
      · by_cases h3 : k' = j
        · subst h3
          simp [QMap.insert, QMap.value?, h1, h2]
        · simp [QMap.insert, QMap.value?, h1, h2, h3, ih]

/-- After `m.remove(k)` the key `k` is absent. -/
theorem QMap.value?_remove_self {V : Type} (m : List (Int × V)) (k : Int) :
    QMap.value? (QMap.remove m k) k = none := by
  induction m with
  | nil => simp [QMap.remove, QMap.value?]
  | cons e rest ih =>
    obtain ⟨k', v'⟩ := e
    by_cases h : k' = k
    · simpa [QMap.remove, List.filter_cons, h] using ih
    · simpa [QMap.remove, List.filter_cons, h, QMap.value?] using ih

/-- The call `m.remove(k)` leaves the other keys alone. -/
theorem QMap.value?_remove_of_ne {V : Type} (m : List (Int × V)) (k j : Int) (h : j ≠ k) :
    QMap.value? (QMap.remove m k) j = QMap.value? m j := by
  induction m with
  | nil => simp [QMap.remove, QMap.value?]
  | cons e rest ih =>
    obtain ⟨k', v'⟩ := e
    by_cases h1 : k' = k
    · subst h1
      have h2 : ¬ k' = j := fun e => h e.symm
      simpa [QMap.remove, List.filter_cons, QMap.value?, h2] using ih
    · by_cases h2 : k' = j
      · subst h2
        simp [QMap.remove, List.filter_cons, h1, QMap.value?]
      · simpa [QMap.remove, List.filter_cons, h1, QMap.value?, h2] using ih

/-- What `setBinarySectionCommands` does on a canvas that is not closing, in terms of the
section `p` it works on and the state `s0` in which it finds that section. -/
theorem PyCanvas.setBinarySectionCommands_cases (c : PyCanvas) (screen : Option Rat)
    (a : Nat) (id : Int) (dc : DrawingCommandsSharedPtr) (h : c.m_closing = false) :
    ∃ p s0,
      ((QMap.value? c.m_sections id = some p ∧ s0 = c.heap p ∧
          (c.setBinarySectionCommands screen a id dc).1.m_sections = c.m_sections ∧
          (c.setBinarySectionCommands screen a id dc).1.heap_next = c.heap_next) ∨
        (QMap.value? c.m_sections id = none ∧ p = c.heap_next ∧
          s0 = CanvasSection.new id (screen.getD 1) ∧
          (c.setBinarySectionCommands screen a id dc).1.m_sections
            = QMap.insert c.m_sections id p ∧
          (c.setBinarySectionCommands screen a id dc).1.heap_next = c.heap_next + 1)) ∧
      (c.setBinarySectionCommands screen a id dc).1.m_closing = false ∧
      (c.setBinarySectionCommands screen a id dc).1.this = c.this ∧
      ((s0.m_render_task = none ∧ s0.closing = false ∧
          (c.setBinarySectionCommands screen a id dc).2 = some
            { addr := a, m_section := p, m_drawing_commands := dc,
              m_device_pixel_ratio := s0.m_device_pixel_ratio,
              m_rendered_timestamps := s0.m_rendered_timestamps } ∧
          (c.setBinarySectionCommands screen a id dc).1.heap
            = Function.update c.heap p { s0 with m_render_task := some a }) ∨
        (¬ (s0.m_render_task = none ∧ s0.closing = false) ∧
          (c.setBinarySectionCommands screen a id dc).2 = none ∧
          (c.setBinarySectionCommands screen a id dc).1.heap
            = Function.update c.heap p { s0 with m_pending_drawing_commands := dc })) := by
  cases hv : QMap.value? c.m_sections id with
  | some p =>
    by_cases hc : ((c.heap p).m_render_task = none ∧ (c.heap p).closing = false)
    · refine ⟨p, c.heap p, Or.inl ⟨rfl, rfl, ?_, ?_⟩, ?_, ?_, Or.inl ⟨hc.1, hc.2, ?_, ?_⟩⟩ <;>
        simp [PyCanvas.setBinarySectionCommands, PyCanvas.store, hv, h, hc.1, hc.2]
    · have hc' : ((c.heap p).m_render_task.isNone && !(c.heap p).closing) = false := by
        cases ht : (c.heap p).m_render_task <;> cases hcl : (c.heap p).closing <;>
          simp_all
      refine ⟨p, c.heap p, Or.inl ⟨rfl, rfl, ?_, ?_⟩, ?_, ?_, Or.inr ⟨hc, ?_, ?_⟩⟩ <;>
        simp [PyCanvas.setBinarySectionCommands, PyCanvas.store, hv, h, hc']
  | none =>
    refine ⟨c.heap_next, CanvasSection.new id (screen.getD 1), Or.inr ⟨rfl, rfl, rfl, ?_, ?_⟩,
      ?_, ?_, Or.inl ⟨rfl, rfl, ?_, ?_⟩⟩ <;>
      cases screen <;>
      simp [PyCanvas.setBinarySectionCommands, PyCanvas.store, hv, h, CanvasSection.new]

/-- What `continuePaintingSection` does, in terms of the state `s` in which it finds the
section of the render result. -/
theorem PyCanvas.continuePaintingSection_cases (c : PyCanvas) (rm : RepaintManager)
    (a : Nat) (rr : RenderResult) :
    (c.continuePaintingSection rm a rr).1.m_closing = c.m_closing ∧
    (c.continuePaintingSection rm a rr).1.this = c.this ∧
    (c.continuePaintingSection rm a rr).1.m_sections = c.m_sections ∧
    (c.continuePaintingSection rm a rr).1.heap_next = c.heap_next ∧
    ((c.m_closing = false ∧ (c.heap rr.section_).closing = false ∧
        (c.continuePaintingSection rm a rr).2.1 = rm.requestRepaint c.this ∧
        ((∃ b, (c.heap rr.section_).m_pending_drawing_commands = some b ∧
            (c.continuePaintingSection rm a rr).2.2 = some
              { addr := a, m_section := rr.section_, m_drawing_commands := some b,
                m_device_pixel_ratio := (c.heap rr.section_).m_device_pixel_ratio,
                m_rendered_timestamps := rr.rendered_timestamps } ∧
            (c.continuePaintingSection rm a rr).1.heap = Function.update c.heap rr.section_
              { c.heap rr.section_ with
                m_render_task := some a
                m_pending_drawing_commands := none
                m_rendered_timestamps := rr.rendered_timestamps
                image := rr.image
                image_rect := rr.image_rect
                record_latency := rr.record_latency }) ∨
          ((c.heap rr.section_).m_pending_drawing_commands = none ∧
            (c.continuePaintingSection rm a rr).2.2 = none ∧
            (c.continuePaintingSection rm a rr).1.heap = Function.update c.heap rr.section_
              { c.heap rr.section_ with
                m_render_task := none
                m_pending_drawing_commands := none
                m_rendered_timestamps := rr.rendered_timestamps
                image := rr.image
                image_rect := rr.image_rect
                record_latency := rr.record_latency }))) ∨
      (¬ (c.m_closing = false ∧ (c.heap rr.section_).closing = false) ∧
        (c.continuePaintingSection rm a rr).2.1 = rm ∧
        (c.continuePaintingSection rm a rr).2.2 = none ∧
        (c.continuePaintingSection rm a rr).1.heap = Function.update c.heap rr.section_
          { c.heap rr.section_ with
            m_render_task := none
            m_pending_drawing_commands := none
            m_rendered_timestamps := rr.rendered_timestamps
            image := rr.image
            image_rect := rr.image_rect
            record_latency := rr.record_latency })) := by
  refine ⟨rfl, rfl, rfl, rfl, ?_⟩
  cases hcl : c.m_closing <;> cases hs : (c.heap rr.section_).closing <;>
    cases hp : (c.heap rr.section_).m_pending_drawing_commands <;>
    simp [PyCanvas.continuePaintingSection, PyCanvas.store, hcl, hs, hp]

/-- The invariant holds for a freshly constructed canvas. -/
theorem World.Inv.init : World.Inv World.init := by
  constructor <;> simp [World.init, PyCanvas.new, CanvasSection.new, QMap.value?]

/-- No running task belongs to a section whose `m_render_task` is null. -/
theorem World.Inv.no_task {w : World} (hw : w.Inv) {p : Nat}
    (h : (w.canvas.heap p).m_render_task = none) : ∀ t ∈ w.pool, t.m_section ≠ p := by
  intro t ht hp
  have := hw.handle t ht
  rw [hp, h] at this
  cases this

/-- No running task belongs to a section that is not yet allocated. -/
theorem World.Inv.no_task_fresh {w : World} (hw : w.Inv) :
    ∀ t ∈ w.pool, t.m_section ≠ w.canvas.heap_next := by
  intro t ht hp
  have := hw.alloc t ht
  omega

/-- A submit keeps the invariant. -/
theorem World.Inv.step_submit {w : World} (hw : w.Inv) (id : Int)
    (dc : DrawingCommandsSharedPtr) (screen : Option Rat) :
    (w.step (.submit id dc screen)).Inv := by
  obtain ⟨p, s0, hfind, hcl, -, hact⟩ :=
    PyCanvas.setBinarySectionCommands_cases w.canvas screen w.next_task id dc hw.open_
  -- facts common to both ways of finding the section
  have hnext : w.canvas.heap_next ≤
      (w.canvas.setBinarySectionCommands screen w.next_task id dc).1.heap_next := by
    rcases hfind with ⟨-, -, -, h⟩ | ⟨-, -, -, -, h⟩ <;> omega
  have hp : p < (w.canvas.setBinarySectionCommands screen w.next_task id dc).1.heap_next := by
    rcases hfind with ⟨h1, -, -, h⟩ | ⟨-, h1, -, -, h⟩
    · have := hw.table id p h1; omega
    · omega
  have htable : ∀ j q, QMap.value?
      (w.canvas.setBinarySectionCommands screen w.next_task id dc).1.m_sections j = some q →
      q < (w.canvas.setBinarySectionCommands screen w.next_task id dc).1.heap_next := by
    intro j q hj
    rcases hfind with ⟨-, -, h2, h3⟩ | ⟨h0, h1, -, h2, h3⟩
    · rw [h2] at hj; rw [h3]; exact hw.table j q hj
    · rw [h2] at hj
      by_cases hji : j = id
      · subst hji; rw [QMap.value?_insert_self] at hj; cases hj; omega
      · rw [QMap.value?_insert_of_ne _ _ _ _ hji] at hj
        have := hw.table j q hj; omega
  have hkeep : ∀ j q, QMap.value? w.canvas.m_sections j = some q → QMap.value?
      (w.canvas.setBinarySectionCommands screen w.next_task id dc).1.m_sections j = some q := by
    intro j q hj
    rcases hfind with ⟨-, -, h2, -⟩ | ⟨h0, -, -, h2, -⟩
    · rw [h2]; exact hj
    · rw [h2]
      have hji : j ≠ id := by
        intro e; subst e; rw [h0] at hj; cases hj
      rw [QMap.value?_insert_of_ne _ _ _ _ hji]; exact hj
  have hs0 : ∀ q, q < w.canvas.heap_next → q = p → s0 = w.canvas.heap q := by
    intro q hq e
    subst e
    rcases hfind with ⟨-, h, -, -⟩ | ⟨-, h, -, -, -⟩
    · exact h
    · omega
  rcases hact with ⟨ht0, hc0, hr, hheap⟩ | ⟨hno, hr, hheap⟩
  · -- a task is started
    have hfree : ∀ t ∈ w.pool, t.m_section ≠ p := by
      rcases hfind with ⟨-, h, -, -⟩ | ⟨-, h, -, -, -⟩
      · subst h; exact hw.no_task ht0
      · subst h; exact hw.no_task_fresh
    simp only [World.step, hr, World.start]
    constructor
    · exact hcl
    · intro t ht
      simp only [List.mem_append, List.mem_singleton] at ht
      rcases ht with ht | rfl
      · simp only [hheap, Function.update_noteq (hfree t ht)]
        exact hw.handle t ht
      · simp [hheap]
    · intro q a ha
      simp only [hheap] at ha
      by_cases hq : q = p
      · subst hq
        simp only [Function.update_same] at ha
        cases ha
        exact ⟨_, List.mem_append_right _ (List.mem_singleton_self _), rfl, rfl⟩
      · rw [Function.update_noteq hq] at ha
        obtain ⟨t, ht, h1, h2⟩ := hw.owner q a ha
        exact ⟨t, by simp [ht], h1, h2⟩
    · intro t ht
      simp only [List.mem_append, List.mem_singleton] at ht
      rcases ht with ht | rfl
      · exact Nat.lt_succ_of_lt (hw.fresh t ht)
      · exact Nat.lt_succ_self _
    · intro t ht
      simp only [List.mem_append, List.mem_singleton] at ht
      rcases ht with ht | rfl
      · exact lt_of_lt_of_le (hw.alloc t ht) hnext
      · exact hp
    · exact htable
    · rw [List.pairwise_append]
      refine ⟨hw.apart, by simp, ?_⟩
      intro t ht u hu
      simp only [List.mem_singleton] at hu
      subst hu
      exact ⟨hfree t ht, Nat.ne_of_lt (hw.fresh t ht)⟩
    · intro q hq hpend
      simp only [hheap] at hq hpend ⊢
      by_cases hqp : q = p
      · subst hqp; simp
      · rw [Function.update_noteq hqp] at hq hpend ⊢
        exact hw.pending q hq hpend
    · intro j q hj
      obtain ⟨h1, h2⟩ := hw.waiting j q hj
      refine ⟨lt_of_lt_of_le h1 hnext, ?_⟩
      simp only [hheap]
      by_cases hqp : q = p
      · have := hs0 q h1 hqp
        rw [this, h2] at hc0; cases hc0
      · rw [Function.update_noteq hqp]; exact h2
  · -- the commands are stored as pending
    have hpres : QMap.value? w.canvas.m_sections id = some p ∧ s0 = w.canvas.heap p := by
      rcases hfind with ⟨h1, h2, -, -⟩ | ⟨-, -, h, -, -⟩
      · exact ⟨h1, h2⟩
      · exfalso; apply hno; subst h; simp [CanvasSection.new]
    obtain ⟨hin, hs⟩ := hpres
    subst hs
    simp only [World.step, hr, World.start]
    have htask : ∀ q, ((w.canvas.setBinarySectionCommands screen w.next_task id dc).1.heap
        q).m_render_task = (w.canvas.heap q).m_render_task := by
      intro q
      rw [hheap]
      by_cases hqp : q = p
      · subst hqp; simp
      · rw [Function.update_noteq hqp]
    have hclosing : ∀ q, ((w.canvas.setBinarySectionCommands screen w.next_task id dc).1.heap
        q).closing = (w.canvas.heap q).closing := by
      intro q
      rw [hheap]
      by_cases hqp : q = p
      · subst hqp; simp
      · rw [Function.update_noteq hqp]
    constructor
    · exact hcl
    · intro t ht; rw [htask]; exact hw.handle t ht
    · intro q a ha; rw [htask] at ha; exact hw.owner q a ha
    · exact hw.fresh
    · intro t ht; exact lt_of_lt_of_le (hw.alloc t ht) hnext
    · exact htable
    · exact hw.apart
    · intro q hq hpend
      rw [htask]
      rw [hclosing] at hq
      by_cases hqp : q = p
      · subst hqp
        intro h; exact hno ⟨h, hq⟩
      · rw [hheap, Function.update_noteq hqp] at hpend
        exact hw.pending q hq hpend
    · intro j q hj
      obtain ⟨h1, h2⟩ := hw.waiting j q hj
      exact ⟨lt_of_lt_of_le h1 hnext, by rw [hclosing]; exact h2⟩

/-- The tasks of the pool are told apart by their address as well as by their section. -/
theorem World.Inv.same_task {w : World} (hw : w.Inv) {t u : PyCanvasRenderTask}
    (ht : t ∈ w.pool) (hu : u ∈ w.pool) : u.addr = t.addr ↔ u.m_section = t.m_section := by
  have hsym : Symmetric (fun t u : PyCanvasRenderTask =>
      t.m_section ≠ u.m_section ∧ t.addr ≠ u.addr) :=
    fun a b h => ⟨fun e => h.1 e.symm, fun e => h.2 e.symm⟩
  constructor
  · intro h
    by_contra hne
    have hut : u ≠ t := fun e => hne (by rw [e])
    exact (hw.apart.forall hsym hu ht hut).2 h
  · intro h
    have h1 := hw.handle t ht
    have h2 := hw.handle u hu
    rw [h, h1] at h2
    exact (Option.some.inj h2).symm

/-- The shape of a task completion: the task `t` leaves the pool, its section is
rewritten without pending commands, and at most one new task for the same section is
started. -/
theorem World.Inv.complete_shape {w : World} (hw : w.Inv) {t : PyCanvasRenderTask}
    (ht : t ∈ w.pool) (c : PyCanvas) (rm : RepaintManager) (extra : Option PyCanvasRenderTask)
    (s : CanvasSection)
    (h1 : c.m_closing = false) (h2 : c.m_sections = w.canvas.m_sections)
    (h3 : c.heap_next = w.canvas.heap_next)
    (h4 : c.heap = Function.update w.canvas.heap t.m_section s)
    (h5 : s.closing = (w.canvas.heap t.m_section).closing)
    (h6 : s.m_pending_drawing_commands = none)
    (h7 : (extra = none ∧ s.m_render_task = none) ∨
      (∃ T, extra = some T ∧ T.addr = w.next_task ∧ T.m_section = t.m_section ∧
        s.m_render_task = some w.next_task)) :
    (World.start { w with canvas := c, repaintManager := rm,
                          pool := w.pool.filter (fun u => u.addr != t.addr) } extra).Inv := by
  have hmem : ∀ u, u ∈ w.pool.filter (fun u => u.addr != t.addr) ↔
      u ∈ w.pool ∧ u.m_section ≠ t.m_section := by
    intro u
    rw [List.mem_filter]
    constructor
    · rintro ⟨hu, hne⟩
      refine ⟨hu, fun e => ?_⟩
      have := (hw.same_task ht hu).2 e
      simp [this] at hne
    · rintro ⟨hu, hne⟩
      refine ⟨hu, ?_⟩
      have : u.addr ≠ t.addr := fun e => hne ((hw.same_task ht hu).1 e)
      simpa using this
  have hclosing : ∀ q, (c.heap q).closing = (w.canvas.heap q).closing := by
    intro q
    rw [h4]
    by_cases hq : q = t.m_section
    · subst hq; simpa using h5
    · rw [Function.update_noteq hq]
  have hsub : (w.pool.filter (fun u => u.addr != t.addr)).Pairwise
      (fun t u => t.m_section ≠ u.m_section ∧ t.addr ≠ u.addr) :=
    hw.apart.sublist (List.filter_sublist _)
  rcases h7 with ⟨he, hs⟩ | ⟨T, he, hTa, hTs, hs⟩
  · subst he
    simp only [World.start]
    constructor
    · exact h1
    · intro u hu
      obtain ⟨hu1, hu2⟩ := (hmem u).1 hu
      simp only [h4, Function.update_noteq hu2]
      exact hw.handle u hu1
    · intro q a ha
      simp only [h4] at ha
      by_cases hq : q = t.m_section
      · subst hq
        simp only [Function.update_same, hs] at ha
        cases ha
      · rw [Function.update_noteq hq] at ha
        obtain ⟨u, hu, e1, e2⟩ := hw.owner q a ha
        exact ⟨u, (hmem u).2 ⟨hu, by rw [e2]; exact hq⟩, e1, e2⟩
    · intro u hu; exact hw.fresh u ((hmem u).1 hu).1
    · intro u hu; rw [h3]; exact hw.alloc u ((hmem u).1 hu).1
    · intro j q hj; rw [h2] at hj; rw [h3]; exact hw.table j q hj
    · exact hsub
    · intro q hq hpend
      rw [hclosing] at hq
      simp only [h4] at hpend ⊢
      by_cases hqp : q = t.m_section
      · subst hqp
        simp only [Function.update_same] at hpend
        exact absurd h6 hpend
      · rw [Function.update_noteq hqp] at hpend ⊢
        exact hw.pending q hq hpend
    · intro j q hj
      obtain ⟨e1, e2⟩ := hw.waiting j q hj
      exact ⟨by rw [h3]; exact e1, by rw [hclosing]; exact e2⟩
  · subst he
    simp only [World.start]
    constructor
    · exact h1
    · intro u hu
      simp only [List.mem_append, List.mem_singleton] at hu
      rcases hu with hu | rfl
      · obtain ⟨hu1, hu2⟩ := (hmem u).1 hu
        simp only [h4, Function.update_noteq hu2]
        exact hw.handle u hu1
      · simp [h4, hTs, hs, hTa]
    · intro q a ha
      simp only [h4] at ha
      by_cases hq : q = t.m_section
      · subst hq
        simp only [Function.update_same, hs] at ha
        cases ha
        exact ⟨T, List.mem_append_right _ (List.mem_singleton_self _), hTa, hTs⟩
      · rw [Function.update_noteq hq] at ha
        obtain ⟨u, hu, e1, e2⟩ := hw.owner q a ha
        exact ⟨u, List.mem_append_left _ ((hmem u).2 ⟨hu, by rw [e2]; exact hq⟩), e1, e2⟩
    · intro u hu
      simp only [List.mem_append, List.mem_singleton] at hu
      rcases hu with hu | rfl
      · exact Nat.lt_succ_of_lt (hw.fresh u ((hmem u).1 hu).1)
      · rw [hTa]; exact Nat.lt_succ_self _
    · intro u hu
      simp only [List.mem_append, List.mem_singleton] at hu
      rcases hu with hu | rfl
      · rw [h3]; exact hw.alloc u ((hmem u).1 hu).1
      · rw [h3, hTs]; exact hw.alloc t ht
    · intro j q hj; rw [h2] at hj; rw [h3]; exact hw.table j q hj
    · rw [List.pairwise_append]
      refine ⟨hsub, by simp, ?_⟩
      intro u hu v hv
      simp only [List.mem_singleton] at hv
      subst hv
      obtain ⟨hu1, hu2⟩ := (hmem u).1 hu
      exact ⟨by rw [hTs]; exact hu2, by rw [hTa]; exact Nat.ne_of_lt (hw.fresh u hu1)⟩
    · intro q hq hpend
      rw [hclosing] at hq
      simp only [h4] at hpend ⊢
      by_cases hqp : q = t.m_section
      · subst hqp
        simp only [Function.update_same] at hpend
        exact absurd h6 hpend
      · rw [Function.update_noteq hqp] at hpend ⊢
        exact hw.pending q hq hpend
    · intro j q hj
      obtain ⟨e1, e2⟩ := hw.waiting j q hj
      exact ⟨by rw [h3]; exact e1, by rw [hclosing]; exact e2⟩

/-- A task completion keeps the invariant. -/
theorem World.Inv.step_complete {w : World} (hw : w.Inv) (task : Nat) (image : Option QImage)
    (image_rect : QRect) (ts : List RenderedTimeStamp) (rl : Bool) :
    (w.step (.complete task image image_rect ts rl)).Inv := by
  simp only [World.step]
  cases hfind : w.pool.find? (fun t => t.addr == task) with
  | none => exact hw
  | some t =>
    have htin : t ∈ w.pool := List.mem_of_find?_eq_some hfind
    have hta : t.addr = task := by simpa using List.find?_some hfind
    subst hta
    obtain ⟨e1, -, e2, e3, hcases⟩ := PyCanvas.continuePaintingSection_cases w.canvas
      w.repaintManager w.next_task
      { section_ := t.m_section, image := image, image_rect := image_rect,
        rendered_timestamps := ts, record_latency := rl }
    simp only at hcases ⊢
    rcases hcases with ⟨-, -, -, ⟨b, -, hr, hheap⟩ | ⟨-, hr, hheap⟩⟩ | ⟨-, -, hr, hheap⟩
    · exact hw.complete_shape htin _ _ _ _ (e1.trans hw.open_) e2 e3 hheap rfl rfl
        (Or.inr ⟨_, hr, rfl, rfl, rfl⟩)
    · exact hw.complete_shape htin _ _ _ _ (e1.trans hw.open_) e2 e3 hheap rfl rfl
        (Or.inl ⟨hr, rfl⟩)
    · exact hw.complete_shape htin _ _ _ _ (e1.trans hw.open_) e2 e3 hheap rfl rfl
        (Or.inl ⟨hr, rfl⟩)

/-- Marking a section closing keeps the invariant. -/
theorem World.Inv.mark_closing {w : World} (hw : w.Inv) (p : Nat) :
    World.Inv { w with canvas := w.canvas.store p { w.canvas.heap p with closing := true } } := by
  have htask : ∀ q, (Function.update w.canvas.heap p
      { w.canvas.heap p with closing := true } q).m_render_task
        = (w.canvas.heap q).m_render_task := by
    intro q
    by_cases hq : q = p
    · subst hq; simp
    · rw [Function.update_noteq hq]
  have hpend : ∀ q, (Function.update w.canvas.heap p
      { w.canvas.heap p with closing := true } q).m_pending_drawing_commands
        = (w.canvas.heap q).m_pending_drawing_commands := by
    intro q
    by_cases hq : q = p
    · subst hq; simp
    · rw [Function.update_noteq hq]
  have hclosing : ∀ q, (w.canvas.heap q).closing = true → (Function.update w.canvas.heap p
      { w.canvas.heap p with closing := true } q).closing = true := by
    intro q h
    by_cases hq : q = p
    · subst hq; simp
    · rw [Function.update_noteq hq]; exact h
  have hopen : ∀ q, (Function.update w.canvas.heap p
      { w.canvas.heap p with closing := true } q).closing = false →
      (w.canvas.heap q).closing = false := by
    intro q h
    by_cases hq : q = p
    · subst hq; simp at h
    · rw [Function.update_noteq hq] at h; exact h
  constructor
  · exact hw.open_
  · intro t ht; exact (htask _).trans (hw.handle t ht)
  · intro q a ha; exact hw.owner q a ((htask q).symm.trans ha)
  · exact hw.fresh
  · exact hw.alloc
  · exact hw.table
  · exact hw.apart
  · intro q hq hp
    have h1 := hw.pending q (hopen q hq) (by rw [← hpend q]; exact hp)
    intro h2
    exact h1 ((htask q).symm.trans h2)
  · intro j q hj
    obtain ⟨e1, e2⟩ := hw.waiting j q hj
    exact ⟨e1, hclosing q e2⟩

/-- Deleting a table entry and letting waiting calls of `removeSection` go keeps the
invariant. -/
theorem World.Inv.delete_entry {w : World} (hw : w.Inv) (id : Int)
    (rs : List (Int × Nat)) (hrs : ∀ e, e ∈ rs → e ∈ w.removers) :
    World.Inv { w with canvas := { w.canvas with
                                    m_sections := QMap.remove w.canvas.m_sections id },
                        removers := rs } := by
  constructor
  · exact hw.open_
  · exact hw.handle
  · exact hw.owner
  · exact hw.fresh
  · exact hw.alloc
  · intro j q hj
    by_cases hji : j = id
    · subst hji; simp only [QMap.value?_remove_self] at hj; cases hj
    · simp only [QMap.value?_remove_of_ne _ _ _ hji] at hj; exact hw.table j q hj
  · exact hw.apart
  · exact hw.pending
  · intro j q hj
    exact hw.waiting j q (hrs _ hj)

/-- Adding a waiting call of `removeSection` that holds an allocated section marked closing
keeps the invariant. -/
theorem World.Inv.register {w : World} (hw : w.Inv) (id : Int) (p : Nat)
    (h1 : p < w.canvas.heap_next) (h2 : (w.canvas.heap p).closing = true) :
    World.Inv { w with removers := w.removers ++ [(id, p)] } := by
  constructor
  · exact hw.open_
  · exact hw.handle
  · exact hw.owner
  · exact hw.fresh
  · exact hw.alloc
  · exact hw.table
  · exact hw.apart
  · exact hw.pending
  · intro j q hj
    simp only [List.mem_append, List.mem_singleton, Prod.mk.injEq] at hj
    rcases hj with hj | ⟨rfl, rfl⟩
    · exact hw.waiting j q hj
    · exact ⟨h1, h2⟩

/-- The entry of `removeSection` keeps the invariant. -/
theorem World.Inv.step_remove {w : World} (hw : w.Inv) (id : Int) :
    (w.step (.remove id)).Inv := by
  simp only [World.step, PyCanvas.removeSection_enter]
  cases hfind : QMap.value? w.canvas.m_sections id with
  | none => exact hw
  | some p =>
    have hm := hw.mark_closing p
    simp only [PyCanvas.removeSection_poll]
    split
    · simp only [if_true]
      exact hm.delete_entry id w.removers (fun e he => he)
    · simp only [Bool.false_eq_true, if_false]
      exact hm.register id p (hw.table id p hfind) (by simp [PyCanvas.store])

/-- A poll of a waiting `removeSection` keeps the invariant. -/
theorem World.Inv.step_poll {w : World} (hw : w.Inv) (id : Int) (p : Nat) :
    (w.step (.poll id p)).Inv := by
  simp only [World.step]
  by_cases hwait : (id, p) ∈ w.removers
  · simp only [hwait, if_true, PyCanvas.removeSection_poll]
    split
    · simp only [if_true]
      exact hw.delete_entry id _ (fun e he => List.mem_of_mem_erase he)
    · simp only [Bool.false_eq_true, if_false]
      exact hw
  · simp only [hwait, if_false]
    exact hw

/-- Every action keeps the invariant. -/
theorem World.Inv.step {w : World} (hw : w.Inv) (act : Action) : (w.step act).Inv := by
  cases act with
  | submit id dc screen => exact hw.step_submit id dc screen
  | complete task image image_rect ts rl => exact hw.step_complete task image image_rect ts rl
  | remove id => exact hw.step_remove id
  | poll id p => exact hw.step_poll id p

/-- Every sequence of actions keeps the invariant. -/
theorem World.Inv.exec {w : World} (hw : w.Inv) (actions : List Action) :
    (w.exec actions).Inv := by
  induction actions generalizing w with
  | nil => exact hw
  | cons act rest ih => exact ih (hw.step act)

/-- Tasks with pairwise different sections: at most one of them belongs to a given section. -/
theorem running_length_le_one (l : List PyCanvasRenderTask) (p : Nat)
    (h : l.Pairwise (fun t u => t.m_section ≠ u.m_section ∧ t.addr ≠ u.addr)) :
    (l.filter (fun t => t.m_section == p)).length ≤ 1 := by
  induction l with
  | nil => simp
  | cons t rest ih =>
    rw [List.pairwise_cons] at h
    by_cases ht : t.m_section = p
    · have hrest : rest.filter (fun t => t.m_section == p) = [] := by
        rw [List.filter_eq_nil_iff]
        intro u hu
        have := (h.1 u hu).1
        simpa [← ht] using fun e => this e.symm
      simp [List.filter_cons, ht, hrest]
    · simpa [List.filter_cons, ht] using ih h.2

/-- A submit to a registered section that is rendering only replaces the pending slot. -/
theorem World.step_submit_busy (w : World) (id : Int) (p a : Nat)
    (dc : DrawingCommandsSharedPtr) (screen : Option Rat)
    (h0 : w.canvas.m_closing = false) (h1 : QMap.value? w.canvas.m_sections id = some p)
    (h2 : (w.canvas.heap p).m_render_task = some a) :
    w.step (.submit id dc screen) = { w with canvas := (w.canvas.store p
      { w.canvas.heap p with m_pending_drawing_commands := dc }) } := by
  simp [World.step, PyCanvas.setBinarySectionCommands, h0, h1, h2, World.start]

/-- A submit to a registered section that is idle and not closing starts a task. -/
theorem World.step_submit_idle (w : World) (id : Int) (p : Nat)
    (dc : DrawingCommandsSharedPtr) (screen : Option Rat)
    (h0 : w.canvas.m_closing = false) (h1 : QMap.value? w.canvas.m_sections id = some p)
    (h2 : (w.canvas.heap p).m_render_task = none) (h3 : (w.canvas.heap p).closing = false) :
    w.step (.submit id dc screen) =
      { w with
        canvas := (w.canvas.store p { w.canvas.heap p with m_render_task := some w.next_task })
        pool := w.pool ++ [PyCanvasRenderTask.mk w.next_task p dc
          (w.canvas.heap p).m_device_pixel_ratio (w.canvas.heap p).m_rendered_timestamps]
        launched := w.launched ++ [PyCanvasRenderTask.mk w.next_task p dc
          (w.canvas.heap p).m_device_pixel_ratio (w.canvas.heap p).m_rendered_timestamps]
        next_task := w.next_task + 1 } := by
  simp [World.step, PyCanvas.setBinarySectionCommands, h0, h1, h2, h3, World.start]

/-- Submits to a rendering section, one after the other: only the last buffer is kept. -/
theorem World.exec_submits_busy (bs : List DrawingCommands) (bN : DrawingCommands)
    (w : World) (id : Int) (p a : Nat) (screen : Option Rat)
    (h0 : w.canvas.m_closing = false) (h1 : QMap.value? w.canvas.m_sections id = some p)
    (h2 : (w.canvas.heap p).m_render_task = some a) :
    w.exec ((bs ++ [bN]).map (fun b => Action.submit id (some b) screen)) =
      { w with canvas := (w.canvas.store p
        { w.canvas.heap p with m_pending_drawing_commands := some bN }) } := by
  induction bs generalizing w with
  | nil =>
    simp only [List.nil_append, List.map_cons, List.map_nil, World.exec, List.foldl_cons,
      List.foldl_nil]
    exact World.step_submit_busy w id p a (some bN) screen h0 h1 h2
  | cons b rest ih =>
    simp only [List.cons_append, List.map_cons, World.exec, List.foldl_cons]
    rw [World.step_submit_busy w id p a (some b) screen h0 h1 h2]
    have := ih { w with canvas := (w.canvas.store p
      { w.canvas.heap p with m_pending_drawing_commands := some b }) }
      (by simpa [PyCanvas.store] using h0) (by simpa [PyCanvas.store] using h1)
      (by simpa [PyCanvas.store] using h2)
    simp only [World.exec] at this
    rw [this]
    simp [PyCanvas.store]

/-- The completion of the task that was started last, `t`, when every other task of the
pool has a smaller address. -/
theorem World.step_complete_last (w : World) (pool : List PyCanvasRenderTask)
    (t : PyCanvasRenderTask) (image : Option QImage) (image_rect : QRect)
    (ts : List RenderedTimeStamp) (rl : Bool)
    (hpool : w.pool = pool ++ [t]) (hlt : ∀ u ∈ pool, u.addr < t.addr) :
    w.step (.complete t.addr image image_rect ts rl) =
      World.start
        { w with
          canvas := (w.canvas.continuePaintingSection w.repaintManager w.next_task
            { section_ := t.m_section, image := image, image_rect := image_rect,
              rendered_timestamps := ts, record_latency := rl }).1
          repaintManager := (w.canvas.continuePaintingSection w.repaintManager w.next_task
            { section_ := t.m_section, image := image, image_rect := image_rect,
              rendered_timestamps := ts, record_latency := rl }).2.1
          pool := pool }
        (w.canvas.continuePaintingSection w.repaintManager w.next_task
            { section_ := t.m_section, image := image, image_rect := image_rect,
              rendered_timestamps := ts, record_latency := rl }).2.2 := by
  have hfind : w.pool.find? (fun u => u.addr == t.addr) = some t := by
    rw [hpool, List.find?_append]
    have : pool.find? (fun u => u.addr == t.addr) = none := by
      rw [List.find?_eq_none]
      intro u hu
      have := hlt u hu
      simp only [beq_iff_eq]
      omega
    simp [this]
  have hfilter : w.pool.filter (fun u => u.addr != t.addr) = pool := by
    rw [hpool, List.filter_append]
    have : pool.filter (fun u => u.addr != t.addr) = pool := by
      rw [List.filter_eq_self]
      intro u hu
      have := hlt u hu
      simp only [bne_iff_ne, ne_eq]
      omega
    simp [this]
  simp only [World.step, hfind, hfilter]


/-- C1: in every state reachable from a freshly constructed canvas by submit, task
completion, remove and poll steps in any order (calls of `removeSection` for one id may
overlap), every section object has at most one running render task; its `m_render_task`
is set exactly when such a task is running, and then it is the address of that task; and
a step starts a new task for a section only if the section's `m_render_task` was null
before the step or pointed at the task whose completion the step processes (the handle
being cleared before the new task is created). Two running tasks always belong to two
different section objects, of which at most one is registered in `m_sections`. Section
objects that were created for the same id one after the other can render at the same
time: after `overlappingRemoves`, the poll of the first `removeSection(1)` and one more
submit, the tasks 1 and 2 run for the sections at the addresses 1 and 2, both created for
the id 1, and only the second is registered. -/
theorem at_most_one_render_task (actions : List Action) (p : Nat) :
    ((World.reached actions).running p).length ≤ 1 ∧
    (∀ a, ((World.reached actions).canvas.heap p).m_render_task = some a ↔
      ∃ t ∈ (World.reached actions).running p, t.addr = a) ∧
    (∀ act t, t ∈ ((World.reached actions).step act).running p →
      t ∉ (World.reached actions).pool →
      ((World.reached actions).canvas.heap p).m_render_task = none ∨
      ∃ u ∈ (World.reached actions).running p,
        ((World.reached actions).canvas.heap p).m_render_task = some u.addr ∧
        (∃ image image_rect ts rl, act = .complete u.addr image image_rect ts rl) ∧
        u ∉ ((World.reached actions).step act).pool) ∧
    (∀ t ∈ (World.reached actions).pool, ∀ u ∈ (World.reached actions).pool,
      t.addr ≠ u.addr → t.m_section ≠ u.m_section ∧
        ∀ id, ¬ (QMap.value? (World.reached actions).canvas.m_sections id = some t.m_section ∧
          QMap.value? (World.reached actions).canvas.m_sections id = some u.m_section)) ∧
    ((World.reached (overlappingRemoves ++
        [.poll 1 0, .submit 1 (some (exampleCommands 3)) none])).pool.map
        (fun t => (t.addr, t.m_section)) = [(1, 1), (2, 2)] ∧
      ((World.reached (overlappingRemoves ++
        [.poll 1 0, .submit 1 (some (exampleCommands 3)) none])).canvas.heap 1).m_section_id
        = 1 ∧
      ((World.reached (overlappingRemoves ++
        [.poll 1 0, .submit 1 (some (exampleCommands 3)) none])).canvas.heap 2).m_section_id
        = 1 ∧
      (World.reached (overlappingRemoves ++
        [.poll 1 0, .submit 1 (some (exampleCommands 3)) none])).canvas.m_sections
        = [(1, 2)]) := by
  have hw : (World.reached actions).Inv := World.Inv.init.exec actions
  generalize World.reached actions = w at hw
  refine ⟨running_length_le_one _ _ hw.apart, ?_, ?_, ?_, by decide⟩
  rotate_left 2
  · intro t ht u hu hne
    have hsec : t.m_section ≠ u.m_section := fun e => hne ((hw.same_task hu ht).2 e)
    refine ⟨hsec, ?_⟩
    rintro i ⟨h1, h2⟩
    rw [h1] at h2
    exact hsec (Option.some.inj h2)
  · intro a
    constructor
    · intro h
      obtain ⟨t, ht, e1, e2⟩ := hw.owner p a h
      exact ⟨t, by simp [World.running, ht, e2], e1⟩
    · rintro ⟨t, ht, e⟩
      simp only [World.running, List.mem_filter, beq_iff_eq] at ht
      have := hw.handle t ht.1
      rw [ht.2, e] at this
      exact this
  · intro act t ht hnew
    simp only [World.running, List.mem_filter, beq_iff_eq] at ht
    obtain ⟨ht, htp⟩ := ht
    cases act with
    | submit id dc screen =>
      left
      obtain ⟨q, s0, hfind, -, -, hact⟩ :=
        PyCanvas.setBinarySectionCommands_cases w.canvas screen w.next_task id dc hw.open_
      rcases hact with ⟨ht0, -, hr, -⟩ | ⟨-, hr, -⟩
      · simp only [World.step, hr, World.start, List.mem_append, List.mem_singleton] at ht
        rcases ht with ht | ht
        · exact absurd ht hnew
        · subst ht
          simp only at htp
          subst htp
          rcases hfind with ⟨-, h, -, -⟩ | ⟨-, h, -, -, -⟩
          · rw [← h]; exact ht0
          · cases hrun : (w.canvas.heap q).m_render_task with
            | none => rfl
            | some a =>
              obtain ⟨u, hu, -, e⟩ := hw.owner q a hrun
              have := hw.alloc u hu
              omega
      · simp only [World.step, hr, World.start] at ht
        exact absurd ht hnew
    | complete task image image_rect ts rl =>
      right
      simp only [World.step] at ht ⊢
      cases hfind : w.pool.find? (fun t => t.addr == task) with
      | none =>
        rw [hfind] at ht
        exact absurd ht hnew
      | some u =>
        rw [hfind] at ht
        have hu : u ∈ w.pool := List.mem_of_find?_eq_some hfind
        have hua : u.addr = task := by simpa using List.find?_some hfind
        subst hua
        obtain ⟨-, -, -, -, hcases⟩ := PyCanvas.continuePaintingSection_cases w.canvas
          w.repaintManager w.next_task
          { section_ := u.m_section, image := image, image_rect := image_rect,
            rendered_timestamps := ts, record_latency := rl }
        simp only at hcases ht ⊢
        have hgone : ∀ v, v ∈ w.pool.filter (fun t => t.addr != u.addr) → v ∈ w.pool :=
          fun v hv => (List.mem_filter.1 hv).1
        have hout : u ∉ w.pool.filter (fun t => t.addr != u.addr) := by
          simp [List.mem_filter]
        rcases hcases with ⟨-, -, -, ⟨b, -, hr, -⟩ | ⟨-, hr, -⟩⟩ | ⟨-, -, hr, -⟩
        · simp only [hr, World.start, List.mem_append, List.mem_singleton] at ht ⊢
          rcases ht with ht | ht
          · exact absurd (hgone t ht) hnew
          · subst ht
            simp only at htp
            subst htp
            refine ⟨u, by simp [World.running, hu], hw.handle u hu, ⟨_, _, _, _, rfl⟩, ?_⟩
            rintro (h | h)
            · exact hout h
            · have := hw.fresh u hu
              rw [h] at this
              simp at this
        · simp only [hr, World.start] at ht
          exact absurd (hgone t ht) hnew
        · simp only [hr, World.start] at ht
          exact absurd (hgone t ht) hnew
    | remove id =>
      exfalso
      apply hnew
      simp only [World.step] at ht
      split at ht
      · exact ht
      · split at ht <;> exact ht
    | poll id q =>
      exfalso
      apply hnew
      simp only [World.step] at ht
      split at ht
      · split at ht <;> exact ht
      · exact ht

/-- C5, as stated, fails: after a submit, a `removeSection` that finds the section
rendering and waits, the completion of the task and a further submit, the section is
still registered and holds pending commands without a render task. -/
theorem pending_without_task_counterexample :
    ((World.reached
        [.submit 1 (some (exampleCommands 1)) none,
         .remove 1,
         .complete 0 none { x := 0, y := 0, width := 1, height := 1 } [] false,
         .submit 1 (some (exampleCommands 2)) none]).section? 1).map
      (fun s => (s.state?, s.m_render_task, s.m_pending_drawing_commands, s.closing))
    = some (none, none, some (exampleCommands 2), true) := by
  decide

/-- C5, amended: in every state reachable by submit, task completion, remove and poll
steps, every registered section that is not marked closing is in one of the states Idle,
Rendering and RenderingWithPending; pending commands without a render task are held only
by a section that `removeSection` has marked closing. -/
theorem section_state_of_open_section (actions : List Action) (id : Int) (s : CanvasSection)
    (hs : (World.reached actions).section? id = some s) (hopen : s.closing = false) :
    s.state? = some .Idle ∨ s.state? = some .Rendering ∨
      s.state? = some .RenderingWithPending := by
  have hw : (World.reached actions).Inv := World.Inv.init.exec actions
  generalize World.reached actions = w at hw hs
  simp only [World.section?, Option.map_eq_some'] at hs
  obtain ⟨p, -, rfl⟩ := hs
  have := hw.pending p hopen
  unfold CanvasSection.state?
  cases h1 : (w.canvas.heap p).m_render_task <;>
    cases h2 : (w.canvas.heap p).m_pending_drawing_commands <;> simp_all

/-- Witness for `section_state_of_open_section`: after three submits section 1 is
registered, not closing, and rendering with pending commands. -/
theorem section_state_of_open_section_witness :
    ((World.reached
        [.submit 1 (some (exampleCommands 1)) none,
         .submit 1 (some (exampleCommands 2)) none,
         .submit 1 (some (exampleCommands 3)) none]).canvas.heap 0).closing = false ∧
    ((World.reached
        [.submit 1 (some (exampleCommands 1)) none,
         .submit 1 (some (exampleCommands 2)) none,
         .submit 1 (some (exampleCommands 3)) none]).canvas.heap 0).state?
      = some .RenderingWithPending ∧
    (((World.reached
        [.submit 1 (some (exampleCommands 1)) none,
         .submit 1 (some (exampleCommands 2)) none,
         .submit 1 (some (exampleCommands 3)) none]).canvas.heap 0).state? = some .Idle ∨
     ((World.reached
        [.submit 1 (some (exampleCommands 1)) none,
         .submit 1 (some (exampleCommands 2)) none,
         .submit 1 (some (exampleCommands 3)) none]).canvas.heap 0).state? = some .Rendering ∨
     ((World.reached
        [.submit 1 (some (exampleCommands 1)) none,
         .submit 1 (some (exampleCommands 2)) none,
         .submit 1 (some (exampleCommands 3)) none]).canvas.heap 0).state?
      = some .RenderingWithPending) :=
  ⟨by decide, by decide,
    section_state_of_open_section
      [.submit 1 (some (exampleCommands 1)) none,
       .submit 1 (some (exampleCommands 2)) none,
       .submit 1 (some (exampleCommands 3)) none] 1 _ rfl (by decide)⟩

/-- C2: on a canvas that is not closing, `setBinarySectionCommands(id, buf)` works on the
section registered for `id`, or on a newly constructed and registered one. If that section
has no render task and is not closing, one task carrying `buf` is started, `m_render_task`
becomes that task and the pending slot is left as it was; otherwise no task is started,
`m_render_task` is unchanged and the pending slot becomes `buf`. -/
theorem setBinarySectionCommands_spec (c : PyCanvas) (screen : Option Rat) (a : Nat)
    (id : Int) (buf : DrawingCommandsSharedPtr) (h : c.m_closing = false) :
    ∃ p s0,
      QMap.value? (c.setBinarySectionCommands screen a id buf).1.m_sections id = some p ∧
      (QMap.value? c.m_sections id = some p ∧ s0 = c.heap p ∨
        QMap.value? c.m_sections id = none ∧ s0 = CanvasSection.new id (screen.getD 1)) ∧
      (s0.m_render_task = none ∧ s0.closing = false →
        (c.setBinarySectionCommands screen a id buf).2 = some
          { addr := a, m_section := p, m_drawing_commands := buf,
            m_device_pixel_ratio := s0.m_device_pixel_ratio,
            m_rendered_timestamps := s0.m_rendered_timestamps } ∧
        ((c.setBinarySectionCommands screen a id buf).1.heap p).m_render_task = some a ∧
        ((c.setBinarySectionCommands screen a id buf).1.heap p).m_pending_drawing_commands
          = s0.m_pending_drawing_commands) ∧
      (¬ (s0.m_render_task = none ∧ s0.closing = false) →
        (c.setBinarySectionCommands screen a id buf).2 = none ∧
        ((c.setBinarySectionCommands screen a id buf).1.heap p).m_render_task
          = s0.m_render_task ∧
        ((c.setBinarySectionCommands screen a id buf).1.heap p).m_pending_drawing_commands
          = buf) := by
  obtain ⟨p, s0, hfind, -, -, hact⟩ :=
    PyCanvas.setBinarySectionCommands_cases c screen a id buf h
  refine ⟨p, s0, ?_, ?_, ?_, ?_⟩
  · rcases hfind with ⟨e0, -, e, -⟩ | ⟨-, -, -, e, -⟩
    · rw [e]; exact e0
    · rw [e]; exact QMap.value?_insert_self _ _ _
  · rcases hfind with ⟨e0, e1, -, -⟩ | ⟨e0, -, e1, -, -⟩
    · exact Or.inl ⟨e0, e1⟩
    · exact Or.inr ⟨e0, e1⟩
  · intro hidle
    rcases hact with ⟨-, -, hr, hheap⟩ | ⟨hno, -, -⟩
    · exact ⟨hr, by simp [hheap], by simp [hheap]⟩
    · exact absurd hidle hno
  · intro hbusy
    rcases hact with ⟨h1, h2, -, -⟩ | ⟨-, hr, hheap⟩
    · exact absurd ⟨h1, h2⟩ hbusy
    · exact ⟨hr, by simp [hheap], by simp [hheap]⟩

/-- Witness for `setBinarySectionCommands_spec`: a submit to a fresh canvas (which is not
closing) registers section 5 and starts a task for it. -/
theorem setBinarySectionCommands_spec_witness :
    (PyCanvas.new 0).m_closing = false ∧
    ∃ p s0,
      QMap.value? ((PyCanvas.new 0).setBinarySectionCommands none 7 5
        (some (exampleCommands 1))).1.m_sections 5 = some p ∧
      (QMap.value? (PyCanvas.new 0).m_sections 5 = some p ∧ s0 = (PyCanvas.new 0).heap p ∨
        QMap.value? (PyCanvas.new 0).m_sections 5 = none ∧
          s0 = CanvasSection.new 5 ((none : Option Rat).getD 1)) ∧
      (s0.m_render_task = none ∧ s0.closing = false →
        ((PyCanvas.new 0).setBinarySectionCommands none 7 5 (some (exampleCommands 1))).2 = some
          { addr := 7, m_section := p, m_drawing_commands := some (exampleCommands 1),
            m_device_pixel_ratio := s0.m_device_pixel_ratio,
            m_rendered_timestamps := s0.m_rendered_timestamps } ∧
        (((PyCanvas.new 0).setBinarySectionCommands none 7 5
          (some (exampleCommands 1))).1.heap p).m_render_task = some 7 ∧
        (((PyCanvas.new 0).setBinarySectionCommands none 7 5
          (some (exampleCommands 1))).1.heap p).m_pending_drawing_commands
          = s0.m_pending_drawing_commands) ∧
      (¬ (s0.m_render_task = none ∧ s0.closing = false) →
        ((PyCanvas.new 0).setBinarySectionCommands none 7 5 (some (exampleCommands 1))).2
          = none ∧
        (((PyCanvas.new 0).setBinarySectionCommands none 7 5
          (some (exampleCommands 1))).1.heap p).m_render_task = s0.m_render_task ∧
        (((PyCanvas.new 0).setBinarySectionCommands none 7 5
          (some (exampleCommands 1))).1.heap p).m_pending_drawing_commands
          = some (exampleCommands 1)) :=
  ⟨rfl, setBinarySectionCommands_spec (PyCanvas.new 0) none 7 5 (some (exampleCommands 1)) rfl⟩

/-- C3: when neither the canvas nor the section of the render result is closing,
`continuePaintingSection` installs the image and image rectangle of the result, empties
the pending slot, and, if the pending slot held a buffer `b`, starts one new task carrying
`b` and makes it the section's `m_render_task`; if the slot was empty it starts no task
and leaves `m_render_task` null. -/
theorem continuePaintingSection_spec (c : PyCanvas) (rm : RepaintManager) (a : Nat)
    (rr : RenderResult) (hc : c.m_closing = false) (hs : (c.heap rr.section_).closing = false) :
    ((c.continuePaintingSection rm a rr).1.heap rr.section_).image = rr.image ∧
    ((c.continuePaintingSection rm a rr).1.heap rr.section_).image_rect = rr.image_rect ∧
    ((c.continuePaintingSection rm a rr).1.heap rr.section_).m_pending_drawing_commands
      = none ∧
    (∀ b, (c.heap rr.section_).m_pending_drawing_commands = some b →
      (c.continuePaintingSection rm a rr).2.2 = some
        { addr := a, m_section := rr.section_, m_drawing_commands := some b,
          m_device_pixel_ratio := (c.heap rr.section_).m_device_pixel_ratio,
          m_rendered_timestamps := rr.rendered_timestamps } ∧
      ((c.continuePaintingSection rm a rr).1.heap rr.section_).m_render_task = some a ∧
      ((c.continuePaintingSection rm a rr).1.heap rr.section_).state?
        = some .Rendering) ∧
    ((c.heap rr.section_).m_pending_drawing_commands = none →
      (c.continuePaintingSection rm a rr).2.2 = none ∧
      ((c.continuePaintingSection rm a rr).1.heap rr.section_).m_render_task = none ∧
      ((c.continuePaintingSection rm a rr).1.heap rr.section_).state? = some .Idle) := by
  obtain ⟨-, -, -, -, hcases⟩ := PyCanvas.continuePaintingSection_cases c rm a rr
  rcases hcases with ⟨-, -, -, ⟨b, hb, hr, hheap⟩ | ⟨hb, hr, hheap⟩⟩ | ⟨hno, -, -, -⟩
  · refine ⟨by simp [hheap], by simp [hheap], by simp [hheap], ?_, ?_⟩
    · intro b' hb'
      rw [hb] at hb'
      cases hb'
      exact ⟨hr, by simp [hheap], by simp [hheap, CanvasSection.state?]⟩
    · intro h0
      rw [hb] at h0
      cases h0
  · refine ⟨by simp [hheap], by simp [hheap], by simp [hheap], ?_, ?_⟩
    · intro b' hb'
      rw [hb] at hb'
      cases hb'
    · intro _
      exact ⟨hr, by simp [hheap], by simp [hheap, CanvasSection.state?]⟩
  · exact absurd ⟨hc, hs⟩ hno

/-- Witness for `continuePaintingSection_spec`: after two submits section 1 (address 0)
is rendering with the second buffer pending; the completion of its task starts a task
carrying that buffer. -/
theorem continuePaintingSection_spec_witness :
    (World.reached
        [.submit 1 (some (exampleCommands 1)) none,
         .submit 1 (some (exampleCommands 2)) none]).canvas.m_closing = false ∧
    ((World.reached
        [.submit 1 (some (exampleCommands 1)) none,
         .submit 1 (some (exampleCommands 2)) none]).canvas.heap 0).closing = false ∧
    (((World.reached
        [.submit 1 (some (exampleCommands 1)) none,
         .submit 1 (some (exampleCommands 2)) none]).canvas.continuePaintingSection
          { requests := [] } 1
          { section_ := 0, image := none,
            image_rect := { x := 0, y := 0, width := 1, height := 1 },
            rendered_timestamps := [], record_latency := false }).1.heap 0).state?
      = some .Rendering :=
  ⟨by decide, by decide,
    ((continuePaintingSection_spec
      (World.reached
        [.submit 1 (some (exampleCommands 1)) none,
         .submit 1 (some (exampleCommands 2)) none]).canvas
      { requests := [] } 1
      { section_ := 0, image := none,
        image_rect := { x := 0, y := 0, width := 1, height := 1 },
        rendered_timestamps := [], record_latency := false }
      (by decide) (by decide)).2.2.2.1 (exampleCommands 2) (by decide)).2.2⟩

/-- C4: latest-wins coalescing. Buffers `b1`, ..., `bN` (two or more) are submitted in
order to a registered section that is idle and not closing, then the first task completes
and then the second. Exactly two tasks are started, the first carrying `b1` and the second
carrying `bN`, both for that section; no task carries one of the buffers in between; the
section ends idle, with an empty pending slot and no running task. -/
theorem latest_wins_coalescing (actions : List Action) (id : Int) (p : Nat)
    (screen : Option Rat) (b1 : DrawingCommands) (bs : List DrawingCommands)
    (bN : DrawingCommands)
    (result1 result2 : Option QImage × QRect × List RenderedTimeStamp × Bool)
    (hreg : QMap.value? (World.reached actions).canvas.m_sections id = some p)
    (hidle : ((World.reached actions).canvas.heap p).state? = some .Idle)
    (hopen : ((World.reached actions).canvas.heap p).closing = false) :
    ∃ T1 T2 : PyCanvasRenderTask,
      ((World.reached actions).exec (coalescingRun id screen b1 bs bN
          (World.reached actions).next_task result1 result2)).launched
        = (World.reached actions).launched ++ [T1, T2] ∧
      T1.m_section = p ∧ T1.m_drawing_commands = some b1 ∧
      T2.m_section = p ∧ T2.m_drawing_commands = some bN ∧
      (((World.reached actions).exec (coalescingRun id screen b1 bs bN
          (World.reached actions).next_task result1 result2)).canvas.heap p).state?
        = some .Idle ∧
      ((World.reached actions).exec (coalescingRun id screen b1 bs bN
          (World.reached actions).next_task result1 result2)).running p = [] := by
  have hw : (World.reached actions).Inv := World.Inv.init.exec actions
  generalize World.reached actions = w at hw hreg hidle hopen
  have htask : (w.canvas.heap p).m_render_task = none := by
    unfold CanvasSection.state? at hidle
    cases h1 : (w.canvas.heap p).m_render_task <;>
      cases h2 : (w.canvas.heap p).m_pending_drawing_commands <;> simp_all
  have hpend : (w.canvas.heap p).m_pending_drawing_commands = none := by
    unfold CanvasSection.state? at hidle
    cases h1 : (w.canvas.heap p).m_render_task <;>
      cases h2 : (w.canvas.heap p).m_pending_drawing_commands <;> simp_all
  have hfree : w.running p = [] := by
    simp only [World.running, List.filter_eq_nil_iff, beq_iff_eq]
    exact hw.no_task htask
  simp only [coalescingRun, World.exec, List.foldl_append, List.map_cons, List.foldl_cons,
    List.foldl_nil]
  rw [World.step_submit_idle w id p (some b1) screen hw.open_ hreg htask hopen]
  have h2 := World.exec_submits_busy bs bN
    { w with
      canvas := (w.canvas.store p { w.canvas.heap p with m_render_task := some w.next_task })
      pool := w.pool ++ [PyCanvasRenderTask.mk w.next_task p (some b1)
        (w.canvas.heap p).m_device_pixel_ratio (w.canvas.heap p).m_rendered_timestamps]
      launched := w.launched ++ [PyCanvasRenderTask.mk w.next_task p (some b1)
        (w.canvas.heap p).m_device_pixel_ratio (w.canvas.heap p).m_rendered_timestamps]
      next_task := w.next_task + 1 } id p w.next_task screen
    (by simpa [PyCanvas.store] using hw.open_) (by simpa [PyCanvas.store] using hreg)
    (by simp [PyCanvas.store])
  simp only [World.exec] at h2
  rw [h2]
  rw [World.step_complete_last _ w.pool (PyCanvasRenderTask.mk w.next_task p (some b1)
        (w.canvas.heap p).m_device_pixel_ratio (w.canvas.heap p).m_rendered_timestamps)
      result1.1 result1.2.1 result1.2.2.1 result1.2.2.2 rfl (fun u hu => hw.fresh u hu)]
  simp only [PyCanvas.continuePaintingSection, PyCanvas.store, Function.update_same,
    Function.update_idem, hw.open_, hopen, Option.isSome_some, Bool.not_false, Bool.and_self,
    if_true, World.start]
  rw [World.step_complete_last _ w.pool (PyCanvasRenderTask.mk (w.next_task + 1) p (some bN)
        (w.canvas.heap p).m_device_pixel_ratio result1.2.2.1)
      result2.1 result2.2.1 result2.2.2.1 result2.2.2.2 rfl
      (fun u hu => Nat.lt_succ_of_lt (hw.fresh u hu))]
  simp only [PyCanvas.continuePaintingSection, PyCanvas.store, Function.update_same,
    Function.update_idem, hw.open_, hopen, Option.isSome_none, Bool.not_false, Bool.and_false,
    Bool.false_eq_true, if_false, World.start]
  refine ⟨_, _, by rw [List.append_assoc]; rfl, rfl, rfl, rfl, rfl, ?_, hfree⟩
  simp [CanvasSection.state?]

/-- Witness for `latest_wins_coalescing` with five buffers: section 1 has rendered once and
is idle at address 0; buffers 1 to 5 are then submitted in a burst. -/
theorem latest_wins_coalescing_witness :
    QMap.value? (World.reached exampleIdleActions).canvas.m_sections 1 = some 0 ∧
    ((World.reached exampleIdleActions).canvas.heap 0).state? = some .Idle ∧
    ((World.reached exampleIdleActions).canvas.heap 0).closing = false ∧
    ∃ T1 T2 : PyCanvasRenderTask,
      ((World.reached exampleIdleActions).exec (coalescingRun 1 none (exampleCommands 1)
          [exampleCommands 2, exampleCommands 3, exampleCommands 4] (exampleCommands 5)
          (World.reached exampleIdleActions).next_task exampleResult exampleResult)).launched
        = (World.reached exampleIdleActions).launched ++ [T1, T2] ∧
      T1.m_section = 0 ∧ T1.m_drawing_commands = some (exampleCommands 1) ∧
      T2.m_section = 0 ∧ T2.m_drawing_commands = some (exampleCommands 5) ∧
      (((World.reached exampleIdleActions).exec (coalescingRun 1 none (exampleCommands 1)
          [exampleCommands 2, exampleCommands 3, exampleCommands 4] (exampleCommands 5)
          (World.reached exampleIdleActions).next_task exampleResult
          exampleResult)).canvas.heap 0).state? = some .Idle ∧
      ((World.reached exampleIdleActions).exec (coalescingRun 1 none (exampleCommands 1)
          [exampleCommands 2, exampleCommands 3, exampleCommands 4] (exampleCommands 5)
          (World.reached exampleIdleActions).next_task exampleResult
          exampleResult)).running 0 = [] :=
  ⟨by decide, by decide, by decide,
    latest_wins_coalescing exampleIdleActions 1 0 none (exampleCommands 1)
      [exampleCommands 2, exampleCommands 3, exampleCommands 4] (exampleCommands 5)
      exampleResult exampleResult (by decide) (by decide) (by decide)⟩

/-! ## Properties of the reads of `PaintBinaryCommands` -/

/-- Masking with a shifted mask is masking the shifted number. -/
theorem and_shiftLeft_mask (w m k : Nat) : w &&& (m <<< k) = ((w >>> k) &&& m) <<< k := by
  apply Nat.eq_of_testBit_eq
  intro i
  simp only [Nat.testBit_and, Nat.testBit_shiftLeft, Nat.testBit_shiftRight]
  by_cases h : k ≤ i
  · have : k + (i - k) = i := by omega
    simp [h, this]
  · simp [h]

/-- The mask `0xFF` shifted to byte position `k / 8` selects that byte. -/
theorem byte_mask (w k : Nat) : w &&& (255 <<< k) = (w / 2 ^ k % 256) * 2 ^ k := by
  rw [and_shiftLeft_mask, Nat.shiftLeft_eq, Nat.shiftRight_eq_div_pow]
  have : (255 : Nat) = 2 ^ 8 - 1 := by norm_num
  rw [this, Nat.and_pow_two_sub_one_eq_mod]

/-- The dispatch value in terms of the four bytes of the word. -/
theorem opcodeOfWord_eq (w : Nat) :
    opcodeOfWord w = (w % 256) * 16777216 + (w / 256 % 256) * 65536 +
      (w / 65536 % 256) * 256 + w / 16777216 % 256 := by
  have h0 : w &&& 0x000000FF = w % 256 := by
    have := byte_mask w 0
    simpa using this
  have h1 : w &&& 0x0000FF00 = (w / 256 % 256) * 256 := by
    have := byte_mask w 8
    simpa using this
  have h2 : w &&& 0x00FF0000 = (w / 65536 % 256) * 65536 := by
    have := byte_mask w 16
    simpa using this
  have h3 : w &&& 0xFF000000 = (w / 16777216 % 256) * 16777216 := by
    have := byte_mask w 24
    simpa using this
  unfold opcodeOfWord
  rw [h0, h1, h2, h3]
  simp only [Nat.shiftLeft_eq, Nat.shiftRight_eq_div_pow]
  have e1 : w / 256 % 256 * 256 * 2 ^ 8 = 2 ^ 16 * (w / 256 % 256) := by ring
  have e2 : w / 65536 % 256 * 65536 / 2 ^ 8 = 2 ^ 8 * (w / 65536 % 256) := by
    have : w / 65536 % 256 * 65536 = (w / 65536 % 256 * 256) * 2 ^ 8 := by ring
    rw [this, Nat.mul_div_cancel _ (by norm_num)]; ring
  have e3 : w / 16777216 % 256 * 16777216 / 2 ^ 24 = w / 16777216 % 256 := by
    have : (16777216 : Nat) = 2 ^ 24 := by norm_num
    rw [this, Nat.mul_div_cancel _ (by positivity)]
  have e0 : w % 256 * 2 ^ 24 = 2 ^ 24 * (w % 256) := by ring
  rw [e0, e1, e2, e3]
  have b0 : w % 256 < 256 := Nat.mod_lt _ (by norm_num)
  have b1 : w / 256 % 256 < 256 := Nat.mod_lt _ (by norm_num)
  have b2 : w / 65536 % 256 < 256 := Nat.mod_lt _ (by norm_num)
  have b3 : w / 16777216 % 256 < 256 := Nat.mod_lt _ (by norm_num)
  generalize w % 256 = x0 at *
  generalize w / 256 % 256 = x1 at *
  generalize w / 65536 % 256 = x2 at *
  generalize w / 16777216 % 256 = x3 at *
  rw [Nat.or_assoc, Nat.or_assoc]
  rw [← Nat.mul_add_lt_is_or (show x3 < 2 ^ 8 by omega)]
  rw [← Nat.mul_add_lt_is_or (show 2 ^ 8 * x2 + x3 < 2 ^ 16 by omega)]
  rw [← Nat.mul_add_lt_is_or (show 2 ^ 16 * x1 + (2 ^ 8 * x2 + x3) < 2 ^ 24 by omega)]
  omega

/-- The index increment of `read_string` when the sum `str_len + 3` does not wrap. -/
theorem stringWords_eq (n : Nat) (h : n ≤ 0xFFFFFFFC) : stringWords n = (n + 3) / 4 := by
  unfold stringWords
  have h1 : (n + 3) % 4294967296 = n + 3 := Nat.mod_eq_of_lt (by omega)
  have h2 : (0xFFFFFFFC : Nat) = (2 ^ 30 - 1) <<< 2 := by norm_num [Nat.shiftLeft_eq]
  rw [h1, h2, and_shiftLeft_mask, Nat.and_pow_two_sub_one_eq_mod, Nat.shiftRight_eq_div_pow,
    Nat.shiftLeft_eq]
  have h3 : (n + 3) / 2 ^ 2 % 2 ^ 30 = (n + 3) / 4 := by
    norm_num
    omega
  rw [h3]
  omega

/-- The number of words that hold `n` bytes, `⌈n / 4⌉`. -/
theorem ceil_div_four (n : Nat) : ⌈(n : ℚ) / 4⌉₊ = (n + 3) / 4 := by
  apply le_antisymm
  · rw [Nat.ceil_le, div_le_iff₀ (by norm_num : (0 : ℚ) < 4)]
    have h : n ≤ (n + 3) / 4 * 4 := by omega
    exact_mod_cast h
  · rw [Nat.div_le_iff_le_mul_add_pred (by norm_num)]
    have h1 : (n : ℚ) / 4 ≤ ⌈(n : ℚ) / 4⌉₊ := Nat.le_ceil _
    rw [div_le_iff₀ (by norm_num : (0 : ℚ) < 4)] at h1
    have h2 : n ≤ ⌈(n : ℚ) / 4⌉₊ * 4 := by exact_mod_cast h1
    omega

/-- C10: for four tag bytes `b0`, `b1`, `b2`, `b3` in stream order, held by the
little-endian host in the word `b0 + b1 * 2^8 + b2 * 2^16 + b3 * 2^24`, the value that
`PaintBinaryCommands` dispatches on is the big-endian reading
`b0 * 2^24 + b1 * 2^16 + b2 * 2^8 + b3`. -/
theorem opcode_tag_is_big_endian (b0 b1 b2 b3 : Nat) (h0 : b0 < 256) (h1 : b1 < 256)
    (h2 : b2 < 256) (h3 : b3 < 256) :
    wordBytes (b0 + b1 * 2 ^ 8 + b2 * 2 ^ 16 + b3 * 2 ^ 24) = [b0, b1, b2, b3] ∧
    opcodeOfWord (b0 + b1 * 2 ^ 8 + b2 * 2 ^ 16 + b3 * 2 ^ 24)
      = b0 * 2 ^ 24 + b1 * 2 ^ 16 + b2 * 2 ^ 8 + b3 := by
  constructor
  · simp only [wordBytes, List.cons.injEq, and_true]
    refine ⟨?_, ?_, ?_, ?_⟩ <;> omega
  · rw [opcodeOfWord_eq]
    omega

/-- Witness for `opcode_tag_is_big_endian`: the ASCII bytes `s`, `a`, `v`, `e` dispatch to
the case `0x73617665`. -/
theorem opcode_tag_is_big_endian_witness :
    ('s'.toNat < 256 ∧ 'a'.toNat < 256 ∧ 'v'.toNat < 256 ∧ 'e'.toNat < 256) ∧
    opcodeOfWord ('s'.toNat + 'a'.toNat * 2 ^ 8 + 'v'.toNat * 2 ^ 16 + 'e'.toNat * 2 ^ 24)
      = 0x73617665 :=
  ⟨by decide,
    (opcode_tag_is_big_endian 's'.toNat 'a'.toNat 'v'.toNat 'e'.toNat (by decide) (by decide)
      (by decide) (by decide)).2.trans (by decide)⟩

/-- The bytes of `k` words. -/
theorem length_flatMap_wordBytes (l : List Nat) : (l.flatMap wordBytes).length = 4 * l.length := by
  induction l with
  | nil => rfl
  | cons w rest ih =>
    simp only [List.flatMap_cons, List.length_append, ih, List.length_cons]
    simp only [wordBytes, List.length_cons, List.length_nil]
    omega

/-- A read of a word that is in the buffer. -/
theorem read_uint32_eq (commands : List Nat) (k : Nat) (h : k < commands.length) :
    read_uint32 commands k = .ok (commands.getD k 0, k + 1) := by
  simp only [read_uint32, h, if_true]

/-- A read of a double that is in the buffer. -/
theorem read_double_eq (commands : List Nat) (k : Nat) (h : k + 1 < commands.length) :
    read_double commands k = .ok ((commands.getD k 0, commands.getD (k + 1) 0), k) := by
  simp only [read_double, h, if_true]

/-- A read of a string that is in the buffer. -/
theorem read_string_eq (commands : List Nat) (k : Nat)
    (h : k + 1 + (commands.getD k 0 % 4294967296 + 3) / 4 ≤ commands.length) :
    read_string commands k = .ok
      (((((commands.drop (k + 1)).take ((commands.getD k 0 % 4294967296 + 3) / 4)).flatMap
        wordBytes).take (commands.getD k 0 % 4294967296)),
        k + 1 + stringWords (commands.getD k 0 % 4294967296)) := by
  have hk : k < commands.length := by omega
  simp only [read_string, hk, if_true, h]

/-- The word at an index of the buffer. -/
theorem getD_of_getElem? (commands : List Nat) (i w : Nat) (hw : commands[i]? = some w) :
    i < commands.length ∧ commands.getD i 0 = w := by
  have hlt : i < commands.length := by
    by_contra h
    rw [List.getElem?_eq_none (by omega)] at hw
    cases hw
  exact ⟨hlt, by simp [List.getD, hw]⟩

/-- The length prefix `0xFFFFFFFF` followed by at least `2^30` words: the sum
`str_len + 3` wraps and the index moves past the length word only. -/
theorem read_string_wrap (rest : List Nat) (h : 1073741824 ≤ rest.length) :
    ∃ str, read_string (4294967295 :: rest) 0 = .ok (str, 1) := by
  have hw : stringWords 4294967295 = 0 := by decide
  have hget : (4294967295 :: rest).getD 0 0 % 4294967296 = 4294967295 := by
    simp only [List.getD_cons_zero]
  have hfit : 0 + 1 + ((4294967295 :: rest).getD 0 0 % 4294967296 + 3) / 4
      ≤ (4294967295 :: rest).length := by
    rw [hget, List.length_cons]
    omega
  exact ⟨_, by rw [read_string_eq _ 0 hfit, hget, hw]⟩

/-- C9, as stated, fails: for the length prefix `0xFFFFFFFF`, read at index 0 of a buffer
that holds the whole string, the sum `str_len + 3` wraps and `read_string` leaves the
command index at 1, whereas `0 + 1 + ⌈0xFFFFFFFF / 4⌉` is 1073741825. -/
theorem read_string_index_counterexample :
    (∃ str, read_string (0xFFFFFFFF :: List.replicate 1073741824 0) 0 = .ok (str, 1)) ∧
    0 + 1 + ⌈((0xFFFFFFFF : Nat) : ℚ) / 4⌉₊ = 1073741825 :=
  ⟨read_string_wrap (List.replicate 1073741824 0)
      (le_of_eq (List.length_replicate 1073741824 0).symm),
    by rw [ceil_div_four]⟩

/-- C9, amended: for every length prefix `n ≤ 0xFFFFFFFC` read at word index `i`, the
bytes of the string lying in the buffer, `read_string` returns the `n` bytes and leaves
the command index at `i + 1 + ⌈n / 4⌉`: it skips the length word and the string padded to
the next 4-byte boundary. -/
theorem read_string_index (commands : List Nat) (i n : Nat) (hn : commands[i]? = some n)
    (hle : n ≤ 0xFFFFFFFC) (hfit : i + 1 + ⌈(n : ℚ) / 4⌉₊ ≤ commands.length) :
    ∃ str, read_string commands i = .ok (str, i + 1 + ⌈(n : ℚ) / 4⌉₊) ∧ str.length = n := by
  rw [ceil_div_four] at hfit ⊢
  have hmod : n % 4294967296 = n := Nat.mod_eq_of_lt (by omega)
  obtain ⟨hlt, hget⟩ := getD_of_getElem? commands i n hn
  refine ⟨((((commands.drop (i + 1)).take ((n + 3) / 4)).flatMap wordBytes).take n), ?_, ?_⟩
  · rw [read_string_eq commands i (by rw [hget, hmod]; exact hfit), hget, hmod,
      stringWords_eq n hle]
  · simp only [List.length_take, length_flatMap_wordBytes, List.length_drop]
    omega

/-- Witness for `read_string_index`: the five bytes of `hello` after the length word 5, at
index 1 of a four-word buffer. -/
theorem read_string_index_witness :
    [0x6773656d, 5, 0x6c6c6568, 0x0000006f][1]? = some 5 ∧
    ∃ str, read_string [0x6773656d, 5, 0x6c6c6568, 0x0000006f] 1
        = .ok (str, 1 + 1 + ⌈((5 : Nat) : ℚ) / 4⌉₊) ∧ str.length = 5 :=
  ⟨rfl, read_string_index [0x6773656d, 5, 0x6c6c6568, 0x0000006f] 1 5 rfl (by decide)
    (by rw [ceil_div_four]; decide)⟩

/-- A tag without a case has no arguments to read. -/
theorem fetchArguments_unknown (commands : List Nat) (cmd i : Nat)
    (hunknown : cmd ∉ handledOpcodes) :
    fetchArguments commands cmd i = .ok (.unknown cmd, i) := by
  simp only [handledOpcodes, List.mem_cons, List.mem_singleton, List.not_mem_nil, not_or,
    or_false] at hunknown
  unfold fetchArguments
  split <;> first | rfl | (exfalso; simp at hunknown)

/-- A tag without a case: the reads of the pass are the tag alone. -/
theorem fetch_unknown (commands : List Nat) (i w : Nat) (hw : commands[i]? = some w)
    (hunknown : opcodeOfWord w ∉ handledOpcodes) :
    fetch commands i = .ok (.unknown (opcodeOfWord w), i + 1) := by
  obtain ⟨hlt, hget⟩ := getD_of_getElem? commands i w hw
  simp only [fetch, read_uint32_eq commands i hlt, hget, bind, Except.bind]
  exact fetchArguments_unknown commands _ _ hunknown

/-- C8: for every tag that is not a case label of the `switch`, the pass of the loop
reads the tag word only, leaves the drawing-context state, the stack, the painter calls,
the time stamps and the diagnostics as they are, and the loop goes on at the next word. -/
theorem unknown_opcode_is_skipped {F : Type} [LinearOrderedField F] (backend : Backend F)
    (fn : FloatFn F) (params : PaintParams F) (commands : List Nat) (st : PaintState F)
    (w : Nat) (hw : commands[st.command_index]? = some w)
    (hunknown : opcodeOfWord w ∉ handledOpcodes) (fuel : Nat) :
    fetch commands st.command_index = .ok (.unknown (opcodeOfWord w), st.command_index + 1) ∧
    PaintBinaryCommands.pass backend fn params commands st
      = .ok { st with command_index := st.command_index + 1 } ∧
    PaintBinaryCommands.loop backend fn params commands (fuel + 1) st
      = PaintBinaryCommands.loop backend fn params commands fuel
          { st with command_index := st.command_index + 1 } := by
  have hf := fetch_unknown commands st.command_index w hw hunknown
  have hp : PaintBinaryCommands.pass backend fn params commands st
      = .ok { st with command_index := st.command_index + 1 } := by
    simp only [PaintBinaryCommands.pass, hf, execute]
  have hlt : st.command_index < commands.length := by
    by_contra h
    rw [List.getElem?_eq_none (by omega)] at hw
    cases hw
  refine ⟨hf, hp, ?_⟩
  simp only [PaintBinaryCommands.loop, hlt, if_true, hp]

/-- Witness for `unknown_opcode_is_skipped`: the word `0x12345678` before a `bpth`. -/
theorem unknown_opcode_is_skipped_witness :
    [0x12345678, 0x68747062][(PaintBinaryCommands.start : PaintState ℚ).command_index]?
      = some 0x12345678 ∧
    opcodeOfWord 0x12345678 ∉ handledOpcodes ∧
    PaintBinaryCommands.pass exampleBackend rationalFloatFn
        { imageMap := [], lastRenderedTimestamps := [], display_scaling := 1,
          section_id := 0, devicePixelRatio := 1 }
        [0x12345678, 0x68747062] PaintBinaryCommands.start
      = .ok { (PaintBinaryCommands.start : PaintState ℚ) with command_index := 1 } :=
  ⟨rfl, by decide,
    (unknown_opcode_is_skipped exampleBackend rationalFloatFn
      { imageMap := [], lastRenderedTimestamps := [], display_scaling := 1,
        section_id := 0, devicePixelRatio := 1 }
      [0x12345678, 0x68747062] PaintBinaryCommands.start 0x12345678 rfl (by decide) 1).2.1⟩

/-- The case labels are the opcodes of the table. -/
theorem handledOpcodes_eq : handledOpcodes = opcodeTable.map Prod.fst := by decide

/-- A tag without a case has no arguments in the table. -/
theorem argumentKinds_unknown (cmd : Nat) (h : cmd ∉ handledOpcodes) :
    argumentKinds cmd = [] := by
  have : opcodeTable.lookup cmd = none := by
    rw [List.lookup_eq_none_iff]
    intro p hp
    have hp1 : p.1 ∈ handledOpcodes := by
      rw [handledOpcodes_eq]
      exact List.mem_map_of_mem _ hp
    simp only [bne_iff_ne, ne_eq]
    intro e
    exact h (e ▸ hp1)
  simp [argumentKinds, this]

set_option maxHeartbeats 1000000 in
/-- When the arguments that the table lists for an opcode lie in the buffer, the reads of
its case succeed and end where the table says. -/
theorem fetchArguments_of_argumentsEnd (commands : List Nat) (cmd i j : Nat)
    (h : argumentsEnd commands (argumentKinds cmd) i = some j) :
    ∃ c, fetchArguments commands cmd i = .ok (c, j) := by
  by_cases hmem : cmd ∈ handledOpcodes
  · simp only [handledOpcodes, List.mem_cons, List.mem_singleton, List.not_mem_nil,
      or_false] at hmem
    rcases hmem with rfl | rfl | rfl | rfl | rfl | rfl | rfl | rfl | rfl | rfl | rfl | rfl |
      rfl | rfl | rfl | rfl | rfl | rfl | rfl | rfl | rfl | rfl | rfl | rfl | rfl | rfl |
      rfl | rfl | rfl | rfl | rfl | rfl | rfl | rfl | rfl | rfl | rfl | rfl
    all_goals
      simp only [argumentKinds, opcodeTable, List.lookup, Nat.reduceBEq, argumentsEnd] at h
      unfold fetchArguments
      try simp only [bind, Except.bind, pure, Except.pure]
      try split_ifs at h
      simp only [Option.some.injEq] at h
      subst h
      try simp (disch := omega) only [read_uint32_eq, read_double_eq, read_string_eq]
      exact ⟨_, rfl⟩
  · rw [argumentKinds_unknown cmd hmem] at h
    simp only [argumentsEnd, Option.some.injEq] at h
    subst h
    exact ⟨_, fetchArguments_unknown commands cmd i hmem⟩

/-- The reads of a pass succeed when the record lies in the buffer. -/
theorem fetch_of_recordEnd (commands : List Nat) (i j : Nat)
    (h : recordEnd commands i = some j) : ∃ c, fetch commands i = .ok (c, j) := by
  unfold recordEnd at h
  split_ifs at h with hlt
  obtain ⟨c, hc⟩ := fetchArguments_of_argumentsEnd commands _ _ _ h
  exact ⟨c, by simp only [fetch, read_uint32_eq commands i hlt, bind, Except.bind, hc]⟩

/-- The body of a case reads nothing: it can only fail on an empty stack, and it leaves
`command_index` alone. -/
theorem execute_result {F : Type} [LinearOrderedField F] (backend : Backend F)
    (fn : FloatFn F) (params : PaintParams F) (st : PaintState F) (c : Command) :
    execute backend fn params st c = .error .takeLastOfEmpty ∨
    ∃ st1, execute backend fn params st c = .ok st1 ∧ st1.command_index = st.command_index := by
  cases c <;> simp only [execute] <;> first
    | exact Or.inr ⟨_, rfl, rfl⟩
    | (split <;> first | exact Or.inl rfl | exact Or.inr ⟨_, rfl, rfl⟩)

/-- On a buffer whose records all lie within it, the loop neither reads past the end nor
runs out of passes. -/
theorem loop_of_completeFrom {F : Type} [LinearOrderedField F] (backend : Backend F)
    (fn : FloatFn F) (params : PaintParams F) (commands : List Nat) (fuel : Nat)
    (st : PaintState F) (h : completeFrom commands fuel st.command_index = true) :
    PaintBinaryCommands.loop backend fn params commands fuel st = .error .takeLastOfEmpty ∨
    ∃ st1, PaintBinaryCommands.loop backend fn params commands fuel st = .ok st1 := by
  induction fuel generalizing st with
  | zero =>
    simp only [completeFrom, decide_eq_true_eq] at h
    have : ¬ st.command_index < commands.length := by omega
    exact Or.inr ⟨st, by simp only [PaintBinaryCommands.loop, this, if_false]⟩
  | succ fuel ih =>
    simp only [completeFrom] at h
    simp only [PaintBinaryCommands.loop]
    split_ifs at h ⊢ with hlt
    · cases hr : recordEnd commands st.command_index with
      | none => rw [hr] at h; cases h
      | some j =>
        rw [hr] at h
        obtain ⟨c, hc⟩ := fetch_of_recordEnd commands _ _ hr
        simp only [PaintBinaryCommands.pass, hc]
        rcases execute_result backend fn params { st with command_index := j } c with
          he | ⟨st1, he, hi⟩
        · rw [he]
          exact Or.inl rfl
        · rw [he]
          exact ih st1 (by rw [hi]; exact h)
    · exact Or.inr ⟨st, rfl⟩

/-- C7, as stated, fails: a buffer that ends after the tag of a `move` command is read at
index 1, its length; a buffer whose `mesg` string announces 100 bytes and holds 8 is read
at index 4, its length. (An error `outOfBounds k` is a read of `commands[k]`.) -/
theorem truncated_buffer_counterexample :
    runExample [0x65766f6d] = .error (.outOfBounds 1) ∧
    runExample [0x6773656d, 100, 0x6c6c6568, 0x0000006f] = .error (.outOfBounds 4) := by
  decide

/-- C7, amended: on every buffer in which each record that the interpreter comes to lies
within the buffer, with all the arguments that its opcode and its string length prefixes
call for, `PaintBinaryCommands` returns without reading a word at an index greater than
or equal to the length of the buffer (and stops only for a `restore` on an empty stack).
The bound is tested before a tag is read and nowhere else, so a truncated record is read
past the end. -/
theorem complete_buffer_read_in_bounds {F : Type} [LinearOrderedField F]
    (backend : Backend F) (fn : FloatFn F) (commands : List Nat) (imageMap : List (Int × Nat))
    (lastRenderedTimestamps : List RenderedTimeStamp) (display_scaling : F) (section_id : Int)
    (devicePixelRatio : F) (h : complete commands = true) :
    (∀ k, PaintBinaryCommands backend fn commands imageMap lastRenderedTimestamps
      display_scaling section_id devicePixelRatio ≠ .error (.outOfBounds k)) ∧
    (PaintBinaryCommands backend fn commands imageMap lastRenderedTimestamps
        display_scaling section_id devicePixelRatio = .error .takeLastOfEmpty ∨
      ∃ st, PaintBinaryCommands backend fn commands imageMap lastRenderedTimestamps
        display_scaling section_id devicePixelRatio = .ok st) := by
  have hloop := loop_of_completeFrom backend fn
    { imageMap := imageMap
      lastRenderedTimestamps := lastRenderedTimestamps
      display_scaling := if display_scaling = 0 then backend.GetDisplayScaling
        else display_scaling
      section_id := section_id
      devicePixelRatio := devicePixelRatio }
    commands commands.length PaintBinaryCommands.start h
  refine ⟨?_, hloop⟩
  intro k hk
  unfold PaintBinaryCommands at hk
  rcases hloop with he | ⟨st, he⟩
  · rw [he] at hk; cases hk
  · rw [he] at hk; cases hk

/-- Witness for `complete_buffer_read_in_bounds`: a `move` with its two arguments followed
by a `mesg` with a five-byte string. -/
theorem complete_buffer_read_in_bounds_witness :
    complete [0x65766f6d, 0x42C80000, 0x41A00000, 0x6773656d, 5, 0x6c6c6568, 0x0000006f]
      = true ∧
    ∀ k, runExample
        [0x65766f6d, 0x42C80000, 0x41A00000, 0x6773656d, 5, 0x6c6c6568, 0x0000006f]
      ≠ .error (.outOfBounds k) :=
  ⟨by decide,
    (complete_buffer_read_in_bounds exampleBackend rationalFloatFn
      [0x65766f6d, 0x42C80000, 0x41A00000, 0x6773656d, 5, 0x6c6c6568, 0x0000006f] [] [] 1 0 1
      (by decide)).1⟩

/-! ## The latency record -/

/-- A `latn` record whose two argument words are in the buffer is read with the index
moved past the tag only: `read_double` returns before it adds 2. -/
theorem fetch_latn (commands : List Nat) (i : Nat) (h : i + 2 < commands.length)
    (htag : opcodeOfWord (commands.getD i 0) = 0x6c61746e) :
    fetch commands i =
      .ok (.latn (commands.getD (i + 1) 0) (commands.getD (i + 2) 0), i + 1) := by
  have h1 : i < commands.length := by omega
  have h2 : i + 1 + 1 < commands.length := by omega
  simp only [fetch, read_uint32, h1, if_true, bind, Except.bind, htag]
  unfold fetchArguments
  simp only [read_double, h2, if_true, bind, Except.bind, pure, Except.pure]

/-- C11 (the code departs from the claim): on the buffer of the three words of a latency
record, whose double has the low word `0x68747062` and the high word 0, the record is read
with the index moved by one word, not by three; the loop then reads the two words of the
double as tags, the first being `bpth`; and in a buffer that first moves to a point, the
path is empty afterwards, because that `bpth` was executed. -/
theorem latn_advances_one_word :
    fetch [0x6e74616c, 0x68747062, 0] 0 = .ok (.latn 0x68747062 0, 1) ∧
    decode [0x6e74616c, 0x68747062, 0] = .ok [.latn 0x68747062 0, .bpth, .unknown 0] ∧
    (runExample [0x65766f6d, 0, 0]).map (fun s => s.current.path.length) = .ok 1 ∧
    (runExample [0x65766f6d, 0, 0, 0x6e74616c, 0x68747062, 0]).map
      (fun s => s.current.path.length) = .ok 0 := by
  refine ⟨by decide, by decide, by decide, by decide⟩

/-! ## Decoding what the encoder writes -/

/-- Reversing the bytes of a 32-bit word twice gives the word. -/
theorem opcodeOfWord_involution (w : Nat) (h : w < 4294967296) :
    opcodeOfWord (opcodeOfWord w) = w := by
  rw [opcodeOfWord_eq (opcodeOfWord w), opcodeOfWord_eq w]
  have hw : w = w % 256 + 256 * (w / 256 % 256) + 65536 * (w / 65536 % 256) +
      16777216 * (w / 16777216 % 256) := by omega
  have h0 : w % 256 < 256 := Nat.mod_lt _ (by norm_num)
  have h1 : w / 256 % 256 < 256 := Nat.mod_lt _ (by norm_num)
  have h2 : w / 65536 % 256 < 256 := Nat.mod_lt _ (by norm_num)
  have h3 : w / 16777216 % 256 < 256 := Nat.mod_lt _ (by norm_num)
  generalize w % 256 = a0 at hw h0 ⊢
  generalize w / 256 % 256 = a1 at hw h1 ⊢
  generalize w / 65536 % 256 = a2 at hw h2 ⊢
  generalize w / 16777216 % 256 = a3 at hw h3 ⊢
  have d1 : (a0 * 16777216 + a1 * 65536 + a2 * 256 + a3) / 256 =
      a0 * 65536 + a1 * 256 + a2 := by clear hw; omega
  have d2 : (a0 * 16777216 + a1 * 65536 + a2 * 256 + a3) / 65536 = a0 * 256 + a1 := by
    clear hw d1; omega
  have d3 : (a0 * 16777216 + a1 * 65536 + a2 * 256 + a3) / 16777216 = a0 := by
    clear hw d1 d2; omega
  have e0 : (a0 * 16777216 + a1 * 65536 + a2 * 256 + a3) % 256 = a3 := by
    clear hw d1 d2 d3; omega
  have m1 : (a0 * 65536 + a1 * 256 + a2) % 256 = a2 := by clear hw d1 d2 d3 e0; omega
  have m2 : (a0 * 256 + a1) % 256 = a1 := by clear hw d1 d2 d3 e0 m1; omega
  have m3 : a0 % 256 = a0 := Nat.mod_eq_of_lt h0
  rw [d1, d2, d3, e0, m1, m2, m3, hw]
  ring

/-- The bytes of a string fill the words that `read_string` steps over. -/
theorem length_packWords (s : List Nat) : (packWords s).length = (s.length + 3) / 4 := by
  induction s using packWords.induct with
  | case1 b0 b1 b2 b3 rest ih =>
    simp only [packWords, List.length_cons, ih]
    omega
  | case2 b0 b1 b2 => simp [packWords]
  | case3 b0 b1 => simp [packWords]
  | case4 b0 => simp [packWords]
  | case5 => simp [packWords]

/-- The bytes of a word made of four bytes. -/
theorem wordBytes_pack (b0 b1 b2 b3 : Nat) (h0 : b0 < 256) (h1 : b1 < 256) (h2 : b2 < 256)
    (h3 : b3 < 256) :
    wordBytes (b0 + 256 * b1 + 65536 * b2 + 16777216 * b3) = [b0, b1, b2, b3] := by
  simp only [wordBytes, List.cons.injEq, and_true]
  omega

/-- The bytes of the words of a string, cut at its length, are the string. -/
theorem take_flatMap_packWords (s : List Nat) (h : ∀ b ∈ s, b < 256) :
    ((packWords s).flatMap wordBytes).take s.length = s := by
  induction s using packWords.induct with
  | case1 b0 b1 b2 b3 rest ih =>
    have h0 := h b0 (by simp)
    have h1 := h b1 (by simp)
    have h2 := h b2 (by simp)
    have h3 := h b3 (by simp)
    have hr : ∀ b ∈ rest, b < 256 := fun b hb => h b (by simp [hb])
    simp only [packWords, List.flatMap_cons, wordBytes_pack b0 b1 b2 b3 h0 h1 h2 h3,
      List.length_cons, List.cons_append, List.nil_append, List.take_succ_cons, ih hr]
  | case2 b0 b1 b2 =>
    have h0 := h b0 (by simp)
    have h1 := h b1 (by simp)
    have h2 := h b2 (by simp)
    have := wordBytes_pack b0 b1 b2 0 h0 h1 h2 (by norm_num)
    simp only [Nat.mul_zero, Nat.add_zero] at this
    simp [packWords, this]
  | case3 b0 b1 =>
    have h0 := h b0 (by simp)
    have h1 := h b1 (by simp)
    have := wordBytes_pack b0 b1 0 0 h0 h1 (by norm_num) (by norm_num)
    simp only [Nat.mul_zero, Nat.add_zero] at this
    simp [packWords, this]
  | case4 b0 =>
    have h0 := h b0 (by simp)
    have := wordBytes_pack b0 0 0 0 h0 (by norm_num) (by norm_num) (by norm_num)
    simp only [Nat.mul_zero, Nat.add_zero] at this
    simp [packWords, this]
  | case5 => simp [packWords]

/-- The words after index `i + 1` when the words after index `i` are known. -/
theorem drop_succ_of_drop (l : List Nat) (i a : Nat) (rest : List Nat)
    (h : l.drop i = a :: rest) : l.drop (i + 1) = rest := by
  have := congrArg List.tail h
  rw [List.tail_drop] at this
  simpa using this

/-- The words after a block when the words from its start on are known. -/
theorem drop_add_of_drop (l : List Nat) (i : Nat) (a rest : List Nat)
    (h : l.drop i = a ++ rest) : l.drop (i + a.length) = rest := by
  have : l.drop (i + a.length) = (l.drop i).drop a.length := by
    rw [List.drop_drop, Nat.add_comm]
  rw [this, h, List.drop_left]

/-- An index with a word after it is in the buffer. -/
theorem lt_length_of_drop (l : List Nat) (i a : Nat) (rest : List Nat)
    (h : l.drop i = a :: rest) : i < l.length := by
  by_contra hge
  rw [List.drop_eq_nil_of_le (by omega)] at h
  cases h

/-- A read of the word at the head of what is left of the buffer. -/
theorem read_uint32_of_drop (l : List Nat) (i a : Nat) (rest : List Nat)
    (h : l.drop i = a :: rest) : read_uint32 l i = .ok (a, i + 1) := by
  have hlt := lt_length_of_drop l i a rest h
  have hget : l.getD i 0 = a := by
    have h1 : (l.drop i).head? = some a := by rw [h]; rfl
    rw [List.head?_drop] at h1
    rw [List.getD_eq_getElem?_getD, h1]
    rfl
  rw [read_uint32_eq l i hlt, hget]

/-- A read of an encoded string at the head of what is left of the buffer. -/
theorem read_string_of_drop (l : List Nat) (i : Nat) (s rest : List Nat)
    (h : l.drop i = encodeString s ++ rest) (hlen : s.length ≤ 0xFFFFFFFC)
    (hb : ∀ b ∈ s, b < 256) :
    read_string l i = .ok (s, i + (encodeString s).length) := by
  have hidx : i + (encodeString s).length = i + 1 + (packWords s).length := by
    simp only [encodeString, List.length_cons]; omega
  rw [hidx]
  simp only [encodeString, List.cons_append] at h
  have hlt := lt_length_of_drop l i _ _ h
  have hget : l.getD i 0 = s.length := by
    have h1 : (l.drop i).head? = some s.length := by rw [h]; rfl
    rw [List.head?_drop] at h1
    rw [List.getD_eq_getElem?_getD, h1]
    rfl
  have hmod : s.length % 4294967296 = s.length := Nat.mod_eq_of_lt (by omega)
  have hd := drop_succ_of_drop l i _ _ h
  have hlength : l.length = i + (1 + ((packWords s).length + rest.length)) := by
    have := congrArg List.length h
    simp only [List.length_drop, List.length_cons, List.length_append] at this
    omega
  have hwords := length_packWords s
  rw [read_string_eq l i (by rw [hget, hmod]; omega), hget, hmod, hd, ← hwords,
    List.take_left', take_flatMap_packWords s hb, stringWords_eq s.length hlen, hwords]
  rfl


/-- The function `read_uint32` in terms of what is left of the buffer. -/
theorem read_uint32_drop (l : List Nat) (i : Nat) :
    read_uint32 l i =
      match l.drop i with
      | [] => .error (.outOfBounds i)
      | a :: _ => .ok (a, i + 1) := by
  cases hd : l.drop i with
  | nil =>
    have : ¬ i < l.length := by
      intro hlt
      have := congrArg List.length hd
      simp only [List.length_drop, List.length_nil] at this
      omega
    simp only [read_uint32, this, if_false]
  | cons a rest => exact read_uint32_of_drop l i a rest hd

/-- Dropping one word more. -/
theorem drop_succ_tail (l : List Nat) (i : Nat) : l.drop (i + 1) = (l.drop i).tail :=
  (List.tail_drop l i).symm

/-- The strings of a well-formed record. -/
theorem wellFormed_strings (c : Command) (hwf : c.wellFormed = true) :
    ∀ s ∈ c.strings, s.length ≤ 0xFFFFFFFC ∧ ∀ b ∈ s, b < 256 := by
  intro s hs
  simp only [Command.wellFormed, Bool.and_eq_true, List.all_eq_true, decide_eq_true_eq] at hwf
  exact hwf.1.2 s hs

/-- The opcode of a well-formed record with an unknown opcode. -/
theorem wellFormed_unknown (cmd : Nat) (hwf : (Command.unknown cmd).wellFormed = true) :
    cmd < 4294967296 ∧ cmd ∉ handledOpcodes := by
  simp only [Command.wellFormed, Bool.and_eq_true, decide_eq_true_eq, Bool.not_eq_true'] at hwf
  refine ⟨hwf.2.1, ?_⟩
  intro hmem
  have := hwf.2.2
  simp [hmem] at this

set_option maxHeartbeats 1000000 in
/-- A pass on the encoding of a well-formed record other than `latn` reads the record back
and stops after it. -/
theorem fetch_of_drop (l : List Nat) (i : Nat) (c : Command) (rest : List Nat)
    (h : l.drop i = c.encode ++ rest) (hwf : c.wellFormed = true)
    (hl : c.isLatency = false) : fetch l i = .ok (c, i + c.encode.length) := by
  cases c
  case latn => cases hl
  case unknown cmd =>
    obtain ⟨h1, h2⟩ := wellFormed_unknown cmd hwf
    simp only [Command.encode, List.cons_append, List.nil_append] at h
    simp only [fetch, read_uint32_drop l i, h, bind, Except.bind]
    rw [opcodeOfWord_involution cmd h1, fetchArguments_unknown l cmd (i + 1) h2]
    rfl
  case text s a1 a2 mw =>
    have hs := wellFormed_strings _ hwf s (by simp [Command.strings])
    simp only [Command.encode, List.cons_append, List.nil_append, List.append_assoc] at h
    have hd := drop_succ_of_drop l i _ _ h
    have hj := drop_add_of_drop l (i + 1) _ _ hd
    simp only [fetch, read_uint32_drop l i, h, bind, Except.bind]
    rw [opcodeOfWord_involution _ (by norm_num)]
    unfold fetchArguments
    simp only [bind, Except.bind, read_string_of_drop l (i + 1) s _ hd hs.1 hs.2,
      read_uint32_drop, drop_succ_tail, hj, List.tail_cons, pure, Except.pure, Command.encode,
      List.length_cons, List.length_append, List.length_nil, Except.ok.injEq, Prod.mk.injEq,
      true_and]
    omega
  case stxt s a1 a2 mw =>
    have hs := wellFormed_strings _ hwf s (by simp [Command.strings])
    simp only [Command.encode, List.cons_append, List.nil_append, List.append_assoc] at h
    have hd := drop_succ_of_drop l i _ _ h
    have hj := drop_add_of_drop l (i + 1) _ _ hd
    simp only [fetch, read_uint32_drop l i, h, bind, Except.bind]
    rw [opcodeOfWord_involution _ (by norm_num)]
    unfold fetchArguments
    simp only [bind, Except.bind, read_string_of_drop l (i + 1) s _ hd hs.1 hs.2,
      read_uint32_drop, drop_succ_tail, hj, List.tail_cons, pure, Except.pure, Command.encode,
      List.length_cons, List.length_append, List.length_nil, Except.ok.injEq, Prod.mk.injEq,
      true_and]
    omega
  case grcs a0 a1 s =>
    have hs := wellFormed_strings _ hwf s (by simp [Command.strings])
    simp only [Command.encode, List.cons_append, List.nil_append, List.append_assoc] at h
    have hd := drop_succ_of_drop l _ _ _ (drop_succ_of_drop l _ _ _ (drop_succ_of_drop l i _ _ h))
    simp only [fetch, read_uint32_drop l i, h, bind, Except.bind]
    rw [opcodeOfWord_involution _ (by norm_num)]
    unfold fetchArguments
    simp only [bind, Except.bind, read_string_of_drop l (i + 1 + 1 + 1) s _ hd hs.1 hs.2,
      read_uint32_drop, drop_succ_tail, h, List.tail_cons, pure, Except.pure, Command.encode,
      List.length_cons, List.length_append, List.length_nil, Except.ok.injEq, Prod.mk.injEq,
      true_and]
    omega
  all_goals
    simp only [Command.encode, List.cons_append, List.nil_append, List.append_assoc] at h
    simp only [fetch, read_uint32_drop l i, h, bind, Except.bind]
    rw [opcodeOfWord_involution _ (by norm_num)]
    unfold fetchArguments
    first
      | rfl
      | (simp only [read_uint32_drop, drop_succ_tail, h, List.tail_cons, bind, Except.bind,
          pure, Except.pure, Command.encode, List.length_cons, List.length_nil]
         done)
      | (rename_i s
         have hs := wellFormed_strings _ hwf s (by simp [Command.strings])
         simp only [bind, Except.bind,
           read_string_of_drop l (i + 1) s rest (drop_succ_of_drop l i _ _ h) hs.1 hs.2, pure,
           Except.pure, Command.encode, List.length_cons, Except.ok.injEq, Prod.mk.injEq,
           true_and]
         omega)

/-- Every record is encoded with at least its tag. -/
theorem encode_eq_cons (c : Command) : ∃ a tl, c.encode = a :: tl := by
  cases c <;> exact ⟨_, _, rfl⟩

/-- There are at most as many records as words. -/
theorem length_le_encode (cs : List Command) : cs.length ≤ (encode cs).length := by
  induction cs with
  | nil => simp
  | cons c rest ih =>
    obtain ⟨a, tl, h⟩ := encode_eq_cons c
    simp only [encode, List.flatMap_cons, List.length_append, List.length_cons, h] at ih ⊢
    omega

/-- The loop reads the records of an encoding one after the other. -/
theorem decodeFrom_encode (l : List Nat) (cs : List Command) :
    ∀ (i fuel : Nat), l.drop i = encode cs →
      (∀ c ∈ cs, c.wellFormed = true ∧ c.isLatency = false) → cs.length ≤ fuel →
      decodeFrom l fuel i = .ok cs := by
  induction cs with
  | nil =>
    intro i fuel h _ _
    have hge : ¬ i < l.length := by
      intro hlt
      have := congrArg List.length h
      simp only [List.length_drop, encode, List.flatMap_nil, List.length_nil] at this
      omega
    cases fuel <;> simp only [decodeFrom, hge, if_false]
  | cons c rest ih =>
    intro i fuel h hwf hfuel
    obtain ⟨fuel, rfl⟩ : ∃ k, fuel = k + 1 := ⟨fuel - 1, by simp at hfuel; omega⟩
    have hc := hwf c (by simp)
    have h1 : l.drop i = c.encode ++ encode rest := by
      simpa only [encode, List.flatMap_cons] using h
    obtain ⟨a, tl, ha⟩ := encode_eq_cons c
    have hlt : i < l.length := lt_length_of_drop l i a (tl ++ encode rest) (by rw [h1, ha]; rfl)
    have hrest := ih (i + c.encode.length) fuel (drop_add_of_drop l i _ _ h1)
      (fun d hd => hwf d (by simp [hd])) (by simp at hfuel; omega)
    simp only [decodeFrom, hlt, if_true, fetch_of_drop l i c _ h1 hc.1 hc.2, hrest]

/-- The decoder reads back what the encoder writes, as long as no record is a latency
record: a sequence of well-formed records without `latn` is decoded from its encoding, and
encoding what was decoded gives the buffer again, word for word. -/
theorem decode_encode (cs : List Command)
    (h : ∀ c ∈ cs, c.wellFormed = true ∧ c.isLatency = false) :
    decode (encode cs) = .ok cs ∧ (decode (encode cs)).map encode = .ok (encode cs) := by
  have hd : decode (encode cs) = .ok cs :=
    decodeFrom_encode (encode cs) cs 0 _ rfl h (length_le_encode cs)
  exact ⟨hd, by rw [hd]; rfl⟩

/-- The records `save`, `fillStyle("red")`, a text and `restore` are read back from their
encoding. -/
theorem decode_encode_example :
    decode (encode [.save, .flst (ascii "red"), .text (ascii "hello") 1 2 3, .rest]) =
      .ok [.save, .flst (ascii "red"), .text (ascii "hello") 1 2 3, .rest] ∧
    encode [.flst (ascii "red")] = [0x74736c66, 3, 0x646572] :=
  ⟨(decode_encode _ (by decide)).1, by decide⟩

/-- C12 (the code departs from the claim): the well-formed latency record whose double has
the low word `0x68747062` and the high word 0 is encoded in three words; the loop reads
three records from them, the record itself and one for each word of the double; and
encoding what was read gives five words, not the three of the buffer. -/
theorem latn_round_trip_fails :
    (Command.latn 0x68747062 0).wellFormed = true ∧
    encode [.latn 0x68747062 0] = [0x6e74616c, 0x68747062, 0] ∧
    decode [0x6e74616c, 0x68747062, 0] = .ok [.latn 0x68747062 0, .bpth, .unknown 0] ∧
    encode [.latn 0x68747062 0, .bpth, .unknown 0] =
      [0x6e74616c, 0x68747062, 0, 0x68747062, 0] ∧
    (decode [0x6e74616c, 0x68747062, 0]).map encode ≠ .ok [0x6e74616c, 0x68747062, 0] := by
  refine ⟨by decide, by decide, by decide, by decide, by decide⟩

/-! ## The loop as a sequence of records -/

/-- The body of a case does not look at `command_index`: it carries it along. -/
theorem execute_command_index {F : Type} [LinearOrderedField F] (backend : Backend F)
    (fn : FloatFn F) (params : PaintParams F) (st : PaintState F) (k : Nat)
    (command : Command) :
    execute backend fn params { st with command_index := k } command =
      (execute backend fn params st command).map (fun s => { s with command_index := k }) := by
  cases command <;> simp only [execute] <;> first | rfl | (split <;> rfl)

/-- A sequence of records does not look at `command_index` either. -/
theorem executeAll_command_index {F : Type} [LinearOrderedField F] (backend : Backend F)
    (fn : FloatFn F) (params : PaintParams F) (k : Nat) (commands : List Command) :
    ∀ st : PaintState F,
      executeAll backend fn params { st with command_index := k } commands =
        (executeAll backend fn params st commands).map
          (fun s => { s with command_index := k }) := by
  induction commands with
  | nil => intro st; rfl
  | cons command rest ih =>
    intro st
    simp only [executeAll, execute_command_index]
    cases execute backend fn params st command with
    | error e => rfl
    | ok st1 => exact ih st1

/-- The loop of `PaintBinaryCommands` does to the state what `executeAll` does with the
records that the loop reads; only `command_index` moves in addition. -/
theorem loop_eq_executeAll {F : Type} [LinearOrderedField F] (backend : Backend F)
    (fn : FloatFn F) (params : PaintParams F) (commands : List Nat) (fuel : Nat) :
    ∀ (st : PaintState F) (records : List Command),
      decodeFrom commands fuel st.command_index = .ok records →
      ∃ k, PaintBinaryCommands.loop backend fn params commands fuel st =
        (executeAll backend fn params st records).map
          (fun s => { s with command_index := k }) := by
  induction fuel with
  | zero =>
    intro st records h
    simp only [decodeFrom] at h
    split_ifs at h with hlt
    simp only [Except.ok.injEq] at h
    subst h
    exact ⟨st.command_index, by simp only [PaintBinaryCommands.loop, hlt, if_false]; rfl⟩
  | succ fuel ih =>
    intro st records h
    simp only [decodeFrom] at h
    split_ifs at h with hlt
    · cases hf : fetch commands st.command_index with
      | error e => rw [hf] at h; cases h
      | ok r =>
        obtain ⟨command, j⟩ := r
        rw [hf] at h
        simp only at h
        cases hd : decodeFrom commands fuel j with
        | error e => rw [hd] at h; cases h
        | ok rest =>
          rw [hd] at h
          simp only [Except.ok.injEq] at h
          subst h
          simp only [PaintBinaryCommands.loop, hlt, if_true, PaintBinaryCommands.pass, hf,
            execute_command_index, executeAll]
          cases he : execute backend fn params st command with
          | error e => exact ⟨0, rfl⟩
          | ok st1 =>
            obtain ⟨k, hk⟩ := ih { st1 with command_index := j } rest hd
            refine ⟨k, ?_⟩
            simp only [Except.map]
            rw [hk, executeAll_command_index]
            cases executeAll backend fn params st1 rest with
            | error e => rfl
            | ok st2 => rfl
    · simp only [Except.ok.injEq] at h
      subst h
      exact ⟨st.command_index, by simp only [PaintBinaryCommands.loop, hlt, if_false]; rfl⟩

/-! ## Save and restore -/

/-- Every record but `save` and `rest` leaves the stack as it is, and raises no error. -/
theorem execute_stack {F : Type} [LinearOrderedField F] (backend : Backend F)
    (fn : FloatFn F) (params : PaintParams F) (st : PaintState F) (command : Command) :
    command = .save ∨ command = .rest ∨
      ∃ st1, execute backend fn params st command = .ok st1 ∧ st1.stack = st.stack := by
  cases command
  case save => exact Or.inl rfl
  case rest => exact Or.inr (Or.inl rfl)
  all_goals
    simp only [execute]
    first
      | exact Or.inr (Or.inr ⟨_, rfl, rfl⟩)
      | (split <;> exact Or.inr (Or.inr ⟨_, rfl, rfl⟩))

/-- A record that is neither `save` nor `rest` does not count for the depth. -/
theorem saveDepth_cons_other (depth : Nat) (command : Command) (rest : List Command)
    (h1 : command ≠ .save) (h2 : command ≠ .rest) :
    saveDepth depth (command :: rest) = saveDepth depth rest := by
  cases command <;> first | exact absurd rfl h1 | exact absurd rfl h2 | (cases depth <;> rfl)

/-- A sequence that never takes a state from below where it started runs without error and
leaves what was below untouched. -/
theorem executeAll_of_saveDepth {F : Type} [LinearOrderedField F] (backend : Backend F)
    (fn : FloatFn F) (params : PaintParams F) (commands : List Command) :
    ∀ (depth result : Nat) (st : PaintState F) (base frames : List (DrawingContextState F)),
      saveDepth depth commands = some result → st.stack = base ++ frames →
      frames.length = depth →
      ∃ st1 frames1, executeAll backend fn params st commands = .ok st1 ∧
        st1.stack = base ++ frames1 ∧ frames1.length = result := by
  induction commands with
  | nil =>
    intro depth result st base frames h hs hl
    simp only [saveDepth, Option.some.injEq] at h
    exact ⟨st, frames, rfl, hs, by omega⟩
  | cons command rest ih =>
    intro depth result st base frames h hs hl
    rcases execute_stack backend fn params st command with rfl | rfl | ⟨st1, he, hst⟩
    · simp only [saveDepth] at h
      obtain ⟨st2, frames2, h2, h3, h4⟩ := ih (depth + 1) result
        { st with stack := st.stack ++ [st.current], painter := st.painter ++ [.save] }
        base (frames ++ [st.current]) h (by simp [hs]) (by simp [hl])
      exact ⟨st2, frames2, by simpa [executeAll, execute] using h2, h3, h4⟩
    · cases depth with
      | zero => simp [saveDepth] at h
      | succ d =>
        simp only [saveDepth] at h
        have hne : frames ≠ [] := by
          intro h0; rw [h0] at hl; simp at hl
        obtain ⟨fs, f, rfl⟩ : ∃ fs f, frames = fs ++ [f] :=
          ⟨frames.dropLast, frames.getLast hne, (List.dropLast_append_getLast hne).symm⟩
        have hlast : st.stack.getLast? = some f := by
          rw [hs, ← List.append_assoc]; simp
        have hdrop : st.stack.dropLast = base ++ fs := by
          rw [hs, ← List.append_assoc]; simp
        obtain ⟨st2, frames2, h2, h3, h4⟩ := ih d result
          { st with current := f, stack := st.stack.dropLast,
                    painter := st.painter ++ [.restore] }
          base fs h hdrop (by simpa using hl)
        refine ⟨st2, frames2, ?_, h3, h4⟩
        simp only [executeAll, execute, hlast]
        exact h2
    · have hsave : command ≠ .save := by
        rintro rfl; simp [execute] at he; rw [← he] at hst; simp at hst
      have hrest : command ≠ .rest := by
        rintro rfl
        simp only [execute] at he
        split at he
        · cases he
        · simp only [Except.ok.injEq] at he
          rw [← he] at hst
          simp only at hst
          have := congrArg List.length hst
          rename_i values hv
          have hne : st.stack ≠ [] := by
            intro h0; rw [h0] at hv; simp at hv
          simp at this
          have : 0 < st.stack.length := List.length_pos.mpr hne
          omega
      rw [saveDepth_cons_other depth command rest hsave hrest] at h
      obtain ⟨st2, frames2, h2, h3, h4⟩ := ih depth result st1 base frames h (hst.trans hs) hl
      exact ⟨st2, frames2, by simp only [executeAll, he]; exact h2, h3, h4⟩

/-- Running two sequences one after the other. -/
theorem executeAll_append {F : Type} [LinearOrderedField F] (backend : Backend F)
    (fn : FloatFn F) (params : PaintParams F) (first second : List Command) :
    ∀ (st st1 : PaintState F), executeAll backend fn params st first = .ok st1 →
      executeAll backend fn params st (first ++ second) =
        executeAll backend fn params st1 second := by
  induction first with
  | nil =>
    intro st st1 h
    simp only [executeAll, Except.ok.injEq] at h
    rw [h, List.nil_append]
  | cons command rest ih =>
    intro st st1 h
    simp only [executeAll, List.cons_append] at h ⊢
    cases he : execute backend fn params st command with
    | error e => rw [he] at h; cases h
    | ok st2 =>
      rw [he] at h
      exact ih st2 st1 h

/-- C13: from every state of the interpreter, `save`, then a sequence of records in which
every `rest` answers a `save` of the sequence and every `save` is answered, then `rest`,
runs without error and gives back the drawing-context state (all fourteen fields) and the
stack that were there before. -/
theorem save_restore_is_identity {F : Type} [LinearOrderedField F] (backend : Backend F)
    (fn : FloatFn F) (params : PaintParams F) (st : PaintState F) (c : List Command)
    (h : balanced c) :
    ∃ st1, executeAll backend fn params st (.save :: (c ++ [.rest])) = .ok st1 ∧
      st1.current = st.current ∧ st1.stack = st.stack := by
  obtain ⟨st2, frames, h2, h3, h4⟩ := executeAll_of_saveDepth backend fn params c 0 0
    { st with stack := st.stack ++ [st.current], painter := st.painter ++ [.save] }
    (st.stack ++ [st.current]) [] h (by simp) rfl
  have hnil : frames = [] := List.length_eq_zero.mp h4
  rw [hnil, List.append_nil] at h3
  refine ⟨{ st2 with current := st.current, stack := st.stack,
                     painter := st2.painter ++ [.restore] }, ?_, rfl, rfl⟩
  have hrest : execute backend fn params st2 .rest =
      .ok { st2 with current := st.current, stack := st.stack,
                     painter := st2.painter ++ [.restore] } := by
    have hlast : st2.stack.getLast? = some st.current := by rw [h3]; simp
    have hdrop : st2.stack.dropLast = st.stack := by rw [h3]; simp
    simp only [execute, hlast, hdrop]
  simp only [executeAll, execute]
  rw [executeAll_append backend fn params c [.rest] _ st2 h2]
  simp only [executeAll, hrest]

/-- The records `save`, `fillStyle("red")`, `restore` from the initial state. -/
theorem save_restore_is_identity_witness :
    balanced [.flst (ascii "red")] ∧
    ∃ st1, executeAll exampleBackend rationalFloatFn
        { imageMap := [], lastRenderedTimestamps := [], display_scaling := 1, section_id := 0,
          devicePixelRatio := 1 }
        PaintBinaryCommands.start (.save :: ([.flst (ascii "red")] ++ [.rest])) = .ok st1 ∧
      st1.current = PaintBinaryCommands.start.current ∧
      st1.stack = PaintBinaryCommands.start.stack :=
  ⟨by decide, save_restore_is_identity _ _ _ _ _ (by decide)⟩

/-! ## Restore on an empty stack -/

/-- The case `rest` fails exactly on the empty stack: `takeLast()` is called without a test
before it. -/
theorem restore_fails_iff_empty {F : Type} [LinearOrderedField F]
    (backend : Backend F) (fn : FloatFn F) (params : PaintParams F) (st : PaintState F) :
    execute backend fn params st .rest = .error .takeLastOfEmpty ↔ st.stack = [] := by
  refine ⟨fun h => ?_, fun h => by simp [execute, h]⟩
  by_contra hne
  obtain ⟨v, hv⟩ : ∃ v, st.stack.getLast? = some v :=
    ⟨st.stack.getLast hne, List.getLast?_eq_getLast _ hne⟩
  simp [execute, hv] at h

/-- C14 (the claim as stated fails): a buffer that holds the single record `rest` runs
`takeLast()` on the empty stack, which the code does not guard. -/
theorem restore_on_empty_stack_counterexample :
    runExample [0x74736572] = .error .takeLastOfEmpty ∧
    PaintBinaryCommands.start.stack = ([] : List (DrawingContextState ℚ)) := by
  refine ⟨by decide, rfl⟩

/-- C14 (amended): `rest` on a stack that holds a state is carried out, not discarded: when
the stack ends in `values`, the drawing-context state becomes `values`, the stack loses
its last element, the painter is restored, no error is raised, and the loop goes on at
the next record (the index stays where the read of the tag left it). -/
theorem restore_takes_last_saved_state {F : Type} [LinearOrderedField F]
    (backend : Backend F) (fn : FloatFn F) (params : PaintParams F) (st : PaintState F)
    (below : List (DrawingContextState F)) (values : DrawingContextState F)
    (h : st.stack = below ++ [values]) :
    execute backend fn params st .rest =
      .ok { st with current := values, stack := below,
                    painter := st.painter ++ [.restore] } := by
  have hlast : st.stack.getLast? = some values := by rw [h]; simp
  have hdrop : st.stack.dropLast = below := by rw [h]; simp
  simp only [execute, hlast, hdrop]

/-- The initial state with one copy of its drawing-context state on the stack. -/
theorem restore_takes_last_saved_state_witness :
    execute exampleBackend rationalFloatFn
        { imageMap := [], lastRenderedTimestamps := [], display_scaling := 1, section_id := 0,
          devicePixelRatio := 1 }
        { PaintBinaryCommands.start with stack := [] ++ [PaintBinaryCommands.start.current] }
        .rest =
      .ok { PaintBinaryCommands.start with
              current := PaintBinaryCommands.start.current, stack := [],
              painter := PaintBinaryCommands.start.painter ++ [.restore] } :=
  restore_takes_last_saved_state exampleBackend rationalFloatFn _
    { PaintBinaryCommands.start with stack := [] ++ [PaintBinaryCommands.start.current] }
    [] PaintBinaryCommands.start.current rfl

/-! ## arcTo and addArcToPath -/

/-- The function `addArcToPath` makes one call on the path. -/
theorem addArcToPath_appends {F : Type} [LinearOrderedField F] (fn : FloatFn F)
    (path : QPainterPath F) (x y radius start_angle end_angle : F) (ccw : Bool) :
    ∃ e, addArcToPath fn path x y radius start_angle end_angle ccw = path ++ [e] := by
  unfold addArcToPath
  split_ifs
  · exact ⟨_, rfl⟩
  · exact ⟨_, rfl⟩

/-- In the special case of `arct` the code goes on after the line to `p1` (each `return`
is commented out): at least two more calls are made on the path, the line to the tangent
point and the call of `addArcToPath`. -/
theorem arcTo_special_case {F : Type} [LinearOrderedField F] (fn : FloatFn F)
    (path : QPainterPath F) (p0 p1 p2 : F × F) (radius : F)
    (h : p1 = p0 ∨ p1 = p2 ∨ radius = 0 ∨ triangleArea p0 p1 p2 = 0) :
    ∃ more, arcTo fn path p0 p1 p2 radius = path ++ .lineTo p1.1 p1.2 :: more ∧
      2 ≤ more.length := by
  unfold arcTo
  lift_lets
  extract_lets path1 p1p0 p1p2 p1p0_length p1p2_length cos_phi path2 max_length factor_max ep
    path3 tangent factor_p1p0 t_p1p0 orth orth_length factor_ra cos_alpha orth2 p orth3 sa0 sa
    factor_p1p2 t_p1p2 orth_p1p2 orth_p1p2_length ea0 ea anticlockwise path4
  have h1 : path1 = path ++ [.lineTo p1.1 p1.2] := if_pos h
  have h2 : ∃ m2, path2 = path ++ .lineTo p1.1 p1.2 :: m2 := by
    by_cases hc : cos_phi = -1
    · exact ⟨[.lineTo p1.1 p1.2], by simp only [path2, if_pos hc, h1, List.append_assoc,
        List.singleton_append]⟩
    · exact ⟨[], by simp only [path2, if_neg hc, h1]⟩
  obtain ⟨m2, hm2⟩ := h2
  have h3 : ∃ m3, path3 = path ++ .lineTo p1.1 p1.2 :: m3 := by
    by_cases hc : cos_phi = 1
    · exact ⟨m2 ++ [_], by simp only [path3, if_pos hc, hm2, List.append_assoc,
        List.cons_append]; rfl⟩
    · exact ⟨m2, by simp only [path3, if_neg hc, hm2]⟩
  obtain ⟨m3, hm3⟩ := h3
  obtain ⟨e, he⟩ := addArcToPath_appends fn path4 p.1 p.2 radius sa ea anticlockwise
  refine ⟨m3 ++ [.lineTo t_p1p0.1 t_p1p0.2, e], ?_, by simp⟩
  rw [he]
  simp only [path4, hm3, List.append_assoc, List.cons_append, List.singleton_append,
    List.nil_append]

/-- C15 (the code departs from the claim): with the current point (1, 1), the control
points (1, 1) and (2, 3) and the radius 5, so that `p1 = p0`, the case `arct` calls
`lineTo(p1)` and then makes at least two more calls on the path. -/
theorem arcTo_goes_on_after_line :
    ∃ more, arcTo rationalFloatFn [.moveTo 1 1] (1, 1) (1, 1) (2, 3) 5 =
        [.moveTo 1 1] ++ .lineTo 1 1 :: more ∧ 2 ≤ more.length :=
  arcTo_special_case rationalFloatFn [.moveTo 1 1] (1, 1) (1, 1) (2, 3) 5 (Or.inl rfl)

/-! ## Rounding to floating point numbers -/

/-- The rounding to the nearest integer is within one half of its argument. -/
theorem abs_roundHalfEven_sub_le (x : ℚ) : |(roundHalfEven x : ℚ) - x| ≤ 1 / 2 := by
  have h1 := Int.floor_le x
  have h2 := Int.lt_floor_add_one x
  unfold roundHalfEven
  split_ifs with h3 h4 h5
  · rw [abs_le]; constructor <;> linarith
  · rw [abs_le]; push_cast; constructor <;> linarith
  · rw [abs_le]; constructor <;> linarith
  · rw [abs_le]; push_cast; constructor <;> linarith

/-- A number strictly within one half of an integer is rounded to that integer. -/
theorem roundHalfEven_near (x : ℚ) (n : ℤ) (h1 : (n : ℚ) - 1 / 2 < x) (h2 : x < n + 1 / 2) :
    roundHalfEven x = n := by
  have h := abs_roundHalfEven_sub_le x
  rw [abs_le] at h
  have h3 : ((roundHalfEven x : ℤ) : ℚ) < n + 1 := by linarith
  have h4 : (n : ℚ) - 1 < roundHalfEven x := by linarith
  have h5 : roundHalfEven x < n + 1 := by exact_mod_cast h3
  have h6 : n - 1 < roundHalfEven x := by exact_mod_cast h4
  omega

/-- An integer is rounded to itself. -/
theorem roundHalfEven_intCast (n : ℤ) : roundHalfEven (n : ℚ) = n :=
  roundHalfEven_near _ n (by linarith) (by linarith)

/-- A number half way between two integers is rounded to the even one. -/
theorem roundHalfEven_tie (x : ℚ) (n : ℤ) (h : x = n + 1 / 2) :
    roundHalfEven x = if n % 2 = 0 then n else n + 1 := by
  have hf : ⌊x⌋ = n := by
    rw [Int.floor_eq_iff]
    constructor <;> linarith
  unfold roundHalfEven
  rw [hf]
  have h1 : ¬ (x - n < 1 / 2) := by linarith
  have h2 : ¬ (1 / 2 < x - n) := by linarith
  simp only [if_neg h1, if_neg h2]

/-- The rounding to the nearest integer is monotone. -/
theorem roundHalfEven_mono {x y : ℚ} (h : x ≤ y) : roundHalfEven x ≤ roundHalfEven y := by
  by_contra hlt
  push_neg at hlt
  have hx := abs_roundHalfEven_sub_le x
  have hy := abs_roundHalfEven_sub_le y
  rw [abs_le] at hx hy
  have h1 : (roundHalfEven y : ℚ) + 1 ≤ roundHalfEven x := by exact_mod_cast hlt
  have hxy : x = y := by linarith
  subst hxy
  exact lt_irrefl _ hlt

/-- Rounding to the nearest integer commutes with the change of sign. -/
theorem roundHalfEven_neg (x : ℚ) : roundHalfEven (-x) = -roundHalfEven x := by
  by_cases ht : ∃ n : ℤ, x = n + 1 / 2
  · obtain ⟨n, hn⟩ := ht
    have hneg : -x = ((-n - 1 : ℤ) : ℚ) + 1 / 2 := by push_cast; linarith
    rw [roundHalfEven_tie x n hn, roundHalfEven_tie (-x) (-n - 1) hneg]
    split_ifs <;> omega
  · push_neg at ht
    have hx := abs_roundHalfEven_sub_le x
    rw [abs_le] at hx
    have h1 : x ≠ (roundHalfEven x : ℚ) - 1 / 2 := by
      intro e
      exact ht (roundHalfEven x - 1) (by push_cast; linarith)
    have h2 : x ≠ (roundHalfEven x : ℚ) + 1 / 2 := fun e => ht (roundHalfEven x) e
    apply roundHalfEven_near
    · push_cast
      rcases lt_or_gt_of_ne h2 with h | h
      · linarith
      · linarith
    · push_cast
      rcases lt_or_gt_of_ne h1 with h | h
      · linarith
      · linarith

/-- The binary exponent of a positive rational between two consecutive powers of 2. -/
theorem log_two_eq (r : ℚ) (e : ℤ) (h1 : (2 : ℚ) ^ e ≤ r) (h2 : r < (2 : ℚ) ^ (e + 1)) :
    Int.log 2 r = e := by
  have h0 : 0 < r := lt_of_lt_of_le (by positivity) h1
  have ha : e ≤ Int.log 2 r := by
    rw [← Int.zpow_le_iff_le_log (by norm_num) h0]
    simpa using h1
  have hb : Int.log 2 r < e + 1 := by
    rw [← Int.lt_zpow_iff_log_lt (by norm_num) h0]
    simpa using h2
  omega

/-- A rational other than 0 lies between the power of 2 of its binary exponent and the
next one. -/
theorem zpow_log_two_le (r : ℚ) (h0 : 0 < r) :
    (2 : ℚ) ^ Int.log 2 r ≤ r ∧ r < (2 : ℚ) ^ (Int.log 2 r + 1) := by
  have h1 := Int.zpow_log_le_self (b := 2) (r := r) (by norm_num) h0
  have h2 := Int.lt_zpow_succ_log_self (b := 2) (by norm_num) r
  exact ⟨by simpa using h1, by simpa using h2⟩

/-- Zero is rounded to zero. -/
theorem roundTo_zero (p : ℕ) : roundTo p 0 = 0 := by
  simp [roundTo]

/-- Rounding commutes with the change of sign. -/
theorem roundTo_neg (p : ℕ) (x : ℚ) : roundTo p (-x) = -roundTo p x := by
  unfold roundTo
  by_cases h : x = 0
  · simp [h]
  · have h' : -x ≠ 0 := neg_ne_zero.mpr h
    simp only [if_neg h, if_neg h', abs_neg, neg_div, roundHalfEven_neg]
    push_cast
    ring

/-- The rounding of a positive number in terms of its binary exponent. -/
theorem roundTo_of_pos (p : ℕ) (x : ℚ) (e : ℤ) (h1 : (2 : ℚ) ^ e ≤ x)
    (h2 : x < (2 : ℚ) ^ (e + 1)) :
    roundTo p x = (roundHalfEven (x / (2 : ℚ) ^ (e - ((p : ℤ) - 1))) : ℚ) *
      (2 : ℚ) ^ (e - ((p : ℤ) - 1)) := by
  have h0 : 0 < x := lt_of_lt_of_le (by positivity) h1
  unfold roundTo
  rw [if_neg (ne_of_gt h0), abs_of_pos h0, log_two_eq x e h1 h2]

/-- The rounding of a positive number whose quotient by the unit of its binade is
strictly within one half of the integer `n`. -/
theorem roundTo_pos_eq (p : ℕ) (x : ℚ) (e n : ℤ) (h1 : (2 : ℚ) ^ e ≤ x)
    (h2 : x < (2 : ℚ) ^ (e + 1))
    (h3 : (n : ℚ) - 1 / 2 < x / (2 : ℚ) ^ (e - ((p : ℤ) - 1)))
    (h4 : x / (2 : ℚ) ^ (e - ((p : ℤ) - 1)) < n + 1 / 2) :
    roundTo p x = n * (2 : ℚ) ^ (e - ((p : ℤ) - 1)) := by
  rw [roundTo_of_pos p x e h1 h2, roundHalfEven_near _ n h3 h4]

/-- The rounding of a positive number whose quotient by the unit of its binade lies half
way between `n` and `n + 1`. -/
theorem roundTo_pos_tie (p : ℕ) (x : ℚ) (e n : ℤ) (h1 : (2 : ℚ) ^ e ≤ x)
    (h2 : x < (2 : ℚ) ^ (e + 1))
    (h3 : x / (2 : ℚ) ^ (e - ((p : ℤ) - 1)) = n + 1 / 2) :
    roundTo p x = ((if n % 2 = 0 then n else n + 1 : ℤ) : ℚ) *
      (2 : ℚ) ^ (e - ((p : ℤ) - 1)) := by
  rw [roundTo_of_pos p x e h1 h2, roundHalfEven_tie _ n h3]

/-- A positive number that is a multiple of the unit of its binade is not changed. -/
theorem roundTo_pos_exact (p : ℕ) (x : ℚ) (e n : ℤ) (h1 : (2 : ℚ) ^ e ≤ x)
    (h2 : x < (2 : ℚ) ^ (e + 1)) (h3 : x = n * (2 : ℚ) ^ (e - ((p : ℤ) - 1))) :
    roundTo p x = x := by
  have hq : (0 : ℚ) < (2 : ℚ) ^ (e - ((p : ℤ) - 1)) := by positivity
  have h4 : x / (2 : ℚ) ^ (e - ((p : ℤ) - 1)) = n := by
    rw [h3]; field_simp
  rw [roundTo_pos_eq p x e n h1 h2 (by rw [h4]; linarith) (by rw [h4]; linarith), ← h3]

/-- The rounding error is at most the fraction `2 ^ -p` of the number. -/
theorem abs_roundTo_sub_le (p : ℕ) (x : ℚ) : |roundTo p x - x| ≤ |x| / 2 ^ p := by
  have key : ∀ y : ℚ, 0 < y → |roundTo p y - y| ≤ y / 2 ^ p := by
    intro y hy
    obtain ⟨h1, h2⟩ := zpow_log_two_le y hy
    rw [roundTo_of_pos p y _ h1 h2]
    set e := Int.log 2 y
    have hq : (0 : ℚ) < (2 : ℚ) ^ (e - ((p : ℤ) - 1)) := by positivity
    have herr := abs_roundHalfEven_sub_le (y / (2 : ℚ) ^ (e - ((p : ℤ) - 1)))
    have hsplit : (roundHalfEven (y / (2 : ℚ) ^ (e - ((p : ℤ) - 1))) : ℚ) *
        (2 : ℚ) ^ (e - ((p : ℤ) - 1)) - y =
        ((roundHalfEven (y / (2 : ℚ) ^ (e - ((p : ℤ) - 1))) : ℚ) -
          y / (2 : ℚ) ^ (e - ((p : ℤ) - 1))) * (2 : ℚ) ^ (e - ((p : ℤ) - 1)) := by
      field_simp
    rw [hsplit, abs_mul, abs_of_pos hq]
    have hq2 : (2 : ℚ) ^ (e - ((p : ℤ) - 1)) = 2 * ((2 : ℚ) ^ e / 2 ^ p) := by
      rw [zpow_sub₀ (by norm_num), zpow_sub₀ (by norm_num), zpow_natCast, zpow_one]
      field_simp
      ring
    calc |(roundHalfEven (y / (2 : ℚ) ^ (e - ((p : ℤ) - 1))) : ℚ) -
            y / (2 : ℚ) ^ (e - ((p : ℤ) - 1))| * (2 : ℚ) ^ (e - ((p : ℤ) - 1))
        ≤ 1 / 2 * (2 : ℚ) ^ (e - ((p : ℤ) - 1)) :=
          mul_le_mul_of_nonneg_right herr hq.le
      _ = (2 : ℚ) ^ e / 2 ^ p := by rw [hq2]; ring
      _ ≤ y / 2 ^ p := div_le_div_of_nonneg_right h1 (by positivity)
  rcases lt_trichotomy x 0 with h | h | h
  · have := key (-x) (by linarith)
    rw [roundTo_neg, show -roundTo p x - -x = -(roundTo p x - x) by ring, abs_neg] at this
    rw [abs_of_neg h]
    exact this
  · subst h; simp [roundTo_zero]
  · rw [abs_of_pos h]; exact key x h

/-- The rounding of a positive number stays in the closed binade of the number. -/
theorem roundTo_binade (p : ℕ) (hp : 1 ≤ p) (x : ℚ) (h0 : 0 < x) :
    (2 : ℚ) ^ Int.log 2 x ≤ roundTo p x ∧ roundTo p x ≤ (2 : ℚ) ^ (Int.log 2 x + 1) := by
  obtain ⟨h1, h2⟩ := zpow_log_two_le x h0
  rw [roundTo_of_pos p x _ h1 h2]
  set e := Int.log 2 x
  have hq : (0 : ℚ) < (2 : ℚ) ^ (e - ((p : ℤ) - 1)) := by positivity
  have hN : (((2 : ℤ) ^ (p - 1) : ℤ) : ℚ) * (2 : ℚ) ^ (e - ((p : ℤ) - 1)) = (2 : ℚ) ^ e := by
    push_cast
    rw [← zpow_natCast, ← zpow_add₀ (by norm_num)]
    congr 1
    have : ((p - 1 : ℕ) : ℤ) = (p : ℤ) - 1 := by omega
    rw [this]; ring
  have hlow : (((2 : ℤ) ^ (p - 1) : ℤ) : ℚ) ≤ x / (2 : ℚ) ^ (e - ((p : ℤ) - 1)) := by
    rw [le_div_iff₀ hq, hN]; exact h1
  have hhigh : x / (2 : ℚ) ^ (e - ((p : ℤ) - 1)) ≤ ((2 * (2 : ℤ) ^ (p - 1) : ℤ) : ℚ) := by
    rw [div_le_iff₀ hq]
    push_cast
    push_cast at hN
    rw [mul_assoc, hN]
    have : (2 : ℚ) ^ (e + 1) = 2 * (2 : ℚ) ^ e := by
      rw [zpow_add₀ (by norm_num), zpow_one]; ring
    linarith
  have hl := roundHalfEven_mono hlow
  have hh := roundHalfEven_mono hhigh
  rw [roundHalfEven_intCast] at hl hh
  have hl' : (((2 : ℤ) ^ (p - 1) : ℤ) : ℚ) ≤
      (roundHalfEven (x / (2 : ℚ) ^ (e - ((p : ℤ) - 1))) : ℚ) := by exact_mod_cast hl
  have hh' : (roundHalfEven (x / (2 : ℚ) ^ (e - ((p : ℤ) - 1))) : ℚ) ≤
      ((2 * (2 : ℤ) ^ (p - 1) : ℤ) : ℚ) := by exact_mod_cast hh
  constructor
  · rw [← hN]
    exact mul_le_mul_of_nonneg_right hl' hq.le
  · have : (2 : ℚ) ^ (e + 1) = ((2 * (2 : ℤ) ^ (p - 1) : ℤ) : ℚ) *
        (2 : ℚ) ^ (e - ((p : ℤ) - 1)) := by
      push_cast
      push_cast at hN
      rw [mul_assoc, hN, zpow_add₀ (by norm_num), zpow_one]; ring
    rw [this]
    exact mul_le_mul_of_nonneg_right hh' hq.le

/-- The rounding of a positive number is positive. -/
theorem roundTo_pos (p : ℕ) (hp : 1 ≤ p) (x : ℚ) (h0 : 0 < x) : 0 < roundTo p x :=
  lt_of_lt_of_le (by positivity) (roundTo_binade p hp x h0).1

/-- Rounding is monotone on the positive numbers. -/
theorem roundTo_mono_pos (p : ℕ) (hp : 1 ≤ p) {x y : ℚ} (h0 : 0 < x) (h : x ≤ y) :
    roundTo p x ≤ roundTo p y := by
  have hy0 : 0 < y := lt_of_lt_of_le h0 h
  have hlog : Int.log 2 x ≤ Int.log 2 y := Int.log_mono_right h0 h
  rcases eq_or_lt_of_le hlog with he | hlt
  · obtain ⟨h1, h2⟩ := zpow_log_two_le x h0
    obtain ⟨h3, h4⟩ := zpow_log_two_le y hy0
    rw [roundTo_of_pos p x _ h1 h2, roundTo_of_pos p y _ h3 h4, he]
    have hq : (0 : ℚ) < (2 : ℚ) ^ (Int.log 2 y - ((p : ℤ) - 1)) := by positivity
    apply mul_le_mul_of_nonneg_right _ hq.le
    have := roundHalfEven_mono (div_le_div_of_nonneg_right h hq.le)
    exact_mod_cast this
  · calc roundTo p x ≤ (2 : ℚ) ^ (Int.log 2 x + 1) := (roundTo_binade p hp x h0).2
      _ ≤ (2 : ℚ) ^ Int.log 2 y := zpow_le_zpow_right₀ (by norm_num) (by omega)
      _ ≤ roundTo p y := (roundTo_binade p hp y hy0).1

/-- Rounding is monotone. -/
theorem roundTo_mono (p : ℕ) (hp : 1 ≤ p) : Monotone (roundTo p) := by
  intro x y h
  rcases lt_trichotomy 0 x with hx | hx | hx
  · exact roundTo_mono_pos p hp hx h
  · subst hx
    rw [roundTo_zero]
    rcases eq_or_lt_of_le h with hy | hy
    · rw [← hy, roundTo_zero]
    · exact (roundTo_pos p hp y hy).le
  · have hxn : roundTo p x < 0 := by
      have := roundTo_pos p hp (-x) (by linarith)
      rw [roundTo_neg] at this
      linarith
    rcases lt_trichotomy 0 y with hy | hy | hy
    · exact (hxn.trans (roundTo_pos p hp y hy)).le
    · subst hy; rw [roundTo_zero]; exact hxn.le
    · have := roundTo_mono_pos p hp (x := -y) (y := -x) (by linarith) (by linarith)
      rw [roundTo_neg, roundTo_neg] at this
      linarith

/-! ## The angles of addArcToPath in float arithmetic -/

/-- The angles of a clockwise arc whose span is below `2 * M_PI`. -/
theorem arcAngles_clockwise_eq {F : Type} [LinearOrderedField F] (fn : FloatFn F)
    (s e S E : F) (h : ¬ (fn.toFloat (e - s) ≥ 2 * fn.pi))
    (hS : fn.toDouble (fn.toFloat (-180 * s) / fn.pi) = S)
    (hE : fn.toDouble (fn.toFloat (-180 * e) / fn.pi) = E) :
    arcAngles fn s e false =
      (S, if S < E then fn.toDouble (fn.toDouble (E - S) - 360)
        else fn.toDouble (E - S)) := by
  subst hS hE
  simp [arcAngles, h]

/-- The angles of a clockwise arc whose span is `2 * M_PI` or more: the end angle is
replaced. -/
theorem arcAngles_clockwise_clamped {F : Type} [LinearOrderedField F] (fn : FloatFn F)
    (s e e1 S E : F) (h : fn.toFloat (e - s) ≥ 2 * fn.pi)
    (he : fn.toFloat (fn.toDouble (s + 2 * fn.pi)) = e1)
    (hS : fn.toDouble (fn.toFloat (-180 * s) / fn.pi) = S)
    (hE : fn.toDouble (fn.toFloat (-180 * e1) / fn.pi) = E) :
    arcAngles fn s e false =
      (S, if S < E then fn.toDouble (fn.toDouble (E - S) - 360)
        else fn.toDouble (E - S)) := by
  subst he hS hE
  simp [arcAngles, h]

/-- The angles of a counter-clockwise arc whose span is below `2 * M_PI`. -/
theorem arcAngles_counter_clockwise_eq {F : Type} [LinearOrderedField F] (fn : FloatFn F)
    (s e S E : F) (h : ¬ (fn.toFloat (s - e) ≥ 2 * fn.pi))
    (hS : fn.toDouble (fn.toFloat (-180 * s) / fn.pi) = S)
    (hE : fn.toDouble (fn.toFloat (-180 * e) / fn.pi) = E) :
    arcAngles fn s e true =
      (S, if E < S then fn.toDouble (fn.toDouble (E - S) + 360)
        else fn.toDouble (E - S)) := by
  subst hS hE
  simp [arcAngles, h]

/-- The angles of a counter-clockwise arc whose span is `2 * M_PI` or more: the start
angle is replaced. -/
theorem arcAngles_counter_clockwise_clamped {F : Type} [LinearOrderedField F]
    (fn : FloatFn F) (s e s1 S E : F) (h : fn.toFloat (s - e) ≥ 2 * fn.pi)
    (hs : fn.toFloat (fn.toDouble (e - 2 * fn.pi)) = s1)
    (hS : fn.toDouble (fn.toFloat (-180 * s1) / fn.pi) = S)
    (hE : fn.toDouble (fn.toFloat (-180 * e) / fn.pi) = E) :
    arcAngles fn s e true =
      (S, if E < S then fn.toDouble (fn.toDouble (E - S) + 360)
        else fn.toDouble (E - S)) := by
  subst hs hS hE
  simp [arcAngles, h]

/-- What `addArcToPath` passes to the path: the angles of `arcAngles`. -/
theorem addArcToPath_eq {F : Type} [LinearOrderedField F] (fn : FloatFn F)
    (path : QPainterPath F) (x y radius s e : F) (counter_clockwise : Bool) :
    addArcToPath fn path x y radius s e counter_clockwise =
      if radius = 0 then path ++ [.lineTo x y]
      else path ++ [.arcTo (fn.toFloat (x - radius)) (fn.toFloat (y - radius)) (radius * 2)
        (radius * 2)
        (arcAngles fn s e counter_clockwise).1 (arcAngles fn s e counter_clockwise).2] :=
  rfl


/-- A clockwise arc from 0 to -20 radians in the arithmetic of the code: the start is at 0
degrees and the sweep is 785.9155902616465 degrees. -/
theorem arcAngles_against_direction :
    arcAngles rationalFloatFn 0 (-20) false = (0, 3456493319772475 / 4398046511104) := by
  have r1 : roundTo 24 (-20 : ℚ) = (-20 : ℚ) := by
    rw [show (-20 : ℚ) = -(20 : ℚ) by norm_num, roundTo_neg]
    rw [roundTo_pos_exact 24 _ 4 10485760 (by norm_num) (by norm_num) (by norm_num)]
  have r2 : roundTo 24 (0 : ℚ) = (0 : ℚ) := by
    exact roundTo_zero _
  have r3 : roundTo 53 (0 : ℚ) = (0 : ℚ) := by
    exact roundTo_zero _
  have r4 : roundTo 24 (3600 : ℚ) = (3600 : ℚ) := by
    exact roundTo_pos_exact 24 _ 11 14745600 (by norm_num) (by norm_num) (by norm_num)
  have r5 : roundTo 53 (202661983231672320 / 176855943800711 : ℚ) = (5039790063769915 / 4398046511104 : ℚ) := by
    rw [roundTo_pos_eq 53 _ 10 5039790063769915 (by norm_num) (by norm_num) (by norm_num) (by norm_num)]
    norm_num
  have r6 : roundTo 53 (5039790063769915 / 4398046511104 : ℚ) = (5039790063769915 / 4398046511104 : ℚ) := by
    exact roundTo_pos_exact 53 _ 10 5039790063769915 (by norm_num) (by norm_num) (by norm_num)
  have r7 : roundTo 53 (3456493319772475 / 4398046511104 : ℚ) = (3456493319772475 / 4398046511104 : ℚ) := by
    exact roundTo_pos_exact 53 _ 9 6912986639544950 (by norm_num) (by norm_num) (by norm_num)
  have hclamp : ¬ (rationalFloatFn.toFloat ((-20 : ℚ) - (0 : ℚ)) ≥ 2 * rationalFloatFn.pi) := by
    show ¬ (roundTo 24 ((-20 : ℚ) - (0 : ℚ)) ≥ _)
    rw [show (-20 : ℚ) - (0 : ℚ) = (-20 : ℚ) by norm_num, r1]
    norm_num [rationalFloatFn]
  have hS : rationalFloatFn.toDouble (rationalFloatFn.toFloat (-180 * (0 : ℚ)) / rationalFloatFn.pi) = (0 : ℚ) := by
    show roundTo 53 (roundTo 24 (-180 * (0 : ℚ)) / rationalFloatFn.pi) = _
    rw [show (-180 : ℚ) * (0 : ℚ) = (0 : ℚ) by norm_num, r2,
      show (0 : ℚ) / rationalFloatFn.pi = (0 : ℚ) by norm_num [rationalFloatFn], r3]
  have hE : rationalFloatFn.toDouble (rationalFloatFn.toFloat (-180 * (-20 : ℚ)) / rationalFloatFn.pi) = (5039790063769915 / 4398046511104 : ℚ) := by
    show roundTo 53 (roundTo 24 (-180 * (-20 : ℚ)) / rationalFloatFn.pi) = _
    rw [show (-180 : ℚ) * (-20 : ℚ) = (3600 : ℚ) by norm_num, r4,
      show (3600 : ℚ) / rationalFloatFn.pi = (202661983231672320 / 176855943800711 : ℚ) by norm_num [rationalFloatFn], r5]
  have hW : rationalFloatFn.toDouble (rationalFloatFn.toDouble ((5039790063769915 / 4398046511104 : ℚ) - (0 : ℚ)) - 360) = (3456493319772475 / 4398046511104 : ℚ) := by
    show roundTo 53 (roundTo 53 ((5039790063769915 / 4398046511104 : ℚ) - (0 : ℚ)) - 360) = _
    rw [show (5039790063769915 / 4398046511104 : ℚ) - (0 : ℚ) = (5039790063769915 / 4398046511104 : ℚ) by norm_num, r6,
      show (5039790063769915 / 4398046511104 : ℚ) - 360 = (3456493319772475 / 4398046511104 : ℚ) by norm_num, r7]
  rw [arcAngles_clockwise_eq rationalFloatFn _ _ _ _ hclamp hS hE, if_pos (by norm_num), hW]

/-- A clockwise arc from 0 to the `float` nearest to `2 * M_PI` in the arithmetic of the
code: the sweep is -360.0000106250406 degrees. -/
theorem arcAngles_clockwise_full_turn :
    arcAngles rationalFloatFn 0 (13176795 / 2097152) false =
      (0, (-6333187162907451 / 17592186044416 : ℚ)) := by
  have r1 : roundTo 24 (13176795 / 2097152 : ℚ) = (13176795 / 2097152 : ℚ) := by
    exact roundTo_pos_exact 24 _ 2 13176795 (by norm_num) (by norm_num) (by norm_num)
  have r2 : roundTo 53 (884279719003555 / 140737488355328 : ℚ) = (884279719003555 / 140737488355328 : ℚ) := by
    exact roundTo_pos_exact 53 _ 2 7074237752028440 (by norm_num) (by norm_num) (by norm_num)
  have r3 : roundTo 24 (884279719003555 / 140737488355328 : ℚ) = (13176795 / 2097152 : ℚ) := by
    rw [roundTo_pos_eq 24 _ 2 13176795 (by norm_num) (by norm_num) (by norm_num) (by norm_num)]
    norm_num
  have r4 : roundTo 24 (0 : ℚ) = (0 : ℚ) := by
    exact roundTo_zero _
  have r5 : roundTo 53 (0 : ℚ) = (0 : ℚ) := by
    exact roundTo_zero _
  have r6 : roundTo 24 (-592955775 / 524288 : ℚ) = (-4632467 / 4096 : ℚ) := by
    rw [show (-592955775 / 524288 : ℚ) = -(592955775 / 524288 : ℚ) by norm_num, roundTo_neg]
    rw [roundTo_pos_eq 24 _ 10 9264934 (by norm_num) (by norm_num) (by norm_num) (by norm_num)]
    norm_num
  have r7 : roundTo 53 (-45477244033826816 / 126325674143365 : ℚ) = (-6333187162907451 / 17592186044416 : ℚ) := by
    rw [show (-45477244033826816 / 126325674143365 : ℚ) = -(45477244033826816 / 126325674143365 : ℚ) by norm_num, roundTo_neg]
    rw [roundTo_pos_eq 53 _ 8 6333187162907451 (by norm_num) (by norm_num) (by norm_num) (by norm_num)]
    norm_num
  have r8 : roundTo 53 (-6333187162907451 / 17592186044416 : ℚ) = (-6333187162907451 / 17592186044416 : ℚ) := by
    rw [show (-6333187162907451 / 17592186044416 : ℚ) = -(6333187162907451 / 17592186044416 : ℚ) by norm_num, roundTo_neg]
    rw [roundTo_pos_exact 53 _ 8 6333187162907451 (by norm_num) (by norm_num) (by norm_num)]
  have hclamp : rationalFloatFn.toFloat ((13176795 / 2097152 : ℚ) - (0 : ℚ)) ≥ 2 * rationalFloatFn.pi := by
    show roundTo 24 ((13176795 / 2097152 : ℚ) - (0 : ℚ)) ≥ _
    rw [show (13176795 / 2097152 : ℚ) - (0 : ℚ) = (13176795 / 2097152 : ℚ) by norm_num, r1]
    norm_num [rationalFloatFn]
  have he : rationalFloatFn.toFloat (rationalFloatFn.toDouble ((0 : ℚ) + 2 * rationalFloatFn.pi)) = (13176795 / 2097152 : ℚ) := by
    show roundTo 24 (roundTo 53 ((0 : ℚ) + 2 * rationalFloatFn.pi)) = _
    rw [show (0 : ℚ) + 2 * rationalFloatFn.pi = (884279719003555 / 140737488355328 : ℚ) by norm_num [rationalFloatFn], r2, r3]
  have hS : rationalFloatFn.toDouble (rationalFloatFn.toFloat (-180 * (0 : ℚ)) / rationalFloatFn.pi) = (0 : ℚ) := by
    show roundTo 53 (roundTo 24 (-180 * (0 : ℚ)) / rationalFloatFn.pi) = _
    rw [show (-180 : ℚ) * (0 : ℚ) = (0 : ℚ) by norm_num, r4,
      show (0 : ℚ) / rationalFloatFn.pi = (0 : ℚ) by norm_num [rationalFloatFn], r5]
  have hE : rationalFloatFn.toDouble (rationalFloatFn.toFloat (-180 * (13176795 / 2097152 : ℚ)) / rationalFloatFn.pi) = (-6333187162907451 / 17592186044416 : ℚ) := by
    show roundTo 53 (roundTo 24 (-180 * (13176795 / 2097152 : ℚ)) / rationalFloatFn.pi) = _
    rw [show (-180 : ℚ) * (13176795 / 2097152 : ℚ) = (-592955775 / 524288 : ℚ) by norm_num, r6,
      show (-4632467 / 4096 : ℚ) / rationalFloatFn.pi = (-45477244033826816 / 126325674143365 : ℚ) by norm_num [rationalFloatFn], r7]
  have hW : rationalFloatFn.toDouble ((-6333187162907451 / 17592186044416 : ℚ) - (0 : ℚ)) = (-6333187162907451 / 17592186044416 : ℚ) := by
    show roundTo 53 ((-6333187162907451 / 17592186044416 : ℚ) - (0 : ℚ)) = _
    rw [show (-6333187162907451 / 17592186044416 : ℚ) - (0 : ℚ) = (-6333187162907451 / 17592186044416 : ℚ) by norm_num, r8]
  rw [arcAngles_clockwise_clamped rationalFloatFn _ _ _ _ _ hclamp he hS hE, if_neg (by norm_num), hW]

/-- A counter-clockwise arc from the `float` nearest to `2 * M_PI` to 0 in the arithmetic
of the code: the start is at 360.0000106250406 degrees and the sweep is -1.0625040602008085e-05
degrees. -/
theorem arcAngles_counter_clockwise_full_turn :
    arcAngles rationalFloatFn (13176795 / 2097152) 0 true =
      ((6333187162907451 / 17592186044416 : ℚ), (-186917691 / 17592186044416 : ℚ)) := by
  have r1 : roundTo 24 (13176795 / 2097152 : ℚ) = (13176795 / 2097152 : ℚ) := by
    exact roundTo_pos_exact 24 _ 2 13176795 (by norm_num) (by norm_num) (by norm_num)
  have r2 : roundTo 53 (-884279719003555 / 140737488355328 : ℚ) = (-884279719003555 / 140737488355328 : ℚ) := by
    rw [show (-884279719003555 / 140737488355328 : ℚ) = -(884279719003555 / 140737488355328 : ℚ) by norm_num, roundTo_neg]
    rw [roundTo_pos_exact 53 _ 2 7074237752028440 (by norm_num) (by norm_num) (by norm_num)]
  have r3 : roundTo 24 (-884279719003555 / 140737488355328 : ℚ) = (-13176795 / 2097152 : ℚ) := by
    rw [show (-884279719003555 / 140737488355328 : ℚ) = -(884279719003555 / 140737488355328 : ℚ) by norm_num, roundTo_neg]
    rw [roundTo_pos_eq 24 _ 2 13176795 (by norm_num) (by norm_num) (by norm_num) (by norm_num)]
    norm_num
  have r4 : roundTo 24 (592955775 / 524288 : ℚ) = (4632467 / 4096 : ℚ) := by
    rw [roundTo_pos_eq 24 _ 10 9264934 (by norm_num) (by norm_num) (by norm_num) (by norm_num)]
    norm_num
  have r5 : roundTo 53 (45477244033826816 / 126325674143365 : ℚ) = (6333187162907451 / 17592186044416 : ℚ) := by
    rw [roundTo_pos_eq 53 _ 8 6333187162907451 (by norm_num) (by norm_num) (by norm_num) (by norm_num)]
    norm_num
  have r6 : roundTo 24 (0 : ℚ) = (0 : ℚ) := by
    exact roundTo_zero _
  have r7 : roundTo 53 (0 : ℚ) = (0 : ℚ) := by
    exact roundTo_zero _
  have r8 : roundTo 53 (-6333187162907451 / 17592186044416 : ℚ) = (-6333187162907451 / 17592186044416 : ℚ) := by
    rw [show (-6333187162907451 / 17592186044416 : ℚ) = -(6333187162907451 / 17592186044416 : ℚ) by norm_num, roundTo_neg]
    rw [roundTo_pos_exact 53 _ 8 6333187162907451 (by norm_num) (by norm_num) (by norm_num)]
  have r9 : roundTo 53 (-186917691 / 17592186044416 : ℚ) = (-186917691 / 17592186044416 : ℚ) := by
    rw [show (-186917691 / 17592186044416 : ℚ) = -(186917691 / 17592186044416 : ℚ) by norm_num, roundTo_neg]
    rw [roundTo_pos_exact 53 _ (-17) 6271916952256512 (by norm_num) (by norm_num) (by norm_num)]
  have hclamp : rationalFloatFn.toFloat ((13176795 / 2097152 : ℚ) - (0 : ℚ)) ≥ 2 * rationalFloatFn.pi := by
    show roundTo 24 ((13176795 / 2097152 : ℚ) - (0 : ℚ)) ≥ _
    rw [show (13176795 / 2097152 : ℚ) - (0 : ℚ) = (13176795 / 2097152 : ℚ) by norm_num, r1]
    norm_num [rationalFloatFn]
  have hs : rationalFloatFn.toFloat (rationalFloatFn.toDouble ((0 : ℚ) - 2 * rationalFloatFn.pi)) = (-13176795 / 2097152 : ℚ) := by
    show roundTo 24 (roundTo 53 ((0 : ℚ) - 2 * rationalFloatFn.pi)) = _
    rw [show (0 : ℚ) - 2 * rationalFloatFn.pi = (-884279719003555 / 140737488355328 : ℚ) by norm_num [rationalFloatFn], r2, r3]
  have hS : rationalFloatFn.toDouble (rationalFloatFn.toFloat (-180 * (-13176795 / 2097152 : ℚ)) / rationalFloatFn.pi) = (6333187162907451 / 17592186044416 : ℚ) := by
    show roundTo 53 (roundTo 24 (-180 * (-13176795 / 2097152 : ℚ)) / rationalFloatFn.pi) = _
    rw [show (-180 : ℚ) * (-13176795 / 2097152 : ℚ) = (592955775 / 524288 : ℚ) by norm_num, r4,
      show (4632467 / 4096 : ℚ) / rationalFloatFn.pi = (45477244033826816 / 126325674143365 : ℚ) by norm_num [rationalFloatFn], r5]
  have hE : rationalFloatFn.toDouble (rationalFloatFn.toFloat (-180 * (0 : ℚ)) / rationalFloatFn.pi) = (0 : ℚ) := by
    show roundTo 53 (roundTo 24 (-180 * (0 : ℚ)) / rationalFloatFn.pi) = _
    rw [show (-180 : ℚ) * (0 : ℚ) = (0 : ℚ) by norm_num, r6,
      show (0 : ℚ) / rationalFloatFn.pi = (0 : ℚ) by norm_num [rationalFloatFn], r7]
  have hW : rationalFloatFn.toDouble (rationalFloatFn.toDouble ((0 : ℚ) - (6333187162907451 / 17592186044416 : ℚ)) + 360) = (-186917691 / 17592186044416 : ℚ) := by
    show roundTo 53 (roundTo 53 ((0 : ℚ) - (6333187162907451 / 17592186044416 : ℚ)) + 360) = _
    rw [show (0 : ℚ) - (6333187162907451 / 17592186044416 : ℚ) = (-6333187162907451 / 17592186044416 : ℚ) by norm_num, r8,
      show (-6333187162907451 / 17592186044416 : ℚ) + 360 = (-186917691 / 17592186044416 : ℚ) by norm_num, r9]
  rw [arcAngles_counter_clockwise_clamped rationalFloatFn _ _ _ _ _ hclamp hs hS hE, if_pos (by norm_num), hW]

/-- C16 (the code departs from the claim): for a clockwise arc from 0 to -20 radians, a
span of more than three turns against the requested direction, `addArcToPath` passes the
sweep 3456493319772475 / 2^42, about 785.9 degrees: more than two turns, and with the
sign of a counter-clockwise arc. The test at the head of the function, which is to keep
the arc within one circumference, only looks at spans in the requested direction. -/
theorem arc_sweep_exceeds_full_turn :
    (arcAngles rationalFloatFn 0 (-20) false).2 = 3456493319772475 / 4398046511104 ∧
    785 < (arcAngles rationalFloatFn 0 (-20) false).2 ∧
    ¬ |(arcAngles rationalFloatFn 0 (-20) false).2| ≤ 360 ∧
    addArcToPath rationalFloatFn [] 0 0 1 0 (-20) false =
      [.arcTo (-1) (-1) 2 2 0 (3456493319772475 / 4398046511104)] := by
  have h := arcAngles_against_direction
  have hx : rationalFloatFn.toFloat ((0 : ℚ) - 1) = -1 := by
    show roundTo 24 ((0 : ℚ) - 1) = -1
    rw [show ((0 : ℚ) - 1) = -(1 : ℚ) by norm_num, roundTo_neg,
      roundTo_pos_exact 24 _ 0 8388608 (by norm_num) (by norm_num) (by norm_num)]
  refine ⟨by rw [h], by rw [h]; norm_num, by rw [h]; norm_num [abs_of_pos], ?_⟩
  rw [addArcToPath_eq, if_neg (by norm_num), h, hx]
  norm_num

/-- C17 (the code departs from the claim): the `float` nearest to `2 * M_PI` is
13176795 / 2^21, which is above `2 * M_PI`. For the counter-clockwise arc from that angle
to 0, a full turn, `addArcToPath` moves the start angle to the `float` nearest to
`-2 * M_PI`, starts at 360.0000106 degrees and passes the sweep -186917691 / 2^44, about
-0.0000106 degrees, not +360: no circle is drawn. For the clockwise arc from 0 to that
angle it passes the sweep -6333187162907451 / 2^44, about -360.0000106 degrees, a full
turn up to the rounding of the `float` angle. -/
theorem counter_clockwise_full_turn_sweep :
    rationalFloatFn.ofBits 0x40c90fdb = 13176795 / 2097152 ∧
    (13176795 / 2097152 : ℚ) - 0 ≥ 2 * rationalFloatFn.pi ∧
    arcAngles rationalFloatFn (13176795 / 2097152) 0 true =
      (6333187162907451 / 17592186044416, -186917691 / 17592186044416) ∧
    (arcAngles rationalFloatFn (13176795 / 2097152) 0 true).2 ≠ 360 ∧
    |(arcAngles rationalFloatFn (13176795 / 2097152) 0 true).2| < 1 / 10000 ∧
    arcAngles rationalFloatFn 0 (13176795 / 2097152) false =
      (0, -6333187162907451 / 17592186044416) ∧
    |(arcAngles rationalFloatFn 0 (13176795 / 2097152) false).2 + 360| < 1 / 10000 := by
  have h1 := arcAngles_counter_clockwise_full_turn
  have h2 := arcAngles_clockwise_full_turn
  refine ⟨by norm_num [rationalFloatFn, ieee754], by norm_num [rationalFloatFn], ?_,
    by rw [h1]; norm_num, by rw [h1]; norm_num [abs_lt], ?_, by rw [h2]; norm_num [abs_lt]⟩
  · rw [h1]
  · rw [h2]

/-! ## Text position -/

/-- C18: from every state, the record `textAlign` with one of the five names and then a
`text` or `stxt` record draws the text at the x coordinate read (times the display
scaling) minus the offset of the name: nothing for "start" and "left", the measured width
for "end" and "right", half the measured width for "center". The y coordinate is the one
of the baseline in force. With the alignment "center" (4), x = 100 and the width 20 the
text is drawn at 90. -/
theorem text_alignment_offsets {F : Type} [LinearOrderedField F] (backend : Backend F)
    (fn : FloatFn F) (params : PaintParams F) (st : PaintState F) (text : QString)
    (arg1 arg2 max_width : Nat) :
    (∀ (name : QString) (offset : F),
      (name, offset) ∈
        [(ascii "start", (0 : F)), (ascii "left", 0),
         (ascii "end", ((backend.horizontalAdvance st.current.text_font text : Int) : F)),
         (ascii "right", ((backend.horizontalAdvance st.current.text_font text : Int) : F)),
         (ascii "center",
           ((backend.horizontalAdvance st.current.text_font text : Int) : F) / 2)] →
      (∃ st2, executeAll backend fn params st [.algn name, .text text arg1 arg2 max_width] =
          .ok st2 ∧
        st2.painter = st.painter ++
          [.save, .setFont st.current.text_font,
           .setPen { QPen.ofBrush (fillBrush st.current).1 with
                     width := 1 * params.display_scaling },
           .drawText (fn.ofBits arg1 * params.display_scaling - offset)
             (textPosY (fn.ofBits arg2 * params.display_scaling)
               (backend.ascent st.current.text_font) (backend.height st.current.text_font)
               (backend.xHeight st.current.text_font) st.current.text_baseline) text,
           .restore]) ∧
      (∃ st2, executeAll backend fn params st [.algn name, .stxt text arg1 arg2 max_width] =
          .ok st2 ∧
        st2.painter = st.painter ++
          [.strokePath
            [.addText (fn.ofBits arg1 * params.display_scaling - offset)
              (textPosY (fn.ofBits arg2 * params.display_scaling)
                (backend.ascent st.current.text_font) (backend.height st.current.text_font)
                (backend.xHeight st.current.text_font) st.current.text_baseline)
              st.current.text_font text]
            { brush := .color st.current.line_color
              width := ((fn.toInt (st.current.line_width * params.display_scaling) : Int) : F)
              join := st.current.line_join
              cap := st.current.line_cap
              dashPattern := [] }])) ∧
    textPosX (100 : ℚ) 20 4 = 90 := by
  refine ⟨?_, by norm_num [textPosX]⟩
  intro name offset hmem
  simp only [List.mem_cons, Prod.mk.injEq, List.mem_singleton, List.not_mem_nil, or_false]
    at hmem
  rcases hmem with ⟨rfl, rfl⟩ | ⟨rfl, rfl⟩ | ⟨rfl, rfl⟩ | ⟨rfl, rfl⟩ | ⟨rfl, rfl⟩ <;>
    refine ⟨⟨_, rfl, ?_⟩, ⟨_, rfl, ?_⟩⟩ <;>
    simp [execute, textPosX, ascii, fillBrush] <;> ring

/-- C19 (the code departs from the claim): for every position and every font metric, the
record `textBaseline("bottom")` sets the baseline to 6, and a `text` record after it
draws at the y coordinate read (times the display scaling) with no offset, because the
chain of tests compares with 5 where "bottom" is meant. The other five modes have the
offsets of the claim: the ascent for "top" (1), twice the ascent minus the height for
"hanging" (2), half the x-height for "middle" (3), nothing for "alphabetic" (4) and
"ideographic" (5). With the ascent 12 and the height 16, text at y = 50 with the baseline
"bottom" is drawn at 50, not at 46. -/
theorem bottom_baseline_has_no_offset {F : Type} [LinearOrderedField F]
    (backend : Backend F) (fn : FloatFn F) (params : PaintParams F) (st : PaintState F)
    (text : QString) (arg1 arg2 max_width : Nat) (y : F) (ascent height xHeight : Int) :
    (∃ st2, executeAll backend fn params st
        [.tbas (ascii "bottom"), .text text arg1 arg2 max_width] = .ok st2 ∧
      st2.current.text_baseline = 6 ∧
      st2.painter = st.painter ++
        [.save, .setFont st.current.text_font,
         .setPen { QPen.ofBrush (fillBrush st.current).1 with
                   width := 1 * params.display_scaling },
         .drawText
           (textPosX (fn.ofBits arg1 * params.display_scaling)
             (backend.horizontalAdvance st.current.text_font text) st.current.text_align)
           (fn.ofBits arg2 * params.display_scaling) text,
         .restore]) ∧
    textPosY y ascent height xHeight 6 = y ∧
    textPosY y ascent height xHeight 1 = y + ascent ∧
    textPosY y ascent height xHeight 2 = y + 2 * ascent - height ∧
    textPosY y ascent height xHeight 3 = y + xHeight / 2 ∧
    textPosY y ascent height xHeight 4 = y ∧
    textPosY y ascent height xHeight 5 = y ∧
    textPosY (50 : ℚ) 12 16 6 6 = 50 ∧ textPosY (50 : ℚ) 12 16 6 6 ≠ 50 + 12 - 16 := by
  refine ⟨⟨_, rfl, ?_, ?_⟩, ?_, ?_, ?_, ?_, ?_, ?_, ?_, ?_⟩
  · simp [execute, ascii]
  · simp [execute, textPosY, ascii, fillBrush]
  · simp [textPosY]
  · simp [textPosY]
  · simp [textPosY]
  · simp [textPosY]; ring
  · simp [textPosY]
  · simp [textPosY]
  · norm_num [textPosY]
  · norm_num [textPosY]

/-! ## RepaintManager -/

/-- A request for a canvas that is not pending is appended at the end. -/
theorem RepaintManager.requestRepaint_absent (rm : RepaintManager) (canvas : Nat)
    (h : canvas ∉ rm.requests) :
    (rm.requestRepaint canvas).requests = rm.requests ++ [canvas] := by
  have hany : rm.requests.any (fun r => r == canvas) = false := by
    rw [List.any_eq_false]
    intro r hr hrc
    exact h (by rw [← beq_iff_eq.mp hrc]; exact hr)
  simp only [RepaintManager.requestRepaint, hany, Bool.false_eq_true, if_false]

/-- A request for a canvas that is pending changes nothing. -/
theorem RepaintManager.requestRepaint_present (rm : RepaintManager) (canvas : Nat)
    (h : canvas ∈ rm.requests) : rm.requestRepaint canvas = rm := by
  have hany : rm.requests.any (fun r => r == canvas) = true := by
    rw [List.any_eq_true]
    exact ⟨canvas, h, beq_self_eq_true canvas⟩
  simp only [RepaintManager.requestRepaint, hany, if_true]

/-- Every call keeps the list of requests free of duplicates. -/
theorem RepaintManager.call_nodup (rm : RepaintManager) (call : RepaintCall)
    (h : rm.requests.Nodup) : (rm.call call).requests.Nodup := by
  cases call with
  | requestRepaint canvas =>
    by_cases hc : canvas ∈ rm.requests
    · simp only [RepaintManager.call, RepaintManager.requestRepaint_present rm canvas hc]
      exact h
    · simp only [RepaintManager.call, RepaintManager.requestRepaint_absent rm canvas hc]
      exact List.Nodup.append h (List.nodup_singleton canvas)
        (by
          intro a ha hs
          rw [List.mem_singleton] at hs
          exact hc (hs ▸ ha))
  | cancelRepaintRequest canvas => exact List.Nodup.filter _ h
  | update => exact List.nodup_nil

/-- After any calls on a manager whose list has no duplicates, the list has none. -/
theorem RepaintManager.foldl_nodup (calls : List RepaintCall) :
    ∀ rm : RepaintManager, rm.requests.Nodup →
      (calls.foldl RepaintManager.call rm).requests.Nodup := by
  induction calls with
  | nil => intro rm h; exact h
  | cons call rest ih =>
    intro rm h
    exact ih (rm.call call) (RepaintManager.call_nodup rm call h)

/-- C20: after any sequence of calls of `requestRepaint`, `cancelRepaintRequest` and
`update` on the manager as constructed, no canvas is in the list of requests twice; and
in every state of the manager `requestRepaint(c)` appends `c` at the end when `c` is not
in the list, changes nothing when it is, and called twice does what it does called
once. -/
theorem repaint_requests_have_no_duplicates (calls : List RepaintCall) :
    (RepaintManager.after calls).requests.Nodup ∧
    ∀ (rm : RepaintManager) (c : Nat),
      (c ∉ rm.requests → (rm.requestRepaint c).requests = rm.requests ++ [c]) ∧
      (c ∈ rm.requests → rm.requestRepaint c = rm) ∧
      (rm.requestRepaint c).requestRepaint c = rm.requestRepaint c := by
  refine ⟨RepaintManager.foldl_nodup calls RepaintManager.empty List.nodup_nil,
    fun rm c => ⟨RepaintManager.requestRepaint_absent rm c,
      RepaintManager.requestRepaint_present rm c, ?_⟩⟩
  apply RepaintManager.requestRepaint_present
  by_cases hc : c ∈ rm.requests
  · rw [RepaintManager.requestRepaint_present rm c hc]; exact hc
  · rw [RepaintManager.requestRepaint_absent rm c hc]; simp

/-! ## RepaintManager: update and cancel -/

/-- A pending canvas stays pending through calls that neither cancel it nor update. -/
theorem RepaintManager.foldl_mem (between : List RepaintCall) (c : Nat) :
    ∀ rm : RepaintManager, RepaintCall.update ∉ between →
      RepaintCall.cancelRepaintRequest c ∉ between →
      (c ∈ rm.requests ∨ RepaintCall.requestRepaint c ∈ between) →
      c ∈ (between.foldl RepaintManager.call rm).requests := by
  induction between with
  | nil =>
    intro rm _ _ h
    rcases h with h | h
    · exact h
    · cases h
  | cons call rest ih =>
    intro rm hu hc h
    have hu1 : RepaintCall.update ∉ rest := fun hm => hu (List.mem_cons_of_mem _ hm)
    have hc1 : RepaintCall.cancelRepaintRequest c ∉ rest :=
      fun hm => hc (List.mem_cons_of_mem _ hm)
    apply ih (rm.call call) hu1 hc1
    cases call with
    | update => exact absurd (List.mem_cons_self _ _) hu
    | requestRepaint d =>
      by_cases hd : d = c
      · subst hd
        left
        by_cases hin : d ∈ rm.requests
        · simp only [RepaintManager.call, RepaintManager.requestRepaint_present rm d hin]
          exact hin
        · simp only [RepaintManager.call, RepaintManager.requestRepaint_absent rm d hin]
          simp
      · rcases h with h | h
        · left
          by_cases hin : d ∈ rm.requests
          · simp only [RepaintManager.call, RepaintManager.requestRepaint_present rm d hin]
            exact h
          · simp only [RepaintManager.call, RepaintManager.requestRepaint_absent rm d hin]
            exact List.mem_append_left _ h
        · right
          rcases List.mem_cons.mp h with h | h
          · exact absurd (RepaintCall.requestRepaint.inj h).symm hd
          · exact h
    | cancelRepaintRequest d =>
      have hd : d ≠ c := by
        rintro rfl
        exact hc (List.mem_cons_self _ _)
      rcases h with h | h
      · left
        simp only [RepaintManager.call, RepaintManager.cancelRepaintRequest, List.mem_filter,
          bne_iff_ne, ne_eq]
        exact ⟨h, fun e => hd e.symm⟩
      · right
        rcases List.mem_cons.mp h with h | h
        · cases h
        · exact h

/-- C21: in every state that the manager reaches from its construction, `update` calls
`update()` on the pending canvases in the order of the list, on no canvas twice, and
leaves the list empty; and after such a tick, whatever calls follow that are neither a
tick nor a cancel for the canvas `c`, if `requestRepaint(c)` is among them, once or many
times, the next tick calls `update()` on `c` exactly once. -/
theorem update_calls_each_pending_once (calls : List RepaintCall) :
    (RepaintManager.after calls).update.1 = (RepaintManager.after calls).requests ∧
    (RepaintManager.after calls).update.1.Nodup ∧
    (RepaintManager.after calls).update.2.requests = [] ∧
    ∀ (between : List RepaintCall) (c : Nat),
      RepaintCall.update ∉ between → RepaintCall.cancelRepaintRequest c ∉ between →
      RepaintCall.requestRepaint c ∈ between →
      ((between.foldl RepaintManager.call
        (RepaintManager.after calls).update.2).update.1).count c = 1 := by
  refine ⟨rfl, RepaintManager.foldl_nodup calls RepaintManager.empty List.nodup_nil, rfl, ?_⟩
  intro between c hu hc hr
  have hmem := RepaintManager.foldl_mem between c (RepaintManager.after calls).update.2 hu hc
    (Or.inr hr)
  have hnodup := RepaintManager.foldl_nodup between (RepaintManager.after calls).update.2
    List.nodup_nil
  exact List.count_eq_one_of_mem hnodup hmem

/-- C22: after `cancelRepaintRequest(c)` the list holds the entries that were there before
other than `c`, in the order they had: it is the old list with `c` filtered out, so it
is a sublist of the old one in which `c` does not occur and every other canvas occurs as
often as before; when `c` was not pending the manager is unchanged; and an `update`
right after it does not call `update()` on `c`. -/
theorem cancelRepaintRequest_removes (rm : RepaintManager) (c : Nat) :
    (rm.cancelRepaintRequest c).requests = rm.requests.filter (fun r => decide (r ≠ c)) ∧
    c ∉ (rm.cancelRepaintRequest c).requests ∧
    (rm.cancelRepaintRequest c).requests.Sublist rm.requests ∧
    (∀ d, d ≠ c → (rm.cancelRepaintRequest c).requests.count d = rm.requests.count d) ∧
    (c ∉ rm.requests → rm.cancelRepaintRequest c = rm) ∧
    c ∉ (rm.cancelRepaintRequest c).update.1 := by
  have hnot : c ∉ (rm.cancelRepaintRequest c).requests := by
    simp [RepaintManager.cancelRepaintRequest]
  refine ⟨?_, hnot, List.filter_sublist _, ?_, ?_, hnot⟩
  · simp only [RepaintManager.cancelRepaintRequest]
    congr 1
    funext r
    by_cases hr : r = c <;> simp [hr]
  · intro d hd
    simp only [RepaintManager.cancelRepaintRequest, List.count_filter, bne_iff_ne, ne_eq]
    rw [List.count_filter]
    · simp [hd]
  · intro h
    have : rm.requests.filter (fun r => r != c) = rm.requests := by
      rw [List.filter_eq_self]
      intro a ha
      simp only [bne_iff_ne, ne_eq]
      rintro rfl
      exact h ha
    cases rm
    simp only [RepaintManager.cancelRepaintRequest] at this ⊢
    rw [this]

/-- C23: `continuePaintingSection` hands the canvas to the repaint manager exactly when
neither the canvas nor the section is closing: then the manager is the old one after
`requestRepaint(this)`, and the canvas is pending. When the canvas or the section is
closing the manager is left as it was, no task is started, the pending buffer is dropped
and `m_render_task` is null, so that a pass of the wait loop of `removeSection` finds no
task and leaves the loop. -/
theorem continuePaintingSection_repaint_iff (c : PyCanvas) (rm : RepaintManager)
    (task_addr : Nat) (render_result : RenderResult) (section_id : Int) :
    ((c.m_closing = false ∧ (c.heap render_result.section_).closing = false) →
      (c.continuePaintingSection rm task_addr render_result).2.1 =
        rm.requestRepaint c.this ∧
      c.this ∈ (c.continuePaintingSection rm task_addr render_result).2.1.requests) ∧
    (¬ (c.m_closing = false ∧ (c.heap render_result.section_).closing = false) →
      (c.continuePaintingSection rm task_addr render_result).2.1 = rm ∧
      (c.continuePaintingSection rm task_addr render_result).2.2 = none ∧
      ((c.continuePaintingSection rm task_addr render_result).1.heap
        render_result.section_).m_pending_drawing_commands = none ∧
      ((c.continuePaintingSection rm task_addr render_result).1.heap
        render_result.section_).m_render_task = none ∧
      ((c.continuePaintingSection rm task_addr render_result).1.removeSection_poll
        section_id render_result.section_).2 = true) := by
  obtain ⟨_, _, _, _, h⟩ := PyCanvas.continuePaintingSection_cases c rm task_addr render_result
  constructor
  · intro hopen
    rcases h with ⟨_, _, hrm, _⟩ | ⟨hclosing, _⟩
    · refine ⟨hrm, ?_⟩
      rw [hrm]
      by_cases hin : c.this ∈ rm.requests
      · rw [RepaintManager.requestRepaint_present rm c.this hin]; exact hin
      · rw [RepaintManager.requestRepaint_absent rm c.this hin]; simp
    · exact absurd hopen hclosing
  · intro hclosing
    rcases h with ⟨h1, h2, _⟩ | ⟨_, hrm, htask, hheap⟩
    · exact absurd ⟨h1, h2⟩ hclosing
    · refine ⟨hrm, htask, ?_, ?_, ?_⟩
      · rw [hheap]; simp
      · rw [hheap]; simp
      · simp only [PyCanvas.removeSection_poll]
        rw [hheap]
        simp

/-! ## Termination of the decode loop -/

/-- The end of a chain of reads. -/
theorem readsFrom_pure {α : Type} (i j : Nat) (a : α) (h : i ≤ j) :
    ReadsFrom i (pure (a, j) : Except PaintError (α × Nat)) :=
  Or.inl ⟨a, j, rfl, h⟩

/-- A read followed by further reads. -/
theorem readsFrom_bind {α β : Type} (i : Nat) (r : Except PaintError (α × Nat))
    (f : α × Nat → Except PaintError (β × Nat)) (hr : ReadsFrom i r)
    (hf : ∀ x : α × Nat, i ≤ x.2 → ReadsFrom i (f x)) : ReadsFrom i (r >>= f) := by
  rcases hr with ⟨a, j, rfl, hj⟩ | ⟨k, rfl⟩
  · exact hf (a, j) hj
  · exact Or.inr ⟨k, rfl⟩

/-- A chain that starts later starts late enough. -/
theorem readsFrom_mono {α : Type} (i j : Nat) (r : Except PaintError (α × Nat)) (h : i ≤ j)
    (hr : ReadsFrom j r) : ReadsFrom i r := by
  rcases hr with ⟨a, k, rfl, hk⟩ | ⟨k, rfl⟩
  · exact Or.inl ⟨a, k, rfl, by omega⟩
  · exact Or.inr ⟨k, rfl⟩

/-- The function `read_uint32` moves the index forward. -/
theorem readsFrom_read_uint32 (commands : List Nat) (i j : Nat) (h : i ≤ j) :
    ReadsFrom i (read_uint32 commands j) := by
  unfold read_uint32
  split_ifs
  · exact Or.inl ⟨_, _, rfl, by omega⟩
  · exact Or.inr ⟨_, rfl⟩

/-- The function `read_double` does not move the index back. -/
theorem readsFrom_read_double (commands : List Nat) (i j : Nat) (h : i ≤ j) :
    ReadsFrom i (read_double commands j) := by
  unfold read_double
  split_ifs
  · exact Or.inl ⟨_, _, rfl, by omega⟩
  · exact Or.inr ⟨_, rfl⟩
  · exact Or.inr ⟨_, rfl⟩

/-- The function `read_string` moves the index forward. -/
theorem readsFrom_read_string (commands : List Nat) (i j : Nat) (h : i ≤ j) :
    ReadsFrom i (read_string commands j) := by
  simp only [read_string]
  split_ifs
  · exact Or.inl ⟨_, _, rfl, by omega⟩
  · exact Or.inr ⟨_, rfl⟩
  · exact Or.inr ⟨_, rfl⟩

set_option maxHeartbeats 4000000 in
/-- The reads of every case either fail on an index outside the buffer or leave the index
at or after the place where they started. -/
theorem fetchArguments_readsFrom (commands : List Nat) (cmd i : Nat) :
    ReadsFrom i (fetchArguments commands cmd i) := by
  by_cases hmem : cmd ∈ handledOpcodes
  · simp only [handledOpcodes, List.mem_cons, List.mem_singleton, List.not_mem_nil,
      or_false] at hmem
    rcases hmem with rfl | rfl | rfl | rfl | rfl | rfl | rfl | rfl | rfl | rfl | rfl | rfl |
      rfl | rfl | rfl | rfl | rfl | rfl | rfl | rfl | rfl | rfl | rfl | rfl | rfl | rfl |
      rfl | rfl | rfl | rfl | rfl | rfl | rfl | rfl | rfl | rfl | rfl | rfl
    all_goals
      unfold fetchArguments
      repeat' first
        | exact readsFrom_pure _ _ _ (by assumption)
        | exact readsFrom_pure _ _ _ (le_refl _)
        | exact readsFrom_read_uint32 _ _ _ (by first | assumption | exact le_refl _)
        | exact readsFrom_read_double _ _ _ (by first | assumption | exact le_refl _)
        | exact readsFrom_read_string _ _ _ (by first | assumption | exact le_refl _)
        | apply readsFrom_bind
        | (rintro ⟨a, j⟩ hj; simp only at hj ⊢)
  · rw [fetchArguments_unknown commands cmd i hmem]
    exact Or.inl ⟨_, _, rfl, le_refl i⟩

/-- The reads of a pass either fail on an index outside the buffer or move the index
forward, by the tag at least. -/
theorem fetch_index (commands : List Nat) (i : Nat) :
    (∃ c j, fetch commands i = .ok (c, j) ∧ i < j) ∨
    ∃ k, fetch commands i = .error (.outOfBounds k) := by
  by_cases hlt : i < commands.length
  · simp only [fetch, read_uint32_eq commands i hlt, bind, Except.bind]
    rcases fetchArguments_readsFrom commands (opcodeOfWord (commands.getD i 0)) (i + 1) with
      ⟨c, j, h, hle⟩ | ⟨k, h⟩
    · exact Or.inl ⟨c, j, h, by omega⟩
    · exact Or.inr ⟨k, h⟩
  · exact Or.inr ⟨i, by simp only [fetch, read_uint32, hlt, if_false, bind, Except.bind]⟩

/-- A pass that succeeds moves `command_index` forward, and a pass that fails does not
fail for want of passes. -/
theorem pass_index {F : Type} [LinearOrderedField F] (backend : Backend F) (fn : FloatFn F)
    (params : PaintParams F) (commands : List Nat) (st : PaintState F) :
    (∃ st1, PaintBinaryCommands.pass backend fn params commands st = .ok st1 ∧
      st.command_index < st1.command_index) ∨
    ∃ e, PaintBinaryCommands.pass backend fn params commands st = .error e ∧
      e ≠ .outOfFuel := by
  rcases fetch_index commands st.command_index with ⟨c, j, h, hlt⟩ | ⟨k, h⟩
  · simp only [PaintBinaryCommands.pass, h]
    rcases execute_result backend fn params { st with command_index := j } c with he | ⟨st1, he, hi⟩
    · exact Or.inr ⟨.takeLastOfEmpty, he, by simp⟩
    · exact Or.inl ⟨st1, he, by rw [hi]; exact hlt⟩
  · exact Or.inr ⟨.outOfBounds k, by simp only [PaintBinaryCommands.pass, h], by simp⟩

/-- The loop does not run out of passes when it is given as many as there are words from
`command_index` to the end of the buffer. -/
theorem loop_terminates {F : Type} [LinearOrderedField F] (backend : Backend F)
    (fn : FloatFn F) (params : PaintParams F) (commands : List Nat) (fuel : Nat) :
    ∀ st : PaintState F, commands.length ≤ st.command_index + fuel →
      PaintBinaryCommands.loop backend fn params commands fuel st ≠ .error .outOfFuel := by
  induction fuel with
  | zero =>
    intro st h
    have : ¬ st.command_index < commands.length := by omega
    simp [PaintBinaryCommands.loop, this]
  | succ fuel ih =>
    intro st h
    simp only [PaintBinaryCommands.loop]
    split_ifs with hlt
    · rcases pass_index backend fn params commands st with ⟨st1, hp, hi⟩ | ⟨e, hp, he⟩
      · rw [hp]
        exact ih st1 (by omega)
      · rw [hp]
        simpa using he
    · simp

/-- C29: for every buffer, every pass of the loop of `PaintBinaryCommands` whose reads
stay in the buffer leaves `command_index` greater than it found it (a read outside the
buffer ends the run in this model); so the loop makes at most as many passes as the
buffer has words, and the interpreter gives its result, whatever opcodes and string
lengths the buffer holds. -/
theorem decode_loop_terminates {F : Type} [LinearOrderedField F] (backend : Backend F)
    (fn : FloatFn F) (commands : List Nat) (imageMap : List (Int × Nat))
    (lastRenderedTimestamps : List RenderedTimeStamp) (display_scaling : F)
    (section_id : Int) (devicePixelRatio : F) :
    (∀ (params : PaintParams F) (st st1 : PaintState F),
      PaintBinaryCommands.pass backend fn params commands st = .ok st1 →
      st.command_index < st1.command_index) ∧
    PaintBinaryCommands backend fn commands imageMap lastRenderedTimestamps display_scaling
      section_id devicePixelRatio ≠ .error .outOfFuel := by
  constructor
  · intro params st st1 h
    rcases pass_index backend fn params commands st with ⟨st2, hp, hi⟩ | ⟨e, hp, _⟩
    · rw [hp] at h
      cases h
      exact hi
    · rw [hp] at h
      cases h
  · exact loop_terminates backend fn _ commands commands.length _ (by
      simp [PaintBinaryCommands.start])

/-! ## The direction of the arc of arcTo -/

/-- The `float` angles `0x4025dce6` and `0x40b77660`, about 2.5916 and 5.7332 radians, in
the arithmetic of the code: the `float` difference is below `M_PI`, the direction is
clockwise, and the sweep is -180.00001502656713 degrees. -/
theorem arcAngles_half_turn :
    arcToAnticlockwise rationalFloatFn (5434995 / 2097152)
      (375731 / 65536) = false ∧
    arcAngles rationalFloatFn (5434995 / 2097152) (375731 / 65536)
        (arcToAnticlockwise rationalFloatFn (5434995 / 2097152)
          (375731 / 65536)) =
      ((-5224463083967557 / 35184372088832 : ℚ), (-6333187504690089 / 35184372088832 : ℚ)) := by
  have r1 : roundTo 24 (6588397 / 2097152 : ℚ) = (6588397 / 2097152 : ℚ) := by
    exact roundTo_pos_exact 24 _ 1 13176794 (by norm_num) (by norm_num) (by norm_num)
  have r2 : roundTo 24 (-244574775 / 524288 : ℚ) = (-15285923 / 32768 : ℚ) := by
    rw [show (-244574775 / 524288 : ℚ) = -(244574775 / 524288 : ℚ) by norm_num, roundTo_neg]
    rw [roundTo_pos_eq 24 _ 8 15285923 (by norm_num) (by norm_num) (by norm_num) (by norm_num)]
    norm_num
  have r3 : roundTo 53 (-131305078748348416 / 884279719003555 : ℚ) = (-5224463083967557 / 35184372088832 : ℚ) := by
    rw [show (-131305078748348416 / 884279719003555 : ℚ) = -(131305078748348416 / 884279719003555 : ℚ) by norm_num, roundTo_neg]
    rw [roundTo_pos_eq 53 _ 7 5224463083967557 (by norm_num) (by norm_num) (by norm_num) (by norm_num)]
    norm_num
  have r4 : roundTo 24 (-16907895 / 16384 : ℚ) = (-2113487 / 2048 : ℚ) := by
    rw [show (-16907895 / 16384 : ℚ) = -(16907895 / 16384 : ℚ) by norm_num, roundTo_neg]
    rw [roundTo_pos_tie 24 _ 10 8453947 (by norm_num) (by norm_num) (by norm_num)]
    norm_num
  have r5 : roundTo 53 (-290475441456676864 / 884279719003555 : ℚ) = (-5778825294328823 / 17592186044416 : ℚ) := by
    rw [show (-290475441456676864 / 884279719003555 : ℚ) = -(290475441456676864 / 884279719003555 : ℚ) by norm_num, roundTo_neg]
    rw [roundTo_pos_eq 53 _ 8 5778825294328823 (by norm_num) (by norm_num) (by norm_num) (by norm_num)]
    norm_num
  have r6 : roundTo 53 (-6333187504690089 / 35184372088832 : ℚ) = (-6333187504690089 / 35184372088832 : ℚ) := by
    rw [show (-6333187504690089 / 35184372088832 : ℚ) = -(6333187504690089 / 35184372088832 : ℚ) by norm_num, roundTo_neg]
    rw [roundTo_pos_exact 53 _ 7 6333187504690089 (by norm_num) (by norm_num) (by norm_num)]
  have hdiff : rationalFloatFn.toFloat ((375731 / 65536 : ℚ) - (5434995 / 2097152 : ℚ)) = (6588397 / 2097152 : ℚ) := by
    show roundTo 24 ((375731 / 65536 : ℚ) - (5434995 / 2097152 : ℚ)) = _
    rw [show (375731 / 65536 : ℚ) - (5434995 / 2097152 : ℚ) = (6588397 / 2097152 : ℚ) by norm_num, r1]
  have hdir : arcToAnticlockwise rationalFloatFn (5434995 / 2097152 : ℚ) (375731 / 65536 : ℚ) = false := by
    simp only [arcToAnticlockwise, hdiff, decide_eq_false_iff_not]
    norm_num [rationalFloatFn]
  have hclamp : ¬ (rationalFloatFn.toFloat ((375731 / 65536 : ℚ) - (5434995 / 2097152 : ℚ)) ≥ 2 * rationalFloatFn.pi) := by
    rw [hdiff]
    norm_num [rationalFloatFn]
  have hS : rationalFloatFn.toDouble (rationalFloatFn.toFloat (-180 * (5434995 / 2097152 : ℚ)) / rationalFloatFn.pi) = (-5224463083967557 / 35184372088832 : ℚ) := by
    show roundTo 53 (roundTo 24 (-180 * (5434995 / 2097152 : ℚ)) / rationalFloatFn.pi) = _
    rw [show (-180 : ℚ) * (5434995 / 2097152 : ℚ) = (-244574775 / 524288 : ℚ) by norm_num, r2,
      show (-15285923 / 32768 : ℚ) / rationalFloatFn.pi = (-131305078748348416 / 884279719003555 : ℚ) by norm_num [rationalFloatFn], r3]
  have hE : rationalFloatFn.toDouble (rationalFloatFn.toFloat (-180 * (375731 / 65536 : ℚ)) / rationalFloatFn.pi) = (-5778825294328823 / 17592186044416 : ℚ) := by
    show roundTo 53 (roundTo 24 (-180 * (375731 / 65536 : ℚ)) / rationalFloatFn.pi) = _
    rw [show (-180 : ℚ) * (375731 / 65536 : ℚ) = (-16907895 / 16384 : ℚ) by norm_num, r4,
      show (-2113487 / 2048 : ℚ) / rationalFloatFn.pi = (-290475441456676864 / 884279719003555 : ℚ) by norm_num [rationalFloatFn], r5]
  have hW : rationalFloatFn.toDouble ((-5778825294328823 / 17592186044416 : ℚ) - (-5224463083967557 / 35184372088832 : ℚ)) = (-6333187504690089 / 35184372088832 : ℚ) := by
    show roundTo 53 ((-5778825294328823 / 17592186044416 : ℚ) - (-5224463083967557 / 35184372088832 : ℚ)) = _
    rw [show (-5778825294328823 / 17592186044416 : ℚ) - (-5224463083967557 / 35184372088832 : ℚ) = (-6333187504690089 / 35184372088832 : ℚ) by norm_num, r6]
  refine ⟨hdir, ?_⟩
  rw [hdir, arcAngles_clockwise_eq rationalFloatFn _ _ _ _ hclamp hS hE, if_neg (by norm_num), hW]

/-- C24 (the claim as stated fails): the `float` angles `0x4025dce6` and `0x40b77660` lie
between 0 and `2 * M_PI`; their `float` difference is not above `M_PI`, so `arcTo`
chooses the clockwise direction, and the sweep that `addArcToPath` computes is
-6333187504690089 / 2^45, about -180.000015 degrees: the magnitude is above 180. -/
theorem arcTo_sweep_above_half_turn :
    rationalFloatFn.ofBits 0x4025dce6 = 5434995 / 2097152 ∧
    rationalFloatFn.ofBits 0x40b77660 = 375731 / 65536 ∧
    ((0 : ℚ) ≤ 5434995 / 2097152 ∧ (5434995 / 2097152 : ℚ) ≤ 2 * rationalFloatFn.pi) ∧
    ((0 : ℚ) ≤ 375731 / 65536 ∧ (375731 / 65536 : ℚ) ≤ 2 * rationalFloatFn.pi) ∧
    arcToAnticlockwise rationalFloatFn (5434995 / 2097152) (375731 / 65536) = false ∧
    (arcAngles rationalFloatFn (5434995 / 2097152) (375731 / 65536)
      (arcToAnticlockwise rationalFloatFn (5434995 / 2097152) (375731 / 65536))).2 =
        -6333187504690089 / 35184372088832 ∧
    ¬ |(arcAngles rationalFloatFn (5434995 / 2097152) (375731 / 65536)
      (arcToAnticlockwise rationalFloatFn (5434995 / 2097152) (375731 / 65536))).2| ≤ 180 := by
  obtain ⟨h1, h2⟩ := arcAngles_half_turn
  refine ⟨by norm_num [rationalFloatFn, ieee754], by norm_num [rationalFloatFn, ieee754],
    by norm_num [rationalFloatFn], by norm_num [rationalFloatFn], h1, by rw [h2], ?_⟩
  rw [h2]
  norm_num [abs_of_neg]

/-- The error of a rounding with relative error `u` on a number of magnitude at most `m`. -/
theorem rounding_error_le {F : Type} [LinearOrderedField F] (f : F → F) (u : F)
    (hf : ∀ x, |f x - x| ≤ |x| * u) (hu : 0 ≤ u) (x m : F) (hx : |x| ≤ m) :
    |f x - x| ≤ m * u :=
  (hf x).trans (mul_le_mul_of_nonneg_right hx hu)

/-- The degrees that `addArcToPath` computes for an angle between 0 and `2 * M_PI` differ
from `-180 * angle / M_PI` by at most `480 * u + 361 * v`, where `u` and `v` are the
relative errors of the `float` and the `double` rounding. -/
theorem degrees_error {F : Type} [LinearOrderedField F] (fn : FloatFn F) (u v : F)
    (hu : 0 ≤ u ∧ u ≤ 1 / 1000) (hv : 0 ≤ v ∧ v ≤ 1 / 1000)
    (hpi : 3 ≤ fn.pi ∧ fn.pi ≤ 4)
    (hfe : ∀ x, |fn.toFloat x - x| ≤ |x| * u) (hde : ∀ x, |fn.toDouble x - x| ≤ |x| * v)
    (x : F) (hx : 0 ≤ x ∧ x ≤ 2 * fn.pi) :
    |fn.toDouble (fn.toFloat (-180 * x) / fn.pi) - -180 * x / fn.pi| ≤ 480 * u + 361 * v ∧
    |-180 * x / fn.pi| ≤ 360 := by
  have hpos : (0 : F) < fn.pi := by linarith [hpi.1]
  have hx8 : x ≤ 8 := by linarith [hx.2, hpi.2]
  have ha := rounding_error_le fn.toFloat u hfe hu.1 (-180 * x) 1440
    (by rw [abs_le]; constructor <;> linarith [hx.1])
  rw [abs_le] at ha
  have hstar : |-180 * x / fn.pi| ≤ 360 := by
    rw [abs_le]
    constructor
    · rw [le_div_iff₀ hpos]; linarith [hx.2]
    · rw [div_le_iff₀ hpos]; nlinarith [hx.1]
  rw [abs_le] at hstar
  have hb1 : fn.toFloat (-180 * x) / fn.pi - -180 * x / fn.pi ≤ 480 * u := by
    rw [← sub_div, div_le_iff₀ hpos]
    nlinarith [hu.1, hpi.1, ha.2]
  have hb2 : -(480 * u) ≤ fn.toFloat (-180 * x) / fn.pi - -180 * x / fn.pi := by
    rw [← sub_div, le_div_iff₀ hpos]
    nlinarith [hu.1, hpi.1, ha.1]
  have hd := rounding_error_le fn.toDouble v hde hv.1 (fn.toFloat (-180 * x) / fn.pi) 361
    (by rw [abs_le]; constructor <;> linarith [hu.2])
  rw [abs_le] at hd
  refine ⟨?_, abs_le.mpr hstar⟩
  rw [abs_le]
  constructor <;> linarith

/-- The degrees that `addArcToPath` computes fall as the angle grows, when the roundings
are monotone. -/
theorem degrees_antitone {F : Type} [LinearOrderedField F] (fn : FloatFn F)
    (hpi : 0 < fn.pi) (hfm : Monotone fn.toFloat) (hdm : Monotone fn.toDouble) (x y : F)
    (h : x ≤ y) :
    fn.toDouble (fn.toFloat (-180 * y) / fn.pi) ≤ fn.toDouble (fn.toFloat (-180 * x) / fn.pi) :=
  hdm (div_le_div_of_nonneg_right (hfm (by linarith)) hpi.le)

set_option maxHeartbeats 4000000 in
/-- C24 (amended): when the roundings to `float` and to `double` are monotone and have the
relative errors `u` and `v` (both zero in exact arithmetic; `2 ^ -24` and `2 ^ -53` for
IEEE 754), and `M_PI` lies between 3 and 4, then for start and end angles between 0 and
`2 * M_PI` the direction that `arcTo` chooses makes the sweep that `addArcToPath` computes
at most `180 + 1500 * u + 2000 * v` degrees in magnitude; the direction is the one of the
construction of `arcTo`. -/
theorem arcTo_sweep_is_short {F : Type} [LinearOrderedField F] (fn : FloatFn F) (u v : F)
    (hu : 0 ≤ u ∧ u ≤ 1 / 1000) (hv : 0 ≤ v ∧ v ≤ 1 / 1000)
    (hpi : 3 ≤ fn.pi ∧ fn.pi ≤ 4)
    (hfe : ∀ x, |fn.toFloat x - x| ≤ |x| * u) (hfm : Monotone fn.toFloat)
    (hde : ∀ x, |fn.toDouble x - x| ≤ |x| * v) (hdm : Monotone fn.toDouble)
    (sa ea : F) (hsa : 0 ≤ sa ∧ sa ≤ 2 * fn.pi) (hea : 0 ≤ ea ∧ ea ≤ 2 * fn.pi) :
    |(arcAngles fn sa ea (arcToAnticlockwise fn sa ea)).2| ≤ 180 + 1500 * u + 2000 * v ∧
    ∀ (p0 p1 p2 : F × F) (radius : F),
      (arcToGeometry fn p0 p1 p2 radius).anticlockwise =
        arcToAnticlockwise fn (arcToGeometry fn p0 p1 p2 radius).sa
          (arcToGeometry fn p0 p1 p2 radius).ea := by
  refine ⟨?_, fun _ _ _ _ => rfl⟩
  have hpos : (0 : F) < fn.pi := by linarith [hpi.1]
  obtain ⟨hS, -⟩ := degrees_error fn u v hu hv hpi hfe hde sa hsa
  obtain ⟨hE, -⟩ := degrees_error fn u v hu hv hpi hfe hde ea hea
  have hanti := degrees_antitone fn hpos hfm hdm
  obtain ⟨S, hSdef⟩ : ∃ S, S = fn.toDouble (fn.toFloat (-180 * sa) / fn.pi) := ⟨_, rfl⟩
  obtain ⟨E, hEdef⟩ : ∃ E, E = fn.toDouble (fn.toFloat (-180 * ea) / fn.pi) := ⟨_, rfl⟩
  rw [← hSdef] at hS
  rw [← hEdef] at hE
  rw [abs_le] at hS hE
  obtain ⟨T, hTdef⟩ : ∃ T, T = 180 * (sa - ea) / fn.pi := ⟨_, rfl⟩
  have hstar : -180 * ea / fn.pi - -180 * sa / fn.pi = T := by
    rw [hTdef]; field_simp; ring
  have hT360 : -360 ≤ T ∧ T ≤ 360 := by
    rw [hTdef]
    constructor
    · rw [le_div_iff₀ hpos]; linarith [hsa.1, hea.2]
    · rw [div_le_iff₀ hpos]; linarith [hsa.2, hea.1]
  have hTlow : ∀ c : F, fn.pi - 8 * u ≤ c * (sa - ea) → 180 - 480 * u ≤ c * T := by
    intro c hc
    have : c * T = 180 * (c * (sa - ea)) / fn.pi := by rw [hTdef]; field_simp; ring
    rw [this, le_div_iff₀ hpos]
    nlinarith [hu.1, hpi.1]
  have hf0 : fn.toFloat 0 = 0 := by
    have := hfe 0
    simp only [sub_zero, abs_zero, zero_mul, abs_nonpos_iff] at this
    exact this
  have hd0 : fn.toDouble 0 = 0 := by
    have := hde 0
    simp only [sub_zero, abs_zero, zero_mul, abs_nonpos_iff] at this
    exact this
  have hfd : ∀ d : F, |d| ≤ 8 → |fn.toFloat d - d| ≤ 8 * u :=
    fun d hd => rounding_error_le fn.toFloat u hfe hu.1 d 8 hd
  have hdiff1 : |sa - ea| ≤ 8 := by
    rw [abs_le]; constructor <;> linarith [hsa.1, hsa.2, hea.1, hea.2, hpi.2]
  have hdiff2 : |ea - sa| ≤ 8 := by
    rw [abs_le]; constructor <;> linarith [hsa.1, hsa.2, hea.1, hea.2, hpi.2]
  have h1 := hfd _ hdiff1
  have h2 := hfd _ hdiff2
  rw [abs_le] at h1 h2
  have hD : |E - S| ≤ 362 := by
    rw [abs_le]; constructor <;> linarith [hu.2, hv.2, hT360.1, hT360.2]
  have hDr := rounding_error_le fn.toDouble v hde hv.1 (E - S) 362 hD
  rw [abs_le] at hDr hD
  have hW : ∀ X : F, |X| ≤ 723 → |fn.toDouble X - X| ≤ 723 * v :=
    fun X hX => rounding_error_le fn.toDouble v hde hv.1 X 723 hX
  by_cases hdir : arcToAnticlockwise fn sa ea = true
  · -- counter-clockwise
    have hc : (sa > ea ∧ fn.toFloat (sa - ea) < fn.pi) ∨
        (sa < ea ∧ fn.toFloat (ea - sa) > fn.pi) := by
      simpa [arcToAnticlockwise] using hdir
    have hclamp : ¬ (fn.toFloat (sa - ea) ≥ 2 * fn.pi) := by
      rcases hc with ⟨-, h⟩ | ⟨h, -⟩
      · intro h'; linarith
      · intro h'
        have := hfm (show sa - ea ≤ 0 by linarith)
        rw [hf0] at this
        linarith
    rw [hdir, arcAngles_counter_clockwise_eq fn sa ea S E hclamp hSdef.symm hEdef.symm]
    simp only
    by_cases hES : E < S
    · rw [if_pos hES]
      have hlt : sa < ea := by
        by_contra hn
        have := hanti ea sa (not_lt.mp hn)
        rw [← hSdef, ← hEdef] at this
        linarith
      have hgt : fn.toFloat (ea - sa) > fn.pi := by
        rcases hc with ⟨h, -⟩ | ⟨-, h⟩
        · linarith
        · exact h
      have hTl := hTlow (-1) (by linarith)
      have hX := hW (fn.toDouble (E - S) + 360)
        (by rw [abs_le]; constructor <;> linarith [hv.2])
      rw [abs_le] at hX ⊢
      constructor <;> linarith [hu.1, hv.1]
    · rw [if_neg hES]
      rcases hc with ⟨hgt, hlt⟩ | ⟨hlt, -⟩
      · have hTu : T ≤ 180 + 480 * u := by
          have := hTlow (-1)
          have hle : sa - ea ≤ fn.pi + 8 * u := by linarith
          have hT' : T = 180 * (sa - ea) / fn.pi := hTdef
          rw [hT', div_le_iff₀ hpos]
          nlinarith [hu.1, hpi.1]
        have hT0 : 0 ≤ T := by
          rw [hTdef]; apply div_nonneg _ hpos.le; linarith
        rw [abs_le]
        constructor <;> linarith [hu.1, hv.1, hv.2]
      · have := hanti sa ea hlt.le
        rw [← hSdef, ← hEdef] at this
        have hzero : E - S = 0 := by linarith [not_lt.mp hES]
        rw [hzero, hd0, abs_zero]
        linarith [hu.1, hv.1]
  · -- clockwise
    have hdir' : arcToAnticlockwise fn sa ea = false := by
      cases h : arcToAnticlockwise fn sa ea
      · rfl
      · exact absurd h hdir
    have hc : ¬ ((sa > ea ∧ fn.toFloat (sa - ea) < fn.pi) ∨
        (sa < ea ∧ fn.toFloat (ea - sa) > fn.pi)) := by
      simpa [arcToAnticlockwise] using hdir'
    push_neg at hc
    have hclamp : ¬ (fn.toFloat (ea - sa) ≥ 2 * fn.pi) := by
      intro h'
      by_cases hse : sa < ea
      · have := hc.2 hse
        linarith
      · have := hfm (show ea - sa ≤ 0 by linarith [not_lt.mp hse])
        rw [hf0] at this
        linarith
    rw [hdir', arcAngles_clockwise_eq fn sa ea S E hclamp hSdef.symm hEdef.symm]
    simp only
    by_cases hSE : S < E
    · rw [if_pos hSE]
      have hgt : ea < sa := by
        by_contra hn
        have := hanti sa ea (not_lt.mp hn)
        rw [← hSdef, ← hEdef] at this
        linarith
      have hge := hc.1 hgt
      have hTl := hTlow 1 (by linarith)
      have hX := hW (fn.toDouble (E - S) - 360)
        (by rw [abs_le]; constructor <;> linarith [hv.2])
      rw [abs_le] at hX ⊢
      constructor <;> linarith [hu.1, hv.1]
    · rw [if_neg hSE]
      by_cases hse : sa < ea
      · have hle := hc.2 hse
        have hTl : -(180 + 480 * u) ≤ T := by
          have hle' : ea - sa ≤ fn.pi + 8 * u := by linarith
          have hT' : T = 180 * (sa - ea) / fn.pi := hTdef
          rw [hT', le_div_iff₀ hpos]
          nlinarith [hu.1, hpi.1]
        have hT0 : T ≤ 0 := by
          rw [hTdef]; apply div_nonpos_of_nonpos_of_nonneg _ hpos.le; linarith
        rw [abs_le]
        constructor <;> linarith [hu.1, hv.1, hv.2]
      · have := hanti ea sa (not_lt.mp hse)
        rw [← hSdef, ← hEdef] at this
        have hzero : E - S = 0 := by linarith [not_lt.mp hSE]
        rw [hzero, hd0, abs_zero]
        linarith [hu.1, hv.1]

/-- Witness for `arcTo_sweep_is_short`: the roundings to 24 and to 53 bits are monotone
and have the relative errors `2 ^ -24` and `2 ^ -53`; for the start angle 1 and the end
angle 5 the sweep is within the bound. -/
theorem arcTo_sweep_is_short_witness :
    ((0 : ℚ) ≤ 1 / 2 ^ 24 ∧ (1 / 2 ^ 24 : ℚ) ≤ 1 / 1000) ∧
    ((0 : ℚ) ≤ 1 / 2 ^ 53 ∧ (1 / 2 ^ 53 : ℚ) ≤ 1 / 1000) ∧
    (3 ≤ rationalFloatFn.pi ∧ rationalFloatFn.pi ≤ 4) ∧
    (∀ x, |rationalFloatFn.toFloat x - x| ≤ |x| * (1 / 2 ^ 24)) ∧
    Monotone rationalFloatFn.toFloat ∧
    (∀ x, |rationalFloatFn.toDouble x - x| ≤ |x| * (1 / 2 ^ 53)) ∧
    Monotone rationalFloatFn.toDouble ∧
    ((0 : ℚ) ≤ 1 ∧ (1 : ℚ) ≤ 2 * rationalFloatFn.pi) ∧
    ((0 : ℚ) ≤ 5 ∧ (5 : ℚ) ≤ 2 * rationalFloatFn.pi) ∧
    |(arcAngles rationalFloatFn 1 5 (arcToAnticlockwise rationalFloatFn 1 5)).2| ≤
      180 + 1500 * (1 / 2 ^ 24) + 2000 * (1 / 2 ^ 53) :=
  ⟨by norm_num, by norm_num, by norm_num [rationalFloatFn],
   fun x => by
    have h := abs_roundTo_sub_le 24 x
    rwa [div_eq_mul_one_div] at h,
   roundTo_mono 24 (by norm_num),
   fun x => by
    have h := abs_roundTo_sub_le 53 x
    rwa [div_eq_mul_one_div] at h,
   roundTo_mono 53 (by norm_num),
   by norm_num [rationalFloatFn], by norm_num [rationalFloatFn],
   (arcTo_sweep_is_short rationalFloatFn (1 / 2 ^ 24) (1 / 2 ^ 53) (by norm_num) (by norm_num)
    (by norm_num [rationalFloatFn])
    (fun x => by
      have h := abs_roundTo_sub_le 24 x
      rwa [div_eq_mul_one_div] at h)
    (roundTo_mono 24 (by norm_num))
    (fun x => by
      have h := abs_roundTo_sub_le 53 x
      rwa [div_eq_mul_one_div] at h)
    (roundTo_mono 53 (by norm_num)) 1 5 (by norm_num [rationalFloatFn])
    (by norm_num [rationalFloatFn])).1⟩

/-! ## Measurements -/

/-- With nothing to discard the loop is not entered. -/
theorem Measurements.trimLoop_zero {α : Type} (fuel : Nat) (values : List α) :
    Measurements.trimLoop fuel 0 values = some values := by
  cases fuel <;> simp [Measurements.trimLoop]

/-- The loop discards `k` values of a list that holds at least `k`: the first
`(k + 1) / 2` and the last `k / 2`. Half as many passes as there is to discard are
enough. -/
theorem Measurements.trimLoop_eq {α : Type} (fuel : Nat) :
    ∀ (k : Nat) (values : List α), k ≤ values.length → k ≤ 2 * fuel →
      Measurements.trimLoop fuel (k : Int) values =
        some ((values.drop ((k + 1) / 2)).take (values.length - k)) := by
  induction fuel with
  | zero =>
    intro k values _ hk
    have : k = 0 := by omega
    subst this
    simp [Measurements.trimLoop]
  | succ fuel ih =>
    intro k values hlen hk
    rcases Nat.lt_or_ge k 2 with hk2 | hk2
    · rcases Nat.eq_zero_or_pos k with h0 | h1
      · subst h0
        simp [Measurements.trimLoop]
      · have h1 : k = 1 := by omega
        subst h1
        have hne : values.length ≠ 0 := by omega
        simp only [Measurements.trimLoop, Measurements.trimPass, Nat.cast_one, gt_iff_lt,
          zero_lt_one, ne_eq, hne, not_false_eq_true, and_self, if_true, sub_self,
          lt_self_iff_false, false_and, if_false, Measurements.trimLoop_zero]
        simp
    · have hne : values.length ≠ 0 := by omega
      have hpos : (k : Int) > 0 := by omega
      have hpos1 : (k : Int) - 1 > 0 := by omega
      have hne1 : values.tail.length ≠ 0 := by simp; omega
      have hcast : (k : Int) - 1 - 1 = ((k - 2 : Nat) : Int) := by omega
      simp only [Measurements.trimLoop, Measurements.trimPass, hpos, hne, ne_eq,
        not_false_eq_true, and_self, if_true, hpos1, hne1, hcast]
      rw [ih (k - 2) values.tail.dropLast (by simp; omega) (by omega)]
      congr 1
      have hk1 : (k + 1) / 2 = (k - 2 + 1) / 2 + 1 := by omega
      rw [hk1, ← List.drop_drop, List.dropLast_eq_take]
      simp only [List.length_take, List.length_tail, List.drop_one]
      rw [List.drop_take, List.take_take]
      congr 1
      · omega
      · rw [List.drop_tail, List.tail_drop]


/-- The loop that adds up the values. -/
theorem foldl_add_eq_sum {F : Type} [LinearOrderedField F] (l : List F) :
    ∀ init : F, l.foldl (fun acc value => acc + value) init = init + l.sum := by
  induction l with
  | nil => intro init; simp
  | cons x rest ih => intro init; simp only [List.foldl_cons, ih, List.sum_cons]; ring

/-- The loop that adds up the squares of the deviations. -/
theorem foldl_squares_eq_sum {F : Type} [LinearOrderedField F] (average : F) (l : List F) :
    ∀ init : F,
      l.foldl (fun acc value => acc + (value - average) * (value - average)) init =
        init + (l.map (fun value => (value - average) ^ 2)).sum := by
  induction l with
  | nil => intro init; simp
  | cons x rest ih =>
    intro init
    simp only [List.foldl_cons, ih, List.map_cons, List.sum_cons]
    ring

/-- The loop that finds the minimum, started with `init`. -/
theorem foldl_min_spec {F : Type} [LinearOrderedField F] (l : List F) :
    ∀ init : F,
      (l.foldl (fun m value => if value < m then value else m) init ≤ init) ∧
      (∀ v ∈ l, l.foldl (fun m value => if value < m then value else m) init ≤ v) ∧
      (l.foldl (fun m value => if value < m then value else m) init = init ∨
        l.foldl (fun m value => if value < m then value else m) init ∈ l) := by
  induction l with
  | nil => intro init; simp
  | cons x rest ih =>
    intro init
    simp only [List.foldl_cons]
    obtain ⟨h1, h2, h3⟩ := ih (if x < init then x else init)
    have hle : (if x < init then x else init) ≤ init := by
      split_ifs with h
      · exact le_of_lt h
      · exact le_refl _
    have hlx : (if x < init then x else init) ≤ x := by
      split_ifs with h
      · exact le_refl _
      · exact le_of_not_lt h
    refine ⟨le_trans h1 hle, ?_, ?_⟩
    · intro v hv
      rcases List.mem_cons.mp hv with rfl | hv
      · exact le_trans h1 hlx
      · exact h2 v hv
    · rcases h3 with h3 | h3
      · rw [h3]
        split_ifs with h
        · exact Or.inr (List.mem_cons_self _ _)
        · exact Or.inl rfl
      · exact Or.inr (List.mem_cons_of_mem _ h3)

/-- The loop that finds the maximum, started with `init`. -/
theorem foldl_max_spec {F : Type} [LinearOrderedField F] (l : List F) :
    ∀ init : F,
      (init ≤ l.foldl (fun m value => if value > m then value else m) init) ∧
      (∀ v ∈ l, v ≤ l.foldl (fun m value => if value > m then value else m) init) ∧
      (l.foldl (fun m value => if value > m then value else m) init = init ∨
        l.foldl (fun m value => if value > m then value else m) init ∈ l) := by
  induction l with
  | nil => intro init; simp
  | cons x rest ih =>
    intro init
    simp only [List.foldl_cons]
    obtain ⟨h1, h2, h3⟩ := ih (if x > init then x else init)
    have hle : init ≤ (if x > init then x else init) := by
      split_ifs with h
      · exact le_of_lt h
      · exact le_refl _
    have hlx : x ≤ (if x > init then x else init) := by
      split_ifs with h
      · exact le_refl _
      · exact le_of_not_lt h
    refine ⟨le_trans hle h1, ?_, ?_⟩
    · intro v hv
      rcases List.mem_cons.mp hv with rfl | hv
      · exact le_trans hlx h1
      · exact h2 v hv
    · rcases h3 with h3 | h3
      · rw [h3]
        split_ifs with h
        · exact Or.inr (List.mem_cons_self _ _)
        · exact Or.inl rfl
      · exact Or.inr (List.mem_cons_of_mem _ h3)

/-- The values that are kept, for every list of samples. -/
theorem Measurements.kept_eq {F : Type} [LinearOrderedField F] (values_in : List F) :
    Measurements.kept values_in =
      some (((values_in.insertionSort (fun a b => a ≤ b)).drop
        ((values_in.length / 10 + 1) / 2)).take (values_in.length - values_in.length / 10)) := by
  have hcast : ((values_in.length : Int) / 10) = ((values_in.length / 10 : Nat) : Int) := by
    norm_cast
  unfold Measurements.kept
  rw [hcast, Measurements.trimLoop_eq values_in.length (values_in.length / 10) _
    (by rw [List.length_insertionSort]; omega) (by omega), List.length_insertionSort]


/-- C28 (amended): for every list of `n` samples the discarding loop ends, having found a
value to remove each time it was to remove one, and `Measurements` keeps the sorted
samples without `n / 10` of them in all: the loop removes the lowest, then the highest,
and so on in turns, `(n / 10 + 1) / 2` lowest and `(n / 10) / 2` highest. The average is
the sum of the kept values over their number, the standard deviation is the root of the
mean squared deviation from that average (for a list of samples that is not empty, so
that values are kept), and, when the samples lie between the two limits of the type, the
minimum and the maximum are the least and the greatest kept value. -/
theorem measurements_discard_a_tenth {F : Type} [LinearOrderedField F] (fn : FloatFn F)
    (T_max T_min : F) (values_in : List F) :
    ∃ kept,
      kept = ((values_in.insertionSort (fun a b => a ≤ b)).drop
        ((values_in.length / 10 + 1) / 2)).take (values_in.length - values_in.length / 10) ∧
      kept.length = values_in.length - values_in.length / 10 ∧
      Measurements.kept values_in = some kept ∧
      ∃ m, Measurements.new fn T_max T_min values_in = some m ∧
        (values_in ≠ [] →
          kept ≠ [] ∧
          m.average = kept.sum / (kept.length : F) ∧
          m.std_dev = fn.sqrt
            ((kept.map (fun value => (value - m.average) ^ 2)).sum / (kept.length : F)) ∧
          ((∀ v ∈ values_in, v ≤ T_max) → (∀ v ∈ values_in, T_min ≤ v) →
            m.minimum ∈ kept ∧ (∀ v ∈ kept, m.minimum ≤ v) ∧
            m.maximum ∈ kept ∧ (∀ v ∈ kept, v ≤ m.maximum))) := by
  refine ⟨_, rfl, ?_, Measurements.kept_eq values_in, ?_⟩
  · simp only [List.length_take, List.length_drop, List.length_insertionSort]
    omega
  · simp only [Measurements.new, Measurements.kept_eq values_in]
    refine ⟨_, rfl, ?_⟩
    intro hne
    have hpos : 0 < values_in.length := List.length_pos.mpr hne
    refine ⟨?_, ?_, ?_, ?_⟩
    · apply List.ne_nil_of_length_pos
      simp only [List.length_take, List.length_drop, List.length_insertionSort]
      omega
    · simp only [foldl_add_eq_sum, zero_add]
    · simp only [foldl_squares_eq_sum, foldl_add_eq_sum, zero_add]
    · intro hmax hmin
      set kept := ((values_in.insertionSort (fun a b => a ≤ b)).drop
        ((values_in.length / 10 + 1) / 2)).take (values_in.length - values_in.length / 10)
        with hkept
      have hsub : ∀ v ∈ kept, v ∈ values_in := by
        intro v hv
        have h1 := List.mem_of_mem_take hv
        have h2 := List.mem_of_mem_drop h1
        exact (List.perm_insertionSort _ values_in).mem_iff.mp h2
      have hlen : kept.length = values_in.length - values_in.length / 10 := by
        simp only [hkept, List.length_take, List.length_drop, List.length_insertionSort]
        omega
      obtain ⟨w, hw⟩ : ∃ w, w ∈ kept := by
        apply List.exists_mem_of_length_pos
        omega
      obtain ⟨a1, a2, a3⟩ := foldl_min_spec kept T_max
      obtain ⟨b1, b2, b3⟩ := foldl_max_spec kept T_min
      refine ⟨?_, a2, ?_, b2⟩
      · rcases a3 with a3 | a3
        · have : w = T_max := le_antisymm (hmax w (hsub w hw)) (by rw [← a3]; exact a2 w hw)
          rw [a3, ← this]
          exact hw
        · exact a3
      · rcases b3 with b3 | b3
        · have : w = T_min := le_antisymm (by rw [← b3]; exact b2 w hw) (hmin w (hsub w hw))
          rw [b3, ← this]
          exact hw
        · exact b3

/-- C28 (the claim as stated fails): of the ten samples 1 to 10 one tenth on each side
would leave 2 to 9; the code discards one sample in all, the lowest, and keeps 2 to 10, so
the maximum is 10. -/
theorem measurements_symmetric_trim_counterexample :
    Measurements.kept ([1, 2, 3, 4, 5, 6, 7, 8, 9, 10] : List ℚ) =
      some [2, 3, 4, 5, 6, 7, 8, 9, 10] ∧
    Measurements.kept ([1, 2, 3, 4, 5, 6, 7, 8, 9, 10] : List ℚ) ≠
      some [2, 3, 4, 5, 6, 7, 8, 9] ∧
    (Measurements.new rationalFloatFn 1000 0 [1, 2, 3, 4, 5, 6, 7, 8, 9, 10]).map
      (fun m => m.maximum) = some 10 := by
  have h : Measurements.kept ([1, 2, 3, 4, 5, 6, 7, 8, 9, 10] : List ℚ) =
      some [2, 3, 4, 5, 6, 7, 8, 9, 10] := by
    rw [Measurements.kept_eq]
    norm_num [List.insertionSort, List.orderedInsert]
  refine ⟨h, ?_, ?_⟩
  · rw [h]
    simp
  · simp only [Measurements.new, Measurements.kept_eq]
    norm_num [List.insertionSort, List.orderedInsert]

/-! ## The latency samples of paintEvent -/

/-- The loop that cuts a queue leaves its last `limit` entries. -/
theorem dequeueOver_eq (limit : Nat) (q : List Int) :
    dequeueOver limit q = q.drop (q.length - limit) := by
  induction q with
  | nil => simp [dequeueOver]
  | cons x rest ih =>
    simp only [dequeueOver]
    split_ifs with h
    · rw [ih]
      simp only [List.length_cons] at h ⊢
      have : rest.length + 1 - limit = (rest.length - limit) + 1 := by omega
      rw [this, List.drop_succ_cons]
    · simp only [List.length_cons] at h ⊢
      have : rest.length + 1 - limit = 0 := by omega
      rw [this, List.drop_zero]

/-- The length of a queue after it is cut. -/
theorem length_dequeueOver (limit : Nat) (q : List Int) :
    (dequeueOver limit q).length = min q.length limit := by
  rw [dequeueOver_eq, List.length_drop]
  omega

/-- The first loop of `paintEvent` changes neither the map nor any sample. -/
theorem paintEvent_collect_fold (current_time_ns : Int) (entries : List (Int × Nat)) :
    ∀ acc : PyCanvas × List RenderedTimeStamp,
      (entries.foldl (PyCanvas.paintEvent_collect current_time_ns) acc).1.m_sections =
        acc.1.m_sections ∧
      ∀ p, SameSamples (acc.1.heap p)
        ((entries.foldl (PyCanvas.paintEvent_collect current_time_ns) acc).1.heap p) := by
  induction entries with
  | nil => intro acc; exact ⟨rfl, fun p => ⟨rfl, rfl, rfl⟩⟩
  | cons entry rest ih =>
    intro acc
    simp only [List.foldl_cons]
    obtain ⟨h1, h2⟩ := ih (PyCanvas.paintEvent_collect current_time_ns acc entry)
    refine ⟨h1.trans rfl, fun p => ?_⟩
    obtain ⟨a, b, c⟩ := h2 p
    have hstep : SameSamples (acc.1.heap p)
        ((PyCanvas.paintEvent_collect current_time_ns acc entry).1.heap p) := by
      simp only [PyCanvas.paintEvent_collect, PyCanvas.store, Function.update]
      split_ifs with hp
      · subst hp
        exact ⟨rfl, rfl, rfl⟩
      · exact ⟨rfl, rfl, rfl⟩
    exact ⟨a.trans hstep.1, b.trans hstep.2.1, c.trans hstep.2.2⟩

/-- One pass of the second loop leaves a section as it is or records a sample in it. -/
theorem paintEvent_record_spec (c c1 : PyCanvas) (r : RenderedTimeStamp)
    (h : c.paintEvent_record r = some c1) :
    c1.m_sections = c.m_sections ∧
    ∀ p, c1.heap p = c.heap p ∨ RecordedSample c r p (c1.heap p) := by
  unfold PyCanvas.paintEvent_record at h
  split_ifs at h with hid
  · cases hv : QMap.value? c.m_sections r.section_id with
    | none => rw [hv] at h; cases h
    | some q =>
      rw [hv] at h
      simp only at h
      split_ifs at h with hrec
      · simp only [Option.some.injEq] at h
        subst h
        refine ⟨rfl, fun p => ?_⟩
        by_cases hp : p = q
        · subst hp
          right
          refine ⟨hid, hv, hrec, ?_, ?_, ?_⟩ <;>
            simp [PyCanvas.store, dequeueOver_eq]
        · left
          simp [PyCanvas.store, Function.update, hp]
      · simp only [Option.some.injEq] at h
        subst h
        exact ⟨rfl, fun p => Or.inl rfl⟩
  · simp only [Option.some.injEq] at h
    subst h
    exact ⟨rfl, fun p => Or.inl rfl⟩


/-- The second loop records at most one sample in each section: once a section has
recorded, `record_latency` is cleared. -/
theorem paintEvent_recordAll_spec (c0 : PyCanvas) (all : List RenderedTimeStamp)
    (rs : List RenderedTimeStamp) :
    ∀ (c c1 : PyCanvas), (∀ r ∈ rs, r ∈ all) → c.m_sections = c0.m_sections →
      (∀ p, SameSamples (c0.heap p) (c.heap p) ∨
        ((c.heap p).record_latency = false ∧
          ∃ r ∈ all, RecordedSample c0 r p (c.heap p))) →
      c.paintEvent_recordAll rs = some c1 →
      c1.m_sections = c0.m_sections ∧
      ∀ p, SameSamples (c0.heap p) (c1.heap p) ∨
        ((c1.heap p).record_latency = false ∧
          ∃ r ∈ all, RecordedSample c0 r p (c1.heap p)) := by
  induction rs with
  | nil =>
    intro c c1 _ ht hinv h
    simp only [PyCanvas.paintEvent_recordAll, Option.some.injEq] at h
    subst h
    exact ⟨ht, hinv⟩
  | cons r rest ih =>
    intro c c1 hall ht hinv h
    simp only [PyCanvas.paintEvent_recordAll] at h
    cases hr : c.paintEvent_record r with
    | none => rw [hr] at h; cases h
    | some c2 =>
      rw [hr] at h
      obtain ⟨ht2, hstep⟩ := paintEvent_record_spec c c2 r hr
      refine ih c2 c1 (fun x hx => hall x (List.mem_cons_of_mem _ hx)) (ht2.trans ht)
        (fun p => ?_) h
      rcases hstep p with hsame | hrec
      · rw [hsame]
        exact hinv p
      · obtain ⟨hid, hv, hflag, hl, hts, hcl⟩ := hrec
        rcases hinv p with ⟨e1, e2, e3⟩ | ⟨hfalse, _⟩
        · right
          refine ⟨hcl, r, hall r (List.mem_cons_self _ _), hid, by rw [← ht]; exact hv,
            by rw [← e3]; exact hflag, ?_, ?_, hcl⟩
          · rw [hl, e1]
          · rw [hts, e2]
        · rw [hfalse] at hflag
          cases hflag

/-- The second loop has a result when every positive section id it looks up is in the
map. -/
theorem paintEvent_recordAll_defined (rs : List RenderedTimeStamp) :
    ∀ c : PyCanvas,
      (∀ r ∈ rs, r.section_id > 0 → (QMap.value? c.m_sections r.section_id).isSome) →
      ∃ c1, c.paintEvent_recordAll rs = some c1 := by
  induction rs with
  | nil => intro c _; exact ⟨c, rfl⟩
  | cons r rest ih =>
    intro c h
    have hr : ∃ c2, c.paintEvent_record r = some c2 := by
      unfold PyCanvas.paintEvent_record
      split_ifs with hid
      · have := h r (List.mem_cons_self _ _) hid
        cases hv : QMap.value? c.m_sections r.section_id with
        | none => rw [hv] at this; cases this
        | some q =>
          simp only
          split_ifs
          · exact ⟨_, rfl⟩
          · exact ⟨_, rfl⟩
      · exact ⟨_, rfl⟩
    obtain ⟨c2, hc2⟩ := hr
    obtain ⟨ht2, _⟩ := paintEvent_record_spec c c2 r hc2
    obtain ⟨c1, hc1⟩ := ih c2 (fun x hx hid => by
      rw [ht2]; exact h x (List.mem_cons_of_mem _ hx) hid)
    exact ⟨c1, by simp only [PyCanvas.paintEvent_recordAll, hc2, hc1]⟩

/-- What a paint event does to the samples of every section. -/
theorem paintEvent_spec (c c1 : PyCanvas) (current_time_ns : Int)
    (h : c.paintEvent current_time_ns = some c1) :
    ∀ p, SameSamples (c.heap p) (c1.heap p) ∨
      ∃ r ∈ c.paintEvent_timestamps current_time_ns, RecordedSample c r p (c1.heap p) := by
  obtain ⟨ht, hsame⟩ := paintEvent_collect_fold current_time_ns c.m_sections (c, [])
  simp only at ht hsame
  obtain ⟨_, hspec⟩ := paintEvent_recordAll_spec
    (c.m_sections.foldl (PyCanvas.paintEvent_collect current_time_ns) (c, [])).1
    (c.paintEvent_timestamps current_time_ns)
    (c.m_sections.foldl (PyCanvas.paintEvent_collect current_time_ns) (c, [])).2
    _ c1 (fun r hr => hr) rfl (fun p => Or.inl ⟨rfl, rfl, rfl⟩) h
  intro p
  obtain ⟨s1, s2, s3⟩ := hsame p
  rcases hspec p with ⟨e1, e2, e3⟩ | ⟨_, r, hr, hid, hv, hflag, hl, hts, hcl⟩
  · exact Or.inl ⟨e1.trans s1, e2.trans s2, e3.trans s3⟩
  · right
    refine ⟨r, hr, hid, by rw [← ht]; exact hv, by rw [← s3]; exact hflag, ?_, ?_, hcl⟩
    · rw [hl, s1]
    · rw [hts, s2]

/-- A paint event keeps the bound on the queues of every section. -/
theorem paintEvent_queuesBounded (c c1 : PyCanvas) (current_time_ns : Int)
    (h : c.paintEvent current_time_ns = some c1) (hq : ∀ p, (c.heap p).queuesBounded) :
    ∀ p, (c1.heap p).queuesBounded := by
  intro p
  obtain ⟨hb, heq⟩ := hq p
  rcases paintEvent_spec c c1 current_time_ns h p with ⟨e1, e2, _⟩ |
    ⟨r, _, _, _, _, hl, hts, _⟩
  · exact ⟨by rw [e1]; exact hb, by rw [e1, e2]; exact heq⟩
  · constructor
    · rw [hl, List.length_drop]
      omega
    · rw [hl, hts]
      simp only [List.length_drop, List.length_append, List.length_singleton]
      omega

/-- An assignment through a section pointer of a section with bounded queues. -/
theorem update_queuesBounded (heap : Nat → CanvasSection) (p : Nat) (s : CanvasSection)
    (h : ∀ a, (heap a).queuesBounded) (hs : s.queuesBounded) :
    ∀ a, (Function.update heap p s a).queuesBounded := by
  intro a
  by_cases ha : a = p
  · subst ha
    simpa using hs
  · simpa [Function.update, ha] using h a

/-- No critical section of the scheduler touches the queues: new sections start with
empty ones. -/
theorem World.step_queuesBounded (w : World) (a : Action)
    (h : ∀ p, (w.canvas.heap p).queuesBounded) :
    ∀ p, ((w.step a).canvas.heap p).queuesBounded := by
  have hstart : ∀ (w1 : World) (t : Option PyCanvasRenderTask),
      (World.start w1 t).canvas = w1.canvas := by
    intro w1 t
    cases t <;> rfl
  cases a with
  | submit section_id drawing_commands screen =>
    simp only [World.step, hstart]
    by_cases hc : w.canvas.m_closing = false
    · obtain ⟨p, s0, hs0, _, _, hheap⟩ := PyCanvas.setBinarySectionCommands_cases w.canvas
        screen w.next_task section_id drawing_commands hc
      have hq : s0.queuesBounded := by
        rcases hs0 with ⟨_, e, _⟩ | ⟨_, _, e, _⟩
        · rw [e]; exact h p
        · rw [e]; simp [CanvasSection.queuesBounded, CanvasSection.new]
      rcases hheap with ⟨_, _, _, e⟩ | ⟨_, _, e⟩ <;>
        (rw [e]; exact update_queuesBounded _ _ _ h hq)
    · have : w.canvas.m_closing = true := by simpa using hc
      simp only [PyCanvas.setBinarySectionCommands, this, Bool.not_true, Bool.false_eq_true,
        if_false]
      exact h
  | complete task image image_rect rendered_timestamps record_latency =>
    simp only [World.step]
    cases hf : w.pool.find? (fun t => t.addr == task) with
    | none => exact h
    | some t =>
      simp only [hstart]
      obtain ⟨_, _, _, _, hcases⟩ := PyCanvas.continuePaintingSection_cases w.canvas
        w.repaintManager w.next_task
        { section_ := t.m_section, image := image, image_rect := image_rect,
          rendered_timestamps := rendered_timestamps, record_latency := record_latency }
      rcases hcases with ⟨_, _, _, ⟨_, _, _, e⟩ | ⟨_, _, e⟩⟩ | ⟨_, _, _, e⟩ <;>
        (rw [e]; exact update_queuesBounded _ _ _ h (h _))
  | remove section_id =>
    simp only [World.step]
    cases he : w.canvas.removeSection_enter section_id with
    | none => exact h
    | some r =>
      obtain ⟨c, section_⟩ := r
      simp only [PyCanvas.removeSection_enter] at he
      cases hv : QMap.value? w.canvas.m_sections section_id with
      | none => rw [hv] at he; cases he
      | some q =>
        rw [hv] at he
        simp only [Option.some.injEq, Prod.mk.injEq] at he
        obtain ⟨rfl, rfl⟩ := he
        have hq : ∀ p, ((w.canvas.store q { w.canvas.heap q with closing := true }).heap
            p).queuesBounded :=
          update_queuesBounded _ _ _ h (h q)
        simp only [PyCanvas.removeSection_poll]
        split_ifs <;> exact hq
  | poll section_id section_ =>
    simp only [World.step, PyCanvas.removeSection_poll]
    split_ifs <;> exact h

/-- Actions and paint events keep the bound on the queues of every section. -/
theorem World.reachedPainting_queuesBounded (actions : List PaintAction) :
    ∀ w : World, (∀ p, (w.canvas.heap p).queuesBounded) →
      ∀ p, ((actions.foldl World.stepPaint w).canvas.heap p).queuesBounded := by
  induction actions with
  | nil => intro w h; exact h
  | cons a rest ih =>
    intro w h
    apply ih
    cases a with
    | action a => exact World.step_queuesBounded w a h
    | paintEvent current_time_ns =>
      simp only [World.stepPaint]
      cases hp : w.canvas.paintEvent current_time_ns with
      | none => exact h
      | some c1 => exact paintEvent_queuesBounded w.canvas c1 current_time_ns hp h

/-- C27: in every state reached from a fresh canvas by submissions, task completions,
removals and paint events, so after every paint event, the two queues of every section
hold at most 40 entries and have the same length. A paint event leaves the samples of a
section as they were, or it records one sample in it: then a collected rendered time stamp
with a positive section id names the section, the section had `record_latency` set, the
elapsed time and the time stamp are appended to the queues, each queue keeps its last 40
entries in their order, and `record_latency` is cleared. The paint event has a result
when every positive section id among the collected time stamps is in `m_sections`. -/
theorem paintEvent_keeps_latency_queues (actions : List PaintAction) (c : PyCanvas)
    (current_time_ns : Int) :
    (∀ p, ((World.reachedPainting actions).canvas.heap p).queuesBounded) ∧
    (∀ c1, c.paintEvent current_time_ns = some c1 →
      ∀ p, SameSamples (c.heap p) (c1.heap p) ∨
        ∃ r ∈ c.paintEvent_timestamps current_time_ns, RecordedSample c r p (c1.heap p)) ∧
    ((∀ r ∈ c.paintEvent_timestamps current_time_ns, r.section_id > 0 →
        (QMap.value? c.m_sections r.section_id).isSome) →
      ∃ c1, c.paintEvent current_time_ns = some c1) := by
  refine ⟨?_, fun c1 h => paintEvent_spec c c1 current_time_ns h, fun h => ?_⟩
  · exact World.reachedPainting_queuesBounded actions World.init (fun p => by
      simp [World.init, PyCanvas.new, CanvasSection.new, CanvasSection.queuesBounded])
  · obtain ⟨ht, _⟩ := paintEvent_collect_fold current_time_ns c.m_sections (c, [])
    exact paintEvent_recordAll_defined _ _ (fun r hr hid => by
      rw [ht]; exact h r hr hid)

/-- A paint event at 150 ns on the example canvas: the sample 50 is recorded, the oldest
entries 3 and 4 are dropped, and `record_latency` is cleared. -/
theorem paintEvent_example :
    (examplePaintCanvas.paintEvent 150).map
        (fun c => ((c.heap 0).latencies_ns, (c.heap 0).timestamps_ns,
          (c.heap 0).record_latency)) =
      some (List.replicate 39 7 ++ [50], List.replicate 39 8 ++ [100], false) := by
  decide


/-! ## The tangent arc in exact real arithmetic -/

/-- After its special case and with a cosine other than -1 and 1, `arcTo` draws the line to
the first tangent point and the arc of the construction. -/
theorem arcTo_eq_geometry {F : Type} [LinearOrderedField F] (fn : FloatFn F)
    (path : QPainterPath F) (p0 p1 p2 : F × F) (radius : F)
    (h : ¬ (p1 = p0 ∨ p1 = p2 ∨ radius = 0 ∨ triangleArea p0 p1 p2 = 0))
    (h1 : (arcToGeometry fn p0 p1 p2 radius).cos_phi ≠ -1)
    (h2 : (arcToGeometry fn p0 p1 p2 radius).cos_phi ≠ 1) :
    arcTo fn path p0 p1 p2 radius =
      addArcToPath fn
        (path ++ [.lineTo (arcToGeometry fn p0 p1 p2 radius).t_p1p0.1
          (arcToGeometry fn p0 p1 p2 radius).t_p1p0.2])
        (arcToGeometry fn p0 p1 p2 radius).p.1 (arcToGeometry fn p0 p1 p2 radius).p.2 radius
        (arcToGeometry fn p0 p1 p2 radius).sa (arcToGeometry fn p0 p1 p2 radius).ea
        (arcToGeometry fn p0 p1 p2 radius).anticlockwise := by
  unfold arcTo
  simp only [arcToGeometry] at h1 h2
  simp only [if_neg h, if_neg h1, if_neg h2]
  rfl

/-- The half angle: for a cosine strictly between -1 and 1, the tangent of half the angle is
positive and equals the sine over one plus the cosine. -/
theorem tan_half_arccos (c : ℝ) (h1 : -1 < c) (h2 : c < 1) :
    Real.tan (Real.arccos c / 2) * (1 + c) = Real.sqrt (1 - c ^ 2) ∧
    0 < Real.tan (Real.arccos c / 2) := by
  have hpos : 0 < Real.arccos c := Real.arccos_pos.mpr h2
  have hlt : Real.arccos c < Real.pi := by
    apply lt_of_le_of_ne (Real.arccos_le_pi c)
    intro h
    have := Real.arccos_eq_pi.mp h
    linarith
  have hθ1 : 0 < Real.arccos c / 2 := by linarith
  have hθ2 : Real.arccos c / 2 < Real.pi / 2 := by linarith
  have hcos : 0 < Real.cos (Real.arccos c / 2) :=
    Real.cos_pos_of_mem_Ioo ⟨by linarith, hθ2⟩
  have htan : 0 < Real.tan (Real.arccos c / 2) := Real.tan_pos_of_pos_of_lt_pi_div_two hθ1 hθ2
  refine ⟨?_, htan⟩
  have hsin : Real.sin (Real.arccos c) = Real.sqrt (1 - c ^ 2) := Real.sin_arccos c
  have hc : Real.cos (Real.arccos c) = c := Real.cos_arccos (le_of_lt h1) (le_of_lt h2)
  have h2θ : Real.arccos c = 2 * (Real.arccos c / 2) := by ring
  have hs2 : Real.sin (Real.arccos c) =
      2 * Real.sin (Real.arccos c / 2) * Real.cos (Real.arccos c / 2) := by
    conv_lhs => rw [h2θ]
    exact Real.sin_two_mul _
  have hc2 : Real.cos (Real.arccos c) = 2 * Real.cos (Real.arccos c / 2) ^ 2 - 1 := by
    conv_lhs => rw [h2θ]
    exact Real.cos_two_mul _
  rw [← hsin, hs2, Real.tan_eq_sin_div_cos]
  have : 1 + c = 2 * Real.cos (Real.arccos c / 2) ^ 2 := by
    linarith [hc.symm.trans hc2]
  rw [this]
  field_simp
  ring

/-- The algebra of the construction: the vector from the second tangent point to the centre
has length `r` and is perpendicular to the second direction. -/
theorem arc_core (a1 a2 b1 b2 r la lb c s T σ : ℝ) (hla : la ^ 2 = a1 ^ 2 + a2 ^ 2)
    (hlb : lb ^ 2 = b1 ^ 2 + b2 ^ 2) (hla0 : la ≠ 0) (hlb0 : lb ≠ 0)
    (hc : c * (la * lb) = a1 * b1 + a2 * b2) (hσ : σ ^ 2 = 1)
    (hk : σ * (a2 * b1 - a1 * b2) = la * lb * s) (h1 : T * (1 - c) = r * s) :
    (T / la * a1 + r / la * (σ * a2) - T / lb * b1) ^ 2 +
      (T / la * a2 + r / la * (σ * -a1) - T / lb * b2) ^ 2 = r ^ 2 ∧
    (T / la * a1 + r / la * (σ * a2) - T / lb * b1) * b1 +
      (T / la * a2 + r / la * (σ * -a1) - T / lb * b2) * b2 = 0 := by
  have e1 : (T / la * a1 + r / la * (σ * a2) - T / lb * b1) =
      (T * lb * a1 + r * lb * σ * a2 - T * la * b1) / (la * lb) := by
    field_simp
    ring
  have e2 : (T / la * a2 + r / la * (σ * -a1) - T / lb * b2) =
      (T * lb * a2 - r * lb * σ * a1 - T * la * b2) / (la * lb) := by
    field_simp
    ring
  rw [e1, e2]
  have hll : la * lb ≠ 0 := mul_ne_zero hla0 hlb0
  constructor
  · rw [div_pow, div_pow, ← add_div, div_eq_iff (pow_ne_zero 2 hll)]
    linear_combination (-(T ^ 2 * lb ^ 2 + r ^ 2 * lb ^ 2 * σ ^ 2)) * hla +
      (-(T ^ 2 * la ^ 2)) * hlb + (r ^ 2 * la ^ 2 * lb ^ 2) * hσ +
      (2 * T ^ 2 * la * lb) * hc + (-(2 * r * T * la * lb)) * hk +
      (2 * T * la ^ 2 * lb ^ 2) * h1
  · rw [div_mul_eq_mul_div, div_mul_eq_mul_div, ← add_div, div_eq_iff hll, zero_mul]
    linear_combination (-(T * lb)) * hc + (r * lb) * hk + (T * la) * hlb +
      (-(la * lb ^ 2)) * h1


/-- For two directions that are not parallel, the lengths are positive, the cosine of the
angle between them is strictly between -1 and 1, and the cross product is the product of
the lengths and the sine, up to a sign. -/
theorem arc_facts (a1 a2 b1 b2 la lb c s : ℝ) (hcross : a2 * b1 - a1 * b2 ≠ 0)
    (hla : la = Real.sqrt (a1 * a1 + a2 * a2)) (hlb : lb = Real.sqrt (b1 * b1 + b2 * b2))
    (hc : c = (a1 * b1 + a2 * b2) / (la * lb)) (hs : s = Real.sqrt (1 - c ^ 2)) :
    0 < la ∧ 0 < lb ∧ la ^ 2 = a1 ^ 2 + a2 ^ 2 ∧ lb ^ 2 = b1 ^ 2 + b2 ^ 2 ∧
    Real.sqrt (a2 * a2 + -a1 * -a1) = la ∧
    c * (la * lb) = a1 * b1 + a2 * b2 ∧ -1 < c ∧ c < 1 ∧ 0 < s ∧
    (a2 * b1 - a1 * b2) ^ 2 = (la * lb * s) ^ 2 := by
  have hA : 0 < a1 * a1 + a2 * a2 := by
    by_contra hn
    have h0 : a1 * a1 + a2 * a2 = 0 :=
      le_antisymm (not_lt.mp hn) (add_nonneg (mul_self_nonneg _) (mul_self_nonneg _))
    have h1 : a1 = 0 := by nlinarith [mul_self_nonneg a1, mul_self_nonneg a2]
    have h2 : a2 = 0 := by nlinarith [mul_self_nonneg a1, mul_self_nonneg a2]
    exact hcross (by rw [h1, h2]; ring)
  have hB : 0 < b1 * b1 + b2 * b2 := by
    by_contra hn
    have h0 : b1 * b1 + b2 * b2 = 0 :=
      le_antisymm (not_lt.mp hn) (add_nonneg (mul_self_nonneg _) (mul_self_nonneg _))
    have h1 : b1 = 0 := by nlinarith [mul_self_nonneg b1, mul_self_nonneg b2]
    have h2 : b2 = 0 := by nlinarith [mul_self_nonneg b1, mul_self_nonneg b2]
    exact hcross (by rw [h1, h2]; ring)
  have hla0 : 0 < la := by rw [hla]; exact Real.sqrt_pos.mpr hA
  have hlb0 : 0 < lb := by rw [hlb]; exact Real.sqrt_pos.mpr hB
  have hla2 : la ^ 2 = a1 ^ 2 + a2 ^ 2 := by
    rw [hla, Real.sq_sqrt (le_of_lt hA)]; ring
  have hlb2 : lb ^ 2 = b1 ^ 2 + b2 ^ 2 := by
    rw [hlb, Real.sq_sqrt (le_of_lt hB)]; ring
  have horth : Real.sqrt (a2 * a2 + -a1 * -a1) = la := by
    rw [hla]; congr 1; ring
  have hll : 0 < la * lb := mul_pos hla0 hlb0
  have hcmul : c * (la * lb) = a1 * b1 + a2 * b2 := by
    rw [hc]; field_simp
  have hc2 : c ^ 2 < 1 := by
    have h1 : (c * (la * lb)) ^ 2 < (la * lb) ^ 2 := by
      rw [hcmul, mul_pow, hla2, hlb2]
      nlinarith [sq_pos_of_ne_zero hcross]
    have h2 : c ^ 2 * (la * lb) ^ 2 < 1 * (la * lb) ^ 2 := by
      rw [← mul_pow, one_mul]; exact h1
    exact lt_of_mul_lt_mul_right h2 (by positivity)
  have hcl : -1 < c := by nlinarith
  have hcu : c < 1 := by nlinarith
  have hs0 : 0 < s := by rw [hs]; exact Real.sqrt_pos.mpr (by linarith)
  have hs2 : s ^ 2 = 1 - c ^ 2 := by rw [hs]; exact Real.sq_sqrt (by linarith)
  have hk2 : (a2 * b1 - a1 * b2) ^ 2 = (la * lb * s) ^ 2 := by
    have h3 : c ^ 2 * (la ^ 2 * lb ^ 2) = (a1 * b1 + a2 * b2) ^ 2 := by
      rw [← hcmul]; ring
    rw [mul_pow, mul_pow, hs2]
    have h4 : la ^ 2 * lb ^ 2 = (a1 ^ 2 + a2 ^ 2) * (b1 ^ 2 + b2 ^ 2) := by
      rw [hla2, hlb2]
    linear_combination h3 - h4
  exact ⟨hla0, hlb0, hla2, hlb2, horth, hcmul, hcl, hcu, hs0, hk2⟩

/-- The values of the construction over the reals, for three points that are not on a
line, in terms of the lengths, the cosine and the sine of the angle at `p1`, the length
`T` of the tangent and the sign `σ` that turns the orthogonal vector. -/
theorem arcToGeometry_real (p0 p1 p2 : ℝ × ℝ) (radius : ℝ)
    (harea : triangleArea p0 p1 p2 ≠ 0) :
    ∃ la lb c s T σ : ℝ,
      0 < la ∧ 0 < lb ∧ -1 < c ∧ c < 1 ∧ 0 < s ∧
      la ^ 2 = (p0.1 - p1.1) ^ 2 + (p0.2 - p1.2) ^ 2 ∧
      lb ^ 2 = (p2.1 - p1.1) ^ 2 + (p2.2 - p1.2) ^ 2 ∧
      c * (la * lb) = (p0.1 - p1.1) * (p2.1 - p1.1) + (p0.2 - p1.2) * (p2.2 - p1.2) ∧
      σ ^ 2 = 1 ∧
      σ * ((p0.2 - p1.2) * (p2.1 - p1.1) - (p0.1 - p1.1) * (p2.2 - p1.2)) = la * lb * s ∧
      T * (1 - c) = radius * s ∧
      0 < Real.tan (Real.arccos c / 2) ∧
      (arcToGeometry realFloatFn p0 p1 p2 radius).p1p0_length = la ∧
      (arcToGeometry realFloatFn p0 p1 p2 radius).p1p2_length = lb ∧
      (arcToGeometry realFloatFn p0 p1 p2 radius).orth_p1p0_length = la ∧
      (arcToGeometry realFloatFn p0 p1 p2 radius).cos_phi = c ∧
      (arcToGeometry realFloatFn p0 p1 p2 radius).t_p1p0 =
        (p1.1 + T / la * (p0.1 - p1.1), p1.2 + T / la * (p0.2 - p1.2)) ∧
      (arcToGeometry realFloatFn p0 p1 p2 radius).t_p1p2 =
        (p1.1 + T / lb * (p2.1 - p1.1), p1.2 + T / lb * (p2.2 - p1.2)) ∧
      (arcToGeometry realFloatFn p0 p1 p2 radius).p =
        (p1.1 + T / la * (p0.1 - p1.1) + radius / la * (σ * (p0.2 - p1.2)),
         p1.2 + T / la * (p0.2 - p1.2) + radius / la * (σ * -(p0.1 - p1.1))) := by
  have hcross : (p0.2 - p1.2) * (p2.1 - p1.1) - (p0.1 - p1.1) * (p2.2 - p1.2) ≠ 0 := by
    intro h
    apply harea
    have : (1 : ℝ) / 2 * (p0.1 * (p1.2 - p2.2) + p1.1 * (p2.2 - p0.2) + p2.1 * (p0.2 - p1.2))
        = 1 / 2 * ((p0.2 - p1.2) * (p2.1 - p1.1) - (p0.1 - p1.1) * (p2.2 - p1.2)) := by
      ring
    simp only [triangleArea, this, h, mul_zero, abs_zero]
  have hg1 : (arcToGeometry realFloatFn p0 p1 p2 radius).p1p0_length =
      Real.sqrt ((p0.1 - p1.1) * (p0.1 - p1.1) + (p0.2 - p1.2) * (p0.2 - p1.2)) := rfl
  have hg2 : (arcToGeometry realFloatFn p0 p1 p2 radius).p1p2_length =
      Real.sqrt ((p2.1 - p1.1) * (p2.1 - p1.1) + (p2.2 - p1.2) * (p2.2 - p1.2)) := rfl
  have hg3 : (arcToGeometry realFloatFn p0 p1 p2 radius).orth_p1p0_length =
      Real.sqrt ((p0.2 - p1.2) * (p0.2 - p1.2) + -(p0.1 - p1.1) * -(p0.1 - p1.1)) := rfl
  have hg4 : (arcToGeometry realFloatFn p0 p1 p2 radius).cos_phi =
      ((p0.1 - p1.1) * (p2.1 - p1.1) + (p0.2 - p1.2) * (p2.2 - p1.2)) /
        ((arcToGeometry realFloatFn p0 p1 p2 radius).p1p0_length *
          (arcToGeometry realFloatFn p0 p1 p2 radius).p1p2_length) := rfl
  have hg5 : (arcToGeometry realFloatFn p0 p1 p2 radius).tangent =
      radius / Real.tan (Real.arccos
        (arcToGeometry realFloatFn p0 p1 p2 radius).cos_phi / 2) := rfl
  have hg6 : (arcToGeometry realFloatFn p0 p1 p2 radius).t_p1p0 =
      (p1.1 + (arcToGeometry realFloatFn p0 p1 p2 radius).tangent /
          (arcToGeometry realFloatFn p0 p1 p2 radius).p1p0_length * (p0.1 - p1.1),
       p1.2 + (arcToGeometry realFloatFn p0 p1 p2 radius).tangent /
          (arcToGeometry realFloatFn p0 p1 p2 radius).p1p0_length * (p0.2 - p1.2)) := rfl
  have hg7 : (arcToGeometry realFloatFn p0 p1 p2 radius).t_p1p2 =
      (p1.1 + (arcToGeometry realFloatFn p0 p1 p2 radius).tangent /
          (arcToGeometry realFloatFn p0 p1 p2 radius).p1p2_length * (p2.1 - p1.1),
       p1.2 + (arcToGeometry realFloatFn p0 p1 p2 radius).tangent /
          (arcToGeometry realFloatFn p0 p1 p2 radius).p1p2_length * (p2.2 - p1.2)) := rfl
  have hg8 : (arcToGeometry realFloatFn p0 p1 p2 radius).cos_alpha =
      ((p0.2 - p1.2) * (p2.1 - p1.1) + -(p0.1 - p1.1) * (p2.2 - p1.2)) /
        ((arcToGeometry realFloatFn p0 p1 p2 radius).orth_p1p0_length *
          (arcToGeometry realFloatFn p0 p1 p2 radius).p1p2_length) := rfl
  have hg9 : (arcToGeometry realFloatFn p0 p1 p2 radius).orth_p1p0 =
      if (arcToGeometry realFloatFn p0 p1 p2 radius).cos_alpha < 0 then
        (-(p0.2 - p1.2), - -(p0.1 - p1.1))
      else ((p0.2 - p1.2), -(p0.1 - p1.1)) := rfl
  have hg10 : (arcToGeometry realFloatFn p0 p1 p2 radius).p =
      ((arcToGeometry realFloatFn p0 p1 p2 radius).t_p1p0.1 +
          radius / (arcToGeometry realFloatFn p0 p1 p2 radius).orth_p1p0_length *
            (arcToGeometry realFloatFn p0 p1 p2 radius).orth_p1p0.1,
       (arcToGeometry realFloatFn p0 p1 p2 radius).t_p1p0.2 +
          radius / (arcToGeometry realFloatFn p0 p1 p2 radius).orth_p1p0_length *
            (arcToGeometry realFloatFn p0 p1 p2 radius).orth_p1p0.2) := rfl
  generalize (arcToGeometry realFloatFn p0 p1 p2 radius).p1p0_length = la at *
  generalize (arcToGeometry realFloatFn p0 p1 p2 radius).p1p2_length = lb at *
  generalize (arcToGeometry realFloatFn p0 p1 p2 radius).orth_p1p0_length = lo at *
  generalize (arcToGeometry realFloatFn p0 p1 p2 radius).cos_phi = c at *
  generalize (arcToGeometry realFloatFn p0 p1 p2 radius).tangent = T at *
  generalize (arcToGeometry realFloatFn p0 p1 p2 radius).cos_alpha = ca at *
  generalize (arcToGeometry realFloatFn p0 p1 p2 radius).orth_p1p0 = orth at *
  generalize (arcToGeometry realFloatFn p0 p1 p2 radius).t_p1p0 = t1 at *
  generalize (arcToGeometry realFloatFn p0 p1 p2 radius).t_p1p2 = t2 at *
  generalize (arcToGeometry realFloatFn p0 p1 p2 radius).p = p at *
  generalize ha1 : p0.1 - p1.1 = a1 at *
  generalize ha2 : p0.2 - p1.2 = a2 at *
  generalize hb1 : p2.1 - p1.1 = b1 at *
  generalize hb2 : p2.2 - p1.2 = b2 at *
  obtain ⟨hla0, hlb0, hla2, hlb2, horth, hcmul, hcl, hcu, hs0, hk2⟩ :=
    arc_facts a1 a2 b1 b2 la lb c (Real.sqrt (1 - c ^ 2)) hcross hg1 hg2 hg4 rfl
  obtain ⟨htan, htanpos⟩ := tan_half_arccos c hcl hcu
  have hs2 : Real.sqrt (1 - c ^ 2) ^ 2 = 1 - c ^ 2 := Real.sq_sqrt (by nlinarith)
  have hlo : lo = la := by rw [hg3]; exact horth
  have hTs : T * (1 - c) = radius * Real.sqrt (1 - c ^ 2) := by
    have h1 : T * Real.tan (Real.arccos c / 2) = radius := by
      rw [hg5]; field_simp
    have h2 : T * (1 - c) * Real.sqrt (1 - c ^ 2) =
        radius * Real.sqrt (1 - c ^ 2) * Real.sqrt (1 - c ^ 2) := by
      calc T * (1 - c) * Real.sqrt (1 - c ^ 2)
          = T * (1 - c) * (Real.tan (Real.arccos c / 2) * (1 + c)) := by rw [htan]
        _ = (T * Real.tan (Real.arccos c / 2)) * (1 - c ^ 2) := by ring
        _ = radius * Real.sqrt (1 - c ^ 2) ^ 2 := by rw [h1, hs2]
        _ = radius * Real.sqrt (1 - c ^ 2) * Real.sqrt (1 - c ^ 2) := by ring
    exact mul_right_cancel₀ (ne_of_gt hs0) h2
  have hll : 0 < la * lb := mul_pos hla0 hlb0
  have hlls : 0 < la * lb * Real.sqrt (1 - c ^ 2) := mul_pos hll hs0
  have hsigma : ∃ σ : ℝ, σ ^ 2 = 1 ∧ σ * (a2 * b1 - a1 * b2) = la * lb * Real.sqrt (1 - c ^ 2) ∧
      orth = (σ * a2, σ * -a1) := by
    have habs : |a2 * b1 - a1 * b2| = la * lb * Real.sqrt (1 - c ^ 2) := by
      have := abs_eq_abs.mpr (sq_eq_sq_iff_abs_eq_abs _ _ |>.mp hk2 |> abs_eq_abs.mp)
      rw [this, abs_of_pos hlls]
    by_cases hneg : ca < 0
    · have hkneg : a2 * b1 - a1 * b2 < 0 := by
        rw [hg8, hlo] at hneg
        by_contra hcon
        have := div_nonneg (show 0 ≤ a2 * b1 + -a1 * b2 by linarith [not_lt.mp hcon]) hll.le
        linarith
      refine ⟨-1, by norm_num, ?_, ?_⟩
      · rw [← habs, abs_of_neg hkneg]; ring
      · rw [hg9, if_pos hneg]; simp
    · have hkpos : 0 ≤ a2 * b1 - a1 * b2 := by
        rw [hg8, hlo] at hneg
        by_contra hcon
        have := div_neg_of_neg_of_pos (show a2 * b1 + -a1 * b2 < 0 by linarith [not_le.mp hcon]) hll
        linarith
      refine ⟨1, by norm_num, ?_, ?_⟩
      · rw [← habs, abs_of_nonneg hkpos]; ring
      · rw [hg9, if_neg hneg]; simp
  obtain ⟨σ, hσ, hk, horth'⟩ := hsigma
  refine ⟨la, lb, c, Real.sqrt (1 - c ^ 2), T, σ, hla0, hlb0, hcl, hcu, hs0, hla2, hlb2, hcmul,
    hσ, hk, hTs, htanpos, rfl, rfl, hlo, rfl, hg6, hg7, ?_⟩
  rw [hg10, hg6, hlo, horth']

/-- The circle of the construction over the reals, for three points that are not on a line:
the lengths are positive, the cosine of the angle at `p1` is strictly between -1 and 1, the
tangent of half the angle is positive, the centre is at the squared distance `radius ^ 2`
from both tangent points, and the vectors from the tangent points to the centre are
perpendicular to the two directions. -/
theorem arcToGeometry_circle (p0 p1 p2 : ℝ × ℝ) (radius : ℝ)
    (harea : triangleArea p0 p1 p2 ≠ 0) :
    0 < (arcToGeometry realFloatFn p0 p1 p2 radius).p1p0_length ∧
    0 < (arcToGeometry realFloatFn p0 p1 p2 radius).p1p2_length ∧
    0 < (arcToGeometry realFloatFn p0 p1 p2 radius).orth_p1p0_length ∧
    -1 < (arcToGeometry realFloatFn p0 p1 p2 radius).cos_phi ∧
    (arcToGeometry realFloatFn p0 p1 p2 radius).cos_phi < 1 ∧
    0 < Real.tan (Real.arccos (arcToGeometry realFloatFn p0 p1 p2 radius).cos_phi / 2) ∧
    ((arcToGeometry realFloatFn p0 p1 p2 radius).p.1 -
        (arcToGeometry realFloatFn p0 p1 p2 radius).t_p1p0.1) ^ 2 +
      ((arcToGeometry realFloatFn p0 p1 p2 radius).p.2 -
        (arcToGeometry realFloatFn p0 p1 p2 radius).t_p1p0.2) ^ 2 = radius ^ 2 ∧
    ((arcToGeometry realFloatFn p0 p1 p2 radius).p.1 -
        (arcToGeometry realFloatFn p0 p1 p2 radius).t_p1p2.1) ^ 2 +
      ((arcToGeometry realFloatFn p0 p1 p2 radius).p.2 -
        (arcToGeometry realFloatFn p0 p1 p2 radius).t_p1p2.2) ^ 2 = radius ^ 2 ∧
    ((arcToGeometry realFloatFn p0 p1 p2 radius).p.1 -
        (arcToGeometry realFloatFn p0 p1 p2 radius).t_p1p0.1) * (p0.1 - p1.1) +
      ((arcToGeometry realFloatFn p0 p1 p2 radius).p.2 -
        (arcToGeometry realFloatFn p0 p1 p2 radius).t_p1p0.2) * (p0.2 - p1.2) = 0 ∧
    ((arcToGeometry realFloatFn p0 p1 p2 radius).p.1 -
        (arcToGeometry realFloatFn p0 p1 p2 radius).t_p1p2.1) * (p2.1 - p1.1) +
      ((arcToGeometry realFloatFn p0 p1 p2 radius).p.2 -
        (arcToGeometry realFloatFn p0 p1 p2 radius).t_p1p2.2) * (p2.2 - p1.2) = 0 := by
  obtain ⟨la, lb, c, s, T, σ, hla0, hlb0, hcl, hcu, hs0, hla2, hlb2, hcmul, hσ, hk, hTs, htan,
    h1, h2, h3, h4, h5, h6, h7⟩ := arcToGeometry_real p0 p1 p2 radius harea
  obtain ⟨hc1, hc2⟩ := arc_core (p0.1 - p1.1) (p0.2 - p1.2) (p2.1 - p1.1) (p2.2 - p1.2) radius
    la lb c s T σ hla2 hlb2 (ne_of_gt hla0) (ne_of_gt hlb0) hcmul hσ hk hTs
  rw [h1, h2, h3, h4, h5, h6, h7]
  refine ⟨hla0, hlb0, hla0, hcl, hcu, ?_, ?_, ?_, ?_, ?_⟩
  · exact htan
  · have hla' : la ≠ 0 := ne_of_gt hla0
    simp only
    field_simp
    linear_combination (radius ^ 2 * ((p0.2 - p1.2) ^ 2 + (p0.1 - p1.1) ^ 2)) * hσ -
      radius ^ 2 * hla2
  · simp only
    rw [← hc1]
    ring
  · have hla' : la ≠ 0 := ne_of_gt hla0
    simp only
    field_simp
    ring
  · simp only
    rw [← hc2]
    ring
/-- The area of `triangleArea` is zero exactly when the three points are on one line. -/
theorem triangleArea_eq_zero_iff (q0 q1 q2 : ℝ × ℝ) :
    triangleArea q0 q1 q2 = 0 ↔ Collinear ℝ ({q0, q1, q2} : Set (ℝ × ℝ)) := by
  have harea : triangleArea q0 q1 q2 = 0 ↔
      (q1.1 - q0.1) * (q2.2 - q0.2) - (q2.1 - q0.1) * (q1.2 - q0.2) = 0 := by
    unfold triangleArea
    rw [abs_eq_zero]
    constructor
    · intro h; linarith
    · intro h; linarith
  rw [harea, collinear_iff_of_mem (show q0 ∈ ({q0, q1, q2} : Set (ℝ × ℝ)) by simp)]
  constructor
  · intro h
    by_cases h1 : q1.1 - q0.1 = 0
    · by_cases h2 : q1.2 - q0.2 = 0
      · refine ⟨(q2.1 - q0.1, q2.2 - q0.2), ?_⟩
        intro p hp
        simp only [Set.mem_insert_iff, Set.mem_singleton_iff] at hp
        rcases hp with rfl | rfl | rfl
        · exact ⟨0, by simp⟩
        · refine ⟨0, ?_⟩
          ext
          · simp; linarith
          · simp; linarith
        · refine ⟨1, ?_⟩
          ext <;> simp
      · refine ⟨(q1.1 - q0.1, q1.2 - q0.2), ?_⟩
        have h3 : q2.1 - q0.1 = 0 := by
          rw [h1] at h
          have : (q2.1 - q0.1) * (q1.2 - q0.2) = 0 := by linarith
          rcases mul_eq_zero.mp this with h' | h'
          · exact h'
          · exact absurd h' h2
        intro p hp
        simp only [Set.mem_insert_iff, Set.mem_singleton_iff] at hp
        rcases hp with rfl | rfl | rfl
        · exact ⟨0, by simp⟩
        · refine ⟨1, ?_⟩
          ext <;> simp
        · refine ⟨(p.2 - q0.2) / (q1.2 - q0.2), ?_⟩
          ext
          · simp [h1]; linarith
          · simp; field_simp
    · refine ⟨(q1.1 - q0.1, q1.2 - q0.2), ?_⟩
      intro p hp
      simp only [Set.mem_insert_iff, Set.mem_singleton_iff] at hp
      rcases hp with rfl | rfl | rfl
      · exact ⟨0, by simp⟩
      · refine ⟨1, ?_⟩
        ext <;> simp
      · refine ⟨(p.1 - q0.1) / (q1.1 - q0.1), ?_⟩
        ext
        · simp; field_simp
        · simp; field_simp; linarith
  · rintro ⟨v, hv⟩
    obtain ⟨r1, hr1⟩ := hv q1 (by simp)
    obtain ⟨r2, hr2⟩ := hv q2 (by simp)
    have e1 : q1.1 = r1 * v.1 + q0.1 := by rw [hr1]; simp
    have e2 : q1.2 = r1 * v.2 + q0.2 := by rw [hr1]; simp
    have e3 : q2.1 = r2 * v.1 + q0.1 := by rw [hr2]; simp
    have e4 : q2.2 = r2 * v.2 + q0.2 := by rw [hr2]; simp
    rw [e1, e2, e3, e4]
    ring

/-- Three points that span a triangle with an area are distinct. -/
theorem triangleArea_ne_zero_distinct {F : Type} [LinearOrderedField F] (p0 p1 p2 : F × F)
    (harea : triangleArea p0 p1 p2 ≠ 0) : p1 ≠ p0 ∧ p1 ≠ p2 := by
  constructor
  · rintro rfl
    apply harea
    unfold triangleArea
    rw [abs_eq_zero]
    ring
  · rintro rfl
    apply harea
    unfold triangleArea
    rw [abs_eq_zero]
    ring

/-- C25: over the reals, for three points that are not on a line and a positive radius,
`arcTo` draws the line to the first tangent point and then the arc around the centre `p`
of the construction `g`; the tangent points are `p1 + (T / |p0 - p1|) (p0 - p1)` and
`p1 + (T / |p2 - p1|) (p2 - p1)` with `T = radius / tan (phi / 2)` and `phi` the angle at
`p1`; the centre is at the distance `radius` from both tangent points; and the vectors
from the tangent points to the centre are perpendicular to `p0 - p1` and to `p2 - p1`. -/
theorem arc_centre_is_tangent (path : QPainterPath ℝ) (p0 p1 p2 : ℝ × ℝ) (radius : ℝ)
    (g : ArcToGeometry ℝ) (hg : g = arcToGeometry realFloatFn p0 p1 p2 radius)
    (hr : 0 < radius) (harea : triangleArea p0 p1 p2 ≠ 0) :
    arcTo realFloatFn path p0 p1 p2 radius =
      addArcToPath realFloatFn (path ++ [.lineTo g.t_p1p0.1 g.t_p1p0.2]) g.p.1 g.p.2 radius
        g.sa g.ea g.anticlockwise ∧
    g.p1p0_length = Real.sqrt ((p0.1 - p1.1) * (p0.1 - p1.1) + (p0.2 - p1.2) * (p0.2 - p1.2)) ∧
    g.p1p2_length = Real.sqrt ((p2.1 - p1.1) * (p2.1 - p1.1) + (p2.2 - p1.2) * (p2.2 - p1.2)) ∧
    g.cos_phi = ((p0.1 - p1.1) * (p2.1 - p1.1) + (p0.2 - p1.2) * (p2.2 - p1.2)) /
      (g.p1p0_length * g.p1p2_length) ∧
    g.tangent = radius / Real.tan (Real.arccos g.cos_phi / 2) ∧
    g.t_p1p0 = (p1.1 + g.tangent / g.p1p0_length * (p0.1 - p1.1),
      p1.2 + g.tangent / g.p1p0_length * (p0.2 - p1.2)) ∧
    g.t_p1p2 = (p1.1 + g.tangent / g.p1p2_length * (p2.1 - p1.1),
      p1.2 + g.tangent / g.p1p2_length * (p2.2 - p1.2)) ∧
    Real.sqrt ((g.p.1 - g.t_p1p0.1) ^ 2 + (g.p.2 - g.t_p1p0.2) ^ 2) = radius ∧
    Real.sqrt ((g.p.1 - g.t_p1p2.1) ^ 2 + (g.p.2 - g.t_p1p2.2) ^ 2) = radius ∧
    (g.p.1 - g.t_p1p0.1) * (p0.1 - p1.1) + (g.p.2 - g.t_p1p0.2) * (p0.2 - p1.2) = 0 ∧
    (g.p.1 - g.t_p1p2.1) * (p2.1 - p1.1) + (g.p.2 - g.t_p1p2.2) * (p2.2 - p1.2) = 0 := by
  subst hg
  obtain ⟨h10, h12⟩ := triangleArea_ne_zero_distinct p0 p1 p2 harea
  obtain ⟨_, _, _, hcl, hcu, _, hd0, hd2, hp0, hp2⟩ :=
    arcToGeometry_circle p0 p1 p2 radius harea
  refine ⟨?_, rfl, rfl, rfl, rfl, rfl, rfl, ?_, ?_, hp0, hp2⟩
  · apply arcTo_eq_geometry
    · rintro (h | h | h | h)
      · exact h10 h
      · exact h12 h
      · exact ne_of_gt hr h
      · exact harea h
    · exact fun h => absurd hcl (by rw [h]; exact lt_irrefl _)
    · exact fun h => absurd hcu (by rw [h]; exact lt_irrefl _)
  · rw [hd0]; exact Real.sqrt_sq hr.le
  · rw [hd2]; exact Real.sqrt_sq hr.le

/-- The corner at the origin between the two axes, with radius 1: the centre of the arc is
at the distance 1 from both tangent points. -/
theorem arc_centre_is_tangent_witness :
    (0 : ℝ) < 1 ∧ triangleArea ((1 : ℝ), (0 : ℝ)) (0, 0) (0, 1) ≠ 0 ∧
    Real.sqrt (((arcToGeometry realFloatFn (1, 0) (0, 0) (0, 1) 1).p.1 -
        (arcToGeometry realFloatFn (1, 0) (0, 0) (0, 1) 1).t_p1p0.1) ^ 2 +
      ((arcToGeometry realFloatFn (1, 0) (0, 0) (0, 1) 1).p.2 -
        (arcToGeometry realFloatFn (1, 0) (0, 0) (0, 1) 1).t_p1p0.2) ^ 2) = 1 ∧
    Real.sqrt (((arcToGeometry realFloatFn (1, 0) (0, 0) (0, 1) 1).p.1 -
        (arcToGeometry realFloatFn (1, 0) (0, 0) (0, 1) 1).t_p1p2.1) ^ 2 +
      ((arcToGeometry realFloatFn (1, 0) (0, 0) (0, 1) 1).p.2 -
        (arcToGeometry realFloatFn (1, 0) (0, 0) (0, 1) 1).t_p1p2.2) ^ 2) = 1 :=
  ⟨by norm_num, by norm_num [triangleArea],
   (arc_centre_is_tangent [] (1, 0) (0, 0) (0, 1) 1 _ rfl (by norm_num)
     (by norm_num [triangleArea])).2.2.2.2.2.2.2.1,
   (arc_centre_is_tangent [] (1, 0) (0, 0) (0, 1) 1 _ rfl (by norm_num)
     (by norm_num [triangleArea])).2.2.2.2.2.2.2.2.1⟩

/-- C26: over the reals, when none of the conditions of the special case of `arcTo` holds,
every divisor of the general construction `g` is different from zero (the two lengths and
their product, the tangent of half the angle, the length of the orthogonal vector and its
product with the second length, and the length of the vector from the centre to the second
tangent point, which is `|radius|`), the cosine of the angle at `p1` is strictly between -1
and 1, so that `arcTo` takes neither of the branches for -1 and 1 and draws the line to the
tangent point and the arc; and `triangleArea` is zero exactly for three points on a line. -/
theorem arc_divisors_are_nonzero (path : QPainterPath ℝ) (p0 p1 p2 : ℝ × ℝ) (radius : ℝ)
    (g : ArcToGeometry ℝ) (hg : g = arcToGeometry realFloatFn p0 p1 p2 radius)
    (h10 : p1 ≠ p0) (h12 : p1 ≠ p2) (hr : radius ≠ 0) (harea : triangleArea p0 p1 p2 ≠ 0) :
    g.p1p0_length ≠ 0 ∧ g.p1p2_length ≠ 0 ∧ g.p1p0_length * g.p1p2_length ≠ 0 ∧
    (-1 < g.cos_phi ∧ g.cos_phi < 1) ∧
    realFloatFn.tan (realFloatFn.acos g.cos_phi / 2) ≠ 0 ∧
    g.orth_p1p0_length ≠ 0 ∧ g.orth_p1p0_length * g.p1p2_length ≠ 0 ∧
    g.orth_p1p2_length = |radius| ∧ g.orth_p1p2_length ≠ 0 ∧
    arcTo realFloatFn path p0 p1 p2 radius =
      addArcToPath realFloatFn (path ++ [.lineTo g.t_p1p0.1 g.t_p1p0.2]) g.p.1 g.p.2 radius
        g.sa g.ea g.anticlockwise ∧
    (∀ q0 q1 q2 : ℝ × ℝ,
      triangleArea q0 q1 q2 = 0 ↔ Collinear ℝ ({q0, q1, q2} : Set (ℝ × ℝ))) := by
  subst hg
  obtain ⟨hla, hlb, hlo, hcl, hcu, htan, hd0, hd2, hp0, hp2⟩ :=
    arcToGeometry_circle p0 p1 p2 radius harea
  have hlen : (arcToGeometry realFloatFn p0 p1 p2 radius).orth_p1p2_length = |radius| := by
    have e : (arcToGeometry realFloatFn p0 p1 p2 radius).orth_p1p2_length =
        Real.sqrt (((arcToGeometry realFloatFn p0 p1 p2 radius).t_p1p2.1 -
            (arcToGeometry realFloatFn p0 p1 p2 radius).p.1) *
          ((arcToGeometry realFloatFn p0 p1 p2 radius).t_p1p2.1 -
            (arcToGeometry realFloatFn p0 p1 p2 radius).p.1) +
          ((arcToGeometry realFloatFn p0 p1 p2 radius).t_p1p2.2 -
            (arcToGeometry realFloatFn p0 p1 p2 radius).p.2) *
          ((arcToGeometry realFloatFn p0 p1 p2 radius).t_p1p2.2 -
            (arcToGeometry realFloatFn p0 p1 p2 radius).p.2)) := rfl
    rw [e, ← Real.sqrt_sq_eq_abs, ← hd2]
    congr 1
    ring
  refine ⟨ne_of_gt hla, ne_of_gt hlb, ne_of_gt (mul_pos hla hlb), ⟨hcl, hcu⟩, ne_of_gt htan,
    ne_of_gt hlo, ne_of_gt (mul_pos hlo hlb), hlen, ?_, ?_, triangleArea_eq_zero_iff⟩
  · rw [hlen]; exact abs_ne_zero.mpr hr
  · apply arcTo_eq_geometry
    · rintro (h | h | h | h)
      · exact h10 h
      · exact h12 h
      · exact hr h
      · exact harea h
    · exact fun h => absurd hcl (by rw [h]; exact lt_irrefl _)
    · exact fun h => absurd hcu (by rw [h]; exact lt_irrefl _)

/-- A corner between the two axes with radius 2: the divisors are not zero. -/
theorem arc_divisors_are_nonzero_witness :
    ((0 : ℝ), (0 : ℝ)) ≠ (3, 0) ∧ ((0 : ℝ), (0 : ℝ)) ≠ (0, 3) ∧ (2 : ℝ) ≠ 0 ∧
    triangleArea ((3 : ℝ), (0 : ℝ)) (0, 0) (0, 3) ≠ 0 ∧
    (arcToGeometry realFloatFn (3, 0) (0, 0) (0, 3) 2).p1p0_length ≠ 0 ∧
    (arcToGeometry realFloatFn (3, 0) (0, 0) (0, 3) 2).p1p2_length ≠ 0 :=
  ⟨by simp [Prod.ext_iff], by simp [Prod.ext_iff], by norm_num, by norm_num [triangleArea],
   (arc_divisors_are_nonzero [] (3, 0) (0, 0) (0, 3) 2 _ rfl (by simp [Prod.ext_iff]) (by simp [Prod.ext_iff])
     (by norm_num) (by norm_num [triangleArea])).1,
   (arc_divisors_are_nonzero [] (3, 0) (0, 0) (0, 3) 2 _ rfl (by simp [Prod.ext_iff]) (by simp [Prod.ext_iff])
     (by norm_num) (by norm_num [triangleArea])).2.1⟩

/-! ## The string drawing commands -/

/-- After a `save`, the loop of `PaintCommands` ends, whatever follows. -/
theorem PaintCommands.loop_save {F : Type} [LinearOrderedField F] (backend : Backend F)
    (support : VariantSupport F) (fn : FloatFn F) (display_scaling : F)
    (st : PaintCommandsState F) (args : List (QVariant F))
    (following : List (CanvasDrawingCommand F)) :
    PaintCommands.loop backend support fn display_scaling
        ({ command := ascii "save", arguments := args } :: following) st =
      .ok { st with stack := st.stack ++ [st.current], painter := st.painter ++ [.save] } := by
  simp [PaintCommands.loop, PaintCommands.body]

/-- After a `restore`, the loop of `PaintCommands` ends, whatever follows. -/
theorem PaintCommands.loop_restore {F : Type} [LinearOrderedField F] (backend : Backend F)
    (support : VariantSupport F) (fn : FloatFn F) (display_scaling : F)
    (st : PaintCommandsState F) (args : List (QVariant F))
    (following : List (CanvasDrawingCommand F)) :
    PaintCommands.loop backend support fn display_scaling
        ({ command := ascii "restore", arguments := args } :: following) st =
      match st.stack.getLast? with
      | none => .error .takeLastOfEmpty
      | some values =>
        .ok { st with current := values, stack := st.stack.dropLast,
                      painter := st.painter ++ [.restore] } := by
  have h : ascii "restore" ≠ ascii "save" := by decide
  simp only [PaintCommands.loop, PaintCommands.body, if_neg h, if_true]
  cases st.stack.getLast? <;> rfl

/-- A `translate` on its own is applied to the painter. -/
theorem PaintCommands.loop_translate {F : Type} [LinearOrderedField F] (backend : Backend F)
    (support : VariantSupport F) (fn : FloatFn F) (display_scaling : F)
    (st : PaintCommandsState F) (x y : QVariant F) :
    PaintCommands.loop backend support fn display_scaling
        [{ command := ascii "translate", arguments := [x, y] }] st =
      .ok { st with painter := st.painter ++
        [.translate (x.toFloat * display_scaling) (y.toFloat * display_scaling)] } := by
  simp [PaintCommands.loop, PaintCommands.body, ascii, argAt, bind, Except.bind]

/-- A `lineTo` on its own is added to the path. -/
theorem PaintCommands.loop_lineTo {F : Type} [LinearOrderedField F] (backend : Backend F)
    (support : VariantSupport F) (fn : FloatFn F) (display_scaling : F)
    (st : PaintCommandsState F) (x y : QVariant F) :
    PaintCommands.loop backend support fn display_scaling
        [{ command := ascii "lineTo", arguments := [x, y] }] st =
      .ok { st with current := { st.current with path := st.current.path ++
        [.lineTo (x.toFloat * display_scaling) (y.toFloat * display_scaling)] } } := by
  simp [PaintCommands.loop, PaintCommands.body, ascii, argAt, bind, Except.bind]

/-- After an `arcTo` with the radius 0, which draws the line to the first control point
and returns, the loop of `PaintCommands` ends, whatever follows. -/
theorem PaintCommands.loop_arcTo_radius_zero {F : Type} [LinearOrderedField F]
    (backend : Backend F) (support : VariantSupport F) (fn : FloatFn F) (display_scaling : F)
    (st : PaintCommandsState F) (x1 y1 x2 y2 : QVariant F)
    (following : List (CanvasDrawingCommand F)) :
    PaintCommands.loop backend support fn display_scaling
        ({ command := ascii "arcTo",
           arguments := [x1, y1, x2, y2, QVariant.ofNumber fn 0] } :: following) st =
      .ok { st with current := { st.current with path := st.current.path ++
        [.lineTo (x1.toFloat * display_scaling) (y1.toFloat * display_scaling)] } } := by
  have harc : ∀ path p0 p1 p2,
      PaintCommands.arcTo fn path p0 p1 p2 ((QVariant.ofNumber fn 0).toFloat * display_scaling) =
        (path ++ [.lineTo p1.1 p1.2], true) := by
    intro path p0 p1 p2
    have h0 : (QVariant.ofNumber fn (0 : F)).toFloat * display_scaling = 0 := by
      simp [QVariant.ofNumber]
    rw [h0]
    unfold PaintCommands.arcTo
    rw [if_pos (Or.inr (Or.inr (Or.inl rfl)))]
  simp [PaintCommands.loop, PaintCommands.body, ascii, argAt, bind, Except.bind, harc]

/-- The run of `PaintBinaryCommands` on the records `save` and `tran` with the floats 1
and 2: the translation is applied. -/
theorem runExample_save_tran :
    (runExample [0x65766173, 0x6e617274, 0x3f800000, 0x40000000]).map (fun s => s.painter) =
      .ok [.fillRectViewport (.color QColor.transparent), .save, .translate 1 2] := by
  have h : decodeFrom [0x65766173, 0x6e617274, 0x3f800000, 0x40000000] 4 0 =
      .ok [.save, .tran 0x3f800000 0x40000000] := by decide
  have h1 : rationalFloatFn.ofBits 0x3f800000 = 1 := by norm_num [rationalFloatFn, ieee754]
  have h2 : rationalFloatFn.ofBits 0x40000000 = 2 := by norm_num [rationalFloatFn, ieee754]
  have hd : (if (1 : ℚ) = 0 then exampleBackend.GetDisplayScaling else 1) = 1 :=
    if_neg one_ne_zero
  obtain ⟨k, hk⟩ := loop_eq_executeAll exampleBackend rationalFloatFn
    { imageMap := [], lastRenderedTimestamps := [], display_scaling := 1, section_id := 0,
      devicePixelRatio := 1 }
    [0x65766173, 0x6e617274, 0x3f800000, 0x40000000] 4 PaintBinaryCommands.start _ h
  simp only [runExample, PaintBinaryCommands, hd, List.length_cons, List.length_nil]
  rw [hk]
  simp [executeAll, execute, Except.map, h1, h2, PaintBinaryCommands.start]

/-- C30 (the code departs from the claim): in `PaintCommands` the branches `save` and
`restore` end with `break`, and the special cases of `arcTo` with `return`, so the
commands that follow are not interpreted. Whatever follows a `save`, the loop ends in the
state right after the `save`; whatever follows a `restore`, the loop ends as if the list
ended there; whatever follows an `arcTo` with the radius 0, the loop ends with the line
to the first control point. A `translate` on its own is applied, and after a `save` it is
not, while `PaintBinaryCommands` applies the record `tran` after a `save` and adds the
line of a record `line` after an `arct`. For the list `save`, `translate(1, 2)` the
painter gets no translation, and for the buffer of the same two commands it does; for the
list `arcTo(0, 0, 1, 1, 0)`, `lineTo(5, 5)` the path has no line to (5, 5). -/
theorem paintCommands_stops_after_save {F : Type} [LinearOrderedField F]
    (backend : Backend F) (support : VariantSupport F) (fn : FloatFn F) (display_scaling : F)
    (st : PaintCommandsState F) (args : List (QVariant F))
    (following : List (CanvasDrawingCommand F)) (x y x1 y1 x2 y2 : QVariant F)
    (params : PaintParams F) (binary : PaintState F) (a0 a1 a2 a3 radius b0 b1 : Nat) :
    PaintCommands.loop backend support fn display_scaling
        ({ command := ascii "save", arguments := args } :: following) st =
      .ok { st with stack := st.stack ++ [st.current], painter := st.painter ++ [.save] } ∧
    PaintCommands.loop backend support fn display_scaling
        ({ command := ascii "restore", arguments := args } :: following) st =
      PaintCommands.loop backend support fn display_scaling
        [{ command := ascii "restore", arguments := args }] st ∧
    PaintCommands.loop backend support fn display_scaling
        ({ command := ascii "arcTo",
           arguments := [x1, y1, x2, y2, QVariant.ofNumber fn 0] } :: following) st =
      .ok { st with current := { st.current with path := st.current.path ++
        [.lineTo (x1.toFloat * display_scaling) (y1.toFloat * display_scaling)] } } ∧
    PaintCommands.loop backend support fn display_scaling
        [{ command := ascii "translate", arguments := [x, y] }] st =
      .ok { st with painter := st.painter ++
        [.translate (x.toFloat * display_scaling) (y.toFloat * display_scaling)] } ∧
    PaintCommands.loop backend support fn display_scaling
        [{ command := ascii "save", arguments := [] },
         { command := ascii "translate", arguments := [x, y] }] st =
      .ok { st with stack := st.stack ++ [st.current], painter := st.painter ++ [.save] } ∧
    (executeAll backend fn params binary [.save, .tran a0 a1]).map (fun s => s.painter) =
      .ok (binary.painter ++
        [.save, .translate (fn.ofBits a0 * params.display_scaling)
          (fn.ofBits a1 * params.display_scaling)]) ∧
    (executeAll backend fn params binary [.arct a0 a1 a2 a3 radius, .line b0 b1]).map
        (fun s => s.current.path) =
      .ok (arcTo fn binary.current.path (backend.currentPosition binary.current.path)
          (fn.ofBits a0 * params.display_scaling, fn.ofBits a1 * params.display_scaling)
          (fn.ofBits a2 * params.display_scaling, fn.ofBits a3 * params.display_scaling)
          (fn.ofBits radius * params.display_scaling) ++
        [.lineTo (fn.ofBits b0 * params.display_scaling)
          (fn.ofBits b1 * params.display_scaling)]) ∧
    (runCommandsExample
        [{ command := ascii "save", arguments := [] },
         { command := ascii "translate",
           arguments := [QVariant.ofNumber rationalFloatFn 1,
             QVariant.ofNumber rationalFloatFn 2] }]).map (fun s => s.painter) =
      .ok [.fillRectViewport (.color QColor.transparent), .save] ∧
    (runExample [0x65766173, 0x6e617274, 0x3f800000, 0x40000000]).map (fun s => s.painter) =
      .ok [.fillRectViewport (.color QColor.transparent), .save, .translate 1 2] ∧
    (runCommandsExample
        [{ command := ascii "arcTo",
           arguments := [QVariant.ofNumber rationalFloatFn 0,
             QVariant.ofNumber rationalFloatFn 0, QVariant.ofNumber rationalFloatFn 1,
             QVariant.ofNumber rationalFloatFn 1, QVariant.ofNumber rationalFloatFn 0] },
         { command := ascii "lineTo",
           arguments := [QVariant.ofNumber rationalFloatFn 5,
             QVariant.ofNumber rationalFloatFn 5] }]).map (fun s => s.current.path) =
      .ok [.lineTo 0 0] := by
  have hd : (if (1 : ℚ) = 0 then exampleBackend.GetDisplayScaling else 1) = 1 :=
    if_neg one_ne_zero
  refine ⟨PaintCommands.loop_save _ _ _ _ _ _ _, ?_, PaintCommands.loop_arcTo_radius_zero ..,
    PaintCommands.loop_translate .., PaintCommands.loop_save .., ?_, ?_, ?_,
    runExample_save_tran, ?_⟩
  · rw [PaintCommands.loop_restore, PaintCommands.loop_restore]
  · simp [executeAll, execute, Except.map]
  · simp [executeAll, execute, Except.map]
  · simp only [runCommandsExample, PaintCommands, hd]
    rw [PaintCommands.loop_save]
    simp [Except.map, PaintCommands.start]
  · simp only [runCommandsExample, PaintCommands, hd]
    rw [PaintCommands.loop_arcTo_radius_zero]
    simp [Except.map, PaintCommands.start, PaintBinaryCommands.start, QVariant.ofNumber]

end DocumentWindow
